import Mathlib

/-!
Credit scheduler with adaptive sub-millisecond slices
(xen/common/sched_credit.c).

A shallow embedding of the adaptive time-slice controller
(csched_submilli_metric_update and its helpers), of the master credit
accountant (csched_acct), of the run queue (__runq_insert, csched_runq_sort,
csched_vcpu_wake, csched_runq_steal), of burn_credits, of the active lists
(__csched_vcpu_acct_start, __csched_vcpu_acct_stop_locked,
csched_vcpu_remove), of the two control operations (csched_dom_cntl,
csched_sys_cntl), of the pCPU bring-up and tear-down (csched_alloc_pdata,
csched_free_pdata), of the counter pass over the domains
(csched_dom_metric_update), of the CPU picker (_csched_cpu_pick), of the
scheduling decision (csched_schedule, csched_load_balance) and of the
initialisation of the scheduler (csched_init), followed by theorems about
them.

Machine integers are natural numbers or integers with explicit reduction to
the width of the C type at every store: unsigned arithmetic wraps modulo
2^width, conversions to int are two's-complement truncations, and signed
arithmetic is taken to wrap the same way (as the compiled code does on x86).
A BUG_ON that fires leaves no state to speak of, and neither does a store
through an array index outside the array: none stands for either (for the
controller pass, in csched_submilli_metric_update_checked).
-/

namespace SchedCredit

/-! ## Machine integers -/

/-- Truncation to uint8_t. -/
def U8 (x : Nat) : Nat := x % 256

/-- Truncation to uint16_t. -/
def U16 (x : Nat) : Nat := x % 65536

/-- Truncation to uint32_t / unsigned int. -/
def U32 (x : Nat) : Nat := x % 4294967296

/-- Truncation to uint64_t / unsigned long long. -/
def U64 (x : Nat) : Nat := x % 18446744073709551616

/-- Conversion of an integer to int (32-bit two's complement). -/
def toInt32 (x : Int) : Int := (x + 2147483648) % 4294967296 - 2147483648

/-- Conversion of an int to unsigned int (the usual arithmetic conversion
applied when an int meets an unsigned operand). -/
def toU32 (x : Int) : Nat := (x % 4294967296).toNat

/-! ## Constants -/

@[simp] def CSCHED_TICKS_PER_TSLICE : Nat := 3
@[simp] def CSCHED_DEFAULT_TSLICE_US : Nat := 100
@[simp] def CSCHED_DEFAULT_WEIGHT : Nat := 256
@[simp] def SWITCH_BOUNDARY : Nat := 900
@[simp] def SLICE_UPDATE_WINDOW : Nat := 3
@[simp] def EVENT_TRACKING_WINDOW : Nat := 5
@[simp] def SPIN_LOW_PHASE : Nat := 1
@[simp] def SPIN_HIGH_PHASE : Nat := 2

@[simp] def CSCHED_PRI_TS_BOOST : Int := 0
@[simp] def CSCHED_PRI_TS_UNDER : Int := -1
@[simp] def CSCHED_PRI_TS_OVER : Int := -2
@[simp] def CSCHED_PRI_IDLE : Int := -64

@[simp] def CSCHED_FLAG_VCPU_PARKED : Nat := 1
@[simp] def CSCHED_FLAG_VCPU_YIELD : Nat := 2

/-! ## Data model -/

/-- The struct csched_vcpu, together with the fields of the struct vcpu it
points to (svc->vcpu) that the scheduler reads and writes. pause_count stands
for the pause counter of the struct vcpu, which vcpu_pause_nosync increments
and vcpu_unpause decrements; is_idle stands for is_idle_vcpu(svc->vcpu);
cpu_affinity lists the pCPUs set in the mask vc->cpu_affinity. -/
structure csched_vcpu where
  vcpu_id : Nat := 0
  credit : Int := 0
  flags : Nat := 0
  pri : Int := CSCHED_PRI_TS_UNDER
  pause_count : Int := 0
  start_time : Int := 0
  processor : Nat := 0
  is_running : Bool := false
  is_idle : Bool := false
  last_run_time : Int := 0
  cpu_affinity : List Nat := []
  deriving DecidableEq, Repr

/-- The struct event_sample: one entry of the controller ring. -/
structure event_sample where
  spinlock : Nat := 0
  inst_retired : Nat := 0
  cache_misses : Nat := 0
  deriving DecidableEq, Repr

/-- The array filter[EVENT_TRACKING_WINDOW] of a domain: five slots. -/
structure event_filter where
  s0 : event_sample := {}
  s1 : event_sample := {}
  s2 : event_sample := {}
  s3 : event_sample := {}
  s4 : event_sample := {}
  deriving DecidableEq, Repr

/-- Read of filter[i] for i in 0..4. -/
def event_filter.get (f : event_filter) (i : Nat) : event_sample :=
  match i with
  | 0 => f.s0
  | 1 => f.s1
  | 2 => f.s2
  | 3 => f.s3
  | _ => f.s4

/-- Write of filter[i] for i in 0..4. The index is an int in the source and
is not checked there. A store through an index outside 0..4 addresses memory
outside the ring and has no defined behaviour in C; this function then
returns the ring as it is, which says nothing about the code: the only store
through a computed index is the one of the warm-up branch of
csched_submilli_metric_update, and csched_submilli_metric_update_checked
gives no result when that index is outside 0..4. -/
def event_filter.set (f : event_filter) (i : Int) (v : event_sample) : event_filter :=
  if i = 0 then { f with s0 := v }
  else if i = 1 then { f with s1 := v }
  else if i = 2 then { f with s2 := v }
  else if i = 3 then { f with s3 := v }
  else if i = 4 then { f with s4 := v }
  else f

/-- The struct csched_dom. active_vcpu is the list headed by
sdom->active_vcpu, first element first; inactive_vcpu holds the
domain's vCPUs whose active_vcpu_elem is unlinked. domain_id and
is_idle_domain stand for sdom->dom->domain_id and is_idle_domain(sdom->dom). -/
structure csched_dom where
  domain_id : Nat := 1
  is_idle_domain : Bool := false
  active_vcpu : List csched_vcpu := []
  inactive_vcpu : List csched_vcpu := []
  active_vcpu_count : Nat := 0
  weight : Nat := CSCHED_DEFAULT_WEIGHT
  cap : Nat := 0
  tslice_us : Nat := CSCHED_DEFAULT_TSLICE_US
  slice_update_window : Nat := SLICE_UPDATE_WINDOW
  event_tracking_window : Nat := EVENT_TRACKING_WINDOW
  event_stable_count : Nat := 0
  phase : Nat := SPIN_LOW_PHASE
  tick_period_us : Nat := 33
  spinlock_count : Nat := 0
  spinlock_latency : Nat := 0
  spinlock_metric_update : Nat := 0
  filter : event_filter := {}
  deriving DecidableEq, Repr

/-! ## The adaptive time-slice controller -/

/-- The function do_vcrd_op: the spinlock-latency callback. -/
def do_vcrd_op (sdom : csched_dom) (time : Nat) : csched_dom :=
  { sdom with
    spinlock_latency := U64 (sdom.spinlock_latency + time)
    spinlock_metric_update := U64 (sdom.spinlock_metric_update + time)
    spinlock_count := U64 (sdom.spinlock_count + 1) }

/-- The three assignments sdom->filter[i].spinlock = ..., .inst_retired = ...
and .cache_misses = ..., each value truncated to the width of its field. -/
def csched_dom.store_sample (sdom : csched_dom) (i : Int)
    (spinlock inst_retired cache_misses : Nat) : csched_dom :=
  { sdom with
    filter := sdom.filter.set i
      { spinlock := U16 spinlock
        inst_retired := U32 inst_retired
        cache_misses := U32 cache_misses } }

/-- An assignment to sdom->event_tracking_window. -/
def csched_dom.set_event_tracking_window (sdom : csched_dom) (v : Nat) : csched_dom :=
  { sdom with event_tracking_window := v }

/-- An assignment to sdom->event_stable_count. -/
def csched_dom.set_event_stable_count (sdom : csched_dom) (v : Nat) : csched_dom :=
  { sdom with event_stable_count := v }

/-- An assignment to sdom->phase. -/
def csched_dom.set_phase (sdom : csched_dom) (v : Nat) : csched_dom :=
  { sdom with phase := v }

/-- An assignment to sdom->tick_period_us. -/
def csched_dom.set_tick_period_us (sdom : csched_dom) (v : Nat) : csched_dom :=
  { sdom with tick_period_us := v }

/-- The function csched_event_window_shift. -/
def csched_event_window_shift (sdom : csched_dom)
    (spinlock inst_retired cache_misses : Nat) : csched_dom :=
  { sdom with
    filter :=
      { s0 := sdom.filter.s1
        s1 := sdom.filter.s2
        s2 := sdom.filter.s3
        s3 := sdom.filter.s4
        s4 := { spinlock := U16 spinlock
                inst_retired := U32 inst_retired
                cache_misses := U32 cache_misses } } }

/-- The function csched_event_window_clear. -/
def csched_event_window_clear (sdom : csched_dom) : csched_dom :=
  { sdom with
    filter :=
      { s0 := { spinlock := 0, inst_retired := 0, cache_misses := 0 }
        s1 := { spinlock := 0, inst_retired := 0, cache_misses := 0 }
        s2 := { spinlock := 0, inst_retired := 0, cache_misses := 0 }
        s3 := { spinlock := 0, inst_retired := 0, cache_misses := 0 }
        s4 := { spinlock := 0, inst_retired := 0, cache_misses := 0 } } }

/-- The function csched_decrease_time_slice. -/
def csched_decrease_time_slice (sdom : csched_dom) : csched_dom :=
  { sdom with
    tslice_us :=
      if sdom.tslice_us ≥ SWITCH_BOUNDARY * 3 then U32 (sdom.tslice_us / 300 * 100)
      else (if sdom.tslice_us ≥ 300 then sdom.tslice_us - 200 else 100) }

/-- The function csched_increase_time_slice. -/
def csched_increase_time_slice (sdom : csched_dom) : csched_dom :=
  { sdom with
    tslice_us := if U32 (sdom.tslice_us + 100) ≥ 1100 then 1100 else U32 (sdom.tslice_us + 100) }

/-- The local miss_rate_curr of csched_submilli_metric_update: a 64-bit
unsigned quotient stored into an int. -/
def miss_rate_curr (inst_retired cache_misses : Nat) : Int :=
  toInt32 (if inst_retired ≠ 0 then U64 (cache_misses * 100000) / inst_retired else 0 : Nat)

/-- The local avg_spinlock of csched_submilli_metric_update. -/
def avg_spinlock (sdom : csched_dom) : Nat :=
  if sdom.spinlock_count > 0 then sdom.spinlock_metric_update / sdom.spinlock_count else 0

/-- The local inst_mean: the sum over the ring of inst_retired, over five. -/
def inst_mean (f : event_filter) : Nat :=
  U64 (U64 (U64 (U64 (U64 (0 + (f.get 0).inst_retired) + (f.get 1).inst_retired)
    + (f.get 2).inst_retired) + (f.get 3).inst_retired) + (f.get 4).inst_retired)
    / EVENT_TRACKING_WINDOW

/-- The local cache_miss_mean: the sum over the ring of cache_misses, over five. -/
def cache_miss_mean (f : event_filter) : Nat :=
  U64 (U64 (U64 (U64 (U64 (0 + (f.get 0).cache_misses) + (f.get 1).cache_misses)
    + (f.get 2).cache_misses) + (f.get 3).cache_misses) + (f.get 4).cache_misses)
    / EVENT_TRACKING_WINDOW

/-- The local miss_rate_window: again a 64-bit unsigned quotient stored into
an int. -/
def miss_rate_window (f : event_filter) : Int :=
  toInt32 (if inst_mean f > 0 then U64 (cache_miss_mean f * 100000) / inst_mean f else 0 : Nat)

/-- The local err: int arithmetic, the quotient rounded towards zero. -/
def miss_rate_err (rC rW : Int) : Int :=
  if rW > 0 then Int.tdiv (toInt32 (rC * 100)) rW
  else if rC = 0 then 100 else 0

/-- The condition of the stable branch. -/
def stable_cond (err rC rW : Int) : Prop :=
  (err ≥ 70 ∧ err ≤ 130) ∨ (err > 130 ∧ rW ≥ 100) ∨ (rC < 100 ∧ rW < 100)

instance (err rC rW : Int) : Decidable (stable_cond err rC rW) := by
  unfold stable_cond
  infer_instance

/-- The relative error err that a pass on the sample (inst_retired,
cache_misses) computes in the state sdom. -/
def pass_err (sdom : csched_dom) (inst_retired cache_misses : Nat) : Int :=
  miss_rate_err (miss_rate_curr inst_retired cache_misses) (miss_rate_window sdom.filter)

/-- The stores of the warm-up branch of csched_submilli_metric_update: the
sample goes to the slot EVENT_TRACKING_WINDOW - event_tracking_window and the
counter is decremented. -/
def submilli_warmup_store (sdom : csched_dom) (inst_retired cache_misses : Nat) :
    csched_dom :=
  (sdom.store_sample ((EVENT_TRACKING_WINDOW : Int) - (sdom.event_tracking_window : Int))
    (avg_spinlock sdom) inst_retired cache_misses).set_event_tracking_window
    (U8 (sdom.event_tracking_window + 255))

/-- The warm-up branch of csched_submilli_metric_update
(sdom->event_tracking_window > 0): after the stores, the slice is decreased
if 0 < miss_rate_curr < 100. -/
def submilli_warmup (sdom : csched_dom) (inst_retired cache_misses : Nat) : csched_dom :=
  if miss_rate_curr inst_retired cache_misses > 0
      ∧ miss_rate_curr inst_retired cache_misses < 100 then
    csched_decrease_time_slice (submilli_warmup_store sdom inst_retired cache_misses)
  else submilli_warmup_store sdom inst_retired cache_misses

/-- The slice update of the stable branch: phase and slice follow the side
of 100 the windowed miss rate is on. -/
def submilli_stable_slice (sdom : csched_dom) (rW : Int) : csched_dom :=
  if rW ≥ 100 then csched_increase_time_slice (sdom.set_phase SPIN_LOW_PHASE)
  else csched_decrease_time_slice (sdom.set_phase SPIN_HIGH_PHASE)

/-- The recomputation sdom->tick_period_us = sdom->tslice_us /
CSCHED_TICKS_PER_TSLICE that ends the stable branch. -/
def submilli_tick_period (sdom : csched_dom) : csched_dom :=
  sdom.set_tick_period_us (U16 (sdom.tslice_us / CSCHED_TICKS_PER_TSLICE))

/-- The stable branch of csched_submilli_metric_update: the stable count is
incremented, the ring shifted, phase and slice updated, the tick period
recomputed. -/
def submilli_stable (sdom : csched_dom) (inst_retired cache_misses : Nat) : csched_dom :=
  submilli_tick_period
    (submilli_stable_slice
      (csched_event_window_shift
        (sdom.set_event_stable_count (U8 (sdom.event_stable_count + 1)))
        (avg_spinlock sdom) inst_retired cache_misses)
      (miss_rate_window sdom.filter))

/-- The stores of the unstable branch of csched_submilli_metric_update: the
stable count is reset, the ring cleared and seeded with the sample in slot 0,
and the warm-up counter set to EVENT_TRACKING_WINDOW - 1. -/
def submilli_unstable_store (sdom : csched_dom) (inst_retired cache_misses : Nat) :
    csched_dom :=
  ((csched_event_window_clear (sdom.set_event_stable_count 0)).store_sample 0
    (avg_spinlock sdom) inst_retired cache_misses).set_event_tracking_window
    (EVENT_TRACKING_WINDOW - 1)

/-- The unstable branch of csched_submilli_metric_update: after the stores,
the slice is decreased if miss_rate_curr < 100. -/
def submilli_unstable (sdom : csched_dom) (inst_retired cache_misses : Nat) : csched_dom :=
  if miss_rate_curr inst_retired cache_misses < 100 then
    csched_decrease_time_slice (submilli_unstable_store sdom inst_retired cache_misses)
  else submilli_unstable_store sdom inst_retired cache_misses

/-- The function csched_submilli_metric_update: one controller pass for a
domain, on the sample (inst_retired, cache_misses); its three branches are
the three definitions above. The local spinlock_mean is computed by the
source and never used, so it does not appear. This is the pass on a record
whose warm-up store stays inside the ring (event_tracking_window at most
EVENT_TRACKING_WINDOW, as in every state that arises from csched_dom_init);
csched_submilli_metric_update_checked below is the pass on any record. -/
def csched_submilli_metric_update (sdom : csched_dom)
    (inst_retired cache_misses : Nat) : csched_dom :=
  if sdom.event_tracking_window > 0 then
    submilli_warmup sdom inst_retired cache_misses
  else if stable_cond (pass_err sdom inst_retired cache_misses)
      (miss_rate_curr inst_retired cache_misses) (miss_rate_window sdom.filter) then
    submilli_stable sdom inst_retired cache_misses
  else
    submilli_unstable sdom inst_retired cache_misses

/-- The local evt_idx of the warm-up branch of csched_submilli_metric_update:
EVENT_TRACKING_WINDOW - sdom->event_tracking_window, an int. -/
def submilli_evt_idx (sdom : csched_dom) : Int :=
  (EVENT_TRACKING_WINDOW : Int) - (sdom.event_tracking_window : Int)

/-- The function csched_submilli_metric_update on any record, with the bound
of the array filter[EVENT_TRACKING_WINDOW] made explicit. The warm-up branch
stores through filter[evt_idx] without a check; none stands for such a store
with evt_idx outside 0..4. It addresses memory outside the ring, C gives it
no defined behaviour (the compiled code overwrites whatever lies at that
address, other fields of the record or memory in front of it), and no
resulting state is given. The other two branches index the ring by constants
and by loop counters below EVENT_TRACKING_WINDOW. -/
def csched_submilli_metric_update_checked (sdom : csched_dom)
    (inst_retired cache_misses : Nat) : Option csched_dom :=
  if sdom.event_tracking_window > 0 then
    if 0 ≤ submilli_evt_idx sdom ∧ submilli_evt_idx sdom < EVENT_TRACKING_WINDOW then
      some (submilli_warmup sdom inst_retired cache_misses)
    else none
  else if stable_cond (pass_err sdom inst_retired cache_misses)
      (miss_rate_curr inst_retired cache_misses) (miss_rate_window sdom.filter) then
    some (submilli_stable sdom inst_retired cache_misses)
  else
    some (submilli_unstable sdom inst_retired cache_misses)

/-- The controller fields that csched_dom_init gives a new domain record
(after csched_alloc_domdata set weight and cap). -/
def csched_dom_init (domain_id : Nat) : csched_dom :=
  { domain_id := domain_id
    is_idle_domain := false
    active_vcpu := []
    inactive_vcpu := []
    active_vcpu_count := 0
    weight := CSCHED_DEFAULT_WEIGHT
    cap := 0
    tslice_us := CSCHED_DEFAULT_TSLICE_US
    slice_update_window := SLICE_UPDATE_WINDOW
    event_tracking_window := EVENT_TRACKING_WINDOW
    event_stable_count := 0
    phase := SPIN_LOW_PHASE
    tick_period_us := U16 (CSCHED_DEFAULT_TSLICE_US / CSCHED_TICKS_PER_TSLICE)
    spinlock_count := 0
    spinlock_latency := 0
    spinlock_metric_update := 0
    filter := {} }

/-- The end of the per-domain body of csched_dom_metric_update: the spinlock
accumulators of the interval are cleared after the controller pass. -/
def metric_accum_reset (sdom : csched_dom) : csched_dom :=
  { sdom with spinlock_metric_update := 0, spinlock_count := 0 }

/-- The domain states that arise from csched_dom_init by controller passes,
interleaved in any way with spinlock callbacks and accumulator resets. -/
inductive ctl_reachable : csched_dom → Prop
  | init (domain_id : Nat) : ctl_reachable (csched_dom_init domain_id)
  | pass (s : csched_dom) (inst_retired cache_misses : Nat) :
      ctl_reachable s → ctl_reachable (csched_submilli_metric_update s inst_retired cache_misses)
  | vcrd (s : csched_dom) (time : Nat) :
      ctl_reachable s → ctl_reachable (do_vcrd_op s time)
  | reset (s : csched_dom) :
      ctl_reachable s → ctl_reachable (metric_accum_reset s)

/-- The domain states that arise from csched_dom_init by controller passes
on any record (csched_submilli_metric_update_checked), interleaved in any way
with spinlock callbacks and accumulator resets. -/
inductive ctl_reached : csched_dom → Prop
  | init (domain_id : Nat) : ctl_reached (csched_dom_init domain_id)
  | pass (s : csched_dom) (inst_retired cache_misses : Nat) (s2 : csched_dom) :
      ctl_reached s →
      csched_submilli_metric_update_checked s inst_retired cache_misses = some s2 →
      ctl_reached s2
  | vcrd (s : csched_dom) (time : Nat) :
      ctl_reached s → ctl_reached (do_vcrd_op s time)
  | reset (s : csched_dom) :
      ctl_reached s → ctl_reached (metric_accum_reset s)

/-- A domain record with the slice 500 and a warm-up counter of 12, which is
above EVENT_TRACKING_WINDOW: a value of the uint8_t field that no statement
of the source stores. -/
def dom_window_12 : csched_dom := { tslice_us := 500, event_tracking_window := 12 }

/-! ## The master credit accountant -/

/-- Negation of an unsigned int: the operand of the comparisons
credit < -credit_cap and credit < -prv->credits_per_tslice, which C carries
out on unsigned int. -/
def negU32 (x : Nat) : Nat := (4294967296 - x % 4294967296) % 4294967296

/-- The struct csched_private. active_sdom is the list headed by
prv->active_sdom, first element first; inactive_sdom holds the domains whose
active_sdom_elem is unlinked. -/
structure csched_private where
  active_sdom : List csched_dom := []
  inactive_sdom : List csched_dom := []
  ncpus : Nat := 0
  master : Nat := 0
  weight : Nat := 0
  credit : Nat := 0
  credit_balance : Int := 0
  runq_sort : Nat := 0
  ratelimit_us : Nat := 0
  tslice_us : Nat := CSCHED_DEFAULT_TSLICE_US
  tick_period_us : Nat := 33
  ticks_per_tslice : Nat := CSCHED_TICKS_PER_TSLICE
  credits_per_tslice : Nat := CSCHED_DEFAULT_TSLICE_US
  deriving DecidableEq, Repr

/-- What the body of the inner loop of csched_acct leaves for one vCPU: the
record, the local credit that is added to credit_balance, and whether the
branch for the privileged domain (credit above the upper bound, domain_id 0)
was taken, in which __csched_vcpu_acct_stop_locked is called if the domain has
two or more active vCPUs. -/
structure acct_vcpu_out where
  svc : csched_vcpu
  credit : Int
  excess : Bool
  deriving DecidableEq, Repr

/-- The branch credit < 0 of the inner loop of csched_acct: the band becomes
OVER, the vCPU of a capped domain is parked when its credit is below the
per-vCPU cap, and the credit is clamped from below. svc already holds the
incremented credit. -/
def acct_vcpu_over (credits_per_tslice cap credit_cap : Nat) (svc : csched_vcpu) :
    acct_vcpu_out :=
  let parked : csched_vcpu :=
    if cap ≠ 0 ∧ toU32 svc.credit < negU32 credit_cap
        ∧ svc.flags &&& CSCHED_FLAG_VCPU_PARKED = 0 then
      { svc with
        pri := CSCHED_PRI_TS_OVER
        pause_count := svc.pause_count + 1
        flags := svc.flags ||| CSCHED_FLAG_VCPU_PARKED }
    else { svc with pri := CSCHED_PRI_TS_OVER }
  if toU32 svc.credit < negU32 credits_per_tslice then
    { svc := { parked with credit := toInt32 (negU32 credits_per_tslice) }
      credit := toInt32 (negU32 credits_per_tslice)
      excess := false }
  else
    { svc := parked, credit := svc.credit, excess := false }

/-- The branch credit >= 0 of the inner loop of csched_acct: the band becomes
UNDER, a parked vCPU is unpaused and its flag cleared, and a credit above the
upper bound is kept as it is for the privileged domain and halved for every
other domain. svc already holds the incremented credit. -/
def acct_vcpu_under (credits_per_tslice domain_id : Nat) (svc : csched_vcpu) :
    acct_vcpu_out :=
  let unparked : csched_vcpu :=
    if svc.flags &&& CSCHED_FLAG_VCPU_PARKED ≠ 0 then
      { svc with
        pri := CSCHED_PRI_TS_UNDER
        pause_count := svc.pause_count - 1
        flags := svc.flags &&& 65534 }
    else { svc with pri := CSCHED_PRI_TS_UNDER }
  if toU32 (Int.tdiv svc.credit 100) > credits_per_tslice / 100 ∧ domain_id = 0 then
    { svc := unparked, credit := svc.credit, excess := true }
  else if toU32 (Int.tdiv svc.credit 100) > credits_per_tslice / 100 ∧ domain_id ≠ 0 then
    { svc := { unparked with credit := Int.tdiv svc.credit 2 }
      credit := Int.tdiv svc.credit 2
      excess := false }
  else
    { svc := unparked, credit := svc.credit, excess := false }

/-- The credit of a vCPU after atomic_add(credit_fair, &svc->credit). -/
def acct_credit_incr (svc : csched_vcpu) (credit_fair : Nat) : Int :=
  toInt32 (svc.credit + (credit_fair : Int))

/-- The body of the inner loop of csched_acct (list_for_each_safe over
sdom->active_vcpu) for one vCPU, up to the list surgery. cap and domain_id
are those of the domain, credit_cap and credit_fair the locals of
csched_acct. -/
def csched_acct_vcpu (credits_per_tslice cap credit_cap credit_fair domain_id : Nat)
    (svc : csched_vcpu) : acct_vcpu_out :=
  if acct_credit_incr svc credit_fair < 0 then
    acct_vcpu_over credits_per_tslice cap credit_cap
      { svc with credit := acct_credit_incr svc credit_fair }
  else
    acct_vcpu_under credits_per_tslice domain_id
      { svc with credit := acct_credit_incr svc credit_fair }

/-- The state threaded through the inner loop of csched_acct: prv->weight,
sdom->active_vcpu_count, whether the domain is still linked on
prv->active_sdom, the local credit_balance, the visited vCPUs that stay on
sdom->active_vcpu (in list order) and those unlinked from it (latest first). -/
structure acct_vcpu_state where
  prv_weight : Nat
  active_vcpu_count : Nat
  on_active_sdom : Bool
  credit_balance : Int
  kept : List csched_vcpu
  stopped : List csched_vcpu
  deriving DecidableEq, Repr

/-- The inner loop of csched_acct over the domain's active vCPUs, with
__csched_vcpu_acct_stop_locked inlined; none stands for a BUG_ON that fires
(prv->weight < sdom->weight). -/
def csched_acct_vcpus (credits_per_tslice cap credit_cap credit_fair domain_id
    weight : Nat) : List csched_vcpu → acct_vcpu_state → Option acct_vcpu_state
  | [], st => some st
  | svc :: rest, st =>
    if (csched_acct_vcpu credits_per_tslice cap credit_cap credit_fair domain_id svc).excess
        ∧ st.active_vcpu_count ≥ 2 then
      if st.prv_weight < weight then none
      else
        csched_acct_vcpus credits_per_tslice cap credit_cap credit_fair domain_id weight rest
          { st with
            active_vcpu_count := U16 (st.active_vcpu_count + 65535)
            prv_weight := U32 (st.prv_weight - weight)
            on_active_sdom :=
              if st.kept.isEmpty ∧ rest.isEmpty then false else st.on_active_sdom
            stopped :=
              (csched_acct_vcpu credits_per_tslice cap credit_cap credit_fair domain_id
                svc).svc :: st.stopped
            credit_balance :=
              toInt32 (st.credit_balance
                + (csched_acct_vcpu credits_per_tslice cap credit_cap credit_fair domain_id
                    svc).credit) }
    else
      csched_acct_vcpus credits_per_tslice cap credit_cap credit_fair domain_id weight rest
        { st with
          kept :=
            st.kept ++ [(csched_acct_vcpu credits_per_tslice cap credit_cap credit_fair
              domain_id svc).svc]
          credit_balance :=
            toInt32 (st.credit_balance
              + (csched_acct_vcpu credits_per_tslice cap credit_cap credit_fair domain_id
                  svc).credit) }

/-- The state threaded through the outer loop of csched_acct: the locals
credit_total, weight_left, credit_xtra, credit_cap and credit_balance,
prv->weight, and the visited domains: those moved to the head of
prv->active_sdom (latest first), those left in place (in list order) and
those unlinked from the list (latest first). -/
structure acct_state where
  credit_total : Nat
  weight_left : Nat
  credit_xtra : Bool
  credit_cap : Nat
  credit_balance : Int
  prv_weight : Nat
  head : List csched_dom
  kept : List csched_dom
  dropped : List csched_dom
  deriving DecidableEq, Repr

/-- The domains an outer-loop state has visited. -/
def acct_state.visited (st : acct_state) : List csched_dom :=
  st.head ++ st.kept ++ st.dropped

/-- The local credit_peak of csched_acct before the cap is applied:
active_vcpu_count * credits_per_tslice, plus the domain's share of a negative
credit_balance. -/
def acct_peak (prv : csched_private) (weight_total : Nat) (sdom : csched_dom) : Nat :=
  if prv.credit_balance < 0 then
    U32 (U32 (sdom.active_vcpu_count * prv.credits_per_tslice)
      + U32 (toU32 (-prv.credit_balance * sdom.weight * sdom.active_vcpu_count)
          + (weight_total - 1)) / weight_total)
  else U32 (sdom.active_vcpu_count * prv.credits_per_tslice)

/-- The local credit_cap of csched_acct for the whole domain:
((sdom->cap * prv->credits_per_tslice) + 99) / 100. -/
def acct_cap_total (prv : csched_private) (sdom : csched_dom) : Nat :=
  U32 (U32 (sdom.cap * prv.credits_per_tslice) + 99) / 100

/-- The local credit_peak of csched_acct once the cap is applied. -/
def acct_peak_capped (prv : csched_private) (weight_total : Nat) (sdom : csched_dom) : Nat :=
  if sdom.cap ≠ 0 ∧ acct_cap_total prv sdom < acct_peak prv weight_total sdom then
    acct_cap_total prv sdom
  else acct_peak prv weight_total sdom

/-- The local credit_fair of csched_acct as first computed:
((credit_total * weight * active_vcpu_count) + (weight_total - 1)) / weight_total. -/
def acct_fair_raw (weight_total credit_total : Nat) (sdom : csched_dom) : Nat :=
  U32 (U32 (U32 (credit_total * sdom.weight) * sdom.active_vcpu_count) + (weight_total - 1))
    / weight_total

/-- The locals of csched_acct once the per-domain shares are computed, just
before the inner loop: weight_left, credit_peak, the per-vCPU credit_cap,
credit_fair as first computed (fair_raw), whether the domain is clipped
(credit_fair not below credit_peak) and whether it is moved to the head of
the list, the updated credit_total and credit_xtra, and the per-vCPU
credit_fair. -/
structure acct_share where
  weight_left : Nat
  credit_peak : Nat
  credit_cap : Nat
  fair_raw : Nat
  clipped : Bool
  moved : Bool
  credit_total : Nat
  credit_xtra : Bool
  credit_fair : Nat
  deriving DecidableEq, Repr

/-- The computation of the shares of one domain in the outer loop of
csched_acct (from weight_left -= ... to the per-vCPU credit_fair). -/
def csched_acct_share (prv : csched_private) (weight_total : Nat) (st : acct_state)
    (sdom : csched_dom) : acct_share :=
  { weight_left := U32 (st.weight_left + negU32 (U32 (sdom.weight * sdom.active_vcpu_count)))
    credit_peak := acct_peak_capped prv weight_total sdom
    credit_cap :=
      if sdom.cap ≠ 0 then
        U32 (acct_cap_total prv sdom + (sdom.active_vcpu_count - 1)) / sdom.active_vcpu_count
      else st.credit_cap
    fair_raw := acct_fair_raw weight_total st.credit_total sdom
    clipped :=
      decide (¬ acct_fair_raw weight_total st.credit_total sdom
        < acct_peak_capped prv weight_total sdom)
    moved :=
      decide (¬ acct_fair_raw weight_total st.credit_total sdom
        < acct_peak_capped prv weight_total sdom) && st.credit_xtra
    credit_total :=
      if acct_fair_raw weight_total st.credit_total sdom
          < acct_peak_capped prv weight_total sdom then st.credit_total
      else if U32 (st.weight_left + negU32 (U32 (sdom.weight * sdom.active_vcpu_count))) ≠ 0 then
        U32 (st.credit_total
          + U32 (U32 (U32 (acct_fair_raw weight_total st.credit_total sdom
                    + negU32 (acct_peak_capped prv weight_total sdom)) * weight_total)
              + (U32 (st.weight_left + negU32 (U32 (sdom.weight * sdom.active_vcpu_count))) - 1))
            / U32 (st.weight_left + negU32 (U32 (sdom.weight * sdom.active_vcpu_count))))
      else st.credit_total
    credit_xtra :=
      if acct_fair_raw weight_total st.credit_total sdom
          < acct_peak_capped prv weight_total sdom then true
      else st.credit_xtra
    credit_fair :=
      U32 ((if acct_fair_raw weight_total st.credit_total sdom
              < acct_peak_capped prv weight_total sdom
            then acct_fair_raw weight_total st.credit_total sdom
            else acct_peak_capped prv weight_total sdom)
          + (sdom.active_vcpu_count - 1)) / sdom.active_vcpu_count }

/-- The body of the outer loop of csched_acct (list_for_each_safe over
prv->active_sdom) for one domain; none stands for a BUG_ON that fires. -/
def csched_acct_sdom (prv : csched_private) (weight_total : Nat) (st : acct_state)
    (sdom : csched_dom) : Option acct_state :=
  if sdom.is_idle_domain then none
  else if sdom.active_vcpu_count = 0 then none
  else if sdom.weight = 0 then none
  else if U32 (sdom.weight * sdom.active_vcpu_count) > st.weight_left then none
  else
    let sh := csched_acct_share prv weight_total st sdom
    match csched_acct_vcpus prv.credits_per_tslice sdom.cap sh.credit_cap sh.credit_fair
        sdom.domain_id sdom.weight sdom.active_vcpu
        { prv_weight := st.prv_weight
          active_vcpu_count := sdom.active_vcpu_count
          on_active_sdom := true
          credit_balance := st.credit_balance
          kept := []
          stopped := [] } with
    | none => none
    | some r =>
      let sdom1 : csched_dom :=
        { sdom with
          active_vcpu := r.kept
          inactive_vcpu := r.stopped ++ sdom.inactive_vcpu
          active_vcpu_count := r.active_vcpu_count }
      some
        { credit_total := sh.credit_total
          weight_left := sh.weight_left
          credit_xtra := sh.credit_xtra
          credit_cap := sh.credit_cap
          credit_balance := r.credit_balance
          prv_weight := r.prv_weight
          head := if r.on_active_sdom ∧ sh.moved then sdom1 :: st.head else st.head
          kept := if r.on_active_sdom ∧ ¬ sh.moved then st.kept ++ [sdom1] else st.kept
          dropped := if r.on_active_sdom then st.dropped else sdom1 :: st.dropped }

/-- The outer loop of csched_acct. -/
def csched_acct_sdoms (prv : csched_private) (weight_total : Nat) :
    List csched_dom → acct_state → Option acct_state
  | [], st => some st
  | sdom :: rest, st =>
    match csched_acct_sdom prv weight_total st sdom with
    | none => none
    | some st1 => csched_acct_sdoms prv weight_total rest st1

/-- The locals of csched_acct when the outer loop is entered. -/
def csched_acct_init (prv : csched_private) : acct_state :=
  { credit_total :=
      if prv.credit_balance < 0 then toU32 ((prv.credit : Int) - prv.credit_balance)
      else prv.credit
    weight_left := prv.weight
    credit_xtra := false
    credit_cap := 0
    credit_balance := 0
    prv_weight := prv.weight
    head := []
    kept := []
    dropped := [] }

/-- The function csched_acct: one pass of the master accountant over the
scheduler state (the re-arming of the master timer is not part of the
state); none stands for a BUG_ON that fires. -/
def csched_acct (prv : csched_private) : Option csched_private :=
  if prv.weight = 0 then
    some { prv with credit_balance := 0 }
  else
    match csched_acct_sdoms prv prv.weight prv.active_sdom (csched_acct_init prv) with
    | none => none
    | some st =>
      some
        { prv with
          active_sdom := st.head ++ st.kept
          inactive_sdom := st.dropped ++ prv.inactive_sdom
          weight := st.prv_weight
          credit_balance := st.credit_balance
          runq_sort := U32 (prv.runq_sort + 1) }

/-! ## The controller as the specification words it -/

/-- The fields of a ring entry fit their C types. -/
def event_sample.typed (e : event_sample) : Prop :=
  e.spinlock < 65536 ∧ e.inst_retired < 4294967296 ∧ e.cache_misses < 4294967296

/-- Every entry of the ring fits its C types. -/
def event_filter.typed (f : event_filter) : Prop :=
  f.s0.typed ∧ f.s1.typed ∧ f.s2.typed ∧ f.s3.typed ∧ f.s4.typed

/-- The instantaneous miss rate rC = M*100000/I over the naturals (0 if I = 0). -/
def spec_rC (I M : Nat) : Nat := if I = 0 then 0 else M * 100000 / I

/-- The mean of inst_retired over the five ring slots. -/
def spec_mean_I (f : event_filter) : Nat :=
  (f.s0.inst_retired + f.s1.inst_retired + f.s2.inst_retired + f.s3.inst_retired
    + f.s4.inst_retired) / 5

/-- The mean of cache_misses over the five ring slots. -/
def spec_mean_M (f : event_filter) : Nat :=
  (f.s0.cache_misses + f.s1.cache_misses + f.s2.cache_misses + f.s3.cache_misses
    + f.s4.cache_misses) / 5

/-- The windowed miss rate rW = mean(M)*100000/mean(I) over the naturals
(0 if mean(I) = 0). -/
def spec_rW (f : event_filter) : Nat :=
  if spec_mean_I f = 0 then 0 else spec_mean_M f * 100000 / spec_mean_I f

/-- The relative error err = rC*100/rW over the naturals (100 if both are 0,
0 if only rW is 0). -/
def spec_err (rC rW : Nat) : Nat :=
  if rW = 0 then (if rC = 0 then 100 else 0) else rC * 100 / rW

/-- The three conditions of the stable branch over the naturals. -/
def spec_stable (err rC rW : Nat) : Prop :=
  (70 ≤ err ∧ err ≤ 130) ∨ (130 < err ∧ 100 ≤ rW) ∨ (rC < 100 ∧ rW < 100)

instance (err rC rW : Nat) : Decidable (spec_stable err rC rW) := by
  unfold spec_stable
  infer_instance

/-- The ring after a shift that pushes the sample (A, I, M), each field
truncated to its width. -/
def spec_shift (f : event_filter) (A I M : Nat) : event_filter :=
  { s0 := f.s1, s1 := f.s2, s2 := f.s3, s3 := f.s4,
    s4 := { spinlock := A % 65536, inst_retired := I % 4294967296,
            cache_misses := M % 4294967296 } }

/-- The decrease rule on a slice value. -/
def spec_decrease (t : Nat) : Nat :=
  if t ≥ 2700 then t / 300 * 100 else if t ≥ 300 then t - 200 else 100

/-- A ring slot holding the sample (I, M) = (10^6, 10^3). -/
def sample_1e6_1e3 : event_sample :=
  { spinlock := 0, inst_retired := 1000000, cache_misses := 1000 }

/-- The ring holding five samples (I, M) = (10^6, 10^3). -/
def ring_1e6_1e3 : event_filter :=
  { s0 := sample_1e6_1e3, s1 := sample_1e6_1e3, s2 := sample_1e6_1e3,
    s3 := sample_1e6_1e3, s4 := sample_1e6_1e3 }

/-- The domain state the counterexamples start from: steady state (the
warm-up is over), the ring full of samples (10^6, 10^3), slice t and stable
count c, phase HIGH_SPIN. -/
def dom_steady (t c : Nat) : csched_dom :=
  { tslice_us := t, event_tracking_window := 0, event_stable_count := c,
    phase := SPIN_HIGH_PHASE, filter := ring_1e6_1e3 }

/-- Successive controller passes over a list of samples (I, M). -/
def controller_run (s : csched_dom) : List (Nat × Nat) → csched_dom
  | [] => s
  | x :: xs => controller_run (csched_submilli_metric_update s x.1 x.2) xs

/-- A steady-state pass whose sample agrees with the window within 30%:
the warm-up counter is 0 and err is in [70, 130]. -/
def steady_pass (s : csched_dom) (I M : Nat) : Prop :=
  s.event_tracking_window = 0 ∧ 70 ≤ pass_err s I M ∧ pass_err s I M ≤ 130

instance (s : csched_dom) (I M : Nat) : Decidable (steady_pass s I M) := by
  unfold steady_pass
  infer_instance

/-- Every pass of the run from s over the samples is a steady pass. -/
def steady_run (s : csched_dom) : List (Nat × Nat) → Prop
  | [] => True
  | x :: xs => steady_pass s x.1 x.2 ∧ steady_run (csched_submilli_metric_update s x.1 x.2) xs

instance steady_run_decidable :
    (xs : List (Nat × Nat)) → (s : csched_dom) → Decidable (steady_run s xs)
  | [], _ => isTrue trivial
  | x :: xs, s =>
    have := steady_run_decidable xs (csched_submilli_metric_update s x.1 x.2)
    inferInstanceAs
      (Decidable (steady_pass s x.1 x.2 ∧ steady_run (csched_submilli_metric_update s x.1 x.2) xs))

/-- Every pass of the run is a steady pass that sees a windowed miss rate of
at least 100. -/
def steady_run_high (s : csched_dom) : List (Nat × Nat) → Prop
  | [] => True
  | x :: xs => steady_pass s x.1 x.2 ∧ 100 ≤ miss_rate_window s.filter
      ∧ steady_run_high (csched_submilli_metric_update s x.1 x.2) xs

/-- Every pass of the run is a steady pass that sees a windowed miss rate
below 100. -/
def steady_run_low (s : csched_dom) : List (Nat × Nat) → Prop
  | [] => True
  | x :: xs => steady_pass s x.1 x.2 ∧ miss_rate_window s.filter < 100
      ∧ steady_run_low (csched_submilli_metric_update s x.1 x.2) xs
/-- A freshly initialised domain after n controller passes on the constant
sample (I, M) = (10^6, 10^3). -/
def dom_after (n : Nat) : csched_dom :=
  controller_run (csched_dom_init 1) (List.replicate n (1000000, 1000))

/-- A steady state at the upper slice bound: the ring full of (10^6, 10^3),
slice 1100, phase LOW_SPIN. -/
def dom_top : csched_dom :=
  { tslice_us := 1100, event_tracking_window := 0, phase := SPIN_LOW_PHASE,
    filter := ring_1e6_1e3 }

/-- Eleven samples within 5% of each other: ten times (10^6, 1000), then
(10^6, 950). -/
def samples_drift : List (Nat × Nat) :=
  List.replicate 10 (1000000, 1000) ++ [(1000000, 950)]

/-! ## The accountant as the specification words it -/

/-- The ceiling of a / b, as the source computes it: (a + (b - 1)) / b. -/
def ceil_div (a b : Nat) : Nat := (a + (b - 1)) / b

/-- The fair share credit_fair = ceil((C * weight * active_vcpu_count) / W). -/
def spec_credit_fair (C w n W : Nat) : Nat := ceil_div (C * w * n) W

/-- The cap in credits credit_cap = ceil(cap * credits_per_slice / 100). -/
def spec_credit_cap (cap cpt : Nat) : Nat := ceil_div (cap * cpt) 100

/-- The peak credit_peak = active_vcpu_count * credits_per_slice, further
limited by the cap when the domain is capped. -/
def spec_credit_peak (cap cpt n : Nat) : Nat :=
  if cap = 0 then n * cpt else min (n * cpt) (spec_credit_cap cap cpt)

/-- No domain of the list is clipped when the outer loop of csched_acct
runs over it from the locals st. -/
def acct_unclipped (prv : csched_private) (W : Nat) : List csched_dom → acct_state → Prop
  | [], _ => True
  | e :: es, st =>
    (csched_acct_share prv W st e).clipped = false
    ∧ ∀ st1, csched_acct_sdom prv W st e = some st1 → acct_unclipped prv W es st1

/-- A vCPU for the examples: vcpu_id 1 with credit -100. -/
def acct_demo_vcpu : csched_vcpu := { vcpu_id := 1, credit := -100 }

/-- The privileged domain for the examples: weight 256 and two active vCPUs,
one with credit 200 and acct_demo_vcpu. -/
def acct_demo_dom0 : csched_dom :=
  { domain_id := 0, weight := 256, active_vcpu_count := 2,
    active_vcpu := [{ vcpu_id := 0, credit := 200 }, acct_demo_vcpu] }

/-- A second domain for the examples: domain 3 with weight 256 and three
active vCPUs with credit 0. -/
def acct_demo_dom3 : csched_dom :=
  { domain_id := 3, weight := 256, active_vcpu_count := 3,
    active_vcpu := [{ vcpu_id := 0 }, { vcpu_id := 1 }, { vcpu_id := 2 }] }

/-- A scheduler state for the examples: acct_demo_dom0 and acct_demo_dom3
active, four pCPUs with 100 credits per slice, credit_balance 0. -/
def acct_demo : csched_private :=
  { active_sdom := [acct_demo_dom0, acct_demo_dom3],
    ncpus := 4, weight := 1280, credit := 400, credits_per_tslice := 100 }

/-- The credits a scheduler state holds, as (domain_id, vcpu_id, credit),
over the active and the unlinked vCPUs of the active and the unlinked
domains. -/
def acct_credits (prv : csched_private) : List (Nat × Nat × Int) :=
  (prv.active_sdom ++ prv.inactive_sdom).flatMap fun d =>
    (d.active_vcpu ++ d.inactive_vcpu).map fun v => (d.domain_id, v.vcpu_id, v.credit)

/-- The state csched_acct leaves from acct_demo. -/
def acct_demo_out : csched_private := (csched_acct acct_demo).getD acct_demo

/-- A scheduler state with 10 credits per slice: one domain (not the
privileged one) with one active vCPU holding 20 credits. -/
def acct_small_slice : csched_private :=
  { active_sdom :=
      [{ domain_id := 1, weight := 256, active_vcpu_count := 1,
         active_vcpu := [{ vcpu_id := 0, credit := 20 }] }],
    ncpus := 1, weight := 256, credit := 10, credits_per_tslice := 10 }

/-- A scheduler state with a negative credit_balance of -1000 left by earlier
passes: 100 credits per slice, one domain (not the privileged one) with one
active vCPU holding 200 credits. -/
def acct_neg_balance : csched_private :=
  { active_sdom :=
      [{ domain_id := 1, weight := 256, active_vcpu_count := 1,
         active_vcpu := [{ vcpu_id := 0, credit := 200 }] }],
    ncpus := 1, weight := 256, credit := 100, credits_per_tslice := 100,
    credit_balance := -1000 }

/-- Every vCPU on an active list has its credit within
[-credits_per_tslice, 2 * credits_per_tslice]. -/
def acct_credits_in_range (prv : csched_private) : Prop :=
  ∀ d ∈ prv.active_sdom, ∀ v ∈ d.active_vcpu,
    -(prv.credits_per_tslice : Int) ≤ v.credit ∧ v.credit ≤ 2 * (prv.credits_per_tslice : Int)

instance (prv : csched_private) : Decidable (acct_credits_in_range prv) := by
  unfold acct_credits_in_range
  infer_instance

/-- A domain of the largest weight, 65535, with one active vCPU. -/
def acct_round_dom : csched_dom :=
  { domain_id := 1, weight := 65535, active_vcpu_count := 1,
    active_vcpu := [{ vcpu_id := 0, credit := 0 }] }

/-- A scheduler state in which no product of the fair-share computation
overflows 32 bits but the rounding sum does: acct_round_dom first, then a
domain of weight 256, one pCPU with 65537 credits per slice (so
C * w * n = 65537 * 65535 = 2^32 - 1 and W = 65791). -/
def acct_round : csched_private :=
  { active_sdom :=
      [acct_round_dom,
       { domain_id := 2, weight := 256, active_vcpu_count := 1,
         active_vcpu := [{ vcpu_id := 0, credit := 0 }] }],
    ncpus := 1, weight := 65791, credit := 65537, credits_per_tslice := 65537 }

/-- The capped domain of scenario 2 of the specification (cap 50, weight
256), with three active vCPUs instead of two. -/
def acct_cap_dom : csched_dom :=
  { domain_id := 3, cap := 50, weight := 256, active_vcpu_count := 3,
    active_vcpu := [{ vcpu_id := 0 }, { vcpu_id := 1 }, { vcpu_id := 2 }] }

/-- A scheduler state with acct_cap_dom as the only active domain, four
pCPUs and 100 credits per slice. -/
def acct_cap : csched_private :=
  { active_sdom := [acct_cap_dom],
    ncpus := 4, weight := 768, credit := 400, credits_per_tslice := 100 }

/-- The capped domain of scenario 2 of the specification: cap 50, weight 256,
two active vCPUs. -/
def acct_cap2_dom : csched_dom :=
  { domain_id := 3, cap := 50, weight := 256, active_vcpu_count := 2,
    active_vcpu := [{ vcpu_id := 0 }, { vcpu_id := 1 }] }

/-- A scheduler state with acct_cap2_dom as the only active domain, four
pCPUs and 100 credits per slice. -/
def acct_cap2 : csched_private :=
  { active_sdom := [acct_cap2_dom],
    ncpus := 4, weight := 512, credit := 400, credits_per_tslice := 100 }

/-- The state csched_acct leaves from acct_cap2. -/
def acct_cap2_out : csched_private := (csched_acct acct_cap2).getD acct_cap2

/-- A domain with cap 65534 and one active vCPU. -/
def acct_bigcap_dom : csched_dom :=
  { domain_id := 3, cap := 65534, weight := 256, active_vcpu_count := 1,
    active_vcpu := [{ vcpu_id := 0 }] }

/-- A scheduler state in which cap * credits_per_tslice overflows 32 bits:
acct_bigcap_dom and 65539 credits per slice. -/
def acct_bigcap : csched_private :=
  { active_sdom := [acct_bigcap_dom],
    ncpus := 1, weight := 256, credit := 65539, credits_per_tslice := 65539 }

/-- The sum over a list of domains of weight * active_vcpu_count. -/
def acct_weight_sum (ds : List csched_dom) : Nat :=
  (ds.map fun d => d.weight * d.active_vcpu_count).sum

/-- The conditions under which no BUG_ON of csched_acct fires: every active
domain is a real domain with a weight and an active vCPU, and prv->weight, a
32-bit value, covers the weights of the active domains (the weight invariant
makes it equal to their sum). -/
def acct_ready (prv : csched_private) : Prop :=
  (∀ d ∈ prv.active_sdom,
      d.is_idle_domain = false ∧ d.active_vcpu_count ≠ 0 ∧ d.weight ≠ 0)
  ∧ acct_weight_sum prv.active_sdom ≤ prv.weight
  ∧ prv.weight < 4294967296

/-! ## The run queue of a pCPU -/

/-- The struct csched_pcpu, with the fields the scheduler paths modelled here
read and write. runq lists the queued vCPUs from the head of spc->runq. -/
structure csched_pcpu where
  runq : List csched_vcpu := []
  runq_sort_last : Nat := 0
  tick : Nat := 0
  idle_bias : Nat := 0
  deriving DecidableEq, Repr

/-- The walk of __runq_insert over RUNQ(cpu): list_for_each stops at the
first queued vCPU with svc->pri > iter_svc->pri. The result is the number of
elements the walk passes, that is the position of iter in the queue, or the
length of the queue when the walk ends back at the list head. -/
def runq_insert_walk (pri : Int) : List csched_vcpu → Nat
  | [] => 0
  | iter_svc :: rest => if pri > iter_svc.pri then 0 else runq_insert_walk pri rest + 1

/-- The value of __runq_elem(iter)->pri once the walk of __runq_insert is
over. When the walk ends at the list head, iter is not the runq_elem of any
vCPU and the expression reads a field of the pCPU record; head_pri stands for
the 16-bit value found there. -/
def runq_iter_pri (head_pri : Int) (runq : List csched_vcpu) (i : Nat) : Int :=
  match runq.get? i with
  | some iter_svc => iter_svc.pri
  | none => head_pri

/-- The position of iter->next in the circular list: the next element, the
first element when iter is the list head, and the length of the queue when
iter->next is the list head. -/
def runq_iter_next (runq : List csched_vcpu) (i : Nat) : Nat :=
  if i < runq.length then i + 1 else 0

/-- The function __runq_insert(cpu, svc) on the queue RUNQ(cpu). svc is a
record that is on no run queue (BUG_ON(__vcpu_on_runq(svc)) holds of it by
construction); none stands for a BUG_ON that fires.
list_add_tail(&svc->runq_elem, iter) links svc right before iter, at the tail
when iter is the list head. -/
def __runq_insert (head_pri : Int) (runq : List csched_vcpu) (cpu : Nat)
    (svc : csched_vcpu) : Option (List csched_vcpu) :=
  if cpu ≠ svc.processor then none
  else if svc.flags &&& CSCHED_FLAG_VCPU_YIELD ≠ 0
      ∧ runq_iter_pri head_pri runq (runq_insert_walk svc.pri runq) > CSCHED_PRI_IDLE then
    if runq_iter_next runq (runq_insert_walk svc.pri runq) = runq.length then none
    else
      some (runq.take (runq_iter_next runq (runq_insert_walk svc.pri runq))
        ++ svc :: runq.drop (runq_iter_next runq (runq_insert_walk svc.pri runq)))
  else
    some (runq.take (runq_insert_walk svc.pri runq)
      ++ svc :: runq.drop (runq_insert_walk svc.pri runq))

/-- The loop of csched_runq_sort. The queue reads under ++ over ++ rest:
under holds the visited elements up to last_under, over the visited elements
behind it, and rest starts at elem. An element with pri >= CSCHED_PRI_TS_UNDER
is unlinked and linked again right behind last_under when elem->prev is not
last_under (over is not empty) and stays where it is otherwise; either way it
is the new last_under. -/
def runq_sort_loop : List csched_vcpu → List csched_vcpu → List csched_vcpu → List csched_vcpu
  | [], under, over => under ++ over
  | elem :: rest, under, over =>
    if elem.pri ≥ CSCHED_PRI_TS_UNDER then
      if over ≠ [] then runq_sort_loop rest (under ++ [elem]) over
      else runq_sort_loop rest (under ++ [elem]) []
    else runq_sort_loop rest under (over ++ [elem])

/-- The function csched_runq_sort(prv, cpu) on the record of the pCPU:
sort_epoch is an int, compared with and stored to the 32-bit
runq_sort_last. -/
def csched_runq_sort (prv : csched_private) (spc : csched_pcpu) : csched_pcpu :=
  if toU32 (toInt32 prv.runq_sort) = spc.runq_sort_last then spc
  else
    { spc with
      runq_sort_last := toU32 (toInt32 prv.runq_sort)
      runq := runq_sort_loop spc.runq [] [] }

/-- A run queue is non-increasing by priority band: no vCPU is queued behind
one of a strictly lower band. -/
def runq_sorted (runq : List csched_vcpu) : Prop :=
  runq.Pairwise fun a b => b.pri ≤ a.pri

instance (runq : List csched_vcpu) : Decidable (runq_sorted runq) := by
  unfold runq_sorted
  infer_instance

/-- The YIELD rule as the specification words it: the vCPU goes one position
after the first queued vCPU, walking from the head, whose band is the same
as or higher than its own (at the tail when there is none). -/
def spec_yield_insert (svc : csched_vcpu) : List csched_vcpu → List csched_vcpu
  | [] => [svc]
  | x :: rest => if svc.pri ≤ x.pri then x :: svc :: rest else x :: spec_yield_insert svc rest

/-- Queued vCPUs for the examples, told apart by vcpu_id. -/
def runq_under_a : csched_vcpu := { vcpu_id := 1, pri := CSCHED_PRI_TS_UNDER }

def runq_under_b : csched_vcpu := { vcpu_id := 2, pri := CSCHED_PRI_TS_UNDER }

def runq_over_c : csched_vcpu := { vcpu_id := 3, pri := CSCHED_PRI_TS_OVER }

def runq_boost_d : csched_vcpu := { vcpu_id := 4, pri := CSCHED_PRI_TS_BOOST }

def runq_idle : csched_vcpu := { vcpu_id := 0, pri := CSCHED_PRI_IDLE, is_idle := true }

/-- A yielding UNDER vCPU that is on no run queue. -/
def runq_yielder : csched_vcpu :=
  { vcpu_id := 5, pri := CSCHED_PRI_TS_UNDER, flags := CSCHED_FLAG_VCPU_YIELD }

/-! ## Burning credits -/

/-- Conversion of an integer to s_time_t (64-bit two's complement). -/
def toInt64 (x : Int) : Int :=
  (x + 9223372036854775808) % 18446744073709551616 - 9223372036854775808

@[simp] def CSCHED_CREDITS_PER_MSEC : Int := 1000

/-- Modelled from the spec: the macro MILLISECS of xen/time.h, which is not
part of the source at hand. Time is counted in nanoseconds (now() of the
specification), so a millisecond is 1000000 units of s_time_t. -/
def MILLISECS (ms : Int) : Int := toInt64 (ms * 1000000)

/-- The local delta of burn_credits: now - svc->start_time, an s_time_t. -/
def burn_delta (svc : csched_vcpu) (now : Int) : Int := toInt64 (now - svc.start_time)

/-- The local credits of burn_credits:
(delta*CSCHED_CREDITS_PER_MSEC + MILLISECS(1)/2) / MILLISECS(1), computed in
s_time_t and stored to an unsigned int. -/
def burn_amount (delta : Int) : Nat :=
  toU32 (Int.tdiv (toInt64 (toInt64 (delta * CSCHED_CREDITS_PER_MSEC)
    + Int.tdiv (MILLISECS 1) 2)) (MILLISECS 1))

/-- The function burn_credits(svc, now). atomic_sub takes credits as an int
and subtracts it from the 32-bit counter; start_time moves on by
(credits * MILLISECS(1)) / CSCHED_CREDITS_PER_MSEC, computed in s_time_t. The
ASSERT that svc is the current vCPU of its pCPU concerns the caller and is
not part of the record. -/
def burn_credits (svc : csched_vcpu) (now : Int) : csched_vcpu :=
  if burn_delta svc now ≤ 0 then svc
  else
    { svc with
      credit := toInt32 (svc.credit - toInt32 (burn_amount (burn_delta svc now)))
      start_time :=
        toInt64 (svc.start_time
          + Int.tdiv (toInt64 ((burn_amount (burn_delta svc now) : Int) * MILLISECS 1))
              CSCHED_CREDITS_PER_MSEC) }

/-- The credits of a positive time delta in nanoseconds as the specification
words them: the delta at 1000 credits per millisecond, rounded to the
nearest credit, floor((delta * 1000 + 500000) / 1000000). -/
def spec_burn_credits (delta : Int) : Int := (delta * 1000 + 500000) / 1000000

/-! ## Waking a vCPU -/

/-- The band csched_vcpu_wake gives to the vCPU it is about to queue: BOOST
for an UNDER vCPU that is not parked. -/
def wake_boost (svc : csched_vcpu) : csched_vcpu :=
  if svc.pri = CSCHED_PRI_TS_UNDER ∧ svc.flags &&& CSCHED_FLAG_VCPU_PARKED = 0 then
    { svc with pri := CSCHED_PRI_TS_BOOST }
  else svc

/-- The function csched_vcpu_wake(ops, vc) on the record spc of the pCPU
vc->processor and the record svc of the vCPU. is_curr stands for
per_cpu(schedule_data, cpu).curr == vc and on_runq for __vcpu_on_runq(svc);
none stands for a BUG_ON that fires. The result is the record of the pCPU and
the record of the vCPU. The closing call __runq_tickle(cpu, svc) raises
SCHEDULE_SOFTIRQ on a set of pCPUs and writes neither record. -/
def csched_vcpu_wake (head_pri : Int) (spc : csched_pcpu) (is_curr on_runq : Bool)
    (svc : csched_vcpu) : Option (csched_pcpu × csched_vcpu) :=
  if svc.is_idle then none
  else if is_curr then some (spc, svc)
  else if on_runq then some (spc, svc)
  else
    match __runq_insert head_pri spc.runq svc.processor (wake_boost svc) with
    | none => none
    | some runq => some ({ spc with runq := runq }, wake_boost svc)

/-! ## Stealing from a peer -/

/-- Conversion of an s_time_t to uint64_t (the usual arithmetic conversion
applied when a signed 64-bit value meets an unsigned one). -/
def toU64 (x : Int) : Nat := (x % 18446744073709551616).toNat

/-- The function __csched_vcpu_is_cache_hot(v), with NOW() and the global
vcpu_migration_delay as parameters: the comparison is carried out on
uint64_t. -/
def __csched_vcpu_is_cache_hot (now : Int) (vcpu_migration_delay : Nat) (v : csched_vcpu) :
    Bool :=
  decide (toU64 (now - v.last_run_time) < U64 (U32 vcpu_migration_delay * 1000))

/-- The function __csched_vcpu_is_migrateable(vc, dest_cpu). -/
def __csched_vcpu_is_migrateable (now : Int) (vcpu_migration_delay : Nat) (vc : csched_vcpu)
    (dest_cpu : Nat) : Bool :=
  !vc.is_running && !__csched_vcpu_is_cache_hot now vcpu_migration_delay vc
    && decide (dest_cpu ∈ vc.cpu_affinity)

/-- The walk of csched_runq_steal over the run queue of the peer. The result
is the vCPU grabbed, with its processor set, and the queue without it, or
nothing and the queue as it was; none stands for BUG_ON(is_idle_vcpu(vc)). -/
def runq_steal_walk (now : Int) (vcpu_migration_delay : Nat) (cpu : Nat) (pri : Int) :
    List csched_vcpu → Option (Option csched_vcpu × List csched_vcpu)
  | [] => some (none, [])
  | speer :: rest =>
    if speer.pri ≤ pri then some (none, speer :: rest)
    else if speer.is_idle then none
    else if __csched_vcpu_is_migrateable now vcpu_migration_delay speer cpu then
      some (some { speer with processor := cpu }, rest)
    else
      match runq_steal_walk now vcpu_migration_delay cpu pri rest with
      | none => none
      | some (r, runq) => some (r, speer :: runq)

/-- The function csched_runq_steal(peer_cpu, cpu, pri). peer_pcpu is
CSCHED_PCPU(peer_cpu), none when it is NULL, and peer_idle stands for
is_idle_vcpu(per_cpu(schedule_data, peer_cpu).curr). The result is the pointer
returned (none for NULL) and the record of the peer. -/
def csched_runq_steal (now : Int) (vcpu_migration_delay : Nat)
    (peer_pcpu : Option csched_pcpu) (peer_idle : Bool) (cpu : Nat) (pri : Int) :
    Option (Option csched_vcpu × Option csched_pcpu) :=
  match peer_pcpu with
  | none => some (none, none)
  | some spc =>
    if peer_idle then some (none, some spc)
    else
      match runq_steal_walk now vcpu_migration_delay cpu pri spc.runq with
      | none => none
      | some (r, runq) => some (r, some { spc with runq := runq })

/-- The vCPU X of the steal scenario: UNDER, not running, last run at time 0,
allowed on pCPU 0 and pCPU 1, queued on pCPU 1. -/
def steal_x : csched_vcpu :=
  { vcpu_id := 1, pri := CSCHED_PRI_TS_UNDER, processor := 1, cpu_affinity := [0, 1] }

/-- The vCPU Y of the steal scenario: OVER, queued on pCPU 1. -/
def steal_y : csched_vcpu :=
  { vcpu_id := 2, pri := CSCHED_PRI_TS_OVER, processor := 1, cpu_affinity := [0, 1] }

/-! ## The global parameters -/

/-- The constants of the public headers that csched_sys_cntl uses
(XEN_SYSCTL_CSCHED_TSLICE_UMIN and _UMAX, XEN_SYSCTL_SCHED_RATELIMIT_MIN and
_MAX of public/sysctl.h, EINVAL of xen/errno.h). The headers are not part of
the source at hand, so the constants are parameters. -/
structure sysctl_consts where
  TSLICE_UMIN : Nat
  TSLICE_UMAX : Nat
  RATELIMIT_MIN : Nat
  RATELIMIT_MAX : Nat
  EINVAL : Int
  deriving DecidableEq, Repr

/-- The commands of a scheduler sysctl: XEN_SYSCTL_SCHEDOP_putinfo,
XEN_SYSCTL_SCHEDOP_getinfo, and any other value of sc->cmd. -/
inductive sysctl_cmd where
  | putinfo
  | getinfo
  | other (cmd : Nat)
  deriving DecidableEq, Repr

/-- The struct xen_sysctl_credit_schedule as this scheduler uses it. -/
structure xen_sysctl_credit_schedule where
  tslice_us : Nat := 0
  ratelimit_us : Nat := 0
  deriving DecidableEq, Repr

/-- Modelled from the spec: the macro MICROSECS of xen/time.h, which is not
part of the source at hand. Time is counted in nanoseconds, so a microsecond
is 1000 units; the product is taken on unsigned long long and cast to
s_time_t. -/
def MICROSECS (us : Nat) : Int := toInt64 (U64 (us * 1000))

/-- The function csched_sys_cntl(ops, sc): the value returned, the
scheduler's private data and the parameter block sc->u.sched_credit. -/
def csched_sys_cntl (k : sysctl_consts) (prv : csched_private) (cmd : sysctl_cmd)
    (params : xen_sysctl_credit_schedule) :
    Int × csched_private × xen_sysctl_credit_schedule :=
  match cmd with
  | sysctl_cmd.putinfo =>
    if params.tslice_us > k.TSLICE_UMAX
        ∨ params.tslice_us < k.TSLICE_UMIN
        ∨ params.ratelimit_us > k.RATELIMIT_MAX
        ∨ params.ratelimit_us < k.RATELIMIT_MIN
        ∨ MICROSECS params.ratelimit_us > MICROSECS params.tslice_us then
      (-k.EINVAL, prv, params)
    else
      (0, { prv with tslice_us := params.tslice_us, ratelimit_us := params.ratelimit_us },
        { tslice_us := params.tslice_us, ratelimit_us := params.ratelimit_us })
  | sysctl_cmd.getinfo =>
    (0, prv, { tslice_us := prv.tslice_us, ratelimit_us := prv.ratelimit_us })
  | sysctl_cmd.other _ => (-k.EINVAL, prv, params)

/-- Limits for the examples: slices of 100 to 30000 microseconds, rate limits
of 100 to 500000 microseconds, EINVAL = 22. -/
def sysctl_demo : sysctl_consts :=
  { TSLICE_UMIN := 100, TSLICE_UMAX := 30000, RATELIMIT_MIN := 100, RATELIMIT_MAX := 500000,
    EINVAL := 22 }

/-! ## Parking and the pause counter -/

/-- The pauses the scheduler holds on a vCPU match its PARKED flag: one
outstanding pause when the flag is set and none when it is clear. -/
def pause_consistent (v : csched_vcpu) : Prop :=
  v.pause_count = if v.flags &&& CSCHED_FLAG_VCPU_PARKED ≠ 0 then 1 else 0

instance (v : csched_vcpu) : Decidable (pause_consistent v) := by
  unfold pause_consistent
  infer_instance

/-- Every vCPU record of a scheduler state, on an active list or unlinked, of
a domain on prv->active_sdom or unlinked from it, satisfies P. -/
def all_vcpus (P : csched_vcpu → Prop) (prv : csched_private) : Prop :=
  ∀ d ∈ prv.active_sdom ++ prv.inactive_sdom, ∀ v ∈ d.active_vcpu ++ d.inactive_vcpu, P v

instance (P : csched_vcpu → Prop) [DecidablePred P] (prv : csched_private) :
    Decidable (all_vcpus P prv) := by
  unfold all_vcpus
  infer_instance

/-- A capped domain for the examples: cap 10, weight 256, two active vCPUs,
one overdrawn by 500 credits and not parked, the other parked by an earlier
pass and back to a credit of 0. -/
def acct_park_dom : csched_dom :=
  { domain_id := 1, cap := 10, weight := 256, active_vcpu_count := 2,
    active_vcpu :=
      [{ vcpu_id := 0, credit := -500 },
       { vcpu_id := 1, credit := 0, flags := CSCHED_FLAG_VCPU_PARKED, pause_count := 1 }] }

/-- A scheduler state with acct_park_dom as the only active domain, one pCPU
and 100 credits per slice. -/
def acct_park : csched_private :=
  { active_sdom := [acct_park_dom],
    ncpus := 1, weight := 512, credit := 100, credits_per_tslice := 100 }

/-- The state csched_acct leaves from acct_park. -/
def acct_park_out : csched_private := (csched_acct acct_park).getD acct_park

/-! ## The active lists -/

/-- A pointer to a struct csched_dom: linked tells whether active_sdom_elem is
linked (the domain is on prv->active_sdom) and idx is the position of the
record among the linked domains, or among the unlinked ones. -/
structure sdom_ref where
  linked : Bool
  idx : Nat
  deriving DecidableEq, Repr

/-- A pointer to a struct csched_vcpu: its domain svc->sdom, whether
active_vcpu_elem is linked (the vCPU is on sdom->active_vcpu), and the
position of the record among the linked vCPUs of the domain, or among the
unlinked ones. -/
structure svc_ref where
  sdom : sdom_ref
  linked : Bool
  idx : Nat
  deriving DecidableEq, Repr

/-- The domain record a pointer names. -/
def csched_private.sdom_at (prv : csched_private) (r : sdom_ref) : Option csched_dom :=
  if r.linked then prv.active_sdom.get? r.idx else prv.inactive_sdom.get? r.idx

/-- The vCPU record a pointer names inside its domain. -/
def csched_dom.svc_at (sdom : csched_dom) (linked : Bool) (idx : Nat) : Option csched_vcpu :=
  if linked then sdom.active_vcpu.get? idx else sdom.inactive_vcpu.get? idx

/-- A domain record with new values for active_vcpu_count and for the two
lists of its vCPUs. -/
def csched_dom.set_active (sdom : csched_dom) (count : Nat)
    (active inactive : List csched_vcpu) : csched_dom :=
  { sdom with active_vcpu_count := count, active_vcpu := active, inactive_vcpu := inactive }

/-- A domain record with a new weight. -/
def csched_dom.set_weight (sdom : csched_dom) (weight : Nat) : csched_dom :=
  { sdom with weight := weight }

/-- A domain record with a new cap. -/
def csched_dom.set_cap (sdom : csched_dom) (cap : Nat) : csched_dom :=
  { sdom with cap := cap }

/-- The scheduler data with the record of the domain r stored back in its
place. -/
def csched_private.put_sdom (prv : csched_private) (r : sdom_ref) (sdom : csched_dom) :
    csched_private :=
  if r.linked then { prv with active_sdom := prv.active_sdom.set r.idx sdom }
  else { prv with inactive_sdom := prv.inactive_sdom.set r.idx sdom }

/-- The domain record after sdom->active_vcpu_count++ and
list_add(&svc->active_vcpu_elem, &sdom->active_vcpu) for its unlinked vCPU at
position idx. -/
def acct_start_dom (sdom : csched_dom) (v : csched_vcpu) (idx : Nat) : csched_dom :=
  sdom.set_active (U16 (sdom.active_vcpu_count + 1)) (v :: sdom.active_vcpu)
    (sdom.inactive_vcpu.eraseIdx idx)

/-- The function __csched_vcpu_acct_start(prv, svc). none stands for a pointer
that names no record. list_add links at the head of the list. -/
def __csched_vcpu_acct_start (prv : csched_private) (svc : svc_ref) : Option csched_private :=
  match prv.sdom_at svc.sdom with
  | none => none
  | some sdom =>
    match sdom.svc_at svc.linked svc.idx with
    | none => none
    | some v =>
      if svc.linked then some prv
      else if svc.sdom.linked then
        some { prv with
          weight := U32 (prv.weight + sdom.weight)
          active_sdom := prv.active_sdom.set svc.sdom.idx (acct_start_dom sdom v svc.idx) }
      else
        some { prv with
          weight := U32 (prv.weight + sdom.weight)
          active_sdom := acct_start_dom sdom v svc.idx :: prv.active_sdom
          inactive_sdom := prv.inactive_sdom.eraseIdx svc.sdom.idx }

/-- The domain record after sdom->active_vcpu_count-- and
list_del_init(&svc->active_vcpu_elem) for its linked vCPU at position idx. -/
def acct_stop_dom (sdom : csched_dom) (v : csched_vcpu) (idx : Nat) : csched_dom :=
  sdom.set_active (U16 (sdom.active_vcpu_count + 65535)) (sdom.active_vcpu.eraseIdx idx)
    (v :: sdom.inactive_vcpu)

/-- The function __csched_vcpu_acct_stop_locked(prv, svc). none stands for a
BUG_ON that fires (svc is not on an active list, or prv->weight is below
sdom->weight) and for a pointer that names no record. When the last vCPU
leaves, list_del_init(&sdom->active_sdom_elem) unlinks the domain; on a
domain that is not linked it changes nothing. -/
def __csched_vcpu_acct_stop_locked (prv : csched_private) (svc : svc_ref) :
    Option csched_private :=
  match prv.sdom_at svc.sdom with
  | none => none
  | some sdom =>
    match sdom.svc_at svc.linked svc.idx with
    | none => none
    | some v =>
      if svc.linked = false then none
      else if prv.weight < sdom.weight then none
      else if (sdom.active_vcpu.eraseIdx svc.idx).isEmpty ∧ svc.sdom.linked then
        some { prv with
          weight := U32 (prv.weight - sdom.weight)
          active_sdom := prv.active_sdom.eraseIdx svc.sdom.idx
          inactive_sdom := acct_stop_dom sdom v svc.idx :: prv.inactive_sdom }
      else
        some { prv.put_sdom svc.sdom (acct_stop_dom sdom v svc.idx) with
          weight := U32 (prv.weight - sdom.weight) }

/-- The function csched_vcpu_remove(ops, vc), on the scheduler data and the
run queue the vCPU may be on: on_runq is the position of svc on that queue
when __vcpu_on_runq(svc) holds. none stands for a BUG_ON that fires inside
__csched_vcpu_acct_stop_locked and for a pointer that names no record. The
two closing BUG_ONs hold by construction: a svc_ref always names a domain,
and the vCPU has just been unlinked from the queue. -/
def csched_vcpu_remove (prv : csched_private) (runq : List csched_vcpu) (on_runq : Option Nat)
    (svc : svc_ref) : Option (csched_private × List csched_vcpu) :=
  match (if svc.linked then __csched_vcpu_acct_stop_locked prv svc
         else (prv.sdom_at svc.sdom).bind fun sdom =>
           (sdom.svc_at svc.linked svc.idx).map fun _ => prv) with
  | none => none
  | some prv1 =>
    match on_runq with
    | some i => some (prv1, runq.eraseIdx i)
    | none => some (prv1, runq)

/-- The commands of a scheduler domctl: XEN_DOMCTL_SCHEDOP_putinfo,
XEN_DOMCTL_SCHEDOP_getinfo, and any other value of op->cmd. -/
inductive domctl_cmd where
  | putinfo
  | getinfo
  | other (cmd : Nat)
  deriving DecidableEq, Repr

/-- The struct xen_domctl_sched_credit: op->u.credit. -/
structure xen_domctl_sched_credit where
  weight : Nat := 0
  cap : Nat := 0
  deriving DecidableEq, Repr

/-- The value of prv->weight after csched_dom_cntl has taken the old weight
of the domain out and put the new one in, each times active_vcpu_count, on
32 bits. -/
def dom_cntl_weight (prv : csched_private) (sdom : csched_dom) (weight : Nat) : Nat :=
  U32 (U32 (prv.weight + negU32 (U32 (sdom.weight * sdom.active_vcpu_count)))
    + U32 (weight * sdom.active_vcpu_count))

/-- The domain record csched_dom_cntl leaves for putinfo: the weight is
stored unless it is 0, the cap unless it is (uint16_t)~0U. -/
def dom_cntl_dom (sdom : csched_dom) (op : xen_domctl_sched_credit) : csched_dom :=
  if op.weight ≠ 0 then
    if op.cap ≠ 65535 then (sdom.set_weight op.weight).set_cap op.cap
    else sdom.set_weight op.weight
  else if op.cap ≠ 65535 then sdom.set_cap op.cap
  else sdom

/-- The function csched_dom_cntl(ops, d, op): the value returned, the
scheduler data and op->u.credit. none stands for a pointer that names no
record and for a command that is neither getinfo nor putinfo (the ASSERT of
the else branch). -/
def csched_dom_cntl (prv : csched_private) (d : sdom_ref) (cmd : domctl_cmd)
    (op : xen_domctl_sched_credit) :
    Option (Int × csched_private × xen_domctl_sched_credit) :=
  match prv.sdom_at d with
  | none => none
  | some sdom =>
    match cmd with
    | domctl_cmd.getinfo => some (0, prv, { weight := sdom.weight, cap := sdom.cap })
    | domctl_cmd.putinfo =>
      if op.weight ≠ 0 ∧ d.linked then
        some (0, { prv.put_sdom d (dom_cntl_dom sdom op) with
          weight := dom_cntl_weight prv sdom op.weight }, op)
      else some (0, prv.put_sdom d (dom_cntl_dom sdom op), op)
    | domctl_cmd.other _ => none

/-- The active-membership invariant: the active_vcpu_count of every domain
is the length of its list of active vCPUs, and the domain is on
prv->active_sdom exactly when that list is not empty. -/
def active_membership (prv : csched_private) : Prop :=
  (∀ d ∈ prv.active_sdom, d.active_vcpu_count = d.active_vcpu.length ∧ d.active_vcpu ≠ [])
  ∧ (∀ d ∈ prv.inactive_sdom, d.active_vcpu_count = d.active_vcpu.length ∧ d.active_vcpu = [])

/-- The weight invariant: prv->weight is the sum over the domains on
prv->active_sdom of weight * active_vcpu_count. -/
def weight_invariant (prv : csched_private) : Prop :=
  prv.weight = acct_weight_sum prv.active_sdom

/-- The 16-bit fields weight, cap and active_vcpu_count of a domain record fit
their C type. -/
def csched_dom.typed (d : csched_dom) : Prop :=
  d.weight < 65536 ∧ d.cap < 65536 ∧ d.active_vcpu_count < 65536

/-- The fields of the scheduler data that the active lists and the weights
involve fit their C types: prv->weight 32 bits, and weight, cap and
active_vcpu_count of every domain 16 bits. -/
def csched_private.typed (prv : csched_private) : Prop :=
  prv.weight < 4294967296 ∧ ∀ d ∈ prv.active_sdom ++ prv.inactive_sdom, d.typed

instance (d : csched_dom) : Decidable d.typed := by
  unfold csched_dom.typed
  infer_instance

instance (prv : csched_private) : Decidable (active_membership prv) := by
  unfold active_membership
  infer_instance

instance (prv : csched_private) : Decidable (weight_invariant prv) := by
  unfold weight_invariant
  infer_instance

instance (prv : csched_private) : Decidable prv.typed := by
  unfold csched_private.typed
  infer_instance

/-- A domain with 65535 vCPUs on its active list, the largest number its
16-bit active_vcpu_count can hold, and one more vCPU that is not on the list;
weight 1. -/
def active_full_dom : csched_dom :=
  { domain_id := 1, weight := 1, active_vcpu_count := 65535,
    active_vcpu := List.replicate 65535 {}, inactive_vcpu := [{ vcpu_id := 65535 }] }

/-- A scheduler state with active_full_dom as the only active domain. -/
def active_full : csched_private := { active_sdom := [active_full_dom], weight := 65535 }

/-- The pointer to the vCPU of active_full that is not on the active list. -/
def active_full_svc : svc_ref := { sdom := { linked := true, idx := 0 }, linked := false, idx := 0 }

/-- The state __csched_vcpu_acct_start leaves from active_full: the count has
wrapped to 0 and the list holds 65536 vCPUs. -/
def active_full_out : csched_private :=
  { active_sdom :=
      [{ domain_id := 1, weight := 1, active_vcpu_count := 0,
         active_vcpu := { vcpu_id := 65535 } :: List.replicate 65535 {}, inactive_vcpu := [] }],
    weight := 65536 }

/-- A scheduler state that keeps the weight invariant but not the
active-membership invariant: no active domain, prv->weight 0, and a domain
off prv->active_sdom with a stale active_vcpu_count of 5 and one vCPU that is
not on its active list. -/
def active_stale : csched_private :=
  { inactive_sdom :=
      [{ domain_id := 1, weight := 256, active_vcpu_count := 5,
         inactive_vcpu := [{ vcpu_id := 0 }] }] }

/-- A scheduler state whose total weight is 2^32 - 1: a domain of weight 65535
with 65534 active vCPUs and a domain of weight 65535 with 3 active vCPUs and
one vCPU that is not on the active list. -/
def active_heavy : csched_private :=
  { active_sdom :=
      [{ domain_id := 1, weight := 65535, active_vcpu_count := 65534,
         active_vcpu := List.replicate 65534 {} },
       { domain_id := 2, weight := 65535, active_vcpu_count := 3,
         active_vcpu := [{ vcpu_id := 0 }, { vcpu_id := 1 }, { vcpu_id := 2 }],
         inactive_vcpu := [{ vcpu_id := 3 }] }],
    weight := 4294967295 }

/-- The state __csched_vcpu_acct_start leaves from active_heavy for the vCPU
of the second domain that is not on the active list: prv->weight has wrapped
to 65534. -/
def active_heavy_out : csched_private :=
  { active_sdom :=
      [{ domain_id := 1, weight := 65535, active_vcpu_count := 65534,
         active_vcpu := List.replicate 65534 {} },
       { domain_id := 2, weight := 65535, active_vcpu_count := 4,
         active_vcpu := [{ vcpu_id := 3 }, { vcpu_id := 0 }, { vcpu_id := 1 }, { vcpu_id := 2 }],
         inactive_vcpu := [] }],
    weight := 65534 }

/-- A scheduler state with a domain of weight 65535 with 65534 active vCPUs
and a domain of weight 1 with 4 active vCPUs: a total weight of
4294770694. -/
def active_reweigh : csched_private :=
  { active_sdom :=
      [{ domain_id := 1, weight := 65535, active_vcpu_count := 65534,
         active_vcpu := List.replicate 65534 {} },
       { domain_id := 2, weight := 1, active_vcpu_count := 4,
         active_vcpu := [{ vcpu_id := 0 }, { vcpu_id := 1 }, { vcpu_id := 2 }, { vcpu_id := 3 }] }],
    weight := 4294770694 }

/-- The state csched_dom_cntl leaves from active_reweigh when the weight of
the second domain is set to 65535: prv->weight has wrapped to 65534. -/
def active_reweigh_out : csched_private :=
  { active_sdom :=
      [{ domain_id := 1, weight := 65535, active_vcpu_count := 65534,
         active_vcpu := List.replicate 65534 {} },
       { domain_id := 2, weight := 65535, active_vcpu_count := 4,
         active_vcpu := [{ vcpu_id := 0 }, { vcpu_id := 1 }, { vcpu_id := 2 }, { vcpu_id := 3 }] }],
    weight := 65534 }

/-- A domain after csched_dom_init and seven controller passes on the
constant sample (I, M) = (1000, 1000): five warm-up passes and two stable
passes that see a windowed miss rate of 100000 and raise the slice to 300. -/
def dom_slice_300 : csched_dom :=
  controller_run (csched_dom_init 1) (List.replicate 7 (1000, 1000))

/-- The state dom_slice_300 after an unstable pass on the sample (1000, 10):
the warm-up counter is 4 and the slice is still 300. -/
def dom_warm_300 : csched_dom := csched_submilli_metric_update dom_slice_300 1000 10

/-- The sample {A, I, M} as the ring stores it: A on 16 bits, I and M on 32
bits. -/
def spec_sample (A I M : Nat) : event_sample :=
  { spinlock := A % 65536, inst_retired := I % 4294967296, cache_misses := M % 4294967296 }

/-- A steady state whose ring holds five samples (I, M) = (1, 85900), slice
500: the windowed miss rate over the naturals is 8590000000, above 2^32. -/
def dom_ring_wrap : csched_dom :=
  { tslice_us := 500, event_tracking_window := 0,
    filter :=
      { s0 := { inst_retired := 1, cache_misses := 85900 }
        s1 := { inst_retired := 1, cache_misses := 85900 }
        s2 := { inst_retired := 1, cache_misses := 85900 }
        s3 := { inst_retired := 1, cache_misses := 85900 }
        s4 := { inst_retired := 1, cache_misses := 85900 } } }

/-- The ring the unstable branch leaves: slot 0 holds the sample {A, I, M} as
the ring stores it, slots 1 to 4 are all-zero. -/
def spec_seed (A I M : Nat) : event_filter :=
  { s0 := spec_sample A I M
    s1 := { spinlock := 0, inst_retired := 0, cache_misses := 0 }
    s2 := { spinlock := 0, inst_retired := 0, cache_misses := 0 }
    s3 := { spinlock := 0, inst_retired := 0, cache_misses := 0 }
    s4 := { spinlock := 0, inst_retired := 0, cache_misses := 0 } }

/-! ## CPU masks -/

/-- Modelled from the spec: cpumask_first of xen/cpumask.h, which is not part
of the source at hand: the lowest-numbered pCPU of the mask, nr_cpu_ids when
the mask is empty. A cpumask_t is the finite set of the pCPUs whose bit is
set; nr_cpu_ids is the number of possible pCPUs. -/
def cpumask_first (nr_cpu_ids : Nat) (src : Finset Nat) : Nat :=
  ((List.range nr_cpu_ids).find? fun c => decide (c ∈ src)).getD nr_cpu_ids

/-- Modelled from the spec: cpumask_next of xen/cpumask.h: the
lowest-numbered pCPU of the mask above n, nr_cpu_ids when there is none. -/
def cpumask_next (nr_cpu_ids : Nat) (n : Nat) (src : Finset Nat) : Nat :=
  ((List.range nr_cpu_ids).find? fun c => decide (n < c ∧ c ∈ src)).getD nr_cpu_ids

/-- Modelled from the spec: cpumask_cycle of xen/cpumask.h: the next pCPU of
the mask after n in cyclic order, wrapping around to the first one. -/
def cpumask_cycle (nr_cpu_ids : Nat) (n : Nat) (src : Finset Nat) : Nat :=
  if cpumask_next nr_cpu_ids n src = nr_cpu_ids then cpumask_first nr_cpu_ids src
  else cpumask_next nr_cpu_ids n src

/-- The two masks of struct csched_private, prv->idlers and prv->cpus, kept
beside the record of its scalar fields. -/
structure csched_masks where
  idlers : Finset Nat := ∅
  cpus : Finset Nat := ∅
  deriving DecidableEq

/-! ## Bringing a pCPU in and out -/

/-- The scheduler data with new values for prv->credit, prv->ncpus and
prv->master. -/
def csched_private.set_pdata (prv : csched_private) (credit ncpus master : Nat) :
    csched_private :=
  { prv with credit := credit, ncpus := ncpus, master := master }

/-- The function csched_alloc_pdata(ops, cpu): the scheduler data and the
record of the pCPU it returns (none for NULL). alloc_ok tells whether xzalloc
returned a record, curr_idle stands for
is_idle_vcpu(per_cpu(schedule_data, cpu).curr); the outer none stands for the
BUG_ON. The timers and the registration of spc in schedule_data are not part
of the records. -/
def csched_alloc_pdata (nr_cpu_ids : Nat) (prv : csched_private) (m : csched_masks)
    (cpu : Nat) (alloc_ok curr_idle : Bool) :
    Option (csched_private × csched_masks × Option csched_pcpu) :=
  if alloc_ok = false then some (prv, m, none)
  else if curr_idle = false then none
  else
    some
      (prv.set_pdata (U32 (prv.credit + prv.credits_per_tslice)) (U32 (prv.ncpus + 1))
          (if U32 (prv.ncpus + 1) = 1 then cpu else prv.master),
        { idlers := insert cpu m.idlers, cpus := insert cpu m.cpus },
        some { runq := [], runq_sort_last := prv.runq_sort, tick := 0,
               idle_bias := U32 (nr_cpu_ids + 4294967295) })

/-- The function csched_free_pdata(ops, pcpu, cpu) on the scheduler data;
spc is the record pcpu points to, none for NULL. -/
def csched_free_pdata (nr_cpu_ids : Nat) (prv : csched_private) (m : csched_masks)
    (spc : Option csched_pcpu) (cpu : Nat) : csched_private × csched_masks :=
  match spc with
  | none => (prv, m)
  | some _ =>
    (prv.set_pdata (U32 (prv.credit + negU32 prv.credits_per_tslice))
        (U32 (prv.ncpus + 4294967295))
        (if prv.master = cpu ∧ U32 (prv.ncpus + 4294967295) > 0 then
          cpumask_first nr_cpu_ids (m.cpus.erase cpu)
        else prv.master),
      { idlers := m.idlers.erase cpu, cpus := m.cpus.erase cpu })

/-- A call that brings a pCPU in or out: csched_alloc_pdata for cpu (with a
record allocated and the idle vCPU current on cpu), or csched_free_pdata for
cpu and its record. -/
inductive pdata_op where
  | alloc (cpu : Nat)
  | free (cpu : Nat)
  deriving DecidableEq, Repr

/-- The scheduler data after one call. -/
def pdata_step (nr_cpu_ids : Nat) (st : csched_private × csched_masks) :
    pdata_op → Option (csched_private × csched_masks)
  | pdata_op.alloc cpu =>
    (csched_alloc_pdata nr_cpu_ids st.1 st.2 cpu true true).map fun r => (r.1, r.2.1)
  | pdata_op.free cpu => some (csched_free_pdata nr_cpu_ids st.1 st.2 (some {}) cpu)

/-- The scheduler data after a sequence of calls. -/
def pdata_run (nr_cpu_ids : Nat) :
    csched_private × csched_masks → List pdata_op → Option (csched_private × csched_masks)
  | st, [] => some st
  | st, op :: ops =>
    match pdata_step nr_cpu_ids st op with
    | none => none
    | some st1 => pdata_run nr_cpu_ids st1 ops

/-- A call adds a pCPU that is absent (and is one of the nr_cpu_ids possible
pCPUs) or removes a pCPU that is present. -/
def pdata_admissible (nr_cpu_ids : Nat) (st : csched_private × csched_masks) :
    pdata_op → Prop
  | pdata_op.alloc cpu => cpu < nr_cpu_ids ∧ cpu ∉ st.2.cpus
  | pdata_op.free cpu => cpu ∈ st.2.cpus

/-- Every call of the sequence adds a pCPU only when it is absent and removes
one only when it is present. -/
def pdata_valid (nr_cpu_ids : Nat) :
    csched_private × csched_masks → List pdata_op → Prop
  | _, [] => True
  | st, op :: ops =>
    pdata_admissible nr_cpu_ids st op
    ∧ match pdata_step nr_cpu_ids st op with
      | some st1 => pdata_valid nr_cpu_ids st1 ops
      | none => False

instance (nr_cpu_ids : Nat) (st : csched_private × csched_masks) (op : pdata_op) :
    Decidable (pdata_admissible nr_cpu_ids st op) := by
  cases op <;> unfold pdata_admissible <;> infer_instance

instance pdata_valid_decidable (nr_cpu_ids : Nat) :
    (ops : List pdata_op) → (st : csched_private × csched_masks) →
      Decidable (pdata_valid nr_cpu_ids st ops)
  | [], _ => isTrue trivial
  | op :: ops, st =>
    match h : pdata_step nr_cpu_ids st op with
    | some st1 =>
      have := pdata_valid_decidable nr_cpu_ids ops st1
      decidable_of_iff (pdata_admissible nr_cpu_ids st op ∧ pdata_valid nr_cpu_ids st1 ops)
        (by
          show _ ↔ (pdata_admissible nr_cpu_ids st op
            ∧ match pdata_step nr_cpu_ids st op with
              | some st1 => pdata_valid nr_cpu_ids st1 ops
              | none => False)
          rw [h])
    | none =>
      isFalse (by
        show ¬ (pdata_admissible nr_cpu_ids st op
          ∧ match pdata_step nr_cpu_ids st op with
            | some st1 => pdata_valid nr_cpu_ids st1 ops
            | none => False)
        rw [h]
        exact fun hc => hc.2)

/-- A scheduler state as csched_init leaves it for the bookkeeping of the
pCPUs (no pCPU, prv->credit 0, master UINT_MAX), with 100 credits per
slice. -/
def pdata_fresh : csched_private × csched_masks :=
  ({ ncpus := 0, credit := 0, master := 4294967295, credits_per_tslice := 100 }, {})

/-- The state of the pCPU bookkeeping the claims are about: ncpus counts the
pCPUs of prv->cpus, prv->credit is ncpus * credits_per_tslice on 32 bits, the
master is one of the pCPUs when there is one, and every pCPU is one of the
nr_cpu_ids possible ones. -/
def pdata_inv (nr_cpu_ids : Nat) (st : csched_private × csched_masks) : Prop :=
  st.1.ncpus = st.2.cpus.card
  ∧ st.1.credit = st.1.ncpus * st.1.credits_per_tslice % 4294967296
  ∧ (0 < st.1.ncpus → st.1.master ∈ st.2.cpus)
  ∧ ∀ c ∈ st.2.cpus, c < nr_cpu_ids

/-! ## The metric pass -/

/-- An array of four performance counters, unsigned long long each:
vc->pmc[], svc->prev_pmc[], sdom->pmc[] and the local curr_pmc[]. Counter 0
counts instructions retired, counter 3 cache misses. -/
structure pmc_regs where
  c0 : Nat := 0
  c1 : Nat := 0
  c2 : Nat := 0
  c3 : Nat := 0
  deriving DecidableEq, Repr

/-- The counters of a vCPU: vc->pmc[], the current values, and
svc->prev_pmc[], the snapshot taken by the previous metric pass. -/
structure metric_vcpu where
  pmc : pmc_regs := {}
  prev_pmc : pmc_regs := {}
  deriving DecidableEq, Repr

/-- A domain as csched_dom_metric_update sees it: the record sdom of the
scheduler, its vCPUs in the order of for_each_vcpu, sdom->pmc[],
sdom->cache_miss_rate, sdom->cpi, sdom->pending_requests and the counter
dom->pending_requests of the struct domain. -/
structure metric_dom where
  sdom : csched_dom := {}
  vcpus : List metric_vcpu := []
  pmc : pmc_regs := {}
  cache_miss_rate : Nat := 0
  cpi : Nat := 0
  pending_requests : Nat := 0
  dom_pending_requests : Nat := 0
  deriving DecidableEq, Repr

/-- The statement curr_pmc[i] += (vc->pmc[i] - svc->prev_pmc[i]) for one
counter, on unsigned long long. -/
def pmc_accum (curr pmc prev : Nat) : Nat :=
  U64 (curr + U64 (pmc + (18446744073709551616 - prev % 18446744073709551616)))

/-- The loop over i = 0..3 for one vCPU: the new curr_pmc[]. -/
def pmc_accum_regs (curr : pmc_regs) (vc : metric_vcpu) : pmc_regs :=
  { c0 := pmc_accum curr.c0 vc.pmc.c0 vc.prev_pmc.c0
    c1 := pmc_accum curr.c1 vc.pmc.c1 vc.prev_pmc.c1
    c2 := pmc_accum curr.c2 vc.pmc.c2 vc.prev_pmc.c2
    c3 := pmc_accum curr.c3 vc.pmc.c3 vc.prev_pmc.c3 }

/-- The loop for_each_vcpu(dom, vc) of csched_dom_metric_update: from
curr_pmc[] and sdom->pmc[] to the new curr_pmc[], the new sdom->pmc[] and the
vCPUs with their snapshots set to the current counters. -/
def metric_vcpus (curr sdom_pmc : pmc_regs) :
    List metric_vcpu → pmc_regs × pmc_regs × List metric_vcpu
  | [] => (curr, sdom_pmc, [])
  | vc :: rest =>
    ((metric_vcpus (pmc_accum_regs curr vc) (pmc_accum_regs curr vc) rest).1,
      (metric_vcpus (pmc_accum_regs curr vc) (pmc_accum_regs curr vc) rest).2.1,
      { vc with prev_pmc := vc.pmc }
        :: (metric_vcpus (pmc_accum_regs curr vc) (pmc_accum_regs curr vc) rest).2.2)

/-- The locals of csched_dom_metric_update that live across the domains of a
pass: curr_pmc[], the sums inst_sum, cycle_sum and cache_miss_sum, and
prv->metric_update_last. -/
structure metric_locals where
  curr_pmc : pmc_regs := {}
  inst_sum : Nat := 0
  cycle_sum : Nat := 0
  cache_miss_sum : Nat := 0
  metric_update_last : Nat := 0
  deriving DecidableEq, Repr

/-- The sums after inst_sum += curr_pmc[0], cycle_sum += curr_pmc[1] and
cache_miss_sum += curr_pmc[3]. -/
def metric_sums (l : metric_locals) (curr : pmc_regs) : metric_locals :=
  { l with
    curr_pmc := curr
    inst_sum := U64 (l.inst_sum + curr.c0)
    cycle_sum := U64 (l.cycle_sum + curr.c1)
    cache_miss_sum := U64 (l.cache_miss_sum + curr.c3) }

/-- The end of the body for one domain: the sums are cleared and
prv->metric_update_last brought up to date when the epoch has moved on.
update_epoch is an int, compared with and stored to a 32-bit field. -/
def metric_epoch (update_epoch : Int) (l : metric_locals) : metric_locals :=
  if toU32 update_epoch ≠ l.metric_update_last then
    { l with inst_sum := 0, cycle_sum := 0, cache_miss_sum := 0,
             metric_update_last := toU32 update_epoch }
  else l

/-- The body of for_each_domain for one domain that is not the idle domain:
the locals after it, the domain after it, and the sample (curr_pmc[0],
curr_pmc[3]) that the body hands to csched_submilli_metric_update. -/
def metric_dom_body (update_epoch : Int) (l : metric_locals) (d : metric_dom) :
    metric_locals × metric_dom × (Nat × Nat) :=
  (metric_epoch update_epoch (metric_sums l (metric_vcpus l.curr_pmc d.pmc d.vcpus).1),
    { sdom :=
        metric_accum_reset
          (csched_submilli_metric_update d.sdom
            (metric_vcpus l.curr_pmc d.pmc d.vcpus).1.c0
            (metric_vcpus l.curr_pmc d.pmc d.vcpus).1.c3)
      vcpus := (metric_vcpus l.curr_pmc d.pmc d.vcpus).2.2
      pmc := (metric_vcpus l.curr_pmc d.pmc d.vcpus).2.1
      cache_miss_rate :=
        U16 (if (metric_sums l (metric_vcpus l.curr_pmc d.pmc d.vcpus).1).inst_sum ≠ 0 then
          U64 ((metric_sums l (metric_vcpus l.curr_pmc d.pmc d.vcpus).1).cache_miss_sum * 100000)
            / (metric_sums l (metric_vcpus l.curr_pmc d.pmc d.vcpus).1).inst_sum
          else 0)
      cpi :=
        U16 (if (metric_sums l (metric_vcpus l.curr_pmc d.pmc d.vcpus).1).inst_sum ≠ 0 then
          U64 ((metric_sums l (metric_vcpus l.curr_pmc d.pmc d.vcpus).1).cycle_sum * 1000)
            / (metric_sums l (metric_vcpus l.curr_pmc d.pmc d.vcpus).1).inst_sum
          else 0)
      pending_requests := d.dom_pending_requests
      dom_pending_requests := 0 },
    ((metric_vcpus l.curr_pmc d.pmc d.vcpus).1.c0, (metric_vcpus l.curr_pmc d.pmc d.vcpus).1.c3))

/-- The loop for_each_domain(dom) of csched_dom_metric_update: the idle
domain is skipped. The result is the locals, the domains, and the samples
handed to the controller, one for every domain that is not the idle domain,
in the order of the visit. -/
def metric_doms (update_epoch : Int) :
    metric_locals → List metric_dom → metric_locals × List metric_dom × List (Nat × Nat)
  | l, [] => (l, [], [])
  | l, d :: rest =>
    if d.sdom.is_idle_domain then
      ((metric_doms update_epoch l rest).1, d :: (metric_doms update_epoch l rest).2.1,
        (metric_doms update_epoch l rest).2.2)
    else
      ((metric_doms update_epoch (metric_dom_body update_epoch l d).1 rest).1,
        (metric_dom_body update_epoch l d).2.1
          :: (metric_doms update_epoch (metric_dom_body update_epoch l d).1 rest).2.1,
        (metric_dom_body update_epoch l d).2.2
          :: (metric_doms update_epoch (metric_dom_body update_epoch l d).1 rest).2.2)

/-- The function csched_dom_metric_update(cpu), on the domains of the system
in the order of for_each_domain, with prv->master, prv->metric_update and
prv->metric_update_last: the domains and prv->metric_update_last after the
call, and the samples handed to the controller. curr_pmc[] and the three sums
are cleared once, at the start of the call. -/
def csched_dom_metric_update (master metric_update metric_update_last cpu : Nat)
    (doms : List metric_dom) : List metric_dom × Nat × List (Nat × Nat) :=
  if master = cpu then
    ((metric_doms (toInt32 metric_update) { metric_update_last := metric_update_last } doms).2.1,
      (metric_doms (toInt32 metric_update)
        { metric_update_last := metric_update_last } doms).1.metric_update_last,
      (metric_doms (toInt32 metric_update) { metric_update_last := metric_update_last } doms).2.2)
  else (doms, metric_update_last, [])

/-- The sample a domain would hand to its controller on its own counters:
the sum over its vCPUs of current counter minus snapshot, for counters 0 and
3. -/
def spec_dom_sample (d : metric_dom) : Nat × Nat :=
  ((d.vcpus.map fun vc => vc.pmc.c0 - vc.prev_pmc.c0).sum,
    (d.vcpus.map fun vc => vc.pmc.c3 - vc.prev_pmc.c3).sum)

/-- A domain with one vCPU that retired 1000 instructions with 10 cache
misses since its snapshot. -/
def metric_dom_a : metric_dom :=
  { sdom := { domain_id := 1 },
    vcpus := [{ pmc := { c0 := 5000, c1 := 9000, c3 := 40 },
                prev_pmc := { c0 := 4000, c1 := 7000, c3 := 30 } }] }

/-- A domain with two vCPUs that together retired 500 instructions with 5
cache misses since their snapshots. -/
def metric_dom_b : metric_dom :=
  { sdom := { domain_id := 2 },
    vcpus := [{ pmc := { c0 := 300, c1 := 800, c3 := 3 }, prev_pmc := {} },
              { pmc := { c0 := 700, c1 := 900, c3 := 12 },
                prev_pmc := { c0 := 500, c1 := 600, c3 := 10 } }] }

/-! ## The CPU picker -/

/-- Modelled from the spec: cpumask_empty of xen/cpumask.h, which is not part
of the source at hand: no pCPU below nr_cpu_ids is in the mask. -/
def cpumask_empty (nr_cpu_ids : Nat) (src : Finset Nat) : Bool :=
  decide (cpumask_first nr_cpu_ids src = nr_cpu_ids)

/-- What _csched_cpu_pick reads besides the vCPU: the number of possible
pCPUs, the mask cpupool_scheduler_cpumask(vc->domain->cpupool) of the pool,
cpu_online_map, prv->idlers, the per-pCPU masks cpu_core_mask and
cpu_sibling_mask, the idle_bias of the record of every pCPU, the flag
sched_smt_power_savings, and whether the build has its ASSERTs compiled in
(without them ASSERT(p) checks nothing). -/
structure pick_env where
  asserts : Bool
  nr_cpu_ids : Nat
  online : Finset Nat
  cpu_online_map : Finset Nat
  idlers : Finset Nat
  cpu_core_mask : Nat → Finset Nat
  cpu_sibling_mask : Nat → Finset Nat
  idle_bias : Nat → Nat
  sched_smt_power_savings : Bool

/-- The comparison of the idle neighbourhoods of cpu and nxt and what follows
it in the loop of _csched_cpu_pick: mask is cpu_sibling_mask on the same
socket and cpu_core_mask across sockets, idlers is the local mask of that
name. The result is cpu, cpus and spc after the iteration; spc is named by
the pCPU whose record it points to, none for NULL. -/
def pick_step (e : pick_env) (idlers : Finset Nat) (mask : Nat → Finset Nat)
    (migrate_factor : Nat) (cpu nxt : Nat) (cpus : Finset Nat) (spc : Option Nat) :
    Nat × Finset Nat × Option Nat :=
  if (if e.sched_smt_power_savings then
        (idlers ∩ mask cpu).card > (idlers ∩ mask nxt).card
      else (idlers ∩ mask cpu).card * migrate_factor < (idlers ∩ mask nxt).card) then
    (cpumask_cycle e.nr_cpu_ids (e.idle_bias nxt) (cpus ∩ (idlers ∩ mask nxt)),
      cpus \ e.cpu_sibling_mask
        (cpumask_cycle e.nr_cpu_ids (e.idle_bias nxt) (cpus ∩ (idlers ∩ mask nxt))),
      some nxt)
  else (cpu, cpus \ (idlers ∩ mask nxt), spc)

/-- One iteration of the loop of _csched_cpu_pick for the candidate nxt; none
stands for an ASSERT that fails (the core masks of cpu and nxt disagree, in a
build that checks its ASSERTs). -/
def pick_iter (e : pick_env) (idlers : Finset Nat) (cpu nxt : Nat) (cpus : Finset Nat)
    (spc : Option Nat) : Option (Nat × Finset Nat × Option Nat) :=
  if cpu ∈ e.cpu_core_mask nxt then
    if e.asserts = true ∧ nxt ∉ e.cpu_core_mask cpu then none
    else some (pick_step e idlers e.cpu_sibling_mask 1 cpu nxt cpus spc)
  else
    if e.asserts = true ∧ nxt ∈ e.cpu_core_mask cpu then none
    else some (pick_step e idlers e.cpu_core_mask 2 cpu nxt cpus spc)

/-- The loop while ( !cpumask_empty(&cpus) ) of _csched_cpu_pick, run for at
most fuel iterations: cpu and spc when the loop ends, none when an ASSERT
fails or the iterations run out. -/
def pick_loop (e : pick_env) (idlers : Finset Nat) :
    Nat → Nat → Finset Nat → Option Nat → Option (Nat × Option Nat)
  | 0, cpu, cpus, spc => if cpumask_empty e.nr_cpu_ids cpus then some (cpu, spc) else none
  | fuel + 1, cpu, cpus, spc =>
    if cpumask_empty e.nr_cpu_ids cpus then some (cpu, spc)
    else
      match pick_iter e idlers cpu (cpumask_cycle e.nr_cpu_ids cpu cpus) cpus spc with
      | none => none
      | some r => pick_loop e idlers fuel r.1 r.2.1 r.2.2

/-- The pCPUs the vCPU may be placed on: online in its pool and in its
affinity mask. -/
def pick_eligible (e : pick_env) (vc : csched_vcpu) : Finset Nat :=
  e.online ∩ vc.cpu_affinity.toFinset

/-- The initial candidate of _csched_cpu_pick: the current processor of the
vCPU if it is eligible, the next eligible pCPU in cyclic order otherwise. -/
def pick_first (e : pick_env) (vc : csched_vcpu) : Nat :=
  if vc.processor ∈ pick_eligible e vc then vc.processor
  else cpumask_cycle e.nr_cpu_ids vc.processor (pick_eligible e vc)

/-- The local mask idlers of _csched_cpu_pick: cpu_online_map AND
prv->idlers, with the initial candidate added. -/
def pick_idlers (e : pick_env) (vc : csched_vcpu) : Finset Nat :=
  insert (pick_first e vc) (e.cpu_online_map ∩ e.idlers)

/-- The mask cpus of _csched_cpu_pick when the loop starts: the eligible
pCPUs that are idle, without the initial candidate. -/
def pick_candidates (e : pick_env) (vc : csched_vcpu) : Finset Nat :=
  (pick_eligible e vc ∩ pick_idlers e vc).erase (pick_first e vc)

/-- The function _csched_cpu_pick(ops, vc, commit): the pCPU returned and the
idle_bias of every pCPU record after the call. none stands for an ASSERT that
fails in a build that checks its ASSERTs. Every iteration of the loop that
does not fail takes at least one pCPU out of cpus, so the loop is run for at
most nr_cpu_ids iterations. -/
def _csched_cpu_pick (e : pick_env) (vc : csched_vcpu) (commit : Bool) :
    Option (Nat × (Nat → Nat)) :=
  if e.asserts = true ∧ (cpumask_empty e.nr_cpu_ids (pick_eligible e vc) = true
      ∨ pick_first e vc ∉ pick_eligible e vc) then none
  else
    match pick_loop e (pick_idlers e vc) e.nr_cpu_ids (pick_first e vc)
        (pick_candidates e vc) none with
    | none => none
    | some r =>
      some (r.1, fun c => if commit = true ∧ r.2 = some c then r.1 else e.idle_bias c)

/-- A machine with four pCPUs on one socket, two cores with two threads each
(pCPUs 0, 1 and pCPUs 2, 3); all four are online and pCPUs 2 and 3 are
idle; the ASSERTs are checked. -/
def pick_demo : pick_env :=
  { asserts := true, nr_cpu_ids := 4, online := {0, 1, 2, 3}, cpu_online_map := {0, 1, 2, 3},
    idlers := {2, 3},
    cpu_core_mask := fun _ => {0, 1, 2, 3},
    cpu_sibling_mask := fun c => if c < 2 then {0, 1} else {2, 3},
    idle_bias := fun _ => 3,
    sched_smt_power_savings := false }

/-- A vCPU on pCPU 0 that may run on every pCPU. -/
def pick_demo_vcpu : csched_vcpu := { processor := 0, cpu_affinity := [0, 1, 2, 3] }

/-! ## The scheduling decision -/

/-- A vCPU record with a new start_time. -/
def csched_vcpu.set_start_time (v : csched_vcpu) (t : Int) : csched_vcpu :=
  { v with start_time := t }

/-- A vCPU record with a new pri. -/
def csched_vcpu.set_pri (v : csched_vcpu) (pri : Int) : csched_vcpu :=
  { v with pri := pri }

/-- A vCPU record with new flags. -/
def csched_vcpu.set_flags (v : csched_vcpu) (flags : Nat) : csched_vcpu :=
  { v with flags := flags }

/-- The struct task_slice that csched_schedule returns; task is given by the
record of the vCPU to run. -/
structure task_slice where
  task : csched_vcpu
  time : Int
  migrated : Bool
  deriving DecidableEq, Repr

/-- What csched_schedule reads besides the scheduler data, the run queue of
the pCPU and the record of the current vCPU: the number of possible pCPUs,
the 16-bit value behind the list head (see __runq_insert), the global
vcpu_migration_delay, the mask cpupool_scheduler_cpumask(per_cpu(cpupool,
cpu)), current->runstate.state_entry_time, vcpu_runnable(current),
svc->sdom->tslice_us for the record svc of a domain vCPU, and for every peer
pCPU its record CSCHED_PCPU(peer) (none for NULL), whether its current vCPU is
idle, and whether pcpu_schedule_trylock(peer) succeeds. -/
structure sched_env where
  nr_cpu_ids : Nat
  head_pri : Int
  vcpu_migration_delay : Nat
  online : Finset Nat
  state_entry_time : Int
  runnable : Bool
  sdom_tslice_us : csched_vcpu → Nat
  peers : Nat → Option csched_pcpu
  peer_idle : Nat → Bool
  trylock : Nat → Bool

/-- What csched_schedule leaves: the task_slice returned, the run queue of
the pCPU, prv->idlers, the record of the vCPU that was current when it is not
runnable (it is then on no queue and is not dispatched), and the peer pCPU a
vCPU was stolen from, with the record of that peer. -/
structure sched_result where
  ret : task_slice
  runq : List csched_vcpu
  idlers : Finset Nat
  blocked : Option csched_vcpu
  stolen_from : Option (Nat × Option csched_pcpu)
  deriving DecidableEq

/-- The local runtime of csched_schedule: now minus
current->runstate.state_entry_time, 0 when that is negative. -/
def sched_runtime (e : sched_env) (now : Int) : Int :=
  if toInt64 (now - e.state_entry_time) < 0 then 0 else toInt64 (now - e.state_entry_time)

/-- The opening of csched_schedule on the record of the current vCPU: a
vCPU that is not idle burns its credits and has now taken off its start_time;
the idle vCPU is given the priority IDLE again. -/
def sched_account (scurr : csched_vcpu) (now : Int) : csched_vcpu :=
  if scurr.is_idle then scurr.set_pri CSCHED_PRI_IDLE
  else (burn_credits scurr now).set_start_time
    (toInt64 ((burn_credits scurr now).start_time - now))

/-- The condition of the rate-limit shortcut of csched_schedule. -/
def sched_ratelimit (prv : csched_private) (e : sched_env) (scurr : csched_vcpu) (now : Int)
    (tasklet_work_scheduled : Bool) : Prop :=
  tasklet_work_scheduled = false ∧ prv.ratelimit_us ≠ 0 ∧ e.runnable = true
  ∧ scurr.is_idle = false ∧ sched_runtime e now < MICROSECS prv.ratelimit_us

instance (prv : csched_private) (e : sched_env) (scurr : csched_vcpu) (now : Int)
    (tasklet_work_scheduled : Bool) :
    Decidable (sched_ratelimit prv e scurr now tasklet_work_scheduled) := by
  unfold sched_ratelimit
  infer_instance

/-- The statement snext->start_time += now, carried out for a vCPU that is
not idle. -/
def sched_start (snext : csched_vcpu) (now : Int) : csched_vcpu :=
  if snext.is_idle then snext else snext.set_start_time (toInt64 (snext.start_time + now))

/-- The local tslice after the first statement behind the label out: the
slice of the domain of snext for a domain vCPU, the global slice for the idle
vCPU. The values given to tslice before the label (the rate limit on the
shortcut, the global slice otherwise) are overwritten here. -/
def sched_out_tslice (prv : csched_private) (e : sched_env) (snext : csched_vcpu) : Int :=
  if snext.is_idle = false then MICROSECS (e.sdom_tslice_us snext)
  else MICROSECS prv.tslice_us

/-- The field ret.time: -1 for the idle vCPU, tslice otherwise. -/
def sched_out_time (prv : csched_private) (e : sched_env) (snext : csched_vcpu) : Int :=
  if snext.is_idle then -1 else sched_out_tslice prv e snext

/-- The position at which __runq_insert links svc: where the walk stopped, or
one element further for a yielding vCPU. -/
def runq_insert_pos (head_pri : Int) (runq : List csched_vcpu) (svc : csched_vcpu) : Nat :=
  if svc.flags &&& CSCHED_FLAG_VCPU_YIELD ≠ 0
      ∧ runq_iter_pri head_pri runq (runq_insert_walk svc.pri runq) > CSCHED_PRI_IDLE then
    runq_iter_next runq (runq_insert_walk svc.pri runq)
  else runq_insert_walk svc.pri runq

/-- The statements if ( vcpu_runnable(current) ) __runq_insert(cpu, scurr);
else BUG_ON( is_idle_vcpu(current) || list_empty(runq) ): the run queue and
the position of scurr on it (none when it is not queued); none stands for a
BUG_ON that fires. -/
def sched_requeue (e : sched_env) (cpu : Nat) (runq : List csched_vcpu) (scurr : csched_vcpu) :
    Option (List csched_vcpu × Option Nat) :=
  if e.runnable then
    (__runq_insert e.head_pri runq cpu scurr).map fun q =>
      (q, some (runq_insert_pos e.head_pri runq scurr))
  else if scurr.is_idle = true ∨ runq = [] then none
  else some (runq, none)

/-- A write through a pointer to the queued vCPU at position i. -/
def runq_modify (q : List csched_vcpu) (i : Nat) (f : csched_vcpu → csched_vcpu) :
    List csched_vcpu :=
  match q.get? i with
  | some v => q.set i (f v)
  | none => q

/-- The position of idle_vcpu[cpu] on the run queue of its pCPU: the idle
vCPU of a pCPU is the only idle vCPU that is ever on its queue. -/
def runq_idle_pos : List csched_vcpu → Option Nat
  | [] => none
  | v :: rest => if v.is_idle then some 0 else (runq_idle_pos rest).map fun i => i + 1

/-- The statement if ( scurr->flags & CSCHED_FLAG_VCPU_YIELD )
scurr->flags &= ~(CSCHED_FLAG_VCPU_YIELD) on the 16-bit flags. -/
def clear_yield (v : csched_vcpu) : csched_vcpu :=
  if v.flags &&& CSCHED_FLAG_VCPU_YIELD ≠ 0 then v.set_flags (v.flags &&& 65533) else v

/-- The position of snext on the queue: the head of the queue, or the idle
vCPU when tasklet work is scheduled. With no idle vCPU on the queue
__runq_remove(snext) would hit its BUG_ON: none. -/
def sched_snext_pos (q : List csched_vcpu) (tasklet_work_scheduled : Bool) : Option Nat :=
  if tasklet_work_scheduled then runq_idle_pos q else some 0

/-- The queue after the tasklet override (the idle vCPU at position i is
given the priority BOOST) and after the YIELD flag of the vCPU that was
current, queued at position p, is cleared. -/
def sched_marks (q : List csched_vcpu) (p : Option Nat) (i : Nat)
    (tasklet_work_scheduled : Bool) : List csched_vcpu :=
  match p with
  | some p =>
    runq_modify
      (if tasklet_work_scheduled then runq_modify q i fun v => v.set_pri CSCHED_PRI_TS_BOOST
        else q) p clear_yield
  | none =>
    if tasklet_work_scheduled then runq_modify q i fun v => v.set_pri CSCHED_PRI_TS_BOOST
    else q

/-- The loop of csched_load_balance over the mask workers, run for at most
fuel iterations: the peer a vCPU was stolen from, the stolen vCPU and the
record of the peer, or nothing when no peer had work to steal. The outer none
stands for a BUG_ON of csched_runq_steal and for iterations that run out. -/
def load_balance_loop (e : sched_env) (cpu : Nat) (pri : Int) (now : Int) :
    Nat → Nat → Finset Nat → Option (Option (Nat × csched_vcpu × Option csched_pcpu))
  | 0, _, workers => if cpumask_empty e.nr_cpu_ids workers then some none else none
  | fuel + 1, peer_cpu, workers =>
    if cpumask_empty e.nr_cpu_ids workers then some none
    else if e.trylock (cpumask_cycle e.nr_cpu_ids peer_cpu workers) = false then
      load_balance_loop e cpu pri now fuel (cpumask_cycle e.nr_cpu_ids peer_cpu workers)
        (workers.erase (cpumask_cycle e.nr_cpu_ids peer_cpu workers))
    else if cpumask_cycle e.nr_cpu_ids peer_cpu workers ∉ e.online then
      load_balance_loop e cpu pri now fuel (cpumask_cycle e.nr_cpu_ids peer_cpu workers)
        (workers.erase (cpumask_cycle e.nr_cpu_ids peer_cpu workers))
    else
      match csched_runq_steal now e.vcpu_migration_delay
          (e.peers (cpumask_cycle e.nr_cpu_ids peer_cpu workers))
          (e.peer_idle (cpumask_cycle e.nr_cpu_ids peer_cpu workers)) cpu pri with
      | none => none
      | some (some speer, spc) =>
        some (some (cpumask_cycle e.nr_cpu_ids peer_cpu workers, speer, spc))
      | some (none, _) =>
        load_balance_loop e cpu pri now fuel (cpumask_cycle e.nr_cpu_ids peer_cpu workers)
          (workers.erase (cpumask_cycle e.nr_cpu_ids peer_cpu workers))

/-- What the removal of snext from the queue or the load balancer leave: the
vCPU to run, ret.migrated, the run queue, and the peer a vCPU was stolen
from. -/
structure sched_choice where
  snext : csched_vcpu
  migrated : Bool
  runq : List csched_vcpu
  stolen_from : Option (Nat × Option csched_pcpu)
  deriving DecidableEq

/-- The function csched_load_balance(prv, cpu, snext, &ret.migrated), with
snext at position i of the queue q; none stands for a BUG_ON that fires.
Every iteration of the loop takes a pCPU out of workers, so the loop is run
for at most nr_cpu_ids iterations. -/
def csched_load_balance (e : sched_env) (idlers : Finset Nat) (cpu : Nat) (now : Int)
    (q : List csched_vcpu) (i : Nat) (snext : csched_vcpu) : Option sched_choice :=
  if cpu ≠ snext.processor then none
  else if cpu ∉ e.online then
    some { snext := snext, migrated := false, runq := q.eraseIdx i, stolen_from := none }
  else
    match load_balance_loop e cpu snext.pri now e.nr_cpu_ids cpu
        ((e.online \ idlers).erase cpu) with
    | none => none
    | some none =>
      some { snext := snext, migrated := false, runq := q.eraseIdx i, stolen_from := none }
    | some (some r) =>
      some { snext := r.2.1, migrated := true, runq := q, stolen_from := some (r.1, r.2.2) }

/-- The choice of csched_schedule between the local snext, at position i of
the queue q, and the work of a peer. -/
def sched_choose (e : sched_env) (idlers : Finset Nat) (cpu : Nat) (now : Int)
    (q : List csched_vcpu) (i : Nat) : Option sched_choice :=
  match q.get? i with
  | none => none
  | some snext =>
    if snext.pri > CSCHED_PRI_TS_OVER then
      some { snext := snext, migrated := false, runq := q.eraseIdx i, stolen_from := none }
    else csched_load_balance e idlers cpu now q i snext

/-- The update of prv->idlers by csched_schedule. -/
def sched_idlers (idlers : Finset Nat) (cpu : Nat) (snext : csched_vcpu) : Finset Nat :=
  if snext.pri = CSCHED_PRI_IDLE then insert cpu idlers else idlers.erase cpu

/-- The end of csched_schedule from the choice of snext on. -/
def sched_finish (prv : csched_private) (idlers : Finset Nat) (e : sched_env) (cpu : Nat)
    (now : Int) (blocked : Option csched_vcpu) (c : sched_choice) : sched_result :=
  { ret := { task := sched_start c.snext now
             time := sched_out_time prv e (sched_start c.snext now)
             migrated := c.migrated }
    runq := c.runq
    idlers := sched_idlers idlers cpu c.snext
    blocked := blocked
    stolen_from := c.stolen_from }

/-- The function csched_schedule(ops, now, tasklet_work_scheduled) on the
pCPU cpu, with the scheduler data prv, the mask prv->idlers, the run queue
RUNQ(cpu) and the record scurr of the current vCPU; none stands for a BUG_ON
that fires. CSCHED_VCPU_CHECK and the statistics counters are left out. -/
def csched_schedule (prv : csched_private) (idlers : Finset Nat) (e : sched_env) (cpu : Nat)
    (runq : List csched_vcpu) (scurr : csched_vcpu) (now : Int)
    (tasklet_work_scheduled : Bool) : Option sched_result :=
  if sched_ratelimit prv e scurr now tasklet_work_scheduled then
    some
      { ret := { task := (sched_account scurr now).set_start_time
                   (toInt64 ((sched_account scurr now).start_time + now))
                 time := sched_out_time prv e ((sched_account scurr now).set_start_time
                   (toInt64 ((sched_account scurr now).start_time + now)))
                 migrated := false }
        runq := runq
        idlers := idlers
        blocked := none
        stolen_from := none }
  else
    match sched_requeue e cpu runq (sched_account scurr now) with
    | none => none
    | some qp =>
      match sched_snext_pos qp.1 tasklet_work_scheduled with
      | none => none
      | some i =>
        match sched_choose e idlers cpu now (sched_marks qp.1 qp.2 i tasklet_work_scheduled) i
        with
        | none => none
        | some c =>
          some (sched_finish prv idlers e cpu now
            (if qp.2 = none then some (clear_yield (sched_account scurr now)) else none) c)

/-- A machine for the examples: two pCPUs, both online, the peer with an
empty queue; the domain slice is 300 microseconds for every vCPU, the current
vCPU is runnable and has been running for 10 microseconds at time 50000. -/
def sched_demo : sched_env :=
  { nr_cpu_ids := 2, head_pri := 0, vcpu_migration_delay := 0, online := {0, 1},
    state_entry_time := 40000, runnable := true, sdom_tslice_us := fun _ => 300,
    peers := fun _ => some {}, peer_idle := fun _ => true, trylock := fun _ => true }

/-- The idle vCPU of pCPU 0. -/
def sched_idle0 : csched_vcpu :=
  { vcpu_id := 0, pri := CSCHED_PRI_IDLE, is_idle := true, processor := 0 }

/-- A domain vCPU on pCPU 0, UNDER with 50 credits, started at time 40000. -/
def sched_guest : csched_vcpu :=
  { vcpu_id := 1, pri := CSCHED_PRI_TS_UNDER, credit := 50, processor := 0,
    start_time := 40000 }

/-- A vCPU of the pCPU cpu in a regular state: its band is IDLE exactly when
it is an idle vCPU, no band is below IDLE, and its processor is cpu. -/
def vcpu_band_ok (cpu : Nat) (v : csched_vcpu) : Prop :=
  (v.is_idle = true ↔ v.pri = CSCHED_PRI_IDLE) ∧ CSCHED_PRI_IDLE ≤ v.pri ∧ v.processor = cpu

/-- A state in which no BUG_ON of csched_schedule fires: the queued vCPUs
are regular vCPUs of this pCPU, the current vCPU is on this pCPU and, unless
it is the idle vCPU, has a band above IDLE; the pCPUs of the pool are numbered
below nr_cpu_ids; a current vCPU that is not runnable is not the idle vCPU and
leaves a queue that is not empty; a current vCPU with the YIELD flag is not
the idle vCPU and finds a vCPU of band IDLE at the tail of the queue; with
tasklet work the idle vCPU is current or queued; and an idle vCPU on the queue
of a peer has the band IDLE. -/
def sched_ready (e : sched_env) (cpu : Nat) (runq : List csched_vcpu) (scurr : csched_vcpu)
    (tasklet_work_scheduled : Bool) : Prop :=
  (∀ v ∈ runq, vcpu_band_ok cpu v)
  ∧ scurr.processor = cpu
  ∧ (scurr.is_idle = false → CSCHED_PRI_IDLE < scurr.pri)
  ∧ (∀ c ∈ e.online, c < e.nr_cpu_ids)
  ∧ (e.runnable = false → scurr.is_idle = false ∧ runq ≠ [])
  ∧ (scurr.flags &&& CSCHED_FLAG_VCPU_YIELD = 0
      ∨ (scurr.is_idle = false
          ∧ ∃ pre last, runq = pre ++ [last] ∧ last.pri ≤ CSCHED_PRI_IDLE))
  ∧ (tasklet_work_scheduled = true →
      (scurr.is_idle = true ∧ e.runnable = true) ∨ ∃ v ∈ runq, v.is_idle = true)
  ∧ (∀ p spc, e.peers p = some spc →
      ∀ y ∈ spc.runq, y.is_idle = true → y.pri ≤ CSCHED_PRI_IDLE)

/-- Scheduler data as csched_init leaves them with the default global slice
of 100 microseconds and a larger rate limit, which it clips to the global
slice. -/
def sched_demo_prv : csched_private := { tslice_us := 100, ratelimit_us := 100 }

/-! ## The lazy reorder of the active domains -/

/-- Two domains of weight 256 with one active vCPU each on two pCPUs with 100
credits per slice: the fair share of each, 100, is its peak. -/
def acct_even : csched_private :=
  { active_sdom :=
      [{ domain_id := 1, weight := 256, active_vcpu_count := 1,
         active_vcpu := [{ vcpu_id := 0 }] },
       { domain_id := 2, weight := 256, active_vcpu_count := 1,
         active_vcpu := [{ vcpu_id := 0 }] }],
    ncpus := 2, weight := 512, credit := 200, credits_per_tslice := 100 }

/-- Domain 1 of the reorder example: weight 128 and two active vCPUs. -/
def acct_uneven_dom1 : csched_dom :=
  { domain_id := 1, weight := 128, active_vcpu_count := 2,
    active_vcpu := [{ vcpu_id := 0 }, { vcpu_id := 1 }] }

/-- Domain 2 of the reorder example: weight 256 and one active vCPU. -/
def acct_uneven_dom2 : csched_dom :=
  { domain_id := 2, weight := 256, active_vcpu_count := 1, active_vcpu := [{ vcpu_id := 0 }] }

/-- Three pCPUs with 100 credits per slice and the two domains above: the
fair share of domain 1, 150, is below its peak of 200, and the fair share of
domain 2, 150, is above its peak of 100. -/
def acct_uneven : csched_private :=
  { active_sdom := [acct_uneven_dom1, acct_uneven_dom2],
    ncpus := 3, weight := 512, credit := 300, credits_per_tslice := 100 }

/-! ## Credit above the upper bound -/

/-- The test credit/100 > prv->credits_per_tslice/100 of the inner loop of
csched_acct, on a credit that is not negative. -/
def acct_over (credits_per_tslice : Nat) (credit : Int) : Prop :=
  credit / 100 > (credits_per_tslice : Int) / 100

instance (credits_per_tslice : Nat) (credit : Int) :
    Decidable (acct_over credits_per_tslice credit) := by
  unfold acct_over
  infer_instance

/-- The state in which the outer loop of csched_acct enters the inner loop
for the domain sdom. -/
def acct_inner_init (st : acct_state) (sdom : csched_dom) : acct_vcpu_state :=
  { prv_weight := st.prv_weight
    active_vcpu_count := sdom.active_vcpu_count
    on_active_sdom := true
    credit_balance := st.credit_balance
    kept := []
    stopped := [] }

/-- One domain that is not the privileged one, with one active vCPU holding
50 credits, on one pCPU with 100 credits per slice: the increment of 100
takes the credit to 150. -/
def acct_above : csched_private :=
  { active_sdom :=
      [{ domain_id := 1, weight := 256, active_vcpu_count := 1,
         active_vcpu := [{ vcpu_id := 0, credit := 50 }] }],
    ncpus := 1, weight := 256, credit := 100, credits_per_tslice := 100 }

/-- The privileged domain with a single active vCPU holding 150 credits, on
one pCPU with 100 credits per slice: the increment of 100 takes the credit to
250. -/
def acct_dom0_single : csched_private :=
  { active_sdom :=
      [{ domain_id := 0, weight := 256, active_vcpu_count := 1,
         active_vcpu := [{ vcpu_id := 0, credit := 150 }] }],
    ncpus := 1, weight := 256, credit := 100, credits_per_tslice := 100 }

/-! ## The spinlock signal -/

/-- Two ring entries that differ at most in the spinlock field. -/
def sample_equiv (x y : event_sample) : Prop :=
  x.inst_retired = y.inst_retired ∧ x.cache_misses = y.cache_misses

/-- Two rings that differ at most in the spinlock fields of their entries. -/
def ring_equiv (f g : event_filter) : Prop :=
  sample_equiv f.s0 g.s0 ∧ sample_equiv f.s1 g.s1 ∧ sample_equiv f.s2 g.s2
  ∧ sample_equiv f.s3 g.s3 ∧ sample_equiv f.s4 g.s4

/-- Two domain records that differ at most in the spinlock accumulators
(spinlock_metric_update, spinlock_count, spinlock_latency) and in the spinlock
fields of the ring. -/
def spin_equiv (a b : csched_dom) : Prop :=
  a.domain_id = b.domain_id ∧ a.is_idle_domain = b.is_idle_domain
  ∧ a.active_vcpu = b.active_vcpu ∧ a.inactive_vcpu = b.inactive_vcpu
  ∧ a.active_vcpu_count = b.active_vcpu_count ∧ a.weight = b.weight ∧ a.cap = b.cap
  ∧ a.tslice_us = b.tslice_us ∧ a.slice_update_window = b.slice_update_window
  ∧ a.event_tracking_window = b.event_tracking_window
  ∧ a.event_stable_count = b.event_stable_count ∧ a.phase = b.phase
  ∧ a.tick_period_us = b.tick_period_us ∧ ring_equiv a.filter b.filter

instance (a b : csched_dom) : Decidable (spin_equiv a b) := by
  unfold spin_equiv ring_equiv sample_equiv
  infer_instance

/-- A domain in the steady state with a quiet spinlock record, for the
examples: slice 300, the ring full of (1000000, 1000). -/
def dom_quiet : csched_dom :=
  { tslice_us := 300, event_tracking_window := 0, filter := ring_1e6_1e3 }

/-- The same domain with a busy spinlock record: accumulators that are not
zero and other spinlock values in the ring. -/
def dom_spinning : csched_dom :=
  { tslice_us := 300, event_tracking_window := 0,
    spinlock_count := 7, spinlock_latency := 900000, spinlock_metric_update := 140000,
    filter :=
      { s0 := { spinlock := 20000, inst_retired := 1000000, cache_misses := 1000 }
        s1 := { spinlock := 30000, inst_retired := 1000000, cache_misses := 1000 }
        s2 := { spinlock := 5, inst_retired := 1000000, cache_misses := 1000 }
        s3 := { spinlock := 65535, inst_retired := 1000000, cache_misses := 1000 }
        s4 := { spinlock := 12000, inst_retired := 1000000, cache_misses := 1000 } } }

/-- A machine in which pCPU 0 finds work on its peer: pCPU 1 is busy and has
the vCPUs X (UNDER) and Y (OVER) of the steal scenario queued; the migration
delay is 1000 microseconds. -/
def sched_steal_demo : sched_env :=
  { nr_cpu_ids := 2, head_pri := 0, vcpu_migration_delay := 1000, online := {0, 1},
    state_entry_time := 0, runnable := true, sdom_tslice_us := fun _ => 300,
    peers := fun p => if p = 1 then some { runq := [steal_x, steal_y] } else some {},
    peer_idle := fun _ => false, trylock := fun _ => true }

/-! ## A constant sample -/

/-- The first k slots of the ring hold the sample (I, M) in their
inst_retired and cache_misses fields. -/
def ring_holds (I M k : Nat) (f : event_filter) : Prop :=
  ∀ i, i < min k 5 → (f.get i).inst_retired = I ∧ (f.get i).cache_misses = M

/-- A freshly initialised domain after n controller passes on the constant
sample (I, M). -/
def dom_const (domain_id I M n : Nat) : csched_dom :=
  controller_run (csched_dom_init domain_id) (List.replicate n (I, M))

/-! ## Scheduler initialisation -/

@[simp] def CSCHED_CREDIT_PER_US : Nat := 1

/-- The boot parameters csched_init reads: the static int
sched_credit_tslice_us of this file and the global int sched_ratelimit_us,
together with the constant SCHED_DEFAULT_RATELIMIT_US. The global and the
constant are declared outside the source at hand and are parameters. -/
structure boot_params where
  sched_credit_tslice_us : Int := CSCHED_DEFAULT_TSLICE_US
  sched_ratelimit_us : Int
  SCHED_DEFAULT_RATELIMIT_US : Int
  deriving DecidableEq, Repr

/-- The value of sched_credit_tslice_us once csched_init has checked it
against the limits (int comparisons). -/
def init_tslice_us (k : sysctl_consts) (b : boot_params) : Int :=
  if b.sched_credit_tslice_us > k.TSLICE_UMAX ∨ b.sched_credit_tslice_us < k.TSLICE_UMIN then
    CSCHED_DEFAULT_TSLICE_US
  else b.sched_credit_tslice_us

/-- The value of sched_ratelimit_us once csched_init has checked it against
the limits. -/
def init_ratelimit_us (k : sysctl_consts) (b : boot_params) : Int :=
  if b.sched_ratelimit_us > k.RATELIMIT_MAX ∨ b.sched_ratelimit_us < k.RATELIMIT_MIN then
    b.SCHED_DEFAULT_RATELIMIT_US
  else b.sched_ratelimit_us

/-- The local ticks_per_tslice of a slice: CSCHED_TICKS_PER_TSLICE, or 1 for a
slice shorter than that. -/
def init_ticks_per_tslice (tslice_us : Nat) : Nat :=
  if tslice_us < CSCHED_TICKS_PER_TSLICE then 1 else CSCHED_TICKS_PER_TSLICE

/-- The function csched_init(ops): the private data it leaves in
ops->sched_data, none when an allocation fails (-ENOMEM). xzalloc clears the
record; master is UINT_MAX; the slice, the ticks per slice, the tick period
and the credits per slice derive from the checked sched_credit_tslice_us, and
a rate limit above the slice is replaced by the slice. -/
def csched_init (k : sysctl_consts) (b : boot_params) (alloc_ok : Bool) :
    Option csched_private :=
  if alloc_ok = false then none
  else
    some
      { active_sdom := []
        inactive_sdom := []
        ncpus := 0
        master := 4294967295
        weight := 0
        credit := 0
        credit_balance := 0
        runq_sort := 0
        tslice_us := toU32 (init_tslice_us k b)
        ticks_per_tslice := init_ticks_per_tslice (toU32 (init_tslice_us k b))
        tick_period_us :=
          toU32 (init_tslice_us k b) / init_ticks_per_tslice (toU32 (init_tslice_us k b))
        credits_per_tslice := U32 (CSCHED_CREDIT_PER_US * toU32 (init_tslice_us k b))
        ratelimit_us :=
          if MICROSECS (toU64 (init_ratelimit_us k b)) > MICROSECS (toU64 (init_tslice_us k b))
          then toU32 (init_tslice_us k b)
          else toU32 (init_ratelimit_us k b) }

/-- Boot parameters for the examples: the default slice and a rate limit of
1000 microseconds. -/
def boot_demo : boot_params :=
  { sched_credit_tslice_us := 100, sched_ratelimit_us := 1000,
    SCHED_DEFAULT_RATELIMIT_US := 1000 }

/-! # Theorems -/

/-! ## Machine integers -/

theorem toInt32_of_nat_lt (x : Nat) (h : x < 2147483648) : toInt32 (x : Int) = (x : Int) := by
  unfold toInt32
  omega

theorem U64_of_lt (x : Nat) (h : x < 18446744073709551616) : U64 x = x := by
  unfold U64
  exact Nat.mod_eq_of_lt h

theorem U32_of_lt (x : Nat) (h : x < 4294967296) : U32 x = x := by
  unfold U32
  exact Nat.mod_eq_of_lt h

/-! ## Frame lemmas: the fields each update leaves alone -/

@[simp] theorem store_sample_frame (s : csched_dom) (i : Int) (a b c : Nat) :
    (s.store_sample i a b c).domain_id = s.domain_id
    ∧ (s.store_sample i a b c).is_idle_domain = s.is_idle_domain
    ∧ (s.store_sample i a b c).active_vcpu = s.active_vcpu
    ∧ (s.store_sample i a b c).inactive_vcpu = s.inactive_vcpu
    ∧ (s.store_sample i a b c).active_vcpu_count = s.active_vcpu_count
    ∧ (s.store_sample i a b c).weight = s.weight
    ∧ (s.store_sample i a b c).cap = s.cap
    ∧ (s.store_sample i a b c).tslice_us = s.tslice_us
    ∧ (s.store_sample i a b c).slice_update_window = s.slice_update_window
    ∧ (s.store_sample i a b c).event_tracking_window = s.event_tracking_window
    ∧ (s.store_sample i a b c).event_stable_count = s.event_stable_count
    ∧ (s.store_sample i a b c).phase = s.phase
    ∧ (s.store_sample i a b c).tick_period_us = s.tick_period_us
    ∧ (s.store_sample i a b c).spinlock_count = s.spinlock_count
    ∧ (s.store_sample i a b c).spinlock_latency = s.spinlock_latency
    ∧ (s.store_sample i a b c).spinlock_metric_update = s.spinlock_metric_update :=
  ⟨rfl, rfl, rfl, rfl, rfl, rfl, rfl, rfl, rfl, rfl, rfl, rfl, rfl, rfl, rfl, rfl⟩

@[simp] theorem set_event_tracking_window_frame (s : csched_dom) (v : Nat) :
    (s.set_event_tracking_window v).domain_id = s.domain_id
    ∧ (s.set_event_tracking_window v).is_idle_domain = s.is_idle_domain
    ∧ (s.set_event_tracking_window v).active_vcpu = s.active_vcpu
    ∧ (s.set_event_tracking_window v).inactive_vcpu = s.inactive_vcpu
    ∧ (s.set_event_tracking_window v).active_vcpu_count = s.active_vcpu_count
    ∧ (s.set_event_tracking_window v).weight = s.weight
    ∧ (s.set_event_tracking_window v).cap = s.cap
    ∧ (s.set_event_tracking_window v).tslice_us = s.tslice_us
    ∧ (s.set_event_tracking_window v).slice_update_window = s.slice_update_window
    ∧ (s.set_event_tracking_window v).event_stable_count = s.event_stable_count
    ∧ (s.set_event_tracking_window v).phase = s.phase
    ∧ (s.set_event_tracking_window v).tick_period_us = s.tick_period_us
    ∧ (s.set_event_tracking_window v).spinlock_count = s.spinlock_count
    ∧ (s.set_event_tracking_window v).spinlock_latency = s.spinlock_latency
    ∧ (s.set_event_tracking_window v).spinlock_metric_update = s.spinlock_metric_update
    ∧ (s.set_event_tracking_window v).filter = s.filter :=
  ⟨rfl, rfl, rfl, rfl, rfl, rfl, rfl, rfl, rfl, rfl, rfl, rfl, rfl, rfl, rfl, rfl⟩

@[simp] theorem set_event_stable_count_frame (s : csched_dom) (v : Nat) :
    (s.set_event_stable_count v).domain_id = s.domain_id
    ∧ (s.set_event_stable_count v).is_idle_domain = s.is_idle_domain
    ∧ (s.set_event_stable_count v).active_vcpu = s.active_vcpu
    ∧ (s.set_event_stable_count v).inactive_vcpu = s.inactive_vcpu
    ∧ (s.set_event_stable_count v).active_vcpu_count = s.active_vcpu_count
    ∧ (s.set_event_stable_count v).weight = s.weight
    ∧ (s.set_event_stable_count v).cap = s.cap
    ∧ (s.set_event_stable_count v).tslice_us = s.tslice_us
    ∧ (s.set_event_stable_count v).slice_update_window = s.slice_update_window
    ∧ (s.set_event_stable_count v).event_tracking_window = s.event_tracking_window
    ∧ (s.set_event_stable_count v).phase = s.phase
    ∧ (s.set_event_stable_count v).tick_period_us = s.tick_period_us
    ∧ (s.set_event_stable_count v).spinlock_count = s.spinlock_count
    ∧ (s.set_event_stable_count v).spinlock_latency = s.spinlock_latency
    ∧ (s.set_event_stable_count v).spinlock_metric_update = s.spinlock_metric_update
    ∧ (s.set_event_stable_count v).filter = s.filter :=
  ⟨rfl, rfl, rfl, rfl, rfl, rfl, rfl, rfl, rfl, rfl, rfl, rfl, rfl, rfl, rfl, rfl⟩

@[simp] theorem set_phase_frame (s : csched_dom) (v : Nat) :
    (s.set_phase v).domain_id = s.domain_id
    ∧ (s.set_phase v).is_idle_domain = s.is_idle_domain
    ∧ (s.set_phase v).active_vcpu = s.active_vcpu
    ∧ (s.set_phase v).inactive_vcpu = s.inactive_vcpu
    ∧ (s.set_phase v).active_vcpu_count = s.active_vcpu_count
    ∧ (s.set_phase v).weight = s.weight
    ∧ (s.set_phase v).cap = s.cap
    ∧ (s.set_phase v).tslice_us = s.tslice_us
    ∧ (s.set_phase v).slice_update_window = s.slice_update_window
    ∧ (s.set_phase v).event_tracking_window = s.event_tracking_window
    ∧ (s.set_phase v).event_stable_count = s.event_stable_count
    ∧ (s.set_phase v).tick_period_us = s.tick_period_us
    ∧ (s.set_phase v).spinlock_count = s.spinlock_count
    ∧ (s.set_phase v).spinlock_latency = s.spinlock_latency
    ∧ (s.set_phase v).spinlock_metric_update = s.spinlock_metric_update
    ∧ (s.set_phase v).filter = s.filter :=
  ⟨rfl, rfl, rfl, rfl, rfl, rfl, rfl, rfl, rfl, rfl, rfl, rfl, rfl, rfl, rfl, rfl⟩

@[simp] theorem set_tick_period_us_frame (s : csched_dom) (v : Nat) :
    (s.set_tick_period_us v).domain_id = s.domain_id
    ∧ (s.set_tick_period_us v).is_idle_domain = s.is_idle_domain
    ∧ (s.set_tick_period_us v).active_vcpu = s.active_vcpu
    ∧ (s.set_tick_period_us v).inactive_vcpu = s.inactive_vcpu
    ∧ (s.set_tick_period_us v).active_vcpu_count = s.active_vcpu_count
    ∧ (s.set_tick_period_us v).weight = s.weight
    ∧ (s.set_tick_period_us v).cap = s.cap
    ∧ (s.set_tick_period_us v).tslice_us = s.tslice_us
    ∧ (s.set_tick_period_us v).slice_update_window = s.slice_update_window
    ∧ (s.set_tick_period_us v).event_tracking_window = s.event_tracking_window
    ∧ (s.set_tick_period_us v).event_stable_count = s.event_stable_count
    ∧ (s.set_tick_period_us v).phase = s.phase
    ∧ (s.set_tick_period_us v).spinlock_count = s.spinlock_count
    ∧ (s.set_tick_period_us v).spinlock_latency = s.spinlock_latency
    ∧ (s.set_tick_period_us v).spinlock_metric_update = s.spinlock_metric_update
    ∧ (s.set_tick_period_us v).filter = s.filter :=
  ⟨rfl, rfl, rfl, rfl, rfl, rfl, rfl, rfl, rfl, rfl, rfl, rfl, rfl, rfl, rfl, rfl⟩

@[simp] theorem window_shift_frame (s : csched_dom) (a b c : Nat) :
    (csched_event_window_shift s a b c).domain_id = s.domain_id
    ∧ (csched_event_window_shift s a b c).is_idle_domain = s.is_idle_domain
    ∧ (csched_event_window_shift s a b c).active_vcpu = s.active_vcpu
    ∧ (csched_event_window_shift s a b c).inactive_vcpu = s.inactive_vcpu
    ∧ (csched_event_window_shift s a b c).active_vcpu_count = s.active_vcpu_count
    ∧ (csched_event_window_shift s a b c).weight = s.weight
    ∧ (csched_event_window_shift s a b c).cap = s.cap
    ∧ (csched_event_window_shift s a b c).tslice_us = s.tslice_us
    ∧ (csched_event_window_shift s a b c).slice_update_window = s.slice_update_window
    ∧ (csched_event_window_shift s a b c).event_tracking_window = s.event_tracking_window
    ∧ (csched_event_window_shift s a b c).event_stable_count = s.event_stable_count
    ∧ (csched_event_window_shift s a b c).phase = s.phase
    ∧ (csched_event_window_shift s a b c).tick_period_us = s.tick_period_us
    ∧ (csched_event_window_shift s a b c).spinlock_count = s.spinlock_count
    ∧ (csched_event_window_shift s a b c).spinlock_latency = s.spinlock_latency
    ∧ (csched_event_window_shift s a b c).spinlock_metric_update = s.spinlock_metric_update :=
  ⟨rfl, rfl, rfl, rfl, rfl, rfl, rfl, rfl, rfl, rfl, rfl, rfl, rfl, rfl, rfl, rfl⟩

@[simp] theorem window_clear_frame (s : csched_dom) :
    (csched_event_window_clear s).domain_id = s.domain_id
    ∧ (csched_event_window_clear s).is_idle_domain = s.is_idle_domain
    ∧ (csched_event_window_clear s).active_vcpu = s.active_vcpu
    ∧ (csched_event_window_clear s).inactive_vcpu = s.inactive_vcpu
    ∧ (csched_event_window_clear s).active_vcpu_count = s.active_vcpu_count
    ∧ (csched_event_window_clear s).weight = s.weight
    ∧ (csched_event_window_clear s).cap = s.cap
    ∧ (csched_event_window_clear s).tslice_us = s.tslice_us
    ∧ (csched_event_window_clear s).slice_update_window = s.slice_update_window
    ∧ (csched_event_window_clear s).event_tracking_window = s.event_tracking_window
    ∧ (csched_event_window_clear s).event_stable_count = s.event_stable_count
    ∧ (csched_event_window_clear s).phase = s.phase
    ∧ (csched_event_window_clear s).tick_period_us = s.tick_period_us
    ∧ (csched_event_window_clear s).spinlock_count = s.spinlock_count
    ∧ (csched_event_window_clear s).spinlock_latency = s.spinlock_latency
    ∧ (csched_event_window_clear s).spinlock_metric_update = s.spinlock_metric_update :=
  ⟨rfl, rfl, rfl, rfl, rfl, rfl, rfl, rfl, rfl, rfl, rfl, rfl, rfl, rfl, rfl, rfl⟩

@[simp] theorem decrease_frame (s : csched_dom) :
    (csched_decrease_time_slice s).domain_id = s.domain_id
    ∧ (csched_decrease_time_slice s).is_idle_domain = s.is_idle_domain
    ∧ (csched_decrease_time_slice s).active_vcpu = s.active_vcpu
    ∧ (csched_decrease_time_slice s).inactive_vcpu = s.inactive_vcpu
    ∧ (csched_decrease_time_slice s).active_vcpu_count = s.active_vcpu_count
    ∧ (csched_decrease_time_slice s).weight = s.weight
    ∧ (csched_decrease_time_slice s).cap = s.cap
    ∧ (csched_decrease_time_slice s).slice_update_window = s.slice_update_window
    ∧ (csched_decrease_time_slice s).event_tracking_window = s.event_tracking_window
    ∧ (csched_decrease_time_slice s).event_stable_count = s.event_stable_count
    ∧ (csched_decrease_time_slice s).phase = s.phase
    ∧ (csched_decrease_time_slice s).tick_period_us = s.tick_period_us
    ∧ (csched_decrease_time_slice s).spinlock_count = s.spinlock_count
    ∧ (csched_decrease_time_slice s).spinlock_latency = s.spinlock_latency
    ∧ (csched_decrease_time_slice s).spinlock_metric_update = s.spinlock_metric_update
    ∧ (csched_decrease_time_slice s).filter = s.filter :=
  ⟨rfl, rfl, rfl, rfl, rfl, rfl, rfl, rfl, rfl, rfl, rfl, rfl, rfl, rfl, rfl, rfl⟩

@[simp] theorem increase_frame (s : csched_dom) :
    (csched_increase_time_slice s).domain_id = s.domain_id
    ∧ (csched_increase_time_slice s).is_idle_domain = s.is_idle_domain
    ∧ (csched_increase_time_slice s).active_vcpu = s.active_vcpu
    ∧ (csched_increase_time_slice s).inactive_vcpu = s.inactive_vcpu
    ∧ (csched_increase_time_slice s).active_vcpu_count = s.active_vcpu_count
    ∧ (csched_increase_time_slice s).weight = s.weight
    ∧ (csched_increase_time_slice s).cap = s.cap
    ∧ (csched_increase_time_slice s).slice_update_window = s.slice_update_window
    ∧ (csched_increase_time_slice s).event_tracking_window = s.event_tracking_window
    ∧ (csched_increase_time_slice s).event_stable_count = s.event_stable_count
    ∧ (csched_increase_time_slice s).phase = s.phase
    ∧ (csched_increase_time_slice s).tick_period_us = s.tick_period_us
    ∧ (csched_increase_time_slice s).spinlock_count = s.spinlock_count
    ∧ (csched_increase_time_slice s).spinlock_latency = s.spinlock_latency
    ∧ (csched_increase_time_slice s).spinlock_metric_update = s.spinlock_metric_update
    ∧ (csched_increase_time_slice s).filter = s.filter :=
  ⟨rfl, rfl, rfl, rfl, rfl, rfl, rfl, rfl, rfl, rfl, rfl, rfl, rfl, rfl, rfl, rfl⟩

@[simp] theorem vcrd_frame (s : csched_dom) (t : Nat) :
    (do_vcrd_op s t).domain_id = s.domain_id
    ∧ (do_vcrd_op s t).is_idle_domain = s.is_idle_domain
    ∧ (do_vcrd_op s t).active_vcpu = s.active_vcpu
    ∧ (do_vcrd_op s t).inactive_vcpu = s.inactive_vcpu
    ∧ (do_vcrd_op s t).active_vcpu_count = s.active_vcpu_count
    ∧ (do_vcrd_op s t).weight = s.weight
    ∧ (do_vcrd_op s t).cap = s.cap
    ∧ (do_vcrd_op s t).tslice_us = s.tslice_us
    ∧ (do_vcrd_op s t).slice_update_window = s.slice_update_window
    ∧ (do_vcrd_op s t).event_tracking_window = s.event_tracking_window
    ∧ (do_vcrd_op s t).event_stable_count = s.event_stable_count
    ∧ (do_vcrd_op s t).phase = s.phase
    ∧ (do_vcrd_op s t).tick_period_us = s.tick_period_us
    ∧ (do_vcrd_op s t).filter = s.filter :=
  ⟨rfl, rfl, rfl, rfl, rfl, rfl, rfl, rfl, rfl, rfl, rfl, rfl, rfl, rfl⟩

@[simp] theorem accum_reset_frame (s : csched_dom) :
    (metric_accum_reset s).domain_id = s.domain_id
    ∧ (metric_accum_reset s).is_idle_domain = s.is_idle_domain
    ∧ (metric_accum_reset s).active_vcpu = s.active_vcpu
    ∧ (metric_accum_reset s).inactive_vcpu = s.inactive_vcpu
    ∧ (metric_accum_reset s).active_vcpu_count = s.active_vcpu_count
    ∧ (metric_accum_reset s).weight = s.weight
    ∧ (metric_accum_reset s).cap = s.cap
    ∧ (metric_accum_reset s).tslice_us = s.tslice_us
    ∧ (metric_accum_reset s).slice_update_window = s.slice_update_window
    ∧ (metric_accum_reset s).event_tracking_window = s.event_tracking_window
    ∧ (metric_accum_reset s).event_stable_count = s.event_stable_count
    ∧ (metric_accum_reset s).phase = s.phase
    ∧ (metric_accum_reset s).tick_period_us = s.tick_period_us
    ∧ (metric_accum_reset s).spinlock_latency = s.spinlock_latency
    ∧ (metric_accum_reset s).filter = s.filter :=
  ⟨rfl, rfl, rfl, rfl, rfl, rfl, rfl, rfl, rfl, rfl, rfl, rfl, rfl, rfl, rfl⟩

@[simp] theorem store_sample_filter (s : csched_dom) (i : Int) (a b c : Nat) :
    (s.store_sample i a b c).filter =
      s.filter.set i { spinlock := U16 a, inst_retired := U32 b, cache_misses := U32 c } := rfl

@[simp] theorem set_event_tracking_window_val (s : csched_dom) (v : Nat) :
    (s.set_event_tracking_window v).event_tracking_window = v := rfl

@[simp] theorem set_event_stable_count_val (s : csched_dom) (v : Nat) :
    (s.set_event_stable_count v).event_stable_count = v := rfl

@[simp] theorem set_phase_val (s : csched_dom) (v : Nat) : (s.set_phase v).phase = v := rfl

@[simp] theorem set_tick_period_us_val (s : csched_dom) (v : Nat) :
    (s.set_tick_period_us v).tick_period_us = v := rfl

theorem decrease_tslice_eq (s : csched_dom) :
    (csched_decrease_time_slice s).tslice_us =
      if s.tslice_us ≥ 2700 then U32 (s.tslice_us / 300 * 100)
      else if s.tslice_us ≥ 300 then s.tslice_us - 200 else 100 := rfl

theorem increase_tslice_eq (s : csched_dom) :
    (csched_increase_time_slice s).tslice_us =
      if U32 (s.tslice_us + 100) ≥ 1100 then 1100 else U32 (s.tslice_us + 100) := rfl

/-! ## The slice update rules -/

theorem decrease_tslice_bounds (s : csched_dom) (h : s.tslice_us ≤ 1100) :
    100 ≤ (csched_decrease_time_slice s).tslice_us ∧
      (csched_decrease_time_slice s).tslice_us ≤ 1100 := by
  rw [decrease_tslice_eq]
  split_ifs <;> omega

theorem increase_tslice_bounds (s : csched_dom) (h : s.tslice_us ≤ 1100) :
    100 ≤ (csched_increase_time_slice s).tslice_us ∧
      (csched_increase_time_slice s).tslice_us ≤ 1100 := by
  rw [increase_tslice_eq]
  unfold U32
  split_ifs <;> omega

/-! ## The three branches of a controller pass, field by field -/

theorem pass_warmup (s : csched_dom) (I M : Nat) (hw : s.event_tracking_window > 0) :
    csched_submilli_metric_update s I M = submilli_warmup s I M := by
  unfold csched_submilli_metric_update
  rw [if_pos hw]

theorem pass_stable (s : csched_dom) (I M : Nat) (hw : s.event_tracking_window = 0)
    (hsc : stable_cond (pass_err s I M) (miss_rate_curr I M) (miss_rate_window s.filter)) :
    csched_submilli_metric_update s I M = submilli_stable s I M := by
  unfold csched_submilli_metric_update
  rw [if_neg (by omega), if_pos hsc]

theorem pass_unstable (s : csched_dom) (I M : Nat) (hw : s.event_tracking_window = 0)
    (hsc : ¬ stable_cond (pass_err s I M) (miss_rate_curr I M) (miss_rate_window s.filter)) :
    csched_submilli_metric_update s I M = submilli_unstable s I M := by
  unfold csched_submilli_metric_update
  rw [if_neg (by omega), if_neg hsc]

theorem warmup_fields (s : csched_dom) (I M : Nat) :
    (submilli_warmup s I M).tslice_us =
        (if miss_rate_curr I M > 0 ∧ miss_rate_curr I M < 100
          then (csched_decrease_time_slice s).tslice_us else s.tslice_us)
    ∧ (submilli_warmup s I M).event_tracking_window = U8 (s.event_tracking_window + 255)
    ∧ (submilli_warmup s I M).phase = s.phase := by
  unfold submilli_warmup submilli_warmup_store
  split_ifs <;> simp [decrease_tslice_eq]

theorem stable_fields (s : csched_dom) (I M : Nat) :
    (submilli_stable s I M).event_stable_count = U8 (s.event_stable_count + 1)
    ∧ (submilli_stable s I M).filter = spec_shift s.filter (avg_spinlock s) I M
    ∧ (submilli_stable s I M).phase =
        (if miss_rate_window s.filter ≥ 100 then SPIN_LOW_PHASE else SPIN_HIGH_PHASE)
    ∧ (submilli_stable s I M).tslice_us =
        (if miss_rate_window s.filter ≥ 100 then (csched_increase_time_slice s).tslice_us
          else (csched_decrease_time_slice s).tslice_us)
    ∧ (submilli_stable s I M).event_tracking_window = s.event_tracking_window := by
  have hshift : ∀ (x : csched_dom) (a b c : Nat),
      (csched_event_window_shift x a b c).filter = spec_shift x.filter a b c := fun _ _ _ _ => rfl
  unfold submilli_stable submilli_tick_period submilli_stable_slice
  split_ifs <;> simp [decrease_tslice_eq, increase_tslice_eq, hshift]

theorem unstable_fields (s : csched_dom) (I M : Nat) :
    (submilli_unstable s I M).tslice_us =
        (if miss_rate_curr I M < 100
          then (csched_decrease_time_slice s).tslice_us else s.tslice_us)
    ∧ (submilli_unstable s I M).event_tracking_window = 4
    ∧ (submilli_unstable s I M).phase = s.phase
    ∧ (submilli_unstable s I M).event_stable_count = 0 := by
  unfold submilli_unstable submilli_unstable_store
  split_ifs <;> simp [decrease_tslice_eq]

theorem pass_tslice_cases (s : csched_dom) (I M : Nat) :
    (csched_submilli_metric_update s I M).tslice_us = s.tslice_us
    ∨ (csched_submilli_metric_update s I M).tslice_us = (csched_decrease_time_slice s).tslice_us
    ∨ (csched_submilli_metric_update s I M).tslice_us
        = (csched_increase_time_slice s).tslice_us := by
  by_cases hw : s.event_tracking_window > 0
  · rw [pass_warmup s I M hw, (warmup_fields s I M).1]
    split_ifs
    · exact Or.inr (Or.inl rfl)
    · exact Or.inl rfl
  · have hw0 : s.event_tracking_window = 0 := by omega
    by_cases hsc : stable_cond (pass_err s I M) (miss_rate_curr I M) (miss_rate_window s.filter)
    · rw [pass_stable s I M hw0 hsc, (stable_fields s I M).2.2.2.1]
      split_ifs
      · exact Or.inr (Or.inr rfl)
      · exact Or.inr (Or.inl rfl)
    · rw [pass_unstable s I M hw0 hsc, (unstable_fields s I M).1]
      split_ifs
      · exact Or.inr (Or.inl rfl)
      · exact Or.inl rfl

theorem pass_window_le (s : csched_dom) (I M : Nat)
    (h : s.event_tracking_window ≤ EVENT_TRACKING_WINDOW) :
    (csched_submilli_metric_update s I M).event_tracking_window ≤ EVENT_TRACKING_WINDOW := by
  simp only [EVENT_TRACKING_WINDOW] at h ⊢
  by_cases hw : s.event_tracking_window > 0
  · rw [pass_warmup s I M hw, (warmup_fields s I M).2.1]
    unfold U8
    omega
  · have hw0 : s.event_tracking_window = 0 := by omega
    by_cases hsc : stable_cond (pass_err s I M) (miss_rate_curr I M) (miss_rate_window s.filter)
    · rw [pass_stable s I M hw0 hsc, (stable_fields s I M).2.2.2.2]
      omega
    · rw [pass_unstable s I M hw0 hsc, (unstable_fields s I M).2.1]
      omega

/-- The ring index of the warm-up branch stays within the ring: in every
reachable state the warm-up counter is at most EVENT_TRACKING_WINDOW. -/
theorem ctl_reachable_window (s : csched_dom) (h : ctl_reachable s) :
    s.event_tracking_window ≤ EVENT_TRACKING_WINDOW := by
  induction h with
  | init d => simp [csched_dom_init]
  | pass s I M _ ih => exact pass_window_le s I M ih
  | vcrd s t _ ih => simpa using ih
  | reset s _ ih => simpa using ih

/-- C4. For every 32-bit slice value t, csched_decrease_time_slice changes
only tslice_us and sets it to (t / 300) * 100 when t >= 2700, to t - 200 when
300 <= t < 2700 and to 100 when t < 300; the result is at least 100, it is
strictly below t whenever t > 100, and 100 is the only fixed point. -/
theorem csched_decrease_time_slice_rule (s : csched_dom) (h : s.tslice_us < 4294967296) :
    csched_decrease_time_slice s =
        { s with tslice_us :=
            if s.tslice_us ≥ 2700 then s.tslice_us / 300 * 100
            else if s.tslice_us ≥ 300 then s.tslice_us - 200 else 100 }
    ∧ 100 ≤ (csched_decrease_time_slice s).tslice_us
    ∧ (100 < s.tslice_us → (csched_decrease_time_slice s).tslice_us < s.tslice_us)
    ∧ ((csched_decrease_time_slice s).tslice_us = s.tslice_us ↔ s.tslice_us = 100) := by
  have hU : U32 (s.tslice_us / 300 * 100) = s.tslice_us / 300 * 100 :=
    U32_of_lt _ (by omega)
  refine ⟨?_, ?_, ?_, ?_⟩
  · unfold csched_decrease_time_slice
    simp only [SWITCH_BOUNDARY, hU]
  · rw [decrease_tslice_eq, hU]
    split_ifs <;> omega
  · intro ht
    rw [decrease_tslice_eq, hU]
    split_ifs <;> omega
  · rw [decrease_tslice_eq, hU]
    split_ifs <;> omega

/-- Witness for C4 at t = 3000: the hypothesis holds there and the result is
at least 100 and below 3000. -/
theorem csched_decrease_time_slice_rule_witness :
    (3000 : Nat) < 4294967296
    ∧ 100 ≤ (csched_decrease_time_slice { tslice_us := 3000 }).tslice_us
    ∧ (csched_decrease_time_slice { tslice_us := 3000 }).tslice_us < 3000 :=
  ⟨by decide, (csched_decrease_time_slice_rule { tslice_us := 3000 } (by decide)).2.1,
    (csched_decrease_time_slice_rule { tslice_us := 3000 } (by decide)).2.2.1 (by decide)⟩

/-- On a record whose warm-up counter is at most EVENT_TRACKING_WINDOW the
stores of a pass stay inside the ring, and the pass on any record returns
what csched_submilli_metric_update returns. -/
theorem checked_of_window_le (s : csched_dom) (I M : Nat)
    (h : s.event_tracking_window ≤ EVENT_TRACKING_WINDOW) :
    csched_submilli_metric_update_checked s I M
      = some (csched_submilli_metric_update s I M) := by
  unfold csched_submilli_metric_update_checked csched_submilli_metric_update submilli_evt_idx
  simp only [EVENT_TRACKING_WINDOW] at h ⊢
  by_cases hw : s.event_tracking_window > 0
  · have hb : (0 : Int) ≤ ((5 : Nat) : Int) - (s.event_tracking_window : Int)
        ∧ ((5 : Nat) : Int) - (s.event_tracking_window : Int) < ((5 : Nat) : Int) := by
      omega
    rw [if_pos hw, if_pos hw, if_pos hb]
  · rw [if_neg hw, if_neg hw]
    split_ifs <;> rfl

/-- The pass on any record has no result exactly when the warm-up counter is
above EVENT_TRACKING_WINDOW: the index of the warm-up store is then
negative. -/
theorem checked_eq_none_iff (s : csched_dom) (I M : Nat) :
    csched_submilli_metric_update_checked s I M = none
      ↔ EVENT_TRACKING_WINDOW < s.event_tracking_window := by
  by_cases h : s.event_tracking_window ≤ EVENT_TRACKING_WINDOW
  · rw [checked_of_window_le s I M h]
    simp only [EVENT_TRACKING_WINDOW] at h ⊢
    constructor
    · intro h2
      cases h2
    · intro h2
      omega
  · simp only [EVENT_TRACKING_WINDOW] at h ⊢
    have hw : s.event_tracking_window > 0 := by omega
    have hb : ¬ ((0 : Int) ≤ ((5 : Nat) : Int) - (s.event_tracking_window : Int)
        ∧ ((5 : Nat) : Int) - (s.event_tracking_window : Int) < ((5 : Nat) : Int)) := by
      omega
    unfold csched_submilli_metric_update_checked submilli_evt_idx
    simp only [EVENT_TRACKING_WINDOW]
    rw [if_pos hw, if_neg hb]
    exact ⟨fun _ => by omega, fun _ => rfl⟩

/-- A result of the pass on any record comes from a record whose warm-up
counter is at most EVENT_TRACKING_WINDOW, and it is what
csched_submilli_metric_update returns. -/
theorem checked_some (s : csched_dom) (I M : Nat) (s2 : csched_dom)
    (h : csched_submilli_metric_update_checked s I M = some s2) :
    s.event_tracking_window ≤ EVENT_TRACKING_WINDOW
    ∧ s2 = csched_submilli_metric_update s I M := by
  by_cases hw : s.event_tracking_window ≤ EVENT_TRACKING_WINDOW
  · rw [checked_of_window_le s I M hw] at h
    exact ⟨hw, (Option.some.inj h).symm⟩
  · have hn := (checked_eq_none_iff s I M).2 (by omega)
    rw [hn] at h
    cases h

/-- The states reached through passes on any record are the states reached
through csched_submilli_metric_update: from csched_dom_init on, no pass
stores outside the ring. -/
theorem ctl_reached_iff (s : csched_dom) : ctl_reached s ↔ ctl_reachable s := by
  constructor
  · intro h
    induction h with
    | init d => exact ctl_reachable.init d
    | pass s I M s2 _ hp ih =>
      rw [(checked_some s I M s2 hp).2]
      exact ctl_reachable.pass s I M ih
    | vcrd s t _ ih => exact ctl_reachable.vcrd s t ih
    | reset s _ ih => exact ctl_reachable.reset s ih
  · intro h
    induction h with
    | init d => exact ctl_reached.init d
    | pass s I M hs ih =>
      exact ctl_reached.pass s I M _ ih
        (checked_of_window_le s I M (ctl_reachable_window s hs))
    | vcrd s t _ ih => exact ctl_reached.vcrd s t ih
    | reset s _ ih => exact ctl_reached.reset s ih

/-- C1, as stated, fails on the code. The record dom_window_12 has its slice,
500, in [100, 1100], and its warm-up counter is 12. A controller pass on the
sample (5000, 10) takes the warm-up branch and stores the sample through
filter[5 - 12] = filter[-7], in front of the ring: the pass leaves no state
with the slice in [100, 1100] (it has no defined result; in the x86-64 build
the store to filter[-7].inst_retired lands on tslice_us, which becomes
5000). -/
theorem tslice_us_in_range_counterexample :
    (100 ≤ dom_window_12.tslice_us ∧ dom_window_12.tslice_us ≤ 1100)
    ∧ dom_window_12.event_tracking_window > 0
    ∧ submilli_evt_idx dom_window_12 = -7
    ∧ csched_submilli_metric_update_checked dom_window_12 5000 10 = none
    ∧ ¬ ∃ s2, csched_submilli_metric_update_checked dom_window_12 5000 10 = some s2
          ∧ 100 ≤ s2.tslice_us ∧ s2.tslice_us ≤ 1100 := by
  refine ⟨by decide, by decide, by decide, by decide, ?_⟩
  rintro ⟨s2, h, _⟩
  have hn : csched_submilli_metric_update_checked dom_window_12 5000 10 = none := by decide
  rw [hn] at h
  cases h

/-- C1, amended. For every domain state with tslice_us in [100, 1100] and
event_tracking_window at most 5 (so that the warm-up store stays inside the
ring) and every sample, one controller pass returns and leaves tslice_us in
[100, 1100] and event_tracking_window at most 5; a pass has no result only
when event_tracking_window is above 5. csched_dom_init sets tslice_us = 100
and event_tracking_window = 5; hence in every state reached from
csched_dom_init by controller passes (interleaved with spinlock callbacks and
accumulator resets) tslice_us lies in [100, 1100], event_tracking_window is at
most 5 and the next pass returns. -/
theorem tslice_us_in_range_amended :
    (∀ (s : csched_dom) (I M : Nat), 100 ≤ s.tslice_us → s.tslice_us ≤ 1100 →
        s.event_tracking_window ≤ 5 →
        ∃ s2, csched_submilli_metric_update_checked s I M = some s2
          ∧ 100 ≤ s2.tslice_us ∧ s2.tslice_us ≤ 1100 ∧ s2.event_tracking_window ≤ 5)
    ∧ (∀ (s : csched_dom) (I M : Nat),
        csched_submilli_metric_update_checked s I M = none ↔ 5 < s.event_tracking_window)
    ∧ (∀ d : Nat, (csched_dom_init d).tslice_us = 100
        ∧ (csched_dom_init d).event_tracking_window = 5)
    ∧ (∀ s : csched_dom, ctl_reached s →
        100 ≤ s.tslice_us ∧ s.tslice_us ≤ 1100 ∧ s.event_tracking_window ≤ 5
        ∧ ∀ I M, ∃ s2, csched_submilli_metric_update_checked s I M = some s2) := by
  have step : ∀ (s : csched_dom) (I M : Nat), 100 ≤ s.tslice_us → s.tslice_us ≤ 1100 →
      s.event_tracking_window ≤ 5 →
      ∃ s2, csched_submilli_metric_update_checked s I M = some s2
        ∧ 100 ≤ s2.tslice_us ∧ s2.tslice_us ≤ 1100 ∧ s2.event_tracking_window ≤ 5 := by
    intro s I M hlo hhi hw
    have hd := decrease_tslice_bounds s hhi
    have hi := increase_tslice_bounds s hhi
    have hw2 := pass_window_le s I M hw
    simp only [EVENT_TRACKING_WINDOW] at hw2
    refine ⟨_, checked_of_window_le s I M hw, ?_, ?_, hw2⟩
    · rcases pass_tslice_cases s I M with h | h | h <;> rw [h] <;> omega
    · rcases pass_tslice_cases s I M with h | h | h <;> rw [h] <;> omega
  have inv : ∀ s : csched_dom, ctl_reached s →
      100 ≤ s.tslice_us ∧ s.tslice_us ≤ 1100 ∧ s.event_tracking_window ≤ 5 := by
    intro s hs
    induction hs with
    | init d => simp [csched_dom_init]
    | pass s I M s2 _ hp ih =>
      obtain ⟨s3, h3, g1, g2, g3⟩ := step s I M ih.1 ih.2.1 ih.2.2
      rw [hp] at h3
      cases h3
      exact ⟨g1, g2, g3⟩
    | vcrd s t _ ih => simpa using ih
    | reset s _ ih => simpa using ih
  refine ⟨step, fun s I M => checked_eq_none_iff s I M, fun d => ⟨rfl, rfl⟩, ?_⟩
  intro s hs
  obtain ⟨g1, g2, g3⟩ := inv s hs
  exact ⟨g1, g2, g3, fun I M => ⟨_, checked_of_window_le s I M g3⟩⟩

/-- Witness for the amended C1: a pass from the slice 1100, with the warm-up
counter at 5, on the sample (10^6, 10^3) returns and stays in range. -/
theorem tslice_us_in_range_amended_witness :
    (100 ≤ ({ tslice_us := 1100 } : csched_dom).tslice_us
      ∧ ({ tslice_us := 1100 } : csched_dom).tslice_us ≤ 1100
      ∧ ({ tslice_us := 1100 } : csched_dom).event_tracking_window ≤ 5)
    ∧ ∃ s2, csched_submilli_metric_update_checked { tslice_us := 1100 } 1000000 1000 = some s2
        ∧ 100 ≤ s2.tslice_us ∧ s2.tslice_us ≤ 1100 ∧ s2.event_tracking_window ≤ 5 :=
  ⟨by decide,
    tslice_us_in_range_amended.1 { tslice_us := 1100 } 1000000 1000 (by decide) (by decide)
      (by decide)⟩

theorem miss_rate_curr_eq_spec (I M : Nat) (hM : M * 100000 < 18446744073709551616)
    (h : spec_rC I M < 2147483648) : miss_rate_curr I M = (spec_rC I M : Int) := by
  unfold miss_rate_curr
  rw [U64_of_lt _ hM]
  unfold spec_rC at h ⊢
  by_cases hI : I = 0
  · simp [hI, toInt32]
  · simp only [hI, if_false, ne_eq, not_false_eq_true, if_true] at h ⊢
    exact toInt32_of_nat_lt _ h

theorem inst_mean_eq_spec (f : event_filter) (hf : f.typed) : inst_mean f = spec_mean_I f := by
  obtain ⟨⟨_, h0, _⟩, ⟨_, h1, _⟩, ⟨_, h2, _⟩, ⟨_, h3, _⟩, ⟨_, h4, _⟩⟩ := hf
  unfold inst_mean spec_mean_I event_filter.get U64
  simp only [EVENT_TRACKING_WINDOW]
  omega

theorem cache_miss_mean_eq_spec (f : event_filter) (hf : f.typed) :
    cache_miss_mean f = spec_mean_M f := by
  obtain ⟨⟨_, _, h0⟩, ⟨_, _, h1⟩, ⟨_, _, h2⟩, ⟨_, _, h3⟩, ⟨_, _, h4⟩⟩ := hf
  unfold cache_miss_mean spec_mean_M event_filter.get U64
  simp only [EVENT_TRACKING_WINDOW]
  omega

theorem spec_mean_M_lt (f : event_filter) (hf : f.typed) : spec_mean_M f < 4294967296 := by
  obtain ⟨⟨_, _, h0⟩, ⟨_, _, h1⟩, ⟨_, _, h2⟩, ⟨_, _, h3⟩, ⟨_, _, h4⟩⟩ := hf
  unfold spec_mean_M
  omega

theorem miss_rate_window_eq_spec (f : event_filter) (hf : f.typed)
    (h : spec_rW f < 2147483648) : miss_rate_window f = (spec_rW f : Int) := by
  unfold miss_rate_window
  rw [inst_mean_eq_spec f hf, cache_miss_mean_eq_spec f hf]
  have hm := spec_mean_M_lt f hf
  rw [U64_of_lt _ (by omega)]
  unfold spec_rW at h ⊢
  by_cases hI : spec_mean_I f = 0
  · simp [hI, toInt32]
  · have hpos : spec_mean_I f > 0 := Nat.pos_of_ne_zero hI
    simp only [hI, if_false, hpos, if_true] at h ⊢
    exact toInt32_of_nat_lt _ h

theorem miss_rate_err_eq_spec (rC rW : Nat) (h : rC * 100 < 2147483648) :
    miss_rate_err (rC : Int) (rW : Int) = (spec_err rC rW : Int) := by
  unfold miss_rate_err spec_err
  by_cases hW : rW = 0
  · subst hW
    by_cases hC : rC = 0
    · simp [hC]
    · simp [hC]
  · have hpos : (rW : Int) > 0 := by omega
    simp only [hpos, if_true, hW, if_false]
    have : toInt32 ((rC : Int) * 100) = ((rC * 100 : Nat) : Int) := by
      rw [← toInt32_of_nat_lt _ h]
      push_cast
      rfl
    rw [this]
    exact (Int.ofNat_tdiv _ _).symm



/-! ## The steady-state step -/

/-- C2, as stated, fails on the code in three ways. (a) From a steady state
with the ring full of (10^6, 10^3), the sample (I, M) = (1, 2^63) has
rC = M*100000/I far above 130% of rW = 100, so the claim predicts the stable
branch; in the code M*100000 wraps to 0 in 64 bits, miss_rate_curr is 0 and
the pass takes the unstable branch: the stable count is reset, the phase is
not LOW_SPIN and the slice is decreased. (b) With tslice_us = 2^32 - 1 the sum
tslice_us + 100 wraps and the slice becomes 99, not min(tslice_us + 100, 1100).
(c) With event_stable_count = 255 the stable branch leaves 0. -/
theorem stable_step_counterexample :
    ((dom_steady 500 3).event_tracking_window = 0
      ∧ spec_stable
          (spec_err (spec_rC 1 9223372036854775808) (spec_rW (dom_steady 500 3).filter))
          (spec_rC 1 9223372036854775808) (spec_rW (dom_steady 500 3).filter)
      ∧ 100 ≤ spec_rW (dom_steady 500 3).filter
      ∧ (csched_submilli_metric_update (dom_steady 500 3) 1 9223372036854775808).phase
          ≠ SPIN_LOW_PHASE
      ∧ (csched_submilli_metric_update (dom_steady 500 3) 1 9223372036854775808).tslice_us
          ≠ min (500 + 100) 1100
      ∧ (csched_submilli_metric_update (dom_steady 500 3) 1
          9223372036854775808).event_stable_count ≠ 3 + 1)
    ∧ ((dom_steady 4294967295 3).event_tracking_window = 0
      ∧ spec_stable
          (spec_err (spec_rC 1000000 1000) (spec_rW (dom_steady 4294967295 3).filter))
          (spec_rC 1000000 1000) (spec_rW (dom_steady 4294967295 3).filter)
      ∧ 100 ≤ spec_rW (dom_steady 4294967295 3).filter
      ∧ (csched_submilli_metric_update (dom_steady 4294967295 3) 1000000 1000).tslice_us = 99
      ∧ min (4294967295 + 100) 1100 = 1100)
    ∧ ((dom_steady 500 255).event_tracking_window = 0
      ∧ spec_stable
          (spec_err (spec_rC 1000000 1000) (spec_rW (dom_steady 500 255).filter))
          (spec_rC 1000000 1000) (spec_rW (dom_steady 500 255).filter)
      ∧ (csched_submilli_metric_update (dom_steady 500 255) 1000000 1000).event_stable_count
          = 0) := by
  decide

theorem stable_cond_of_spec (rC rW : Nat) (h : rC * 100 < 2147483648)
    (hs : spec_stable (spec_err rC rW) rC rW) :
    stable_cond (miss_rate_err (rC : Int) (rW : Int)) (rC : Int) (rW : Int) := by
  rw [miss_rate_err_eq_spec rC rW h]
  unfold stable_cond
  unfold spec_stable at hs
  omega

/-- C2, amended. For every domain state in steady state (warm-up counter 0)
whose ring fields fit their types, and every sample (I, M) for which the
arithmetic of the pass does not overflow (M*100000 fits 64 bits, rC*100 and
rW fit an int, tslice_us + 100 fits 32 bits): whenever one of the three stable
conditions holds for rC, rW and err as the specification defines them over the
naturals, the pass increments event_stable_count modulo 256, shifts the ring
and pushes the truncated sample, and sets phase = LOW_SPIN and
tslice_us = min(tslice_us + 100, 1100) if rW >= 100, phase = HIGH_SPIN and the
decreased slice otherwise. In particular, with the ring full of (10^6, 10^3)
and the same sample as input, rW = 100, err = 100, the phase becomes LOW_SPIN
and the slice grows by 100, capped at 1100. -/
theorem stable_step_amended :
    (∀ (s : csched_dom) (I M : Nat),
      s.event_tracking_window = 0 → s.filter.typed →
      M * 100000 < 18446744073709551616 →
      spec_rC I M * 100 < 2147483648 →
      spec_rW s.filter < 2147483648 →
      s.tslice_us + 100 < 4294967296 →
      spec_stable (spec_err (spec_rC I M) (spec_rW s.filter)) (spec_rC I M)
        (spec_rW s.filter) →
      (csched_submilli_metric_update s I M).event_stable_count
          = (s.event_stable_count + 1) % 256
      ∧ (csched_submilli_metric_update s I M).filter
          = spec_shift s.filter (avg_spinlock s) I M
      ∧ (100 ≤ spec_rW s.filter →
          (csched_submilli_metric_update s I M).phase = SPIN_LOW_PHASE
          ∧ (csched_submilli_metric_update s I M).tslice_us = min (s.tslice_us + 100) 1100)
      ∧ (spec_rW s.filter < 100 →
          (csched_submilli_metric_update s I M).phase = SPIN_HIGH_PHASE
          ∧ (csched_submilli_metric_update s I M).tslice_us = spec_decrease s.tslice_us))
    ∧ (∀ s : csched_dom,
      s.event_tracking_window = 0 → s.filter = ring_1e6_1e3 →
      s.tslice_us + 100 < 4294967296 →
      spec_rW s.filter = 100
      ∧ spec_err (spec_rC 1000000 1000) (spec_rW s.filter) = 100
      ∧ (csched_submilli_metric_update s 1000000 1000).phase = SPIN_LOW_PHASE
      ∧ (csched_submilli_metric_update s 1000000 1000).tslice_us
          = min (s.tslice_us + 100) 1100) := by
  have main : ∀ (s : csched_dom) (I M : Nat),
      s.event_tracking_window = 0 → s.filter.typed →
      M * 100000 < 18446744073709551616 →
      spec_rC I M * 100 < 2147483648 →
      spec_rW s.filter < 2147483648 →
      s.tslice_us + 100 < 4294967296 →
      spec_stable (spec_err (spec_rC I M) (spec_rW s.filter)) (spec_rC I M)
        (spec_rW s.filter) →
      (csched_submilli_metric_update s I M).event_stable_count
          = (s.event_stable_count + 1) % 256
      ∧ (csched_submilli_metric_update s I M).filter
          = spec_shift s.filter (avg_spinlock s) I M
      ∧ (100 ≤ spec_rW s.filter →
          (csched_submilli_metric_update s I M).phase = SPIN_LOW_PHASE
          ∧ (csched_submilli_metric_update s I M).tslice_us = min (s.tslice_us + 100) 1100)
      ∧ (spec_rW s.filter < 100 →
          (csched_submilli_metric_update s I M).phase = SPIN_HIGH_PHASE
          ∧ (csched_submilli_metric_update s I M).tslice_us = spec_decrease s.tslice_us) := by
    intro s I M hw hf hM hC hW ht hst
    have e1 := miss_rate_curr_eq_spec I M hM (by omega)
    have e2 := miss_rate_window_eq_spec s.filter hf hW
    have hsc := stable_cond_of_spec _ _ hC hst
    rw [← e1, ← e2] at hsc
    have hU : U32 (s.tslice_us + 100) = s.tslice_us + 100 := U32_of_lt _ ht
    have hU2 : U32 (s.tslice_us / 300 * 100) = s.tslice_us / 300 * 100 :=
      U32_of_lt _ (by omega)
    rw [pass_stable s I M hw hsc]
    obtain ⟨h1, h2, h3, h4, _⟩ := stable_fields s I M
    rw [e2] at h3 h4
    refine ⟨h1, h2, ?_, ?_⟩
    · intro h
      have h' : (spec_rW s.filter : Int) ≥ 100 := by omega
      rw [h3, h4, if_pos h', if_pos h', increase_tslice_eq, hU]
      refine ⟨rfl, ?_⟩
      split_ifs <;> omega
    · intro h
      have h' : ¬ (spec_rW s.filter : Int) ≥ 100 := by omega
      rw [h3, h4, if_neg h', if_neg h', decrease_tslice_eq, hU2]
      exact ⟨rfl, rfl⟩
  refine ⟨main, ?_⟩
  intro s hw hf ht
  have hW : spec_rW s.filter = 100 := by rw [hf]; decide
  have hty : s.filter.typed := by
    rw [hf]
    unfold event_filter.typed event_sample.typed
    decide
  have hst : spec_stable (spec_err (spec_rC 1000000 1000) (spec_rW s.filter))
      (spec_rC 1000000 1000) (spec_rW s.filter) := by rw [hW]; decide
  have h := main s 1000000 1000 hw hty (by decide) (by decide) (by omega) ht hst
  refine ⟨hW, by rw [hW]; decide, ?_⟩
  exact h.2.2.1 (by omega)

/-- Witness for the amended C2: the steady state with the ring full of
(10^6, 10^3), slice 500 and the same sample again satisfies every hypothesis,
and the pass leaves phase LOW_SPIN and the slice 600. -/
theorem stable_step_amended_witness :
    (csched_submilli_metric_update (dom_steady 500 3) 1000000 1000).phase = SPIN_LOW_PHASE
    ∧ (csched_submilli_metric_update (dom_steady 500 3) 1000000 1000).tslice_us
        = min (500 + 100) 1100 :=
  (stable_step_amended.1 (dom_steady 500 3) 1000000 1000 (by decide)
    (by unfold event_filter.typed event_sample.typed; decide) (by decide) (by decide)
    (by decide) (by decide) (by decide)).2.2.1 (by decide)

/-! ## Steady load -/

/-- C3, as stated, fails on the code. (a) A fresh domain fed the constant
sample (10^6, 10^3): passes 1 to 5 fill the ring, passes 6 to 10 are five
successive steady passes with err = 100, and the eleventh pass, again steady,
still raises the slice from 600 to 700. (b) No number of passes is enough on
its own: from the slice bound 1100 with phase LOW_SPIN, after eleven steady
passes whose samples stay within 5% of each other, one more steady pass with
the same sample sees the windowed rate drop below 100, flips the phase to
HIGH_SPIN and cuts the slice to 900. -/
theorem steady_idempotence_counterexample :
    (steady_run (dom_after 5) (List.replicate 5 (1000000, 1000))
      ∧ controller_run (dom_after 5) (List.replicate 5 (1000000, 1000)) = dom_after 10
      ∧ steady_pass (dom_after 10) 1000000 1000
      ∧ (dom_after 10).tslice_us = 600
      ∧ (csched_submilli_metric_update (dom_after 10) 1000000 1000).tslice_us = 700)
    ∧ (steady_run dom_top samples_drift
      ∧ 5 ≤ samples_drift.length
      ∧ steady_pass (controller_run dom_top samples_drift) 1000000 950
      ∧ (controller_run dom_top samples_drift).tslice_us = 1100
      ∧ (controller_run dom_top samples_drift).phase = SPIN_LOW_PHASE
      ∧ (csched_submilli_metric_update (controller_run dom_top samples_drift)
          1000000 950).tslice_us = 900
      ∧ (csched_submilli_metric_update (controller_run dom_top samples_drift)
          1000000 950).phase = SPIN_HIGH_PHASE) := by
  decide

theorem steady_pass_stable (s : csched_dom) (I M : Nat) (h : steady_pass s I M) :
    csched_submilli_metric_update s I M = submilli_stable s I M := by
  obtain ⟨hw, h1, h2⟩ := h
  exact pass_stable s I M hw (Or.inl ⟨h1, h2⟩)

theorem increase_fixed_iff (s : csched_dom) :
    (csched_increase_time_slice s).tslice_us = s.tslice_us ↔ s.tslice_us = 1100 := by
  rw [increase_tslice_eq]
  unfold U32
  split_ifs <;> omega

theorem decrease_fixed_iff (s : csched_dom) :
    (csched_decrease_time_slice s).tslice_us = s.tslice_us ↔ s.tslice_us = 100 := by
  rw [decrease_tslice_eq]
  have hle : U32 (s.tslice_us / 300 * 100) ≤ s.tslice_us / 300 * 100 := Nat.mod_le _ _
  split_ifs <;> omega

theorem steady_high_step (s : csched_dom) (I M : Nat) (h : steady_pass s I M)
    (hW : 100 ≤ miss_rate_window s.filter) :
    (csched_submilli_metric_update s I M).tslice_us = (csched_increase_time_slice s).tslice_us
    ∧ (csched_submilli_metric_update s I M).phase = SPIN_LOW_PHASE := by
  rw [steady_pass_stable s I M h]
  obtain ⟨_, _, h3, h4, _⟩ := stable_fields s I M
  rw [h3, h4, if_pos hW, if_pos hW]
  exact ⟨rfl, rfl⟩

theorem steady_low_step (s : csched_dom) (I M : Nat) (h : steady_pass s I M)
    (hW : miss_rate_window s.filter < 100) :
    (csched_submilli_metric_update s I M).tslice_us = (csched_decrease_time_slice s).tslice_us
    ∧ (csched_submilli_metric_update s I M).phase = SPIN_HIGH_PHASE := by
  rw [steady_pass_stable s I M h]
  obtain ⟨_, _, h3, h4, _⟩ := stable_fields s I M
  have hW' : ¬ miss_rate_window s.filter ≥ 100 := by omega
  rw [h3, h4, if_neg hW', if_neg hW']
  exact ⟨rfl, rfl⟩

theorem steady_run_high_bound (xs : List (Nat × Nat)) :
    ∀ s : csched_dom, s.tslice_us ≤ 1100 → steady_run_high s xs →
      (controller_run s xs).tslice_us ≤ 1100
      ∧ min 1100 (s.tslice_us + 100 * xs.length) ≤ (controller_run s xs).tslice_us
      ∧ (xs ≠ [] → (controller_run s xs).phase = SPIN_LOW_PHASE) := by
  induction xs with
  | nil =>
    intro s hs _
    simp only [controller_run, List.length_nil]
    exact ⟨hs, by omega, fun h => absurd rfl h⟩
  | cons x xs ih =>
    intro s hs hrun
    obtain ⟨hp, hW, hrest⟩ := hrun
    obtain ⟨ht, hph⟩ := steady_high_step s x.1 x.2 hp hW
    have hinc : (csched_increase_time_slice s).tslice_us = min 1100 (s.tslice_us + 100) := by
      rw [increase_tslice_eq]
      unfold U32
      split_ifs <;> omega
    have hs' : (csched_submilli_metric_update s x.1 x.2).tslice_us ≤ 1100 := by
      rw [ht, hinc]; omega
    obtain ⟨i1, i2, i3⟩ := ih _ hs' hrest
    simp only [controller_run, List.length_cons]
    refine ⟨i1, ?_, ?_⟩
    · rw [ht, hinc] at i2
      omega
    · intro _
      by_cases hxs : xs = []
      · subst hxs
        simpa [controller_run] using hph
      · exact i3 hxs

theorem steady_run_low_bound (xs : List (Nat × Nat)) :
    ∀ s : csched_dom, s.tslice_us ≤ 1100 → steady_run_low s xs →
      (controller_run s xs).tslice_us ≤ max 100 (s.tslice_us - 200 * xs.length)
      ∧ (xs ≠ [] → 100 ≤ (controller_run s xs).tslice_us
          ∧ (controller_run s xs).phase = SPIN_HIGH_PHASE) := by
  induction xs with
  | nil =>
    intro s hs _
    simp only [controller_run, List.length_nil]
    exact ⟨by omega, fun h => absurd rfl h⟩
  | cons x xs ih =>
    intro s hs hrun
    obtain ⟨hp, hW, hrest⟩ := hrun
    obtain ⟨ht, hph⟩ := steady_low_step s x.1 x.2 hp hW
    have hdec : (csched_decrease_time_slice s).tslice_us = max 100 (s.tslice_us - 200) := by
      rw [decrease_tslice_eq]
      split_ifs <;> omega
    have hs' : (csched_submilli_metric_update s x.1 x.2).tslice_us ≤ 1100 := by
      rw [ht, hdec]; omega
    obtain ⟨i1, i2⟩ := ih _ hs' hrest
    simp only [controller_run, List.length_cons]
    rw [ht, hdec] at i1
    refine ⟨by omega, ?_⟩
    intro _
    by_cases hxs : xs = []
    · subst hxs
      simp only [controller_run]
      rw [ht, hdec]
      exact ⟨by omega, hph⟩
    · exact i2 hxs

/-- C3, amended. A steady pass (warm-up counter 0, err in [70, 130]) leaves
tslice_us and phase unchanged exactly when the slice already sits at the bound
of the side the windowed miss rate rW is on: rW >= 100 with phase LOW_SPIN and
tslice_us = 1100, or rW < 100 with phase HIGH_SPIN and tslice_us = 100. Starting
from a slice in [100, 1100], ten successive steady passes that all see
rW >= 100 reach tslice_us = 1100 and phase LOW_SPIN, and five that all see
rW < 100 reach tslice_us = 100 and phase HIGH_SPIN; from then on every further
steady pass on the same side leaves both unchanged. -/
theorem steady_idempotence_amended :
    (∀ (s : csched_dom) (I M : Nat), steady_pass s I M →
      (((csched_submilli_metric_update s I M).tslice_us = s.tslice_us
          ∧ (csched_submilli_metric_update s I M).phase = s.phase)
        ↔ ((100 ≤ miss_rate_window s.filter ∧ s.phase = SPIN_LOW_PHASE ∧ s.tslice_us = 1100)
          ∨ (miss_rate_window s.filter < 100 ∧ s.phase = SPIN_HIGH_PHASE
              ∧ s.tslice_us = 100))))
    ∧ (∀ (s : csched_dom) (xs : List (Nat × Nat)),
        100 ≤ s.tslice_us → s.tslice_us ≤ 1100 → steady_run_high s xs → 10 ≤ xs.length →
        (controller_run s xs).tslice_us = 1100
        ∧ (controller_run s xs).phase = SPIN_LOW_PHASE
        ∧ ∀ I M : Nat, steady_pass (controller_run s xs) I M →
            100 ≤ miss_rate_window (controller_run s xs).filter →
            (csched_submilli_metric_update (controller_run s xs) I M).tslice_us = 1100
            ∧ (csched_submilli_metric_update (controller_run s xs) I M).phase
                = SPIN_LOW_PHASE)
    ∧ (∀ (s : csched_dom) (xs : List (Nat × Nat)),
        s.tslice_us ≤ 1100 → steady_run_low s xs → 5 ≤ xs.length →
        (controller_run s xs).tslice_us = 100
        ∧ (controller_run s xs).phase = SPIN_HIGH_PHASE
        ∧ ∀ I M : Nat, steady_pass (controller_run s xs) I M →
            miss_rate_window (controller_run s xs).filter < 100 →
            (csched_submilli_metric_update (controller_run s xs) I M).tslice_us = 100
            ∧ (csched_submilli_metric_update (controller_run s xs) I M).phase
                = SPIN_HIGH_PHASE) := by
  refine ⟨?_, ?_, ?_⟩
  · intro s I M h
    by_cases hW : 100 ≤ miss_rate_window s.filter
    · obtain ⟨ht, hp⟩ := steady_high_step s I M h hW
      rw [ht, hp, increase_fixed_iff]
      simp only [SPIN_LOW_PHASE, SPIN_HIGH_PHASE]
      constructor
      · rintro ⟨h1, h2⟩
        exact Or.inl ⟨hW, h2.symm, h1⟩
      · rintro (⟨_, h2, h3⟩ | ⟨h1, _, _⟩)
        · exact ⟨h3, h2.symm⟩
        · omega
    · have hW' : miss_rate_window s.filter < 100 := by omega
      obtain ⟨ht, hp⟩ := steady_low_step s I M h hW'
      rw [ht, hp, decrease_fixed_iff]
      simp only [SPIN_LOW_PHASE, SPIN_HIGH_PHASE]
      constructor
      · rintro ⟨h1, h2⟩
        exact Or.inr ⟨hW', h2.symm, h1⟩
      · rintro (⟨h1, _, _⟩ | ⟨_, h2, h3⟩)
        · omega
        · exact ⟨h3, h2.symm⟩
  · intro s xs hlo hs hrun hlen
    obtain ⟨h1, h2, h3⟩ := steady_run_high_bound xs s hs hrun
    have hne : xs ≠ [] := by
      intro h
      rw [h] at hlen
      simp at hlen
    have hmin : 1100 ≤ s.tslice_us + 100 * xs.length := by omega
    rw [Nat.min_eq_left hmin] at h2
    have ht : (controller_run s xs).tslice_us = 1100 := by omega
    refine ⟨ht, h3 hne, ?_⟩
    intro I M hp hW
    obtain ⟨e1, e2⟩ := steady_high_step _ I M hp hW
    refine ⟨?_, e2⟩
    rw [e1, (increase_fixed_iff _).2 ht, ht]
  · intro s xs hs hrun hlen
    obtain ⟨h1, h2⟩ := steady_run_low_bound xs s hs hrun
    have hne : xs ≠ [] := by
      intro h
      rw [h] at hlen
      simp at hlen
    obtain ⟨h3, h4⟩ := h2 hne
    have hmax : s.tslice_us - 200 * xs.length ≤ 100 := by omega
    rw [Nat.max_eq_left hmax] at h1
    have ht : (controller_run s xs).tslice_us = 100 := by omega
    refine ⟨ht, h4, ?_⟩
    intro I M hp hW
    obtain ⟨e1, e2⟩ := steady_low_step _ I M hp hW
    refine ⟨?_, e2⟩
    rw [e1, (decrease_fixed_iff _).2 ht, ht]

/-- Witness for the amended C3: the steady pass from the slice bound 1100
with phase LOW_SPIN and rW = 100 leaves slice and phase unchanged. -/
theorem steady_idempotence_amended_witness :
    (csched_submilli_metric_update dom_top 1000000 1000).tslice_us = dom_top.tslice_us
    ∧ (csched_submilli_metric_update dom_top 1000000 1000).phase = dom_top.phase :=
  (steady_idempotence_amended.1 dom_top 1000000 1000 (by decide)).2
    (Or.inl (by decide))

/-! ## The master accountant: where the processed records end up -/

/-- The record that the inner loop of csched_acct leaves for the vCPU svc. -/
theorem acct_vcpus_mem (cpt cap ccap cf domid w : Nat) (vs : List csched_vcpu) :
    ∀ (st r : acct_vcpu_state), csched_acct_vcpus cpt cap ccap cf domid w vs st = some r →
      (∀ x, x ∈ st.kept ++ st.stopped → x ∈ r.kept ++ r.stopped)
      ∧ ∀ v, v ∈ vs → (csched_acct_vcpu cpt cap ccap cf domid v).svc ∈ r.kept ++ r.stopped := by
  induction vs with
  | nil =>
    intro st r h
    simp only [csched_acct_vcpus, Option.some.injEq] at h
    subst h
    exact ⟨fun x hx => hx, fun v hv => absurd hv (List.not_mem_nil v)⟩
  | cons a vs ih =>
    intro st r h
    rw [csched_acct_vcpus] at h
    split_ifs at h with h1 h2 <;>
    · obtain ⟨i1, i2⟩ := ih _ r h
      refine ⟨?_, ?_⟩
      · intro x hx
        apply i1
        simp only [List.mem_append, List.mem_cons, List.mem_singleton] at hx ⊢
        tauto
      · intro v hv
        rcases List.mem_cons.1 hv with hva | hvs
        · subst hva
          apply i1
          simp only [List.mem_append, List.mem_cons, List.mem_singleton]
          tauto
        · exact i2 v hvs

/-- What one step of the outer loop of csched_acct does, when no BUG_ON
fires: the domain passed the three sanity checks, the locals are those of
csched_acct_share, the visited domains stay visited, and the domain's
record is among them with every active vCPU processed by the inner loop. -/
theorem acct_sdom_step (prv : csched_private) (W : Nat) (st st2 : acct_state)
    (d : csched_dom) (h : csched_acct_sdom prv W st d = some st2) :
    d.active_vcpu_count ≠ 0
    ∧ st2.credit_total = (csched_acct_share prv W st d).credit_total
    ∧ st2.credit_xtra = (csched_acct_share prv W st d).credit_xtra
    ∧ (∀ x, x ∈ st.visited → x ∈ st2.visited)
    ∧ ∃ d2, d2 ∈ st2.visited ∧ d2.domain_id = d.domain_id
        ∧ ∀ v, v ∈ d.active_vcpu →
            (csched_acct_vcpu prv.credits_per_tslice d.cap
              (csched_acct_share prv W st d).credit_cap
              (csched_acct_share prv W st d).credit_fair d.domain_id v).svc
              ∈ d2.active_vcpu ++ d2.inactive_vcpu := by
  unfold csched_acct_sdom at h
  split_ifs at h with h1 h2 h3 h4
  simp only [] at h
  cases hr : csched_acct_vcpus prv.credits_per_tslice d.cap
      (csched_acct_share prv W st d).credit_cap (csched_acct_share prv W st d).credit_fair
      d.domain_id d.weight d.active_vcpu
      { prv_weight := st.prv_weight, active_vcpu_count := d.active_vcpu_count,
        on_active_sdom := true, credit_balance := st.credit_balance, kept := [],
        stopped := [] } with
  | none =>
    rw [hr] at h
    simp at h
  | some r =>
    rw [hr] at h
    simp only [Option.some.injEq] at h
    obtain ⟨_, hm⟩ := acct_vcpus_mem _ _ _ _ _ _ _ _ _ hr
    subst h
    refine ⟨h2, rfl, rfl, ?_, ?_⟩
    · intro x hx
      simp only [acct_state.visited, List.mem_append] at hx ⊢
      split_ifs <;> (try simp only [List.mem_append, List.mem_cons, List.mem_singleton]) <;> tauto
    · refine ⟨{ d with
          active_vcpu := r.kept
          inactive_vcpu := r.stopped ++ d.inactive_vcpu
          active_vcpu_count := r.active_vcpu_count }, ?_, rfl, ?_⟩
      · simp only [acct_state.visited, List.mem_append]
        split_ifs <;> (try simp only [List.mem_append, List.mem_cons, List.mem_singleton]) <;> tauto
      · intro v hv
        have := hm v hv
        simp only [List.mem_append] at this ⊢
        tauto

theorem acct_sdoms_visited (prv : csched_private) (W : Nat) (ds : List csched_dom) :
    ∀ (st st2 : acct_state), csched_acct_sdoms prv W ds st = some st2 →
      ∀ x, x ∈ st.visited → x ∈ st2.visited := by
  induction ds with
  | nil =>
    intro st st2 h x hx
    simp only [csched_acct_sdoms, Option.some.injEq] at h
    subst h
    exact hx
  | cons d ds ih =>
    intro st st2 h x hx
    rw [csched_acct_sdoms] at h
    cases h1 : csched_acct_sdom prv W st d with
    | none => rw [h1] at h; simp at h
    | some st1 =>
      rw [h1] at h
      exact ih st1 st2 h x ((acct_sdom_step prv W st st1 d h1).2.2.2.1 x hx)

/-- The outer loop over a list splits at any domain of the list. -/
theorem acct_sdoms_split (prv : csched_private) (W : Nat) (pre : List csched_dom)
    (d : csched_dom) (post : List csched_dom) :
    ∀ (st st2 : acct_state), csched_acct_sdoms prv W (pre ++ d :: post) st = some st2 →
      ∃ sa sb, csched_acct_sdoms prv W pre st = some sa
        ∧ csched_acct_sdom prv W sa d = some sb
        ∧ csched_acct_sdoms prv W post sb = some st2 := by
  induction pre with
  | nil =>
    intro st st2 h
    simp only [List.nil_append] at h
    rw [csched_acct_sdoms] at h
    cases h1 : csched_acct_sdom prv W st d with
    | none => rw [h1] at h; simp at h
    | some sb =>
      rw [h1] at h
      exact ⟨st, sb, rfl, h1, h⟩
  | cons e pre ih =>
    intro st st2 h
    simp only [List.cons_append] at h
    rw [csched_acct_sdoms] at h
    cases h1 : csched_acct_sdom prv W st e with
    | none => rw [h1] at h; simp at h
    | some s1 =>
      rw [h1] at h
      obtain ⟨sa, sb, e1, e2, e3⟩ := ih s1 st2 h
      refine ⟨sa, sb, ?_, e2, e3⟩
      rw [csched_acct_sdoms, h1]
      exact e1

/-- Where csched_acct leaves the domains and vCPUs it processes. If the pass
completes with W != 0 and d is a domain of prv->active_sdom, reached by the
outer loop with the locals st, then the final state holds a record of the same
domain (on active_sdom, or unlinked from it) in which every vCPU that was on
d's active list appears as the inner loop left it, with the credit_cap and
credit_fair that csched_acct_share computes from st. -/
theorem csched_acct_image (prv prv2 : csched_private) (pre : List csched_dom)
    (d : csched_dom) (post : List csched_dom)
    (h : csched_acct prv = some prv2) (hW : prv.weight ≠ 0)
    (hsplit : prv.active_sdom = pre ++ d :: post) :
    ∃ st, csched_acct_sdoms prv prv.weight pre (csched_acct_init prv) = some st
      ∧ d.active_vcpu_count ≠ 0
      ∧ ∃ d2, d2 ∈ prv2.active_sdom ++ prv2.inactive_sdom ∧ d2.domain_id = d.domain_id
        ∧ ∀ v, v ∈ d.active_vcpu →
            (csched_acct_vcpu prv.credits_per_tslice d.cap
              (csched_acct_share prv prv.weight st d).credit_cap
              (csched_acct_share prv prv.weight st d).credit_fair d.domain_id v).svc
              ∈ d2.active_vcpu ++ d2.inactive_vcpu := by
  unfold csched_acct at h
  rw [if_neg hW] at h
  cases hl : csched_acct_sdoms prv prv.weight prv.active_sdom (csched_acct_init prv) with
  | none => rw [hl] at h; simp at h
  | some stf =>
    rw [hl] at h
    simp only [Option.some.injEq] at h
    rw [hsplit] at hl
    obtain ⟨sa, sb, e1, e2, e3⟩ := acct_sdoms_split prv prv.weight pre d post _ _ hl
    obtain ⟨hn, _, _, _, d2, hd2, hid, himg⟩ := acct_sdom_step prv prv.weight sa sb d e2
    refine ⟨sa, e1, hn, d2, ?_, hid, himg⟩
    have hv := acct_sdoms_visited prv prv.weight post sb stf e3 d2 hd2
    subst h
    simp only [acct_state.visited, List.mem_append] at hv ⊢
    tauto

/-! ## The master accountant: one vCPU -/

theorem toInt32_range (x : Int) : -2147483648 ≤ toInt32 x ∧ toInt32 x < 2147483648 := by
  unfold toInt32
  omega

theorem toU32_of_neg (c : Int) (h1 : -2147483648 ≤ c) (h2 : c < 0) :
    (toU32 c : Int) = c + 4294967296 := by
  unfold toU32
  omega

theorem toU32_of_nonneg (c : Int) (h1 : 0 ≤ c) (h2 : c < 2147483648) :
    (toU32 c : Int) = c := by
  unfold toU32
  omega

theorem acct_vcpu_id (cpt cap ccap cf domid : Nat) (v : csched_vcpu) :
    (csched_acct_vcpu cpt cap ccap cf domid v).svc.vcpu_id = v.vcpu_id := by
  obtain ⟨vid, cr, fl, pr, pc⟩ := v
  unfold csched_acct_vcpu
  split_ifs with hc
  · unfold acct_vcpu_over
    simp only []
    split_ifs <;> rfl
  · unfold acct_vcpu_under
    simp only []
    split_ifs <;> rfl

theorem acct_vcpu_credit_lower (cpt cap ccap cf domid : Nat) (v : csched_vcpu)
    (h0 : 0 < cpt) (h1 : cpt < 2147483648) :
    -(cpt : Int) ≤ (csched_acct_vcpu cpt cap ccap cf domid v).svc.credit := by
  have hr := toInt32_range (v.credit + (cf : Int))
  unfold csched_acct_vcpu acct_credit_incr
  split_ifs with hc
  · unfold acct_vcpu_over
    simp only []
    have hu := toU32_of_neg _ hr.1 hc
    split_ifs with ha hb hb
    all_goals simp only []
    all_goals unfold negU32 toInt32 at *
    all_goals omega
  · unfold acct_vcpu_under
    simp only []
    have hd : 0 ≤ Int.tdiv (toInt32 (v.credit + (cf : Int))) 2 :=
      Int.tdiv_nonneg (by omega) (by omega)
    split_ifs
    all_goals simp only []
    all_goals omega

theorem acct_vcpu_band (cpt cap ccap cf domid : Nat) (v : csched_vcpu) :
    (csched_acct_vcpu cpt cap ccap cf domid v).svc.pri
        = (if acct_credit_incr v cf < 0 then CSCHED_PRI_TS_OVER else CSCHED_PRI_TS_UNDER)
    ∧ ((csched_acct_vcpu cpt cap ccap cf domid v).svc.credit < 0
        ↔ acct_credit_incr v cf < 0) := by
  have hr := toInt32_range (v.credit + (cf : Int))
  unfold csched_acct_vcpu
  unfold acct_credit_incr at *
  split_ifs with hc
  · unfold acct_vcpu_over
    simp only []
    have hu := toU32_of_neg _ hr.1 hc
    split_ifs with ha hb hb
    all_goals simp only [true_and]
    all_goals unfold negU32 toInt32 at *
    all_goals omega
  · unfold acct_vcpu_under
    simp only []
    have hd : 0 ≤ Int.tdiv (toInt32 (v.credit + (cf : Int))) 2 :=
      Int.tdiv_nonneg (by omega) (by omega)
    split_ifs
    all_goals simp only [true_and]
    all_goals omega

theorem acct_vcpu_credit_upper (cpt cap ccap cf domid : Nat) (v : csched_vcpu)
    (hcf : cf ≤ cpt) (hty : -2147483648 ≤ v.credit) (hhi : v.credit ≤ 2 * (cpt : Int)) :
    (domid ≠ 0 → 50 ≤ cpt →
        (csched_acct_vcpu cpt cap ccap cf domid v).svc.credit ≤ 2 * (cpt : Int))
    ∧ (csched_acct_vcpu cpt cap ccap cf domid v).svc.credit ≤ 3 * (cpt : Int) := by
  have hr := toInt32_range (v.credit + (cf : Int))
  unfold csched_acct_vcpu
  unfold acct_credit_incr at *
  split_ifs with hc
  · unfold acct_vcpu_over
    simp only []
    have hu := toU32_of_neg _ hr.1 hc
    split_ifs with ha hb hb
    all_goals simp only []
    all_goals unfold negU32 toInt32 at *
    all_goals omega
  · unfold acct_vcpu_under
    simp only []
    have hnn : 0 ≤ toInt32 (v.credit + (cf : Int)) := by omega
    have e2 : Int.tdiv (toInt32 (v.credit + (cf : Int))) 2
        = toInt32 (v.credit + (cf : Int)) / 2 := Int.tdiv_eq_ediv hnn (by omega)
    have e100 : Int.tdiv (toInt32 (v.credit + (cf : Int))) 100
        = toInt32 (v.credit + (cf : Int)) / 100 := Int.tdiv_eq_ediv hnn (by omega)
    have hu := toU32_of_nonneg (toInt32 (v.credit + (cf : Int)) / 100) (by omega) (by omega)
    rw [e100]
    have hval : toInt32 (v.credit + (cf : Int)) ≤ 3 * (cpt : Int) := by
      unfold toInt32 at *
      omega
    split_ifs with ha hb
    all_goals simp only []
    all_goals (try rw [e2])
    all_goals omega

theorem acct_demo_run : csched_acct acct_demo = some acct_demo_out := by decide

/-! ## The credit bounds after a pass -/

/-- C8. After a csched_acct pass that completes with W != 0 and
0 < credits_per_tslice < 2^31, every vCPU that was on the active list of a
domain of prv->active_sdom when the pass started has a record in the final
state (in its domain, on the active list or unlinked from it), left by the
inner loop, whose credit is at least -credits_per_tslice, whatever its credit
was before the pass. -/
theorem csched_acct_credit_lower_bound (prv prv2 : csched_private)
    (h : csched_acct prv = some prv2) (hW : prv.weight ≠ 0)
    (h0 : 0 < prv.credits_per_tslice) (h1 : prv.credits_per_tslice < 2147483648)
    (d : csched_dom) (hd : d ∈ prv.active_sdom) (v : csched_vcpu) (hv : v ∈ d.active_vcpu) :
    ∃ d2, d2 ∈ prv2.active_sdom ++ prv2.inactive_sdom ∧ d2.domain_id = d.domain_id
      ∧ ∃ v2, v2 ∈ d2.active_vcpu ++ d2.inactive_vcpu ∧ v2.vcpu_id = v.vcpu_id
        ∧ (∃ ccap cf, v2
            = (csched_acct_vcpu prv.credits_per_tslice d.cap ccap cf d.domain_id v).svc)
        ∧ -(prv.credits_per_tslice : Int) ≤ v2.credit := by
  obtain ⟨pre, post, hsplit⟩ := List.append_of_mem hd
  obtain ⟨st, _, _, d2, hd2, hid, himg⟩ := csched_acct_image prv prv2 pre d post h hW hsplit
  exact ⟨d2, hd2, hid, _, himg v hv, acct_vcpu_id _ _ _ _ _ _, ⟨_, _, rfl⟩,
    acct_vcpu_credit_lower _ _ _ _ _ _ h0 h1⟩

/-- Witness for C8: in the pass from acct_demo the vCPU of the privileged
domain that started with credit -100 ends with a credit of at least -100. -/
theorem csched_acct_credit_lower_bound_witness :
    ∃ d2, d2 ∈ acct_demo_out.active_sdom ++ acct_demo_out.inactive_sdom
      ∧ d2.domain_id = acct_demo_dom0.domain_id
      ∧ ∃ v2, v2 ∈ d2.active_vcpu ++ d2.inactive_vcpu ∧ v2.vcpu_id = acct_demo_vcpu.vcpu_id
        ∧ (∃ ccap cf, v2
            = (csched_acct_vcpu acct_demo.credits_per_tslice acct_demo_dom0.cap ccap cf
                acct_demo_dom0.domain_id acct_demo_vcpu).svc)
        ∧ -(acct_demo.credits_per_tslice : Int) ≤ v2.credit :=
  csched_acct_credit_lower_bound acct_demo acct_demo_out acct_demo_run (by decide) (by decide)
    (by decide) acct_demo_dom0 (by decide) acct_demo_vcpu (by decide)

/-- C10. After a csched_acct pass that completes with W != 0, every vCPU that
the pass processed (it was on the active list of a domain d of
prv->active_sdom) has a record in the final state whose band is OVER if the
credit right after the increment by the domain's credit_fair is negative and
UNDER if it is not, so it is never BOOST, and the credit finally stored is
negative exactly when the incremented credit is. -/
theorem csched_acct_band (prv prv2 : csched_private) (pre : List csched_dom)
    (d : csched_dom) (post : List csched_dom)
    (h : csched_acct prv = some prv2) (hW : prv.weight ≠ 0)
    (hsplit : prv.active_sdom = pre ++ d :: post) :
    ∃ st, csched_acct_sdoms prv prv.weight pre (csched_acct_init prv) = some st
      ∧ ∃ d2, d2 ∈ prv2.active_sdom ++ prv2.inactive_sdom ∧ d2.domain_id = d.domain_id
        ∧ ∀ v, v ∈ d.active_vcpu →
          ∃ v2, v2 ∈ d2.active_vcpu ++ d2.inactive_vcpu ∧ v2.vcpu_id = v.vcpu_id
            ∧ v2 = (csched_acct_vcpu prv.credits_per_tslice d.cap
                (csched_acct_share prv prv.weight st d).credit_cap
                (csched_acct_share prv prv.weight st d).credit_fair d.domain_id v).svc
            ∧ (acct_credit_incr v (csched_acct_share prv prv.weight st d).credit_fair < 0 →
                v2.pri = CSCHED_PRI_TS_OVER)
            ∧ (0 ≤ acct_credit_incr v (csched_acct_share prv prv.weight st d).credit_fair →
                v2.pri = CSCHED_PRI_TS_UNDER)
            ∧ v2.pri ≠ CSCHED_PRI_TS_BOOST
            ∧ (v2.credit < 0
                ↔ acct_credit_incr v (csched_acct_share prv prv.weight st d).credit_fair < 0) := by
  obtain ⟨st, hst, _, d2, hd2, hid, himg⟩ := csched_acct_image prv prv2 pre d post h hW hsplit
  refine ⟨st, hst, d2, hd2, hid, ?_⟩
  intro v hv
  obtain ⟨hp, hs⟩ := acct_vcpu_band prv.credits_per_tslice d.cap
    (csched_acct_share prv prv.weight st d).credit_cap
    (csched_acct_share prv prv.weight st d).credit_fair d.domain_id v
  refine ⟨_, himg v hv, acct_vcpu_id _ _ _ _ _ _, rfl, ?_, ?_, ?_, hs⟩
  · intro hc
    rw [hp, if_pos hc]
  · intro hc
    rw [hp, if_neg (by omega)]
  · rw [hp]
    split_ifs <;> simp

/-- Witness for C10: the pass from acct_demo, at the privileged domain, the
first domain of the list. -/
theorem csched_acct_band_witness :
    ∃ st, csched_acct_sdoms acct_demo acct_demo.weight [] (csched_acct_init acct_demo) = some st
      ∧ ∃ d2, d2 ∈ acct_demo_out.active_sdom ++ acct_demo_out.inactive_sdom
        ∧ d2.domain_id = acct_demo_dom0.domain_id
        ∧ ∀ v, v ∈ acct_demo_dom0.active_vcpu →
          ∃ v2, v2 ∈ d2.active_vcpu ++ d2.inactive_vcpu ∧ v2.vcpu_id = v.vcpu_id
            ∧ v2 = (csched_acct_vcpu acct_demo.credits_per_tslice acct_demo_dom0.cap
                (csched_acct_share acct_demo acct_demo.weight st acct_demo_dom0).credit_cap
                (csched_acct_share acct_demo acct_demo.weight st acct_demo_dom0).credit_fair
                acct_demo_dom0.domain_id v).svc
            ∧ (acct_credit_incr v
                  (csched_acct_share acct_demo acct_demo.weight st acct_demo_dom0).credit_fair < 0 →
                v2.pri = CSCHED_PRI_TS_OVER)
            ∧ (0 ≤ acct_credit_incr v
                  (csched_acct_share acct_demo acct_demo.weight st acct_demo_dom0).credit_fair →
                v2.pri = CSCHED_PRI_TS_UNDER)
            ∧ v2.pri ≠ CSCHED_PRI_TS_BOOST
            ∧ (v2.credit < 0
                ↔ acct_credit_incr v
                  (csched_acct_share acct_demo acct_demo.weight st acct_demo_dom0).credit_fair
                    < 0) :=
  csched_acct_band acct_demo acct_demo_out [] acct_demo_dom0 [acct_demo_dom3] acct_demo_run
    (by decide) rfl

/-! ## The shares of a domain -/

theorem share_fair_le_peak (prv : csched_private) (W : Nat) (st : acct_state) (d : csched_dom) :
    (csched_acct_share prv W st d).credit_fair
      ≤ (acct_peak_capped prv W d + (d.active_vcpu_count - 1)) / d.active_vcpu_count := by
  unfold csched_acct_share
  simp only []
  apply Nat.div_le_div_right
  apply le_trans (Nat.mod_le _ _)
  split_ifs with h <;> omega

theorem peak_capped_le_peak (prv : csched_private) (W : Nat) (d : csched_dom) :
    acct_peak_capped prv W d ≤ acct_peak prv W d := by
  unfold acct_peak_capped
  split_ifs with h <;> omega

theorem peak_le_of_balance (prv : csched_private) (W : Nat) (d : csched_dom)
    (hb : 0 ≤ prv.credit_balance) :
    acct_peak prv W d ≤ d.active_vcpu_count * prv.credits_per_tslice := by
  unfold acct_peak
  rw [if_neg (by omega)]
  exact Nat.mod_le _ _

theorem ceil_div_mul_le (n c : Nat) (hn : n ≠ 0) : (n * c + (n - 1)) / n ≤ c := by
  have hpos : 0 < n := Nat.pos_of_ne_zero hn
  apply Nat.lt_succ_iff.mp
  rw [Nat.div_lt_iff_lt_mul hpos, Nat.succ_mul, Nat.mul_comm c n]
  omega

/-- With a credit_balance that is not negative, the per-vCPU credit_fair is
at most credits_per_tslice. -/
theorem share_fair_le (prv : csched_private) (W : Nat) (st : acct_state) (d : csched_dom)
    (hb : 0 ≤ prv.credit_balance) (hn : d.active_vcpu_count ≠ 0) :
    (csched_acct_share prv W st d).credit_fair ≤ prv.credits_per_tslice := by
  have h1 := share_fair_le_peak prv W st d
  have h2 := peak_capped_le_peak prv W d
  have h3 := peak_le_of_balance prv W d hb
  have h4 := ceil_div_mul_le d.active_vcpu_count prv.credits_per_tslice hn
  have h5 : (acct_peak_capped prv W d + (d.active_vcpu_count - 1)) / d.active_vcpu_count
      ≤ (d.active_vcpu_count * prv.credits_per_tslice + (d.active_vcpu_count - 1))
          / d.active_vcpu_count := Nat.div_le_div_right (by omega)
  omega

/-- C9, as stated, fails on the code in three ways, each from a state whose
active vCPUs all have their credit within [-credits_per_tslice,
2 * credits_per_tslice]. (a) Privileged domain, 100 credits per slice: the
vCPU with credit 200 receives 80 and keeps 280, above 200, because the code
does not halve the credit of the privileged domain. (b) 10 credits per slice:
the vCPU with credit 20 receives 10 and keeps 30, above 20, because the
halving test compares credit / 100 and credits_per_tslice / 100. (c) A
credit_balance of -1000: the peak is raised by the balance, the vCPU with
credit 200 receives 1100 and keeps 650 after the halving, above 200. -/
theorem csched_acct_upper_bound_counterexample :
    (acct_credits_in_range acct_demo ∧ acct_demo.weight ≠ 0
      ∧ (csched_acct acct_demo).map acct_credits
          = some [(0, 1, -20), (0, 0, 280), (3, 0, 80), (3, 1, 80), (3, 2, 80)]
      ∧ ¬ ((280 : Int) ≤ 2 * (acct_demo.credits_per_tslice : Int)))
    ∧ (acct_credits_in_range acct_small_slice ∧ acct_small_slice.weight ≠ 0
      ∧ (csched_acct acct_small_slice).map acct_credits = some [(1, 0, 30)]
      ∧ ¬ ((30 : Int) ≤ 2 * (acct_small_slice.credits_per_tslice : Int)))
    ∧ (acct_credits_in_range acct_neg_balance ∧ acct_neg_balance.weight ≠ 0
      ∧ (csched_acct acct_neg_balance).map acct_credits = some [(1, 0, 650)]
      ∧ ¬ ((650 : Int) ≤ 2 * (acct_neg_balance.credits_per_tslice : Int))) := by
  decide

/-- C9, amended. After a csched_acct pass that completes with W != 0 and a
prior credit_balance that is not negative, every vCPU that the pass processed
and whose credit (a 32-bit int) was at most 2 * credits_per_tslice before the
pass has a record in the final state whose credit is at most
3 * credits_per_tslice, and at most 2 * credits_per_tslice if its domain is
not the privileged domain and credits_per_tslice is at least 50. -/
theorem csched_acct_upper_bound_amended (prv prv2 : csched_private)
    (h : csched_acct prv = some prv2) (hW : prv.weight ≠ 0)
    (hbal : 0 ≤ prv.credit_balance)
    (d : csched_dom) (hd : d ∈ prv.active_sdom) (v : csched_vcpu) (hv : v ∈ d.active_vcpu)
    (hty : -2147483648 ≤ v.credit)
    (hhi : v.credit ≤ 2 * (prv.credits_per_tslice : Int)) :
    ∃ d2, d2 ∈ prv2.active_sdom ++ prv2.inactive_sdom ∧ d2.domain_id = d.domain_id
      ∧ ∃ v2, v2 ∈ d2.active_vcpu ++ d2.inactive_vcpu ∧ v2.vcpu_id = v.vcpu_id
        ∧ (∃ ccap cf, v2
            = (csched_acct_vcpu prv.credits_per_tslice d.cap ccap cf d.domain_id v).svc)
        ∧ v2.credit ≤ 3 * (prv.credits_per_tslice : Int)
        ∧ (d.domain_id ≠ 0 → 50 ≤ prv.credits_per_tslice →
            v2.credit ≤ 2 * (prv.credits_per_tslice : Int)) := by
  obtain ⟨pre, post, hsplit⟩ := List.append_of_mem hd
  obtain ⟨st, _, hn, d2, hd2, hid, himg⟩ := csched_acct_image prv prv2 pre d post h hW hsplit
  have hcf := share_fair_le prv prv.weight st d hbal hn
  obtain ⟨u2, u3⟩ := acct_vcpu_credit_upper prv.credits_per_tslice d.cap
    (csched_acct_share prv prv.weight st d).credit_cap
    (csched_acct_share prv prv.weight st d).credit_fair d.domain_id v hcf hty hhi
  exact ⟨d2, hd2, hid, _, himg v hv, acct_vcpu_id _ _ _ _ _ _, ⟨_, _, rfl⟩, u3, u2⟩

/-- Witness for the amended C9: in the pass from acct_demo the vCPU of domain
3 with credit 0 ends with at most 200 credits. -/
theorem csched_acct_upper_bound_amended_witness :
    ∃ d2, d2 ∈ acct_demo_out.active_sdom ++ acct_demo_out.inactive_sdom
      ∧ d2.domain_id = acct_demo_dom3.domain_id
      ∧ ∃ v2, v2 ∈ d2.active_vcpu ++ d2.inactive_vcpu ∧ v2.vcpu_id = 2
        ∧ v2.credit ≤ 2 * (acct_demo.credits_per_tslice : Int) := by
  obtain ⟨d2, hd2, hid, v2, hv2, hvid, _, _, hb⟩ :=
    csched_acct_upper_bound_amended acct_demo acct_demo_out acct_demo_run (by decide)
      (by decide) acct_demo_dom3 (by decide) { vcpu_id := 2 } (by decide)
      (by decide) (by decide)
  exact ⟨d2, hd2, hid, v2, hv2, hvid, hb (by decide) (by decide)⟩

/-! ## The fair share and the cap -/

theorem fair_raw_eq_spec (W C : Nat) (d : csched_dom) (hn : d.active_vcpu_count ≠ 0)
    (ho : C * d.weight * d.active_vcpu_count + (W - 1) < 4294967296) :
    acct_fair_raw W C d = spec_credit_fair C d.weight d.active_vcpu_count W := by
  have hpos : 0 < d.active_vcpu_count := Nat.pos_of_ne_zero hn
  have h1 : C * d.weight ≤ C * d.weight * d.active_vcpu_count :=
    Nat.le_mul_of_pos_right _ hpos
  unfold acct_fair_raw spec_credit_fair ceil_div
  rw [U32_of_lt (C * d.weight) (by omega), U32_of_lt (C * d.weight * d.active_vcpu_count) (by omega),
    U32_of_lt _ ho]

theorem cap_total_eq_spec (prv : csched_private) (d : csched_dom)
    (ho : d.cap * prv.credits_per_tslice + 99 < 4294967296) :
    acct_cap_total prv d = spec_credit_cap d.cap prv.credits_per_tslice := by
  unfold acct_cap_total spec_credit_cap ceil_div
  rw [U32_of_lt (d.cap * prv.credits_per_tslice) (by omega), U32_of_lt _ ho]

theorem peak_eq_of_balance (prv : csched_private) (W : Nat) (d : csched_dom)
    (hb : 0 ≤ prv.credit_balance)
    (ho2 : d.active_vcpu_count * prv.credits_per_tslice < 4294967296) :
    acct_peak prv W d = d.active_vcpu_count * prv.credits_per_tslice := by
  have hnb : ¬ prv.credit_balance < 0 := by omega
  unfold acct_peak
  rw [if_neg hnb, U32_of_lt _ ho2]

theorem peak_capped_eq_spec (prv : csched_private) (W : Nat) (d : csched_dom)
    (hb : 0 ≤ prv.credit_balance)
    (ho2 : d.active_vcpu_count * prv.credits_per_tslice < 4294967296)
    (ho3 : d.cap * prv.credits_per_tslice + 99 < 4294967296) :
    acct_peak_capped prv W d
      = spec_credit_peak d.cap prv.credits_per_tslice d.active_vcpu_count := by
  unfold acct_peak_capped spec_credit_peak
  rw [cap_total_eq_spec prv d ho3, peak_eq_of_balance prv W d hb ho2, Nat.min_def]
  by_cases hc : d.cap = 0
  · simp [hc]
  · simp only [hc, ne_eq, not_false_eq_true, true_and, if_false]
    split_ifs <;> omega

/-- The per-vCPU credit_fair of a domain that is not clipped, when nothing
overflows: the ceiling of the fair share over the number of active vCPUs. -/
theorem share_fair_eq_spec (prv : csched_private) (st : acct_state) (d : csched_dom)
    (hb : 0 ≤ prv.credit_balance) (hn : d.active_vcpu_count ≠ 0)
    (hct : st.credit_total = prv.credit)
    (ho1 : prv.credit * d.weight * d.active_vcpu_count + (prv.weight - 1) < 4294967296)
    (ho2 : d.active_vcpu_count * prv.credits_per_tslice < 4294967296)
    (ho3 : d.cap * prv.credits_per_tslice + 99 < 4294967296)
    (ho4 : spec_credit_fair prv.credit d.weight d.active_vcpu_count prv.weight
        + (d.active_vcpu_count - 1) < 4294967296)
    (hlt : spec_credit_fair prv.credit d.weight d.active_vcpu_count prv.weight
        < spec_credit_peak d.cap prv.credits_per_tslice d.active_vcpu_count) :
    (csched_acct_share prv prv.weight st d).credit_fair
      = ceil_div (spec_credit_fair prv.credit d.weight d.active_vcpu_count prv.weight)
          d.active_vcpu_count := by
  unfold csched_acct_share
  simp only []
  rw [hct, fair_raw_eq_spec prv.weight prv.credit d hn ho1,
    peak_capped_eq_spec prv prv.weight d hb ho2 ho3, if_pos hlt, U32_of_lt _ ho4]
  rfl

theorem share_unclipped_total (prv : csched_private) (W : Nat) (st : acct_state)
    (d : csched_dom) (h : (csched_acct_share prv W st d).clipped = false) :
    (csched_acct_share prv W st d).credit_total = st.credit_total := by
  unfold csched_acct_share at h ⊢
  simp only [decide_eq_false_iff_not, not_not] at h
  simp only []
  rw [if_pos h]

theorem unclipped_credit_total (prv : csched_private) (W : Nat) (ds : List csched_dom) :
    ∀ st st2 : acct_state, acct_unclipped prv W ds st →
      csched_acct_sdoms prv W ds st = some st2 → st2.credit_total = st.credit_total := by
  induction ds with
  | nil =>
    intro st st2 _ h
    simp only [csched_acct_sdoms, Option.some.injEq] at h
    rw [h]
  | cons e es ih =>
    intro st st2 hun h
    obtain ⟨hc, hrest⟩ := hun
    rw [csched_acct_sdoms] at h
    cases h1 : csched_acct_sdom prv W st e with
    | none => rw [h1] at h; simp at h
    | some s1 =>
      rw [h1] at h
      rw [ih s1 st2 (hrest s1 h1) h, (acct_sdom_step prv W st s1 e h1).2.1,
        share_unclipped_total prv W st e hc]

theorem acct_vcpu_credit_plain (cpt cap ccap cf domid : Nat) (v : csched_vcpu)
    (h0 : 0 ≤ v.credit + (cf : Int)) (h1 : v.credit + (cf : Int) < 2147483648)
    (h2 : (v.credit + (cf : Int)) / 100 ≤ ((cpt / 100 : Nat) : Int)) :
    (csched_acct_vcpu cpt cap ccap cf domid v).svc.credit = v.credit + (cf : Int) := by
  have hc : toInt32 (v.credit + (cf : Int)) = v.credit + (cf : Int) := by
    unfold toInt32
    omega
  unfold csched_acct_vcpu
  unfold acct_credit_incr
  rw [hc, if_neg (by omega)]
  unfold acct_vcpu_under
  simp only []
  have e100 : Int.tdiv (v.credit + (cf : Int)) 100 = (v.credit + (cf : Int)) / 100 :=
    Int.tdiv_eq_ediv h0 (by omega)
  have hu := toU32_of_nonneg ((v.credit + (cf : Int)) / 100) (by omega) (by omega)
  rw [e100]
  split_ifs with ha hb hc2
  all_goals simp only []
  all_goals omega

/-- C5, as stated, fails on the code. In acct_round no product overflows
(C * w * n = 2^32 - 1, n * credits_per_tslice = 65537), the balance is 0 and
acct_round_dom is the first domain of the pass; its fair share
ceil(C * w * n / W) = 65282 is below its peak 65537, so the claim has 65282
added to its vCPU. In the code the rounding sum C * w * n + (W - 1) wraps in 32
bits, credit_fair is 0 and the vCPU keeps its credit of 0. -/
theorem fair_share_quantum_counterexample :
    acct_round.weight ≠ 0 ∧ 0 ≤ acct_round.credit_balance
    ∧ acct_round.active_sdom.head? = some acct_round_dom
    ∧ acct_round.credit * acct_round_dom.weight * acct_round_dom.active_vcpu_count < 4294967296
    ∧ acct_round_dom.active_vcpu_count * acct_round.credits_per_tslice < 4294967296
    ∧ spec_credit_fair acct_round.credit acct_round_dom.weight acct_round_dom.active_vcpu_count
        acct_round.weight
        < spec_credit_peak acct_round_dom.cap acct_round.credits_per_tslice
            acct_round_dom.active_vcpu_count
    ∧ ceil_div (spec_credit_fair acct_round.credit acct_round_dom.weight
        acct_round_dom.active_vcpu_count acct_round.weight) acct_round_dom.active_vcpu_count
        = 65282
    ∧ (csched_acct_share acct_round acct_round.weight (csched_acct_init acct_round)
        acct_round_dom).credit_fair = 0
    ∧ acct_credits acct_round = [(1, 0, 0), (2, 0, 0)]
    ∧ (csched_acct acct_round).map acct_credits = some [(1, 0, 0), (2, 0, 256)] := by
  decide

/-- C5, amended. In a csched_acct pass that completes with W != 0 and a prior
credit_balance that is not negative, let d be an active domain (weight w, n
active vCPUs) reached before any domain of the pass has been clipped, and
suppose nothing overflows 32 bits: neither the products nor the rounding sums
(C*w*n + W - 1, cap * credits_per_tslice + 99, credit_fair + n - 1). If
ceil(C*w*n / W) is below d's credit_peak (n * credits_per_tslice, further
limited by the cap when capped), then every active vCPU of d is processed by
the inner loop with the increment ceil(ceil(C*w*n / W) / n), where
C = prv->credit; its stored credit is its old credit plus that increment
whenever the sum is a non-negative int that the upper bound does not halve. -/
theorem fair_share_quantum_amended (prv prv2 : csched_private) (pre : List csched_dom)
    (d : csched_dom) (post : List csched_dom)
    (h : csched_acct prv = some prv2) (hW : prv.weight ≠ 0)
    (hbal : 0 ≤ prv.credit_balance)
    (hsplit : prv.active_sdom = pre ++ d :: post)
    (hun : acct_unclipped prv prv.weight pre (csched_acct_init prv))
    (ho1 : prv.credit * d.weight * d.active_vcpu_count + (prv.weight - 1) < 4294967296)
    (ho2 : d.active_vcpu_count * prv.credits_per_tslice < 4294967296)
    (ho3 : d.cap * prv.credits_per_tslice + 99 < 4294967296)
    (ho4 : spec_credit_fair prv.credit d.weight d.active_vcpu_count prv.weight
        + (d.active_vcpu_count - 1) < 4294967296)
    (hlt : spec_credit_fair prv.credit d.weight d.active_vcpu_count prv.weight
        < spec_credit_peak d.cap prv.credits_per_tslice d.active_vcpu_count) :
    ∃ d2, d2 ∈ prv2.active_sdom ++ prv2.inactive_sdom ∧ d2.domain_id = d.domain_id
      ∧ ∀ v, v ∈ d.active_vcpu →
        ∃ v2, v2 ∈ d2.active_vcpu ++ d2.inactive_vcpu ∧ v2.vcpu_id = v.vcpu_id
          ∧ (∃ ccap, v2 = (csched_acct_vcpu prv.credits_per_tslice d.cap ccap
              (ceil_div (spec_credit_fair prv.credit d.weight d.active_vcpu_count prv.weight)
                d.active_vcpu_count) d.domain_id v).svc)
          ∧ (0 ≤ v.credit + ((ceil_div (spec_credit_fair prv.credit d.weight
                d.active_vcpu_count prv.weight) d.active_vcpu_count : Nat) : Int) →
              v.credit + ((ceil_div (spec_credit_fair prv.credit d.weight
                d.active_vcpu_count prv.weight) d.active_vcpu_count : Nat) : Int) < 2147483648 →
              (v.credit + ((ceil_div (spec_credit_fair prv.credit d.weight
                d.active_vcpu_count prv.weight) d.active_vcpu_count : Nat) : Int)) / 100
                ≤ ((prv.credits_per_tslice / 100 : Nat) : Int) →
              v2.credit = v.credit + ((ceil_div (spec_credit_fair prv.credit d.weight
                d.active_vcpu_count prv.weight) d.active_vcpu_count : Nat) : Int)) := by
  obtain ⟨st, hst, hn, d2, hd2, hid, himg⟩ := csched_acct_image prv prv2 pre d post h hW hsplit
  have hct : st.credit_total = prv.credit := by
    rw [unclipped_credit_total prv prv.weight pre _ st hun hst]
    unfold csched_acct_init
    simp only []
    rw [if_neg (by omega)]
  have hcf := share_fair_eq_spec prv st d hbal hn hct ho1 ho2 ho3 ho4 hlt
  refine ⟨d2, hd2, hid, ?_⟩
  intro v hv
  have hm := himg v hv
  rw [hcf] at hm
  exact ⟨_, hm, acct_vcpu_id _ _ _ _ _ _, ⟨_, rfl⟩,
    fun h0 h1 h2 => acct_vcpu_credit_plain _ _ _ _ _ _ h0 h1 h2⟩

/-- Witness for the amended C5: the pass from acct_demo at its first domain,
the privileged domain (C = 400, w = 256, n = 2, W = 1280): the fair share 160
is below the peak 200 and each of its two vCPUs is processed with the
increment 80. -/
theorem fair_share_quantum_amended_witness :
    ceil_div (spec_credit_fair acct_demo.credit acct_demo_dom0.weight
        acct_demo_dom0.active_vcpu_count acct_demo.weight) acct_demo_dom0.active_vcpu_count = 80
    ∧ ∃ d2, d2 ∈ acct_demo_out.active_sdom ++ acct_demo_out.inactive_sdom
      ∧ d2.domain_id = acct_demo_dom0.domain_id
      ∧ ∀ v, v ∈ acct_demo_dom0.active_vcpu →
        ∃ v2, v2 ∈ d2.active_vcpu ++ d2.inactive_vcpu ∧ v2.vcpu_id = v.vcpu_id
          ∧ (∃ ccap, v2 = (csched_acct_vcpu acct_demo.credits_per_tslice acct_demo_dom0.cap ccap
              (ceil_div (spec_credit_fair acct_demo.credit acct_demo_dom0.weight
                acct_demo_dom0.active_vcpu_count acct_demo.weight)
                acct_demo_dom0.active_vcpu_count) acct_demo_dom0.domain_id v).svc) := by
  refine ⟨by decide, ?_⟩
  obtain ⟨d2, hd2, hid, hall⟩ :=
    fair_share_quantum_amended acct_demo acct_demo_out [] acct_demo_dom0 [acct_demo_dom3]
      acct_demo_run (by decide) (by decide) rfl trivial (by decide) (by decide) (by decide)
      (by decide) (by decide)
  refine ⟨d2, hd2, hid, ?_⟩
  intro v hv
  obtain ⟨v2, h1, h2, h3, _⟩ := hall v hv
  exact ⟨v2, h1, h2, h3⟩

theorem cap_total_lt (prv : csched_private) (d : csched_dom) :
    acct_cap_total prv d < 42949673 := by
  unfold acct_cap_total U32
  omega

theorem peak_capped_le_cap (prv : csched_private) (W : Nat) (d : csched_dom)
    (hcap : d.cap ≠ 0) : acct_peak_capped prv W d ≤ acct_cap_total prv d := by
  unfold acct_peak_capped
  split_ifs with h
  · exact le_refl _
  · have : ¬ acct_cap_total prv d < acct_peak prv W d := fun hlt => h ⟨hcap, hlt⟩
    omega

theorem share_cap_eq (prv : csched_private) (W : Nat) (st : acct_state) (d : csched_dom)
    (hcap : d.cap ≠ 0) (hn16 : d.active_vcpu_count < 65536) :
    (csched_acct_share prv W st d).credit_cap
      = ceil_div (acct_cap_total prv d) d.active_vcpu_count := by
  have hlt := cap_total_lt prv d
  unfold csched_acct_share ceil_div
  simp only []
  rw [if_pos hcap, U32_of_lt _ (by omega)]

/-- The per-vCPU credit_fair of a capped domain is at most its per-vCPU
credit_cap. -/
theorem share_fair_le_cap (prv : csched_private) (W : Nat) (st : acct_state) (d : csched_dom)
    (hcap : d.cap ≠ 0) (hn16 : d.active_vcpu_count < 65536) :
    (csched_acct_share prv W st d).credit_fair ≤ (csched_acct_share prv W st d).credit_cap := by
  rw [share_cap_eq prv W st d hcap hn16]
  unfold ceil_div
  exact le_trans (share_fair_le_peak prv W st d)
    (Nat.div_le_div_right (by have := peak_capped_le_cap prv W d hcap; omega))

theorem ceil_div_of_dvd (c n : Nat) (hn : n ≠ 0) (hd : c % n = 0) : n * ceil_div c n = c := by
  obtain ⟨k, hk⟩ := Nat.dvd_of_mod_eq_zero hd
  have hpos : 0 < n := Nat.pos_of_ne_zero hn
  unfold ceil_div
  subst hk
  have : (n * k + (n - 1)) / n = k := by
    rw [Nat.mul_comm n k, Nat.add_comm, Nat.add_mul_div_right _ _ hpos,
      Nat.div_eq_of_lt (by omega)]
    omega
  rw [this]

/-- C7, as stated, fails on the code in two ways. (a) The capped domain of
scenario 2 with three active vCPUs instead of two (cap 50, 100 credits per
slice, so credit_cap = 50): each of the three vCPUs, starting from credit 0,
receives ceil(50 / 3) = 17, which adds up to 51, above 50. (b) With cap 65534
and 65539 credits per slice the product cap * credits_per_tslice overflows 32
bits: the code works with a per-vCPU cap of 656, not
ceil(cap * credits_per_tslice / 100) = 42950329. -/
theorem cap_per_pass_counterexample :
    (acct_cap_dom.cap ≠ 0 ∧ acct_cap_dom.active_vcpu_count = 3
      ∧ spec_credit_cap acct_cap_dom.cap acct_cap.credits_per_tslice = 50
      ∧ acct_credits acct_cap = [(3, 0, 0), (3, 1, 0), (3, 2, 0)]
      ∧ (csched_acct acct_cap).map acct_credits = some [(3, 0, 17), (3, 1, 17), (3, 2, 17)]
      ∧ ¬ (17 + 17 + 17 ≤ spec_credit_cap acct_cap_dom.cap acct_cap.credits_per_tslice))
    ∧ (acct_bigcap_dom.cap ≠ 0 ∧ acct_bigcap_dom.active_vcpu_count = 1
      ∧ (csched_acct_share acct_bigcap acct_bigcap.weight (csched_acct_init acct_bigcap)
          acct_bigcap_dom).credit_cap = 656
      ∧ ceil_div (spec_credit_cap acct_bigcap_dom.cap acct_bigcap.credits_per_tslice)
          acct_bigcap_dom.active_vcpu_count = 42950329) := by
  decide

/-- C7, amended. For every capped domain d (cap != 0) with n >= 1 active
vCPUs (n a 16-bit count) processed in a csched_acct pass that completes, if
cap * credits_per_tslice + 99 does not overflow 32 bits: the per-vCPU cap used
for parking is ceil(credit_cap / n) with
credit_cap = ceil(cap * credits_per_tslice / 100); every active vCPU of d is
processed with the same increment credit_fair, which is at most that per-vCPU
cap; hence n increments add up to at most credit_cap + n - 1, and to at most
credit_cap when n divides credit_cap (cap = 50, credits_per_slice = 100,
n = 2: credit_cap = 50 and a per-vCPU cap of 25). -/
theorem cap_per_pass_amended (prv prv2 : csched_private) (pre : List csched_dom)
    (d : csched_dom) (post : List csched_dom)
    (h : csched_acct prv = some prv2) (hW : prv.weight ≠ 0)
    (hsplit : prv.active_sdom = pre ++ d :: post)
    (hcap : d.cap ≠ 0) (hn16 : d.active_vcpu_count < 65536)
    (ho : d.cap * prv.credits_per_tslice + 99 < 4294967296) :
    ∃ st, csched_acct_sdoms prv prv.weight pre (csched_acct_init prv) = some st
      ∧ 1 ≤ d.active_vcpu_count
      ∧ (csched_acct_share prv prv.weight st d).credit_cap
          = ceil_div (spec_credit_cap d.cap prv.credits_per_tslice) d.active_vcpu_count
      ∧ (csched_acct_share prv prv.weight st d).credit_fair
          ≤ ceil_div (spec_credit_cap d.cap prv.credits_per_tslice) d.active_vcpu_count
      ∧ d.active_vcpu_count * (csched_acct_share prv prv.weight st d).credit_fair
          ≤ spec_credit_cap d.cap prv.credits_per_tslice + (d.active_vcpu_count - 1)
      ∧ (spec_credit_cap d.cap prv.credits_per_tslice % d.active_vcpu_count = 0 →
          d.active_vcpu_count * (csched_acct_share prv prv.weight st d).credit_fair
            ≤ spec_credit_cap d.cap prv.credits_per_tslice)
      ∧ (spec_credit_cap 50 100 = 50 ∧ ceil_div 50 2 = 25)
      ∧ ∃ d2, d2 ∈ prv2.active_sdom ++ prv2.inactive_sdom ∧ d2.domain_id = d.domain_id
        ∧ ∀ v, v ∈ d.active_vcpu →
          ∃ v2, v2 ∈ d2.active_vcpu ++ d2.inactive_vcpu ∧ v2.vcpu_id = v.vcpu_id
            ∧ v2 = (csched_acct_vcpu prv.credits_per_tslice d.cap
                (csched_acct_share prv prv.weight st d).credit_cap
                (csched_acct_share prv prv.weight st d).credit_fair d.domain_id v).svc := by
  obtain ⟨st, hst, hn, d2, hd2, hid, himg⟩ := csched_acct_image prv prv2 pre d post h hW hsplit
  have hcapeq := share_cap_eq prv prv.weight st d hcap hn16
  rw [cap_total_eq_spec prv d ho] at hcapeq
  have hle := share_fair_le_cap prv prv.weight st d hcap hn16
  rw [hcapeq] at hle
  have hmul : d.active_vcpu_count
      * ceil_div (spec_credit_cap d.cap prv.credits_per_tslice) d.active_vcpu_count
      ≤ spec_credit_cap d.cap prv.credits_per_tslice + (d.active_vcpu_count - 1) := by
    unfold ceil_div
    exact Nat.mul_div_le _ _
  have hmul2 := Nat.mul_le_mul_left d.active_vcpu_count hle
  refine ⟨st, hst, by omega, hcapeq, hle, by omega, ?_, by decide, d2, hd2, hid, ?_⟩
  · intro hdvd
    rw [ceil_div_of_dvd _ _ hn hdvd] at hmul2
    exact hmul2
  · intro v hv
    exact ⟨_, himg v hv, acct_vcpu_id _ _ _ _ _ _, rfl⟩

theorem acct_cap2_run : csched_acct acct_cap2 = some acct_cap2_out := by decide

/-- Witness for the amended C7: scenario 2 of the specification (cap 50, 100
credits per slice, two active vCPUs): the per-vCPU cap is 25 and the two
increments add up to at most 50. -/
theorem cap_per_pass_amended_witness :
    ∃ st, csched_acct_sdoms acct_cap2 acct_cap2.weight [] (csched_acct_init acct_cap2) = some st
      ∧ (csched_acct_share acct_cap2 acct_cap2.weight st acct_cap2_dom).credit_cap = 25
      ∧ acct_cap2_dom.active_vcpu_count
          * (csched_acct_share acct_cap2 acct_cap2.weight st acct_cap2_dom).credit_fair ≤ 50 := by
  obtain ⟨st, hst, _, h2, _, _, h5, _⟩ :=
    cap_per_pass_amended acct_cap2 acct_cap2_out [] acct_cap2_dom [] acct_cap2_run
      (by decide) rfl (by decide) (by decide) (by decide)
  exact ⟨st, hst, h2, h5 (by decide)⟩

/-! ## The pass completes -/

theorem acct_vcpus_completes (cpt cap ccap cf domid w R : Nat) (vs : List csched_vcpu) :
    ∀ st : acct_vcpu_state, w * st.active_vcpu_count + R ≤ st.prv_weight →
      st.prv_weight < 4294967296 →
      ∃ r, csched_acct_vcpus cpt cap ccap cf domid w vs st = some r
        ∧ R ≤ r.prv_weight ∧ r.prv_weight < 4294967296 := by
  induction vs with
  | nil =>
    intro st h1 h2
    exact ⟨st, rfl, by omega, h2⟩
  | cons a vs ih =>
    intro st h1 h2
    rw [csched_acct_vcpus]
    split_ifs with hx hb hk
    · exfalso
      have : w * 2 ≤ w * st.active_vcpu_count := Nat.mul_le_mul_left w hx.2
      omega
    all_goals
      apply ih
      all_goals simp only []
    · have hc : U16 (st.active_vcpu_count + 65535) ≤ st.active_vcpu_count - 1 := by
        unfold U16
        omega
      have hm := Nat.mul_le_mul_left w hc
      have hs : w * (st.active_vcpu_count - 1) = w * st.active_vcpu_count - w := by
        rw [Nat.mul_sub, Nat.mul_one]
      have hw2 : w * 2 ≤ w * st.active_vcpu_count := Nat.mul_le_mul_left w hx.2
      unfold U32
      omega
    · unfold U32
      omega
    · have hc : U16 (st.active_vcpu_count + 65535) ≤ st.active_vcpu_count - 1 := by
        unfold U16
        omega
      have hm := Nat.mul_le_mul_left w hc
      have hs : w * (st.active_vcpu_count - 1) = w * st.active_vcpu_count - w := by
        rw [Nat.mul_sub, Nat.mul_one]
      have hw2 : w * 2 ≤ w * st.active_vcpu_count := Nat.mul_le_mul_left w hx.2
      unfold U32
      omega
    · unfold U32
      omega
    · exact h1
    · exact h2

theorem acct_sdom_completes (prv : csched_private) (W R : Nat) (st : acct_state)
    (d : csched_dom)
    (hd : d.is_idle_domain = false ∧ d.active_vcpu_count ≠ 0 ∧ d.weight ≠ 0)
    (h1 : d.weight * d.active_vcpu_count + R ≤ st.weight_left)
    (h2 : d.weight * d.active_vcpu_count + R ≤ st.prv_weight)
    (h3 : st.weight_left < 4294967296) (h4 : st.prv_weight < 4294967296) :
    ∃ st1, csched_acct_sdom prv W st d = some st1
      ∧ R ≤ st1.weight_left ∧ R ≤ st1.prv_weight
      ∧ st1.weight_left < 4294967296 ∧ st1.prv_weight < 4294967296 := by
  obtain ⟨hi, hn, hw⟩ := hd
  have hU : U32 (d.weight * d.active_vcpu_count) = d.weight * d.active_vcpu_count :=
    U32_of_lt _ (by omega)
  obtain ⟨r, hr, hr1, hr2⟩ := acct_vcpus_completes prv.credits_per_tslice d.cap
    (csched_acct_share prv W st d).credit_cap (csched_acct_share prv W st d).credit_fair
    d.domain_id d.weight R d.active_vcpu
    { prv_weight := st.prv_weight, active_vcpu_count := d.active_vcpu_count,
      on_active_sdom := true, credit_balance := st.credit_balance, kept := [],
      stopped := [] } h2 h4
  have hwl : (csched_acct_share prv W st d).weight_left
      = st.weight_left - d.weight * d.active_vcpu_count := by
    unfold csched_acct_share
    simp only []
    rw [hU]
    unfold U32 negU32
    omega
  unfold csched_acct_sdom
  rw [if_neg (by simp [hi]), if_neg hn, if_neg hw, if_neg (by rw [hU]; omega)]
  simp only []
  rw [hr]
  refine ⟨_, rfl, ?_, hr1, ?_, hr2⟩
  · simp only []
    rw [hwl]
    omega
  · simp only []
    rw [hwl]
    omega

theorem acct_sdoms_completes (prv : csched_private) (W : Nat) (ds : List csched_dom) :
    ∀ st : acct_state,
      (∀ d ∈ ds, d.is_idle_domain = false ∧ d.active_vcpu_count ≠ 0 ∧ d.weight ≠ 0) →
      acct_weight_sum ds ≤ st.weight_left → acct_weight_sum ds ≤ st.prv_weight →
      st.weight_left < 4294967296 → st.prv_weight < 4294967296 →
      ∃ st2, csched_acct_sdoms prv W ds st = some st2 := by
  induction ds with
  | nil =>
    intro st _ _ _ _ _
    exact ⟨st, rfl⟩
  | cons d ds ih =>
    intro st hall h1 h2 h3 h4
    have hsum : acct_weight_sum (d :: ds)
        = d.weight * d.active_vcpu_count + acct_weight_sum ds := by
      simp [acct_weight_sum]
    rw [hsum] at h1 h2
    obtain ⟨st1, e1, a1, a2, a3, a4⟩ := acct_sdom_completes prv W (acct_weight_sum ds) st d
      (hall d (List.mem_cons_self d ds)) h1 h2 h3 h4
    obtain ⟨st2, e2⟩ := ih st1 (fun x hx => hall x (List.mem_cons_of_mem d hx)) a1 a2 a3 a4
    refine ⟨st2, ?_⟩
    rw [csched_acct_sdoms, e1]
    exact e2

/-- The pass completes: from every scheduler state that satisfies acct_ready,
csched_acct runs to its end without a BUG_ON firing. -/
theorem csched_acct_completes (prv : csched_private) (h : acct_ready prv) :
    ∃ prv2, csched_acct prv = some prv2 := by
  obtain ⟨hall, hsum, hlt⟩ := h
  unfold csched_acct
  split_ifs with hW
  · exact ⟨_, rfl⟩
  · obtain ⟨st, hst⟩ := acct_sdoms_completes prv prv.weight prv.active_sdom
      (csched_acct_init prv) hall hsum hsum hlt hlt
    rw [hst]
    exact ⟨_, rfl⟩

/-! ## The run queue: ordered insertion -/

/-- Where the walk of __runq_insert stops: never past the end, everything
before iter has a band at least that of the new vCPU, and iter itself, if it
is a queued vCPU, has a strictly lower band. -/
theorem runq_insert_walk_split (pri : Int) (runq : List csched_vcpu) :
    runq_insert_walk pri runq ≤ runq.length
    ∧ (∀ x ∈ runq.take (runq_insert_walk pri runq), pri ≤ x.pri)
    ∧ (∀ y, (runq.drop (runq_insert_walk pri runq)).head? = some y → y.pri < pri) := by
  induction runq with
  | nil => simp [runq_insert_walk]
  | cons a rest ih =>
    obtain ⟨i1, i2, i3⟩ := ih
    unfold runq_insert_walk
    split_ifs with h
    · refine ⟨Nat.zero_le _, ?_, ?_⟩
      · intro x hx
        simp at hx
      · intro y hy
        simp only [List.drop_zero, List.head?_cons, Option.some.injEq] at hy
        subst hy
        omega
    · refine ⟨?_, ?_, ?_⟩
      · simp only [List.length_cons]
        omega
      · intro x hx
        simp only [List.take_succ_cons, List.mem_cons] at hx
        rcases hx with hx | hx
        · subst hx
          omega
        · exact i2 x hx
      · intro y hy
        simp only [List.drop_succ_cons] at hy
        exact i3 y hy

/-- The walk of __runq_insert over a queue given as the elements of band at
least pri, then the first element of strictly lower band, then the rest. -/
theorem runq_insert_walk_at (pri : Int) (pre : List csched_vcpu) (l : csched_vcpu)
    (post : List csched_vcpu) (hpre : ∀ x ∈ pre, pri ≤ x.pri) (hl : l.pri < pri) :
    runq_insert_walk pri (pre ++ l :: post) = pre.length := by
  induction pre with
  | nil =>
    simp only [List.nil_append, List.length_nil]
    unfold runq_insert_walk
    rw [if_pos (by omega)]
  | cons a pre ih =>
    have ha := hpre a (List.mem_cons_self a pre)
    simp only [List.cons_append, List.length_cons]
    unfold runq_insert_walk
    rw [if_neg (by omega), ih (fun x hx => hpre x (List.mem_cons_of_mem a hx))]

/-- The walk of __runq_insert over a queue without an element of strictly
lower band ends at the list head. -/
theorem runq_insert_walk_end (pri : Int) (runq : List csched_vcpu)
    (h : ∀ x ∈ runq, pri ≤ x.pri) : runq_insert_walk pri runq = runq.length := by
  induction runq with
  | nil => rfl
  | cons a rest ih =>
    have ha := h a (List.mem_cons_self a rest)
    simp only [List.length_cons]
    unfold runq_insert_walk
    rw [if_neg (by omega), ih (fun x hx => h x (List.mem_cons_of_mem a hx))]

/-- An insertion without the YIELD flag links the vCPU at the position where
the walk stopped. -/
theorem runq_insert_plain (head_pri : Int) (runq : List csched_vcpu) (svc : csched_vcpu)
    (hy : svc.flags &&& CSCHED_FLAG_VCPU_YIELD = 0) :
    __runq_insert head_pri runq svc.processor svc
      = some (runq.take (runq_insert_walk svc.pri runq)
          ++ svc :: runq.drop (runq_insert_walk svc.pri runq)) := by
  unfold __runq_insert
  rw [if_neg (by simp), if_neg]
  rw [hy]
  simp

/-- In a queue that is non-increasing by band, every element from the first
one of strictly lower band on has a strictly lower band. -/
theorem runq_sorted_drop_lt (pri : Int) (post : List csched_vcpu) (hs : runq_sorted post)
    (hh : ∀ y, post.head? = some y → y.pri < pri) : ∀ y ∈ post, y.pri < pri := by
  cases post with
  | nil =>
    intro y hy
    simp at hy
  | cons a t =>
    intro y hy
    have ha := hh a rfl
    unfold runq_sorted at hs
    rw [List.pairwise_cons] at hs
    rcases List.mem_cons.1 hy with h | h
    · subst h
      exact ha
    · have := hs.1 y h
      omega

/-- C14. Ordered, stable insertion. For every run queue that is non-increasing
by band and every vCPU svc without the YIELD flag (a record that is on no
queue, inserted on the queue of its own processor), __runq_insert returns the
queue pre ++ svc :: post, where pre ++ post is the queue as it was (so the
existing elements keep their relative order), no element of pre has a band
strictly lower than that of svc, and post is empty or starts with an element
of strictly lower band: svc stands immediately before the first element of
strictly lower band, at the tail if there is none. Every element behind svc
has a strictly lower band, so svc sits behind every element of the same or a
higher band, and the result is again non-increasing by band. -/
theorem runq_insert_ordered (head_pri : Int) (runq : List csched_vcpu) (svc : csched_vcpu)
    (hs : runq_sorted runq) (hy : svc.flags &&& CSCHED_FLAG_VCPU_YIELD = 0) :
    ∃ pre post, runq = pre ++ post
      ∧ __runq_insert head_pri runq svc.processor svc = some (pre ++ svc :: post)
      ∧ (∀ x ∈ pre, svc.pri ≤ x.pri)
      ∧ (∀ y, post.head? = some y → y.pri < svc.pri)
      ∧ (∀ y ∈ post, y.pri < svc.pri)
      ∧ (∀ x ∈ runq, svc.pri ≤ x.pri → x ∈ pre)
      ∧ runq_sorted (pre ++ svc :: post) := by
  obtain ⟨_, h2, h3⟩ := runq_insert_walk_split svc.pri runq
  have hsplit : runq = runq.take (runq_insert_walk svc.pri runq)
      ++ runq.drop (runq_insert_walk svc.pri runq) := (List.take_append_drop _ _).symm
  have hs2 : runq_sorted (runq.take (runq_insert_walk svc.pri runq)
      ++ runq.drop (runq_insert_walk svc.pri runq)) := by
    rw [← hsplit]
    exact hs
  unfold runq_sorted at hs2
  rw [List.pairwise_append] at hs2
  obtain ⟨p1, p2, p3⟩ := hs2
  have h4 := runq_sorted_drop_lt svc.pri _ p2 h3
  refine ⟨_, _, hsplit, runq_insert_plain head_pri runq svc hy, h2, h3, h4, ?_, ?_⟩
  · intro x hx hle
    rw [hsplit] at hx
    rcases List.mem_append.1 hx with h | h
    · exact h
    · have := h4 x h
      omega
  · unfold runq_sorted
    rw [List.pairwise_append, List.pairwise_cons]
    refine ⟨p1, ⟨fun y hy => le_of_lt (h4 y hy), p2⟩, ?_⟩
    intro x hx y hy
    rcases List.mem_cons.1 hy with h | h
    · subst h
      exact h2 x hx
    · exact p3 x hx y h

/-- Witness for C14: an UNDER vCPU inserted into [UNDER, OVER, IDLE]. -/
theorem runq_insert_ordered_witness :
    ∃ pre post, [runq_under_a, runq_over_c, runq_idle] = pre ++ post
      ∧ __runq_insert 0 [runq_under_a, runq_over_c, runq_idle] runq_under_b.processor
          runq_under_b = some (pre ++ runq_under_b :: post)
      ∧ (∀ x ∈ pre, runq_under_b.pri ≤ x.pri)
      ∧ (∀ y, post.head? = some y → y.pri < runq_under_b.pri)
      ∧ (∀ y ∈ post, y.pri < runq_under_b.pri)
      ∧ (∀ x ∈ [runq_under_a, runq_over_c, runq_idle], runq_under_b.pri ≤ x.pri → x ∈ pre)
      ∧ runq_sorted (pre ++ runq_under_b :: post) :=
  runq_insert_ordered 0 [runq_under_a, runq_over_c, runq_idle] runq_under_b (by decide)
    (by decide)

/-! ## The run queue: a yielding vCPU -/

/-- C15, refuted as stated. A yielding UNDER vCPU inserted into
[UNDER a, UNDER b, OVER c, IDLE] ends up behind c, the first vCPU of strictly
lower band, and inserted into [UNDER a, UNDER b, IDLE] it ends up right
before the idle vCPU; one position after the first vCPU of the same or a
higher band is right behind a in both queues. -/
theorem runq_insert_yield_counterexample :
    __runq_insert 0 [runq_under_a, runq_under_b, runq_over_c, runq_idle] 0 runq_yielder
        = some [runq_under_a, runq_under_b, runq_over_c, runq_yielder, runq_idle]
    ∧ spec_yield_insert runq_yielder [runq_under_a, runq_under_b, runq_over_c, runq_idle]
        = [runq_under_a, runq_yielder, runq_under_b, runq_over_c, runq_idle]
    ∧ __runq_insert 0 [runq_under_a, runq_under_b, runq_idle] 0 runq_yielder
        = some [runq_under_a, runq_under_b, runq_yielder, runq_idle]
    ∧ spec_yield_insert runq_yielder [runq_under_a, runq_under_b, runq_idle]
        = [runq_under_a, runq_yielder, runq_under_b, runq_idle] := by
  decide

/-- The insertion of a YIELD-flagged vCPU into a queue given as the elements
of band at least its own, then the first element l of strictly lower band,
then the rest. -/
theorem runq_insert_yield_at (head_pri : Int) (pre : List csched_vcpu) (l : csched_vcpu)
    (post : List csched_vcpu) (svc : csched_vcpu)
    (hy : svc.flags &&& CSCHED_FLAG_VCPU_YIELD ≠ 0)
    (hpre : ∀ x ∈ pre, svc.pri ≤ x.pri) (hl : l.pri < svc.pri) :
    __runq_insert head_pri (pre ++ l :: post) svc.processor svc
      = if l.pri > CSCHED_PRI_IDLE then
          (if post = [] then none else some (pre ++ l :: svc :: post))
        else some (pre ++ svc :: l :: post) := by
  have hw := runq_insert_walk_at svc.pri pre l post hpre hl
  have hget : runq_iter_pri head_pri (pre ++ l :: post) pre.length = l.pri := by
    have hg : (pre ++ l :: post).get? pre.length = some l := by
      rw [List.get?_eq_getElem?, List.getElem?_append_right (le_refl _)]
      simp
    unfold runq_iter_pri
    rw [hg]
  have hnext : runq_iter_next (pre ++ l :: post) pre.length = pre.length + 1 := by
    unfold runq_iter_next
    rw [if_pos (by simp)]
  unfold __runq_insert
  rw [if_neg (by simp), hw, hget, hnext]
  by_cases hi : l.pri > CSCHED_PRI_IDLE
  · rw [if_pos ⟨hy, hi⟩, if_pos hi]
    by_cases hp : post = []
    · subst hp
      simp
    · rw [if_neg hp, if_neg]
      · have e1 : pre ++ l :: post = (pre ++ [l]) ++ post := by simp
        have e2 : (pre ++ [l]).length = pre.length + 1 := by simp
        rw [e1, ← e2, List.take_left, List.drop_left]
        simp
      · simp only [List.length_append, List.length_cons]
        have : post.length ≠ 0 := fun h => hp (List.length_eq_zero.1 h)
        omega
  · rw [if_neg (fun h => hi h.2), if_neg hi, List.take_left, List.drop_left]

/-- C15, amended. For every run queue that holds a vCPU of strictly lower band
than a YIELD-flagged vCPU svc, with l the first such vCPU walking from the
head: when the band of l is above IDLE, __runq_insert links svc exactly one
position after l (and trips BUG_ON(iter == runq) when l is the last element
of the queue); when l is an idle vCPU, svc is linked immediately before l.
The vCPUs of the same or a higher band that the walk meets before l do not
move svc forward. -/
theorem runq_insert_yield_amended (head_pri : Int) (pre : List csched_vcpu) (l : csched_vcpu)
    (post : List csched_vcpu) (svc : csched_vcpu)
    (hy : svc.flags &&& CSCHED_FLAG_VCPU_YIELD ≠ 0)
    (hpre : ∀ x ∈ pre, svc.pri ≤ x.pri) (hl : l.pri < svc.pri) :
    (CSCHED_PRI_IDLE < l.pri → post ≠ [] →
        __runq_insert head_pri (pre ++ l :: post) svc.processor svc
          = some (pre ++ l :: svc :: post))
    ∧ (CSCHED_PRI_IDLE < l.pri → post = [] →
        __runq_insert head_pri (pre ++ l :: post) svc.processor svc = none)
    ∧ (l.pri ≤ CSCHED_PRI_IDLE →
        __runq_insert head_pri (pre ++ l :: post) svc.processor svc
          = some (pre ++ svc :: l :: post)) := by
  have h := runq_insert_yield_at head_pri pre l post svc hy hpre hl
  refine ⟨?_, ?_, ?_⟩
  · intro h1 h2
    rw [h, if_pos h1, if_neg h2]
  · intro h1 h2
    rw [h, if_pos h1, if_pos h2]
  · intro h1
    rw [h, if_neg (by omega)]

/-- Witness for C15 as amended: the yielding UNDER vCPU and the queue
[UNDER a, UNDER b, OVER c, IDLE]. -/
theorem runq_insert_yield_amended_witness :
    (CSCHED_PRI_IDLE < runq_over_c.pri → [runq_idle] ≠ [] →
        __runq_insert 0 ([runq_under_a, runq_under_b] ++ runq_over_c :: [runq_idle])
            runq_yielder.processor runq_yielder
          = some ([runq_under_a, runq_under_b] ++ runq_over_c :: runq_yielder :: [runq_idle]))
    ∧ (CSCHED_PRI_IDLE < runq_over_c.pri → [runq_idle] = [] →
        __runq_insert 0 ([runq_under_a, runq_under_b] ++ runq_over_c :: [runq_idle])
            runq_yielder.processor runq_yielder = none)
    ∧ (runq_over_c.pri ≤ CSCHED_PRI_IDLE →
        __runq_insert 0 ([runq_under_a, runq_under_b] ++ runq_over_c :: [runq_idle])
            runq_yielder.processor runq_yielder
          = some ([runq_under_a, runq_under_b] ++ runq_yielder :: runq_over_c :: [runq_idle])) :=
  runq_insert_yield_amended 0 [runq_under_a, runq_under_b] runq_over_c [runq_idle] runq_yielder
    (by decide) (by decide) (by decide)

/-! ## The run queue: the re-sort -/

/-- The loop of csched_runq_sort appends to under the elements of band at
least UNDER it still has to visit, and to over the others, in queue order. -/
theorem runq_sort_loop_eq (rest : List csched_vcpu) :
    ∀ under over : List csched_vcpu,
      runq_sort_loop rest under over
        = (under ++ rest.filter fun x => decide (CSCHED_PRI_TS_UNDER ≤ x.pri))
          ++ (over ++ rest.filter fun x => decide (x.pri < CSCHED_PRI_TS_UNDER)) := by
  induction rest with
  | nil =>
    intro under over
    simp [runq_sort_loop]
  | cons a rest ih =>
    intro under over
    unfold runq_sort_loop
    by_cases h : CSCHED_PRI_TS_UNDER ≤ a.pri
    · have h2 : ¬ a.pri < CSCHED_PRI_TS_UNDER := by omega
      have f1 : (a :: rest).filter (fun x => decide (CSCHED_PRI_TS_UNDER ≤ x.pri))
          = a :: rest.filter (fun x => decide (CSCHED_PRI_TS_UNDER ≤ x.pri)) :=
        List.filter_cons_of_pos (decide_eq_true h)
      have f2 : (a :: rest).filter (fun x => decide (x.pri < CSCHED_PRI_TS_UNDER))
          = rest.filter (fun x => decide (x.pri < CSCHED_PRI_TS_UNDER)) :=
        List.filter_cons_of_neg (by rw [decide_eq_false h2]; exact Bool.false_ne_true)
      rw [if_pos h, f1, f2]
      split_ifs with ho
      · rw [ih]
        simp only [List.append_assoc, List.singleton_append]
      · have : over = [] := not_not.1 ho
        subst this
        rw [ih]
        simp only [List.append_assoc, List.singleton_append]
    · have h2 : a.pri < CSCHED_PRI_TS_UNDER := by omega
      have f1 : (a :: rest).filter (fun x => decide (CSCHED_PRI_TS_UNDER ≤ x.pri))
          = rest.filter (fun x => decide (CSCHED_PRI_TS_UNDER ≤ x.pri)) :=
        List.filter_cons_of_neg (by rw [decide_eq_false h]; exact Bool.false_ne_true)
      have f2 : (a :: rest).filter (fun x => decide (x.pri < CSCHED_PRI_TS_UNDER))
          = a :: rest.filter (fun x => decide (x.pri < CSCHED_PRI_TS_UNDER)) :=
        List.filter_cons_of_pos (decide_eq_true h2)
      rw [if_neg h, ih, f1, f2]
      simp only [List.append_assoc, List.singleton_append]

/-- The queue csched_runq_sort leaves when the epochs differ. -/
theorem runq_sort_runq (prv : csched_private) (spc : csched_pcpu)
    (ht : prv.runq_sort < 4294967296) (he : prv.runq_sort ≠ spc.runq_sort_last) :
    (csched_runq_sort prv spc).runq
      = (spc.runq.filter fun x => decide (CSCHED_PRI_TS_UNDER ≤ x.pri))
        ++ (spc.runq.filter fun x => decide (x.pri < CSCHED_PRI_TS_UNDER)) := by
  have e : toU32 (toInt32 (prv.runq_sort : Int)) = prv.runq_sort := by
    unfold toU32 toInt32
    omega
  unfold csched_runq_sort
  rw [e, if_neg he]
  simp only []
  rw [runq_sort_loop_eq]
  simp

/-- C16, refuted as stated. The re-sort leaves the queue [UNDER, BOOST] as it
is, and that queue is not non-increasing by band. -/
theorem runq_sort_counterexample :
    (csched_runq_sort { runq_sort := 1 }
        { runq := [runq_under_a, runq_boost_d], runq_sort_last := 0 }).runq
      = [runq_under_a, runq_boost_d]
    ∧ ¬ runq_sorted (csched_runq_sort { runq_sort := 1 }
        { runq := [runq_under_a, runq_boost_d], runq_sort_last := 0 }).runq := by
  decide

/-- C16, amended. For every run queue content, once csched_runq_sort has run on
a pCPU whose last-seen epoch differs from the global sort epoch, every vCPU
of band UNDER or higher is queued ahead of every vCPU of a lower band; the
queue is non-increasing by band exactly when the vCPUs of band UNDER or
higher were in non-increasing order among themselves and so were the vCPUs of
a lower band, and in particular when every queued vCPU is UNDER or OVER. -/
theorem runq_sort_amended (prv : csched_private) (spc : csched_pcpu)
    (ht : prv.runq_sort < 4294967296) (he : prv.runq_sort ≠ spc.runq_sort_last) :
    (csched_runq_sort prv spc).runq.Pairwise
        (fun a b => ¬ (a.pri < CSCHED_PRI_TS_UNDER ∧ CSCHED_PRI_TS_UNDER ≤ b.pri))
    ∧ (runq_sorted (csched_runq_sort prv spc).runq
        ↔ runq_sorted (spc.runq.filter fun x => decide (CSCHED_PRI_TS_UNDER ≤ x.pri))
          ∧ runq_sorted (spc.runq.filter fun x => decide (x.pri < CSCHED_PRI_TS_UNDER)))
    ∧ ((∀ x ∈ spc.runq, x.pri = CSCHED_PRI_TS_UNDER ∨ x.pri = CSCHED_PRI_TS_OVER) →
        runq_sorted (csched_runq_sort prv spc).runq) := by
  rw [runq_sort_runq prv spc ht he]
  have hcross : ∀ a ∈ spc.runq.filter (fun x => decide (CSCHED_PRI_TS_UNDER ≤ x.pri)),
      ∀ b ∈ spc.runq.filter (fun x => decide (x.pri < CSCHED_PRI_TS_UNDER)),
        b.pri < CSCHED_PRI_TS_UNDER ∧ CSCHED_PRI_TS_UNDER ≤ a.pri := by
    intro a ha b hb
    simp only [List.mem_filter, decide_eq_true_eq] at ha hb
    exact ⟨hb.2, ha.2⟩
  refine ⟨?_, ?_, ?_⟩
  · rw [List.pairwise_append]
    refine ⟨?_, ?_, ?_⟩
    · rw [List.pairwise_iff_forall_sublist]
      intro a b hab
      have ha : a ∈ spc.runq.filter (fun x => decide (CSCHED_PRI_TS_UNDER ≤ x.pri)) :=
        hab.subset (by simp)
      simp only [List.mem_filter, decide_eq_true_eq] at ha
      omega
    · rw [List.pairwise_iff_forall_sublist]
      intro a b hab
      have hb : b ∈ spc.runq.filter (fun x => decide (x.pri < CSCHED_PRI_TS_UNDER)) :=
        hab.subset (by simp)
      simp only [List.mem_filter, decide_eq_true_eq] at hb
      omega
    · intro a ha b hb
      have := hcross a ha b hb
      omega
  · unfold runq_sorted
    rw [List.pairwise_append]
    constructor
    · intro h
      exact ⟨h.1, h.2.1⟩
    · intro h
      refine ⟨h.1, h.2, ?_⟩
      intro a ha b hb
      have := hcross a ha b hb
      omega
  · intro hall
    unfold runq_sorted
    rw [List.pairwise_append]
    refine ⟨?_, ?_, ?_⟩
    · rw [List.pairwise_iff_forall_sublist]
      intro a b hab
      have ha : a ∈ spc.runq.filter (fun x => decide (CSCHED_PRI_TS_UNDER ≤ x.pri)) :=
        hab.subset (by simp)
      have hb : b ∈ spc.runq.filter (fun x => decide (CSCHED_PRI_TS_UNDER ≤ x.pri)) :=
        hab.subset (by simp)
      simp only [List.mem_filter, decide_eq_true_eq] at ha hb
      have h1 := hall a ha.1
      have h2 := hall b hb.1
      simp only [CSCHED_PRI_TS_UNDER, CSCHED_PRI_TS_OVER] at *
      omega
    · rw [List.pairwise_iff_forall_sublist]
      intro a b hab
      have ha : a ∈ spc.runq.filter (fun x => decide (x.pri < CSCHED_PRI_TS_UNDER)) :=
        hab.subset (by simp)
      have hb : b ∈ spc.runq.filter (fun x => decide (x.pri < CSCHED_PRI_TS_UNDER)) :=
        hab.subset (by simp)
      simp only [List.mem_filter, decide_eq_true_eq] at ha hb
      have h1 := hall a ha.1
      have h2 := hall b hb.1
      simp only [CSCHED_PRI_TS_UNDER, CSCHED_PRI_TS_OVER] at *
      omega
    · intro a ha b hb
      have := hcross a ha b hb
      omega

/-- Witness for C16 as amended: the queue [OVER c, UNDER a, OVER c, UNDER b]
at epoch 1, last sorted at epoch 0. -/
theorem runq_sort_amended_witness :
    (csched_runq_sort { runq_sort := 1 }
        { runq := [runq_over_c, runq_under_a, runq_over_c, runq_under_b] }).runq.Pairwise
        (fun a b => ¬ (a.pri < CSCHED_PRI_TS_UNDER ∧ CSCHED_PRI_TS_UNDER ≤ b.pri))
    ∧ (runq_sorted (csched_runq_sort { runq_sort := 1 }
          { runq := [runq_over_c, runq_under_a, runq_over_c, runq_under_b] }).runq
        ↔ runq_sorted ([runq_over_c, runq_under_a, runq_over_c, runq_under_b].filter
            fun x => decide (CSCHED_PRI_TS_UNDER ≤ x.pri))
          ∧ runq_sorted ([runq_over_c, runq_under_a, runq_over_c, runq_under_b].filter
            fun x => decide (x.pri < CSCHED_PRI_TS_UNDER)))
    ∧ ((∀ x ∈ [runq_over_c, runq_under_a, runq_over_c, runq_under_b],
          x.pri = CSCHED_PRI_TS_UNDER ∨ x.pri = CSCHED_PRI_TS_OVER) →
        runq_sorted (csched_runq_sort { runq_sort := 1 }
          { runq := [runq_over_c, runq_under_a, runq_over_c, runq_under_b] }).runq) :=
  runq_sort_amended { runq_sort := 1 }
    { runq := [runq_over_c, runq_under_a, runq_over_c, runq_under_b] } (by decide) (by decide)

/-! ## Burning credits -/

/-- The credits burn_credits computes are those of the specification when
they fit the unsigned int they are stored to. -/
theorem burn_amount_eq_spec (delta : Int) (h0 : 0 < delta)
    (hfit : spec_burn_credits delta < 4294967296) :
    (burn_amount delta : Int) = spec_burn_credits delta := by
  unfold spec_burn_credits at *
  have hd : delta * 1000 + 500000 < 4294967296 * 1000000 := by omega
  have e1 : toInt64 (delta * CSCHED_CREDITS_PER_MSEC) = delta * 1000 := by
    unfold toInt64
    simp only [CSCHED_CREDITS_PER_MSEC]
    omega
  have e2 : MILLISECS 1 = 1000000 := by decide
  have e3 : Int.tdiv (1000000 : Int) 2 = 500000 := by decide
  have e4 : toInt64 (delta * 1000 + 500000) = delta * 1000 + 500000 := by
    unfold toInt64
    omega
  have e5 : Int.tdiv (delta * 1000 + 500000) 1000000 = (delta * 1000 + 500000) / 1000000 :=
    Int.tdiv_eq_ediv (by omega) (by omega)
  unfold burn_amount
  rw [e1, e2, e3, e4, e5]
  unfold toU32
  omega

/-- The time by which burn_credits moves start_time on is 1000 ns for each
credit. -/
theorem burn_advance_eq (c : Nat) (hc : c < 4294967296) :
    Int.tdiv (toInt64 ((c : Int) * MILLISECS 1)) CSCHED_CREDITS_PER_MSEC = (c : Int) * 1000 := by
  have e2 : MILLISECS 1 = 1000000 := by decide
  have e4 : toInt64 ((c : Int) * 1000000) = (c : Int) * 1000000 := by
    unfold toInt64
    omega
  rw [e2, e4]
  simp only [CSCHED_CREDITS_PER_MSEC]
  rw [Int.tdiv_eq_ediv (by omega) (by omega)]
  omega

/-- The fields burn_credits leaves alone. -/
theorem burn_credits_frame (svc : csched_vcpu) (now : Int) :
    (burn_credits svc now).vcpu_id = svc.vcpu_id
    ∧ (burn_credits svc now).flags = svc.flags
    ∧ (burn_credits svc now).pri = svc.pri
    ∧ (burn_credits svc now).pause_count = svc.pause_count
    ∧ (burn_credits svc now).processor = svc.processor
    ∧ (burn_credits svc now).is_running = svc.is_running
    ∧ (burn_credits svc now).is_idle = svc.is_idle
    ∧ (burn_credits svc now).last_run_time = svc.last_run_time
    ∧ (burn_credits svc now).cpu_affinity = svc.cpu_affinity := by
  unfold burn_credits
  split_ifs <;> exact ⟨rfl, rfl, rfl, rfl, rfl, rfl, rfl, rfl, rfl⟩

/-- C17. With delta = now - start_time as the code computes it (an s_time_t):
for delta <= 0, burn_credits changes nothing. For delta > 0 and a credit
count credits = floor((delta*1000 + 500000) / 1000000) that fits in 32 bits
(the delta in nanoseconds rounded to the nearest microsecond, one credit
each), burn_credits subtracts credits from the 32-bit credit counter and
moves start_time on by credits * 1000 ns in s_time_t, and touches no other
field; the new credit is credit - credits whenever that number is an int,
and the new start_time is start_time + credits * 1000 whenever that is an
s_time_t. The rounding is to the nearest microsecond:
credits * 1000 - 500 <= delta < credits * 1000 + 500. -/
theorem burn_credits_rule (svc : csched_vcpu) (now : Int) :
    (burn_delta svc now ≤ 0 → burn_credits svc now = svc)
    ∧ (0 < burn_delta svc now → spec_burn_credits (burn_delta svc now) < 4294967296 →
        (burn_credits svc now).credit
            = toInt32 (svc.credit - spec_burn_credits (burn_delta svc now))
        ∧ (burn_credits svc now).start_time
            = toInt64 (svc.start_time + spec_burn_credits (burn_delta svc now) * 1000)
        ∧ (svc.credit < 2147483648 →
            -2147483648 ≤ svc.credit - spec_burn_credits (burn_delta svc now) →
            (burn_credits svc now).credit
              = svc.credit - spec_burn_credits (burn_delta svc now))
        ∧ (-9223372036854775808 ≤ svc.start_time →
            svc.start_time + spec_burn_credits (burn_delta svc now) * 1000
              < 9223372036854775808 →
            (burn_credits svc now).start_time
              = svc.start_time + spec_burn_credits (burn_delta svc now) * 1000)
        ∧ spec_burn_credits (burn_delta svc now) * 1000 - 500 ≤ burn_delta svc now
        ∧ burn_delta svc now < spec_burn_credits (burn_delta svc now) * 1000 + 500) := by
  refine ⟨?_, ?_⟩
  · intro h
    unfold burn_credits
    rw [if_pos h]
  · intro h0 hfit
    have ea := burn_amount_eq_spec _ h0 hfit
    have hlt : burn_amount (burn_delta svc now) < 4294967296 := by
      have : (burn_amount (burn_delta svc now) : Int) < 4294967296 := by
        rw [ea]
        exact hfit
      omega
    have eb := burn_advance_eq _ hlt
    have hc : (burn_credits svc now).credit
        = toInt32 (svc.credit - spec_burn_credits (burn_delta svc now)) := by
      unfold burn_credits
      rw [if_neg (by omega)]
      simp only []
      rw [ea]
      unfold toInt32
      omega
    have hs : (burn_credits svc now).start_time
        = toInt64 (svc.start_time + spec_burn_credits (burn_delta svc now) * 1000) := by
      unfold burn_credits
      rw [if_neg (by omega)]
      simp only []
      rw [eb, ea]
    refine ⟨hc, hs, ?_, ?_, ?_, ?_⟩
    · intro h1 h2
      rw [hc]
      have : 0 ≤ spec_burn_credits (burn_delta svc now) := by
        unfold spec_burn_credits
        omega
      unfold toInt32
      omega
    · intro h1 h2
      rw [hs]
      have : 0 ≤ spec_burn_credits (burn_delta svc now) := by
        unfold spec_burn_credits
        omega
      unfold toInt64
      omega
    · unfold spec_burn_credits
      omega
    · unfold spec_burn_credits
      omega

/-- Witness for C17: a vCPU with credit 100 that started at 1000 ns, burnt at
2501500 ns (2.5005 ms later: 2501 credits, rounding the half up). -/
theorem burn_credits_rule_witness :
    (burn_credits { credit := 100, start_time := 1000 } 2501500).credit = -2401
    ∧ (burn_credits { credit := 100, start_time := 1000 } 2501500).start_time = 2502000 := by
  have h := (burn_credits_rule { credit := 100, start_time := 1000 } 2501500).2
    (by decide) (by decide)
  refine ⟨?_, ?_⟩
  · rw [h.1]
    decide
  · rw [h.2.1]
    decide

/-! ## Waking a vCPU -/

/-- The record wake_boost leaves differs from the one it is given in the band
at most. -/
theorem wake_boost_eq (svc : csched_vcpu) :
    wake_boost svc
      = { svc with
          pri := if svc.pri = CSCHED_PRI_TS_UNDER ∧ svc.flags &&& CSCHED_FLAG_VCPU_PARKED = 0
            then CSCHED_PRI_TS_BOOST else svc.pri } := by
  unfold wake_boost
  split_ifs <;> rfl

/-- C18. Wake boost. csched_vcpu_wake on a vCPU (not an idle vCPU) that is the
current vCPU of its pCPU or already on a run queue changes nothing. On a vCPU
that is neither, it sets the band to BOOST if the band was UNDER and PARKED is
clear, leaves the band as it was otherwise, leaves every other field of the
vCPU alone, and then inserts the vCPU with __runq_insert on the run queue of
its own pCPU, the other fields of the pCPU record unchanged: for a vCPU
without the YIELD flag the queue becomes pre ++ svc :: post, with pre ++ post
the queue as it was, no element of pre of a strictly lower band than the new
band of svc, and post empty or starting with an element of strictly lower
band. -/
theorem csched_vcpu_wake_boost (head_pri : Int) (spc : csched_pcpu) (is_curr on_runq : Bool)
    (svc : csched_vcpu) (hi : svc.is_idle = false) :
    ((is_curr = true ∨ on_runq = true) →
        csched_vcpu_wake head_pri spc is_curr on_runq svc = some (spc, svc))
    ∧ (is_curr = false → on_runq = false →
        wake_boost svc
          = { svc with
              pri := if svc.pri = CSCHED_PRI_TS_UNDER
                  ∧ svc.flags &&& CSCHED_FLAG_VCPU_PARKED = 0
                then CSCHED_PRI_TS_BOOST else svc.pri }
        ∧ ((wake_boost svc).pri = CSCHED_PRI_TS_BOOST ∧ svc.pri ≠ CSCHED_PRI_TS_BOOST
            ↔ svc.pri = CSCHED_PRI_TS_UNDER ∧ svc.flags &&& CSCHED_FLAG_VCPU_PARKED = 0)
        ∧ csched_vcpu_wake head_pri spc is_curr on_runq svc
            = (__runq_insert head_pri spc.runq svc.processor (wake_boost svc)).map
                (fun runq => ({ spc with runq := runq }, wake_boost svc))
        ∧ (svc.flags &&& CSCHED_FLAG_VCPU_YIELD = 0 →
            ∃ pre post, spc.runq = pre ++ post
              ∧ csched_vcpu_wake head_pri spc is_curr on_runq svc
                  = some ({ spc with runq := pre ++ wake_boost svc :: post }, wake_boost svc)
              ∧ (∀ x ∈ pre, (wake_boost svc).pri ≤ x.pri)
              ∧ (∀ y, post.head? = some y → y.pri < (wake_boost svc).pri))) := by
  have hb := wake_boost_eq svc
  have hproc : (wake_boost svc).processor = svc.processor := by rw [hb]
  have hflags : (wake_boost svc).flags = svc.flags := by rw [hb]
  have hwake : is_curr = false → on_runq = false →
      csched_vcpu_wake head_pri spc is_curr on_runq svc
        = (__runq_insert head_pri spc.runq svc.processor (wake_boost svc)).map
            (fun runq => ({ spc with runq := runq }, wake_boost svc)) := by
    intro h1 h2
    subst h1 h2
    unfold csched_vcpu_wake
    rw [hi]
    simp only [Bool.false_eq_true, if_false]
    cases __runq_insert head_pri spc.runq svc.processor (wake_boost svc) <;> rfl
  refine ⟨?_, ?_⟩
  · intro h
    unfold csched_vcpu_wake
    rw [hi]
    rcases h with h | h
    · subst h
      simp
    · subst h
      simp
  · intro h1 h2
    refine ⟨hb, ?_, hwake h1 h2, ?_⟩
    · rw [hb]
      simp only []
      constructor
      · intro h
        by_contra hc
        rw [if_neg hc] at h
        exact h.2 h.1
      · intro h
        rw [if_pos h]
        refine ⟨rfl, ?_⟩
        rw [h.1]
        decide
    · intro hy
      obtain ⟨_, w2, w3⟩ := runq_insert_walk_split (wake_boost svc).pri spc.runq
      have hins := runq_insert_plain head_pri spc.runq (wake_boost svc) (by rw [hflags]; exact hy)
      rw [hproc] at hins
      refine ⟨_, _, (List.take_append_drop _ _).symm, ?_, w2, w3⟩
      rw [hwake h1 h2, hins]
      rfl

/-- Witness for C18: an UNDER vCPU with credit 10 that is not parked, woken
while neither running nor queued, becomes BOOST and goes to the head of the
queue [UNDER a, IDLE]. -/
theorem csched_vcpu_wake_boost_witness :
    csched_vcpu_wake 0 { runq := [runq_under_a, runq_idle] } false false
        { credit := 10, pri := CSCHED_PRI_TS_UNDER }
      = some ({ runq := [{ credit := 10, pri := CSCHED_PRI_TS_BOOST }, runq_under_a, runq_idle] },
          { credit := 10, pri := CSCHED_PRI_TS_BOOST }) := by
  have h := ((csched_vcpu_wake_boost 0 { runq := [runq_under_a, runq_idle] } false false
    { credit := 10, pri := CSCHED_PRI_TS_UNDER } rfl).2 rfl rfl).2.2.1
  rw [h]
  decide

/-! ## Stealing from a peer -/

/-- What the walk of csched_runq_steal returns, when it returns: nothing and
the queue as it was, when none of the leading elements of band above pri can
migrate; or the first of these elements that can, with its processor set, and
the queue without it. -/
theorem runq_steal_walk_spec (now : Int) (delay cpu : Nat) (pri : Int)
    (runq : List csched_vcpu) :
    ∀ r q, runq_steal_walk now delay cpu pri runq = some (r, q) →
      (r = none ∧ q = runq
        ∧ ∃ lead rest, runq = lead ++ rest
          ∧ (∀ y ∈ lead, pri < y.pri ∧ __csched_vcpu_is_migrateable now delay y cpu = false)
          ∧ (∀ y, rest.head? = some y → y.pri ≤ pri))
      ∨ (∃ pre x post, runq = pre ++ x :: post
          ∧ r = some { x with processor := cpu } ∧ q = pre ++ post
          ∧ (∀ y ∈ pre, pri < y.pri ∧ __csched_vcpu_is_migrateable now delay y cpu = false)
          ∧ pri < x.pri ∧ __csched_vcpu_is_migrateable now delay x cpu = true) := by
  induction runq with
  | nil =>
    intro r q h
    simp only [runq_steal_walk, Option.some.injEq, Prod.mk.injEq] at h
    left
    refine ⟨h.1.symm, h.2.symm, [], [], rfl, ?_, ?_⟩
    · intro y hy
      simp at hy
    · intro y hy
      simp at hy
  | cons a rest ih =>
    intro r q h
    rw [runq_steal_walk] at h
    split_ifs at h with h1 h2 h3
    · simp only [Option.some.injEq, Prod.mk.injEq] at h
      left
      refine ⟨h.1.symm, h.2.symm, [], a :: rest, rfl, ?_, ?_⟩
      · intro y hy
        simp at hy
      · intro y hy
        simp only [List.head?_cons, Option.some.injEq] at hy
        subst hy
        exact h1
    · simp only [Option.some.injEq, Prod.mk.injEq] at h
      right
      refine ⟨[], a, rest, rfl, h.1.symm, h.2.symm, ?_, by omega, h3⟩
      intro y hy
      simp at hy
    · cases hw : runq_steal_walk now delay cpu pri rest with
      | none =>
        rw [hw] at h
        simp at h
      | some res =>
        obtain ⟨r1, q1⟩ := res
        rw [hw] at h
        simp only [Option.some.injEq, Prod.mk.injEq] at h
        obtain ⟨hr, hq⟩ := h
        subst hr hq
        have ha : pri < a.pri ∧ __csched_vcpu_is_migrateable now delay a cpu = false :=
          ⟨by omega, by simpa using h3⟩
        rcases ih r1 q1 hw with ⟨e1, e2, lead, rest2, e3, e4, e5⟩ | ⟨pre, x, post, e1, e2, e3, e4, e5⟩
        · left
          refine ⟨e1, by rw [e2], a :: lead, rest2, by rw [e3]; rfl, ?_, e5⟩
          intro y hy
          rcases List.mem_cons.1 hy with hy | hy
          · subst hy
            exact ha
          · exact e4 y hy
        · right
          refine ⟨a :: pre, x, post, by rw [e1]; rfl, e2, by rw [e3]; rfl, ?_, e5⟩
          intro y hy
          rcases List.mem_cons.1 hy with hy | hy
          · subst hy
            exact ha
          · exact e4 y hy

/-- The walk of csched_runq_steal returns when no vCPU of band above pri on
the queue is an idle vCPU. -/
theorem runq_steal_walk_total (now : Int) (delay cpu : Nat) (pri : Int)
    (runq : List csched_vcpu) (hidle : ∀ y ∈ runq, pri < y.pri → y.is_idle = false) :
    ∃ res, runq_steal_walk now delay cpu pri runq = some res := by
  induction runq with
  | nil => exact ⟨_, rfl⟩
  | cons a rest ih =>
    obtain ⟨res, hres⟩ := ih (fun y hy => hidle y (List.mem_cons_of_mem a hy))
    rw [runq_steal_walk]
    split_ifs with h1 h2 h3
    · exact ⟨_, rfl⟩
    · have := hidle a (List.mem_cons_self a rest) (by omega)
      rw [this] at h2
      simp at h2
    · exact ⟨_, rfl⟩
    · rw [hres]
      exact ⟨_, rfl⟩

/-- C19. Steal correctness. With a peer whose current vCPU is idle,
csched_runq_steal returns nothing and changes nothing. Otherwise, when no
vCPU of band above pri on the peer's queue is an idle vCPU (the BUG_ON of the
walk), the call returns, and what it returns is either nothing, the peer
unchanged, none of the leading elements of band strictly greater than pri
being able to migrate; or the first of the leading elements of band strictly
greater than pri that can migrate, with processor = cpu, the peer's queue
being the old one without that vCPU, the rest in the same order. A vCPU can
migrate exactly when it is not running, not cache-hot and its affinity
contains cpu. -/
theorem csched_runq_steal_correct (now : Int) (delay cpu : Nat) (pri : Int)
    (spc : csched_pcpu) :
    csched_runq_steal now delay (some spc) true cpu pri = some (none, some spc)
    ∧ ((∀ y ∈ spc.runq, pri < y.pri → y.is_idle = false) →
        ∃ r q, csched_runq_steal now delay (some spc) false cpu pri
            = some (r, some { spc with runq := q })
          ∧ ((r = none ∧ q = spc.runq
              ∧ ∃ lead rest, spc.runq = lead ++ rest
                ∧ (∀ y ∈ lead, pri < y.pri
                    ∧ __csched_vcpu_is_migrateable now delay y cpu = false)
                ∧ (∀ y, rest.head? = some y → y.pri ≤ pri))
            ∨ (∃ pre x post, spc.runq = pre ++ x :: post
                ∧ r = some { x with processor := cpu } ∧ q = pre ++ post
                ∧ (∀ y ∈ pre, pri < y.pri
                    ∧ __csched_vcpu_is_migrateable now delay y cpu = false)
                ∧ pri < x.pri ∧ __csched_vcpu_is_migrateable now delay x cpu = true)))
    ∧ (∀ v, __csched_vcpu_is_migrateable now delay v cpu = true
        ↔ v.is_running = false ∧ __csched_vcpu_is_cache_hot now delay v = false
          ∧ cpu ∈ v.cpu_affinity) := by
  refine ⟨rfl, ?_, ?_⟩
  · intro hidle
    obtain ⟨⟨r, q⟩, hres⟩ := runq_steal_walk_total now delay cpu pri spc.runq hidle
    refine ⟨r, q, ?_, runq_steal_walk_spec now delay cpu pri spc.runq r q hres⟩
    unfold csched_runq_steal
    simp only [Bool.false_eq_true, if_false]
    rw [hres]
  · intro v
    unfold __csched_vcpu_is_migrateable
    simp [and_assoc]

/-- Witness for C19: the peer queue [UNDER X (cold), OVER Y] and an idle
requester on pCPU 0. X is returned with processor 0 and the peer's queue
becomes [OVER Y]. -/
theorem csched_runq_steal_correct_witness :
    csched_runq_steal 1000000000 1000 (some { runq := [steal_x, steal_y] }) false 0
        CSCHED_PRI_IDLE
      = some (some { steal_x with processor := 0 }, some { runq := [steal_y] })
    ∧ ∃ r q, csched_runq_steal 1000000000 1000 (some { runq := [steal_x, steal_y] }) false 0
          CSCHED_PRI_IDLE = some (r, some { runq := q }) :=
  ⟨by decide,
    (((csched_runq_steal_correct 1000000000 1000 0 CSCHED_PRI_IDLE
      { runq := [steal_x, steal_y] }).2.1 (by decide)).imp fun _ h => h.imp fun _ h2 => h2.1)⟩

/-! ## The global parameters -/

/-- The comparison of two microsecond values after MICROSECS is that of the
values themselves, for 32-bit values. -/
theorem MICROSECS_lt (a b : Nat) (ha : a < 4294967296) (hb : b < 4294967296) :
    MICROSECS a > MICROSECS b ↔ b < a := by
  have e : ∀ x : Nat, x < 4294967296 → MICROSECS x = (x : Int) * 1000 := by
    intro x hx
    have e1 : U64 (x * 1000) = x * 1000 := by
      unfold U64
      omega
    unfold MICROSECS
    rw [e1]
    unfold toInt64
    omega
  rw [e a ha, e b hb]
  omega

/-- C20. The global parameters. csched_sys_cntl with putinfo returns -EINVAL
and leaves the private data (tslice_us and ratelimit_us with it) and the
parameter block unchanged whenever the requested tslice_us is outside
[TSLICE_UMIN, TSLICE_UMAX], the requested ratelimit_us is outside
[RATELIMIT_MIN, RATELIMIT_MAX], or ratelimit_us > tslice_us; otherwise it
stores both values, returns 0 and has the stored values in the reply.
getinfo returns 0 with the current values in the reply and changes nothing;
any other command returns -EINVAL and changes nothing. -/
theorem csched_sys_cntl_rule (k : sysctl_consts) (prv : csched_private)
    (params : xen_sysctl_credit_schedule)
    (ht : params.tslice_us < 4294967296) (hr : params.ratelimit_us < 4294967296) :
    ((params.tslice_us < k.TSLICE_UMIN ∨ k.TSLICE_UMAX < params.tslice_us
        ∨ params.ratelimit_us < k.RATELIMIT_MIN ∨ k.RATELIMIT_MAX < params.ratelimit_us
        ∨ params.tslice_us < params.ratelimit_us) →
      csched_sys_cntl k prv sysctl_cmd.putinfo params = (-k.EINVAL, prv, params))
    ∧ (¬ (params.tslice_us < k.TSLICE_UMIN ∨ k.TSLICE_UMAX < params.tslice_us
        ∨ params.ratelimit_us < k.RATELIMIT_MIN ∨ k.RATELIMIT_MAX < params.ratelimit_us
        ∨ params.tslice_us < params.ratelimit_us) →
      csched_sys_cntl k prv sysctl_cmd.putinfo params
        = (0, { prv with tslice_us := params.tslice_us, ratelimit_us := params.ratelimit_us },
            params)
      ∧ (csched_sys_cntl k prv sysctl_cmd.putinfo params).2.2.tslice_us
          = (csched_sys_cntl k prv sysctl_cmd.putinfo params).2.1.tslice_us
      ∧ (csched_sys_cntl k prv sysctl_cmd.putinfo params).2.2.ratelimit_us
          = (csched_sys_cntl k prv sysctl_cmd.putinfo params).2.1.ratelimit_us)
    ∧ csched_sys_cntl k prv sysctl_cmd.getinfo params
        = (0, prv, { tslice_us := prv.tslice_us, ratelimit_us := prv.ratelimit_us })
    ∧ (∀ c, csched_sys_cntl k prv (sysctl_cmd.other c) params = (-k.EINVAL, prv, params)) := by
  have hm := MICROSECS_lt params.ratelimit_us params.tslice_us hr ht
  refine ⟨?_, ?_, rfl, fun _ => rfl⟩
  · intro h
    unfold csched_sys_cntl
    simp only []
    rw [if_pos]
    rw [hm]
    omega
  · intro h
    have hput : csched_sys_cntl k prv sysctl_cmd.putinfo params
        = (0, { prv with tslice_us := params.tslice_us, ratelimit_us := params.ratelimit_us },
            params) := by
      unfold csched_sys_cntl
      simp only []
      rw [if_neg]
      rw [hm]
      omega
    rw [hput]
    exact ⟨rfl, rfl, rfl⟩

/-- Witness for C20: with slices limited to [100, 30000] and rate limits to
[100, 500000], a request for a slice of 500 with a rate limit of 600 is
refused and one with a rate limit of 200 is stored. -/
theorem csched_sys_cntl_rule_witness :
    csched_sys_cntl sysctl_demo {} sysctl_cmd.putinfo { tslice_us := 500, ratelimit_us := 600 }
        = (-22, {}, { tslice_us := 500, ratelimit_us := 600 })
    ∧ csched_sys_cntl sysctl_demo {} sysctl_cmd.putinfo { tslice_us := 500, ratelimit_us := 200 }
        = (0, { tslice_us := 500, ratelimit_us := 200 },
            { tslice_us := 500, ratelimit_us := 200 }) :=
  ⟨(csched_sys_cntl_rule sysctl_demo {} { tslice_us := 500, ratelimit_us := 600 }
      (by decide) (by decide)).1 (by decide),
    ((csched_sys_cntl_rule sysctl_demo {} { tslice_us := 500, ratelimit_us := 200 }
      (by decide) (by decide)).2.1 (by decide)).1⟩

/-! ## Parking and the pause counter -/

theorem flags_set_parked (x : Nat) : (x ||| 1) &&& 1 = 1 := by
  apply Nat.eq_of_testBit_eq
  intro i
  simp only [Nat.testBit_and, Nat.testBit_or]
  cases i with
  | zero => simp
  | succ n => simp [Nat.testBit_succ]

theorem flags_clear_parked (x : Nat) : (x &&& 65534) &&& 1 = 0 := by
  have h : (65534 &&& 1 : Nat) = 0 := by decide
  rw [Nat.and_assoc, h, Nat.and_zero]

/-- What the body of the inner loop of csched_acct does to the PARKED flag and
the pause counter of one vCPU. -/
theorem acct_vcpu_park (cpt cap ccap cf domid : Nat) (v : csched_vcpu)
    (hcc : cap ≠ 0 → ccap < 4294967296) :
    (v.flags &&& 1 = 0 → (csched_acct_vcpu cpt cap ccap cf domid v).svc.flags &&& 1 ≠ 0 →
        (csched_acct_vcpu cpt cap ccap cf domid v).svc.pause_count = v.pause_count + 1
        ∧ cap ≠ 0 ∧ acct_credit_incr v cf < -(ccap : Int))
    ∧ (v.flags &&& 1 ≠ 0 → (csched_acct_vcpu cpt cap ccap cf domid v).svc.flags &&& 1 = 0 →
        (csched_acct_vcpu cpt cap ccap cf domid v).svc.pause_count = v.pause_count - 1)
    ∧ ((v.flags &&& 1 = 0 ↔ (csched_acct_vcpu cpt cap ccap cf domid v).svc.flags &&& 1 = 0) →
        (csched_acct_vcpu cpt cap ccap cf domid v).svc.pause_count = v.pause_count)
    ∧ (0 ≤ acct_credit_incr v cf →
        (csched_acct_vcpu cpt cap ccap cf domid v).svc.flags &&& 1 = 0) := by
  obtain ⟨vid, cr, fl, pr, pc, stt, proc, run, idle, lrt, aff⟩ := v
  have hr := toInt32_range (cr + (cf : Int))
  have hs := flags_set_parked fl
  have hc := flags_clear_parked fl
  unfold csched_acct_vcpu
  simp only [acct_credit_incr] at *
  split_ifs with hneg
  · have hu := toU32_of_neg _ hr.1 hneg
    unfold acct_vcpu_over
    simp only [CSCHED_FLAG_VCPU_PARKED, CSCHED_PRI_TS_OVER]
    split_ifs with ha hb hb
    all_goals simp only [hs]
    all_goals unfold negU32 at *
    all_goals refine ⟨fun h1 h2 => ?_, fun h1 h2 => ?_, fun h1 => ?_, fun h1 => ?_⟩
    all_goals (try simp only [iff_true, iff_false, true_iff, false_iff] at h1)
    all_goals first
      | trivial
      | omega
      | exact ⟨trivial, by omega, by omega⟩
  · unfold acct_vcpu_under
    simp only [CSCHED_FLAG_VCPU_PARKED, CSCHED_PRI_TS_UNDER]
    split_ifs with ha hb hc2 hb hc2
    all_goals simp only [hc]
    all_goals refine ⟨fun h1 h2 => ?_, fun h1 h2 => ?_, fun h1 => ?_, fun h1 => ?_⟩
    all_goals (try simp only [iff_true, iff_false, true_iff, false_iff] at h1)
    all_goals first
      | trivial
      | omega

/-- The per-vCPU cap of a capped domain is a 32-bit value. -/
theorem share_cap_typed (prv : csched_private) (W : Nat) (st : acct_state) (d : csched_dom)
    (hc : d.cap ≠ 0) : (csched_acct_share prv W st d).credit_cap < 4294967296 := by
  unfold csched_acct_share
  simp only []
  rw [if_pos hc]
  refine lt_of_le_of_lt (Nat.div_le_self _ _) ?_
  unfold U32
  omega

/-- A property of vCPU records that the body of the inner loop of csched_acct
preserves holds of every record the inner loop leaves. -/
theorem acct_vcpus_all (P : csched_vcpu → Prop) (cpt cap ccap cf domid w : Nat)
    (hP : ∀ v, P v → P (csched_acct_vcpu cpt cap ccap cf domid v).svc)
    (vs : List csched_vcpu) :
    ∀ (st r : acct_vcpu_state), csched_acct_vcpus cpt cap ccap cf domid w vs st = some r →
      (∀ v ∈ vs, P v) → (∀ v ∈ st.kept ++ st.stopped, P v) →
      ∀ v ∈ r.kept ++ r.stopped, P v := by
  induction vs with
  | nil =>
    intro st r h _ hst
    simp only [csched_acct_vcpus, Option.some.injEq] at h
    subst h
    exact hst
  | cons a vs ih =>
    intro st r h hvs hst
    have ha := hP a (hvs a (List.mem_cons_self a vs))
    rw [csched_acct_vcpus] at h
    split_ifs at h with h1 h2 <;>
    · refine ih _ r h (fun v hv => hvs v (List.mem_cons_of_mem a hv)) ?_
      intro v hv
      have hst2 : ∀ x, x ∈ st.kept ∨ x ∈ st.stopped → P x := fun x hx =>
        hst x (List.mem_append.2 hx)
      simp only [List.mem_append, List.mem_cons, List.mem_singleton, List.mem_nil_iff,
        false_or, or_false, or_assoc] at hv
      rcases hv with hv | hv | hv
      · exact hst2 v (Or.inl hv)
      · rw [hv]
        exact ha
      · exact hst2 v (Or.inr hv)

/-- One step of the outer loop of csched_acct keeps a property of vCPU
records that the body of the inner loop preserves. -/
theorem acct_sdom_all (P : csched_vcpu → Prop)
    (hP : ∀ cpt cap ccap cf domid v, P v → P (csched_acct_vcpu cpt cap ccap cf domid v).svc)
    (prv : csched_private) (W : Nat) (st st2 : acct_state) (d : csched_dom)
    (h : csched_acct_sdom prv W st d = some st2)
    (hd : ∀ v ∈ d.active_vcpu ++ d.inactive_vcpu, P v)
    (hst : ∀ e ∈ st.visited, ∀ v ∈ e.active_vcpu ++ e.inactive_vcpu, P v) :
    ∀ e ∈ st2.visited, ∀ v ∈ e.active_vcpu ++ e.inactive_vcpu, P v := by
  unfold csched_acct_sdom at h
  split_ifs at h with h1 h2 h3 h4
  simp only [] at h
  cases hr : csched_acct_vcpus prv.credits_per_tslice d.cap
      (csched_acct_share prv W st d).credit_cap (csched_acct_share prv W st d).credit_fair
      d.domain_id d.weight d.active_vcpu
      { prv_weight := st.prv_weight, active_vcpu_count := d.active_vcpu_count,
        on_active_sdom := true, credit_balance := st.credit_balance, kept := [],
        stopped := [] } with
  | none =>
    rw [hr] at h
    simp at h
  | some r =>
    rw [hr] at h
    simp only [Option.some.injEq] at h
    have hall := acct_vcpus_all P _ _ _ _ _ _ (hP _ _ _ _ _) _ _ _ hr
      (fun v hv => hd v (List.mem_append_left _ hv))
      (fun v hv => by simp at hv)
    have hnew : ∀ v ∈ r.kept ++ (r.stopped ++ d.inactive_vcpu), P v := by
      intro v hv
      simp only [List.mem_append] at hv
      rcases hv with hv | hv | hv
      · exact hall v (List.mem_append_left _ hv)
      · exact hall v (List.mem_append_right _ hv)
      · exact hd v (List.mem_append_right _ hv)
    subst h
    intro e he
    have hold : ∀ x, (x ∈ st.head ∨ x ∈ st.kept) ∨ x ∈ st.dropped →
        ∀ v ∈ x.active_vcpu ++ x.inactive_vcpu, P v := fun x hx =>
      hst x (by simp only [acct_state.visited, List.mem_append]; exact hx)
    simp only [acct_state.visited, List.mem_append] at he
    rcases he with (he | he) | he
    · split_ifs at he
      · rcases List.mem_cons.1 he with he | he
        · rw [he]
          exact hnew
        · exact hold e (Or.inl (Or.inl he))
      · exact hold e (Or.inl (Or.inl he))
    · split_ifs at he
      · rcases List.mem_append.1 he with he | he
        · exact hold e (Or.inl (Or.inr he))
        · rw [List.mem_singleton.1 he]
          exact hnew
      · exact hold e (Or.inl (Or.inr he))
    · split_ifs at he
      · exact hold e (Or.inr he)
      · rcases List.mem_cons.1 he with he | he
        · rw [he]
          exact hnew
        · exact hold e (Or.inr he)

/-- The outer loop of csched_acct keeps a property of vCPU records that the
body of the inner loop preserves. -/
theorem acct_sdoms_all (P : csched_vcpu → Prop)
    (hP : ∀ cpt cap ccap cf domid v, P v → P (csched_acct_vcpu cpt cap ccap cf domid v).svc)
    (prv : csched_private) (W : Nat) (ds : List csched_dom) :
    ∀ (st st2 : acct_state), csched_acct_sdoms prv W ds st = some st2 →
      (∀ d ∈ ds, ∀ v ∈ d.active_vcpu ++ d.inactive_vcpu, P v) →
      (∀ e ∈ st.visited, ∀ v ∈ e.active_vcpu ++ e.inactive_vcpu, P v) →
      ∀ e ∈ st2.visited, ∀ v ∈ e.active_vcpu ++ e.inactive_vcpu, P v := by
  induction ds with
  | nil =>
    intro st st2 h _ hst
    simp only [csched_acct_sdoms, Option.some.injEq] at h
    subst h
    exact hst
  | cons d ds ih =>
    intro st st2 h hds hst
    rw [csched_acct_sdoms] at h
    cases h1 : csched_acct_sdom prv W st d with
    | none => rw [h1] at h; simp at h
    | some st1 =>
      rw [h1] at h
      exact ih st1 st2 h (fun e he => hds e (List.mem_cons_of_mem d he))
        (acct_sdom_all P hP prv W st st1 d h1 (hds d (List.mem_cons_self d ds)) hst)

/-- A pass of csched_acct keeps a property of vCPU records that the body of
the inner loop preserves: if it holds of every record before the pass, it
holds of every record after it. -/
theorem csched_acct_all (P : csched_vcpu → Prop)
    (hP : ∀ cpt cap ccap cf domid v, P v → P (csched_acct_vcpu cpt cap ccap cf domid v).svc)
    (prv prv2 : csched_private) (h : csched_acct prv = some prv2) (hall : all_vcpus P prv) :
    all_vcpus P prv2 := by
  unfold csched_acct at h
  split_ifs at h with hW
  · simp only [Option.some.injEq] at h
    subst h
    exact hall
  · cases hl : csched_acct_sdoms prv prv.weight prv.active_sdom (csched_acct_init prv) with
    | none => rw [hl] at h; simp at h
    | some stf =>
      rw [hl] at h
      simp only [Option.some.injEq] at h
      have hv := acct_sdoms_all P hP prv prv.weight prv.active_sdom _ _ hl
        (fun d hd => hall d (List.mem_append_left _ hd))
        (fun e he => by simp [csched_acct_init, acct_state.visited] at he)
      subst h
      intro d hd
      simp only [List.mem_append] at hd
      rcases hd with (hd | hd) | hd | hd
      · exact hv d (by simp only [acct_state.visited, List.mem_append]; tauto)
      · exact hv d (by simp only [acct_state.visited, List.mem_append]; tauto)
      · exact hv d (by simp only [acct_state.visited, List.mem_append]; tauto)
      · exact hall d (List.mem_append_right _ hd)

/-- The body of the inner loop of csched_acct keeps the pause counter in
step with the PARKED flag. -/
theorem acct_vcpu_pause_consistent (cpt cap ccap cf domid : Nat) (v : csched_vcpu)
    (h : pause_consistent v) :
    pause_consistent (csched_acct_vcpu cpt cap ccap cf domid v).svc := by
  obtain ⟨vid, cr, fl, pr, pc, stt, proc, run, idle, lrt, aff⟩ := v
  have hs := flags_set_parked fl
  have hc := flags_clear_parked fl
  unfold pause_consistent at h
  simp only [CSCHED_FLAG_VCPU_PARKED] at h
  unfold csched_acct_vcpu
  split_ifs with hneg
  · unfold acct_vcpu_over
    simp only [CSCHED_FLAG_VCPU_PARKED, CSCHED_PRI_TS_OVER]
    split_ifs with ha hb hb
    all_goals unfold pause_consistent
    all_goals simp only [hs, CSCHED_FLAG_VCPU_PARKED]
    all_goals split_ifs at h ⊢
    all_goals omega
  · unfold acct_vcpu_under
    simp only [CSCHED_FLAG_VCPU_PARKED, CSCHED_PRI_TS_UNDER]
    split_ifs with ha hb hc2 hb hc2
    all_goals unfold pause_consistent
    all_goals simp only [hc, CSCHED_FLAG_VCPU_PARKED]
    all_goals split_ifs at h ⊢
    all_goals omega

theorem acct_park_run : csched_acct acct_park = some acct_park_out := by decide

/-- C13. Park/pause consistency, with the pause interface as a per-vCPU
counter. A csched_acct pass that completes preserves, over every vCPU record
of the scheduler, "outstanding scheduler pauses = 1 if PARKED else 0". For
every vCPU v the pass processes (on the active list of a domain d of
prv->active_sdom, W != 0), with v2 the record the pass leaves:
vcpu_pause_nosync is called (the counter goes up by one) when PARKED is set
in v2 and was clear in v, vcpu_unpause is called (the counter goes down by
one) when PARKED is clear in v2 and was set in v, and the counter is left
alone when the flag is; v is newly parked only if d is capped and the credit
after the increment is below -(per-vCPU credit_cap); and if the credit after
the increment is >= 0, v2 is not PARKED. -/
theorem csched_acct_park_consistency (prv prv2 : csched_private)
    (h : csched_acct prv = some prv2) :
    (all_vcpus pause_consistent prv → all_vcpus pause_consistent prv2)
    ∧ (prv.weight ≠ 0 → ∀ pre d post, prv.active_sdom = pre ++ d :: post →
        ∃ st, csched_acct_sdoms prv prv.weight pre (csched_acct_init prv) = some st
          ∧ ∃ d2, d2 ∈ prv2.active_sdom ++ prv2.inactive_sdom ∧ d2.domain_id = d.domain_id
            ∧ ∀ v, v ∈ d.active_vcpu →
              ∃ v2, v2 ∈ d2.active_vcpu ++ d2.inactive_vcpu ∧ v2.vcpu_id = v.vcpu_id
                ∧ v2 = (csched_acct_vcpu prv.credits_per_tslice d.cap
                    (csched_acct_share prv prv.weight st d).credit_cap
                    (csched_acct_share prv prv.weight st d).credit_fair d.domain_id v).svc
                ∧ (v.flags &&& CSCHED_FLAG_VCPU_PARKED = 0 →
                    v2.flags &&& CSCHED_FLAG_VCPU_PARKED ≠ 0 →
                    v2.pause_count = v.pause_count + 1
                    ∧ d.cap ≠ 0
                    ∧ acct_credit_incr v (csched_acct_share prv prv.weight st d).credit_fair
                        < -((csched_acct_share prv prv.weight st d).credit_cap : Int))
                ∧ (v.flags &&& CSCHED_FLAG_VCPU_PARKED ≠ 0 →
                    v2.flags &&& CSCHED_FLAG_VCPU_PARKED = 0 →
                    v2.pause_count = v.pause_count - 1)
                ∧ ((v.flags &&& CSCHED_FLAG_VCPU_PARKED = 0
                      ↔ v2.flags &&& CSCHED_FLAG_VCPU_PARKED = 0) →
                    v2.pause_count = v.pause_count)
                ∧ (0 ≤ acct_credit_incr v (csched_acct_share prv prv.weight st d).credit_fair →
                    v2.flags &&& CSCHED_FLAG_VCPU_PARKED = 0)) := by
  refine ⟨csched_acct_all pause_consistent
    (fun cpt cap ccap cf domid v hv => acct_vcpu_pause_consistent cpt cap ccap cf domid v hv)
    prv prv2 h, ?_⟩
  intro hW pre d post hsplit
  obtain ⟨st, hst, _, d2, hd2, hid, himg⟩ := csched_acct_image prv prv2 pre d post h hW hsplit
  refine ⟨st, hst, d2, hd2, hid, ?_⟩
  intro v hv
  obtain ⟨p1, p2, p3, p4⟩ := acct_vcpu_park prv.credits_per_tslice d.cap
    (csched_acct_share prv prv.weight st d).credit_cap
    (csched_acct_share prv prv.weight st d).credit_fair d.domain_id v
    (fun hc => share_cap_typed prv prv.weight st d hc)
  exact ⟨_, himg v hv, acct_vcpu_id _ _ _ _ _ _, rfl, p1, p2, p3, p4⟩

/-- Witness for C13: the pass from acct_park, which parks the overdrawn vCPU
of the capped domain and unparks the other one. -/
theorem csched_acct_park_consistency_witness :
    all_vcpus pause_consistent acct_park_out
    ∧ acct_credits acct_park_out = [(1, 0, -100), (1, 1, 5)]
    ∧ (acct_park_out.active_sdom.flatMap fun d =>
        d.active_vcpu.map fun v => (v.flags, v.pause_count)) = [(1, 1), (0, 0)] :=
  ⟨(csched_acct_park_consistency acct_park acct_park_out acct_park_run).1 (by decide),
    by decide, by decide⟩

/-! ## The active lists -/

/-- A list read at a position splits there; writing the position or erasing
it acts on the split. -/
theorem list_get_split {α : Type} (l : List α) :
    ∀ (i : Nat) (x : α), l.get? i = some x →
      ∃ pre post, l = pre ++ x :: post ∧ pre.length = i
        ∧ (∀ y, l.set i y = pre ++ y :: post) ∧ l.eraseIdx i = pre ++ post := by
  induction l with
  | nil =>
    intro i x h
    simp at h
  | cons a l ih =>
    intro i x h
    cases i with
    | zero =>
      simp only [List.get?_cons_zero, Option.some.injEq] at h
      subst h
      exact ⟨[], l, rfl, rfl, fun _ => rfl, rfl⟩
    | succ i =>
      simp only [List.get?_cons_succ] at h
      obtain ⟨pre, post, e1, e2, e3, e4⟩ := ih i x h
      refine ⟨a :: pre, post, by rw [e1]; rfl, by simp [e2], ?_, ?_⟩
      · intro y
        simp only [List.set_cons_succ, e3 y, List.cons_append]
      · simp only [List.eraseIdx_cons_succ, e4, List.cons_append]

theorem weight_sum_append (l1 l2 : List csched_dom) :
    acct_weight_sum (l1 ++ l2) = acct_weight_sum l1 + acct_weight_sum l2 := by
  simp [acct_weight_sum]

theorem weight_sum_cons (d : csched_dom) (l : List csched_dom) :
    acct_weight_sum (d :: l) = d.weight * d.active_vcpu_count + acct_weight_sum l := by
  simp [acct_weight_sum]

theorem weight_sum_nil : acct_weight_sum [] = 0 := rfl

/-- The fields set_active leaves alone and those it writes. -/
theorem set_active_fields (d : csched_dom) (c : Nat) (a i : List csched_vcpu) :
    (d.set_active c a i).weight = d.weight ∧ (d.set_active c a i).cap = d.cap
    ∧ (d.set_active c a i).domain_id = d.domain_id
    ∧ (d.set_active c a i).active_vcpu_count = c
    ∧ (d.set_active c a i).active_vcpu = a ∧ (d.set_active c a i).inactive_vcpu = i :=
  ⟨rfl, rfl, rfl, rfl, rfl, rfl⟩

/-- What __csched_vcpu_acct_start does to the invariants. With the
active-membership invariant before the call and, when the vCPU is not yet on
the active list, room for one more vCPU in the 16-bit active_vcpu_count of
its domain, the active-membership invariant holds after the call; the weight
invariant holds after the call if it held before and prv->weight + the
weight of the domain fits 32 bits; and the fields keep fitting their types. -/
theorem acct_start_invariants (prv prv2 : csched_private) (svc : svc_ref)
    (h : __csched_vcpu_acct_start prv svc = some prv2) (hm : active_membership prv)
    (hroom : ∀ sdom, prv.sdom_at svc.sdom = some sdom → svc.linked = false →
      sdom.active_vcpu_count < 65535) :
    active_membership prv2
    ∧ (weight_invariant prv →
        (∀ sdom, prv.sdom_at svc.sdom = some sdom → svc.linked = false →
          prv.weight + sdom.weight < 4294967296) → weight_invariant prv2)
    ∧ (prv.typed → prv2.typed) := by
  unfold __csched_vcpu_acct_start at h
  cases hs : prv.sdom_at svc.sdom with
  | none =>
    rw [hs] at h
    simp at h
  | some sdom =>
    rw [hs] at h
    simp only [] at h
    cases hv : sdom.svc_at svc.linked svc.idx with
    | none =>
      rw [hv] at h
      simp at h
    | some v =>
      rw [hv] at h
      simp only [] at h
      by_cases hl : svc.linked = true
      · rw [if_pos hl] at h
        simp only [Option.some.injEq] at h
        subst h
        exact ⟨hm, fun hw _ => hw, fun ht => ht⟩
      · have hl2 : svc.linked = false := by simpa using hl
        rw [if_neg hl] at h
        have hroom2 := hroom sdom hs hl2
        have hc1 : U16 (sdom.active_vcpu_count + 1) = sdom.active_vcpu_count + 1 := by
          unfold U16
          omega
        obtain ⟨f1, f2, _, f4, f5, _⟩ := set_active_fields sdom
          (U16 (sdom.active_vcpu_count + 1)) (v :: sdom.active_vcpu)
          (sdom.inactive_vcpu.eraseIdx svc.idx)
        unfold csched_private.sdom_at at hs
        by_cases hd : svc.sdom.linked = true
        · rw [if_pos hd] at h hs
          simp only [Option.some.injEq] at h
          obtain ⟨pre, post, e1, _, e3, _⟩ := list_get_split _ _ _ hs
          have hdm := hm.1 sdom (by rw [e1]; simp)
          subst h
          refine ⟨⟨?_, hm.2⟩, ?_, ?_⟩
          · intro d hd2
            simp only [e3] at hd2
            rcases List.mem_append.1 hd2 with hd2 | hd2
            · exact hm.1 d (by rw [e1]; exact List.mem_append_left _ hd2)
            · rcases List.mem_cons.1 hd2 with hd2 | hd2
              · subst hd2
                unfold acct_start_dom
                rw [f4, f5, hc1, hdm.1]
                simp
              · exact hm.1 d (by rw [e1]; simp [hd2])
          · intro hw hfit
            have hfit2 := hfit sdom rfl hl2
            unfold weight_invariant at *
            simp only [e3]
            rw [e1] at hw
            simp only [weight_sum_append, weight_sum_cons] at hw ⊢
            unfold acct_start_dom
            rw [f1, f4, hc1, U32_of_lt _ hfit2, hw, Nat.mul_succ]
            omega
          · intro ht
            refine ⟨Nat.mod_lt _ (by decide), ?_⟩
            intro d hd2
            simp only [e3] at hd2
            have hold : ∀ x, x ∈ prv.active_sdom ++ prv.inactive_sdom → x.typed := ht.2
            simp only [List.mem_append, List.mem_cons] at hd2
            rcases hd2 with (hd2 | hd2 | hd2) | hd2
            · exact hold d (by rw [e1]; simp [hd2])
            · subst hd2
              have := hold sdom (by rw [e1]; simp)
              unfold csched_dom.typed at *
              unfold acct_start_dom
              rw [f1, f2, f4]
              unfold U16
              omega
            · exact hold d (by rw [e1]; simp [hd2])
            · exact hold d (by simp [hd2])
        · rw [if_neg hd] at h hs
          simp only [Option.some.injEq] at h
          obtain ⟨pre, post, e1, _, _, e4⟩ := list_get_split _ _ _ hs
          have hdm := hm.2 sdom (by rw [e1]; simp)
          subst h
          refine ⟨⟨?_, ?_⟩, ?_, ?_⟩
          · intro d hd2
            rcases List.mem_cons.1 hd2 with hd2 | hd2
            · subst hd2
              unfold acct_start_dom
              rw [f4, f5, hc1, hdm.1]
              simp
            · exact hm.1 d hd2
          · intro d hd2
            simp only [e4] at hd2
            rcases List.mem_append.1 hd2 with hd2 | hd2
            · exact hm.2 d (by rw [e1]; exact List.mem_append_left _ hd2)
            · exact hm.2 d
                (by rw [e1]; exact List.mem_append_right _ (List.mem_cons_of_mem _ hd2))
          · intro hw hfit
            have hfit2 := hfit sdom rfl hl2
            unfold weight_invariant at *
            simp only [weight_sum_cons]
            unfold acct_start_dom
            rw [f1, f4, hc1, U32_of_lt _ hfit2, hw, hdm.1, hdm.2]
            simp
            omega
          · intro ht
            refine ⟨Nat.mod_lt _ (by decide), ?_⟩
            intro d hd2
            have hold : ∀ x, x ∈ prv.active_sdom ++ prv.inactive_sdom → x.typed := ht.2
            simp only [e4, List.mem_append, List.mem_cons] at hd2
            rcases hd2 with (hd2 | hd2) | hd2 | hd2
            · subst hd2
              have := hold sdom (by rw [e1]; simp)
              unfold csched_dom.typed at *
              unfold acct_start_dom
              rw [f1, f2, f4]
              unfold U16
              omega
            · exact hold d (by simp [hd2])
            · exact hold d (by rw [e1]; simp [hd2])
            · exact hold d (by rw [e1]; simp [hd2])

/-- What __csched_vcpu_acct_stop_locked does to the invariants, when no BUG_ON
fires: from a state whose fields fit their types, the active-membership
invariant is preserved, the weight invariant is preserved along with it, and
the fields keep fitting their types. -/
theorem acct_stop_invariants (prv prv2 : csched_private) (svc : svc_ref)
    (h : __csched_vcpu_acct_stop_locked prv svc = some prv2) (hm : active_membership prv)
    (ht : prv.typed) :
    active_membership prv2 ∧ (weight_invariant prv → weight_invariant prv2) ∧ prv2.typed := by
  have hold : ∀ x, x ∈ prv.active_sdom ++ prv.inactive_sdom → x.typed := ht.2
  unfold __csched_vcpu_acct_stop_locked at h
  cases hs : prv.sdom_at svc.sdom with
  | none =>
    rw [hs] at h
    simp at h
  | some sdom =>
    rw [hs] at h
    simp only [] at h
    cases hv : sdom.svc_at svc.linked svc.idx with
    | none =>
      rw [hv] at h
      simp at h
    | some v =>
      rw [hv] at h
      simp only [] at h
      split_ifs at h with h1 h2 h3
      · have hl : svc.linked = true := by simpa using h1
        unfold csched_dom.svc_at at hv
        rw [if_pos hl] at hv
        obtain ⟨vpre, vpost, v1, _, _, v4⟩ := list_get_split _ _ _ hv
        have hd : svc.sdom.linked = true := h3.2
        unfold csched_private.sdom_at at hs
        rw [if_pos hd] at hs
        obtain ⟨pre, post, e1, _, _, e4⟩ := list_get_split _ _ _ hs
        have hdm := hm.1 sdom (by rw [e1]; simp)
        have hdt := hold sdom (by rw [e1]; simp)
        unfold csched_dom.typed at hdt
        have hnil : vpre ++ vpost = [] := by
          rw [← v4]
          exact List.isEmpty_iff.1 h3.1
        have hlen : sdom.active_vcpu.length = 1 := by
          have := congrArg List.length hnil
          rw [v1]
          simp only [List.length_append, List.length_cons, List.length_nil] at this ⊢
          omega
        obtain ⟨f1, f2, _, f4, f5, _⟩ := set_active_fields sdom
          (U16 (sdom.active_vcpu_count + 65535)) (sdom.active_vcpu.eraseIdx svc.idx)
          (v :: sdom.inactive_vcpu)
        have hc1 : U16 (sdom.active_vcpu_count + 65535) = 0 := by
          rw [hdm.1, hlen]
          decide
        simp only [Option.some.injEq] at h
        subst h
        refine ⟨⟨?_, ?_⟩, ?_, ?_, ?_⟩
        · intro d hd2
          simp only [e4] at hd2
          rcases List.mem_append.1 hd2 with hd2 | hd2
          · exact hm.1 d (by rw [e1]; exact List.mem_append_left _ hd2)
          · exact hm.1 d
              (by rw [e1]; exact List.mem_append_right _ (List.mem_cons_of_mem _ hd2))
        · intro d hd2
          rcases List.mem_cons.1 hd2 with hd2 | hd2
          · subst hd2
            unfold acct_stop_dom
            rw [f4, f5, hc1, v4, hnil]
            simp
          · exact hm.2 d hd2
        · intro hw
          unfold weight_invariant at *
          simp only [e4]
          rw [e1] at hw
          simp only [weight_sum_append, weight_sum_cons] at hw ⊢
          rw [hdm.1, hlen] at hw
          have hW := ht.1
          unfold U32
          omega
        · exact Nat.mod_lt _ (by decide)
        · intro d hd2
          simp only [e4, List.mem_append, List.mem_cons] at hd2
          rcases hd2 with (hd2 | hd2) | hd2 | hd2
          · exact hold d (by rw [e1]; simp [hd2])
          · exact hold d (by rw [e1]; simp [hd2])
          · subst hd2
            unfold csched_dom.typed
            unfold acct_stop_dom
            rw [f1, f2, f4]
            unfold U16
            omega
          · exact hold d (by simp [hd2])
      · have hl : svc.linked = true := by simpa using h1
        unfold csched_dom.svc_at at hv
        rw [if_pos hl] at hv
        obtain ⟨vpre, vpost, v1, _, _, v4⟩ := list_get_split _ _ _ hv
        have hd : svc.sdom.linked = true := by
          by_contra hc
          have hc2 : svc.sdom.linked = false := by simpa using hc
          unfold csched_private.sdom_at at hs
          rw [if_neg hc] at hs
          obtain ⟨pre, post, e1, _, _, _⟩ := list_get_split _ _ _ hs
          have := (hm.2 sdom (by rw [e1]; simp)).2
          rw [this] at hv
          simp at hv
        unfold csched_private.sdom_at at hs
        rw [if_pos hd] at hs
        obtain ⟨pre, post, e1, _, e3, _⟩ := list_get_split _ _ _ hs
        have hdm := hm.1 sdom (by rw [e1]; simp)
        have hdt := hold sdom (by rw [e1]; simp)
        unfold csched_dom.typed at hdt
        have hne : vpre ++ vpost ≠ [] := by
          intro hc
          apply h3
          refine ⟨?_, hd⟩
          rw [v4, hc]
          rfl
        have hlen : sdom.active_vcpu.length = (vpre ++ vpost).length + 1 := by
          rw [v1]
          simp only [List.length_append, List.length_cons]
          omega
        obtain ⟨f1, f2, _, f4, f5, _⟩ := set_active_fields sdom
          (U16 (sdom.active_vcpu_count + 65535)) (sdom.active_vcpu.eraseIdx svc.idx)
          (v :: sdom.inactive_vcpu)
        have hc1 : U16 (sdom.active_vcpu_count + 65535) = (vpre ++ vpost).length := by
          unfold U16
          omega
        simp only [Option.some.injEq] at h
        subst h
        unfold csched_private.put_sdom
        rw [if_pos hd]
        simp only [e3]
        refine ⟨⟨?_, hm.2⟩, ?_, ?_, ?_⟩
        · intro d hd2
          rcases List.mem_append.1 hd2 with hd2 | hd2
          · exact hm.1 d (by rw [e1]; exact List.mem_append_left _ hd2)
          · rcases List.mem_cons.1 hd2 with hd2 | hd2
            · subst hd2
              unfold acct_stop_dom
              rw [f4, f5, hc1, v4]
              exact ⟨rfl, hne⟩
            · exact hm.1 d (by rw [e1]; simp [hd2])
        · intro hw
          unfold weight_invariant at *
          rw [e1] at hw
          simp only [weight_sum_append, weight_sum_cons] at hw ⊢
          unfold acct_stop_dom
          rw [f1, f4, hc1]
          rw [hdm.1, hlen, Nat.mul_succ] at hw
          have hW := ht.1
          unfold U32
          omega
        · exact Nat.mod_lt _ (by decide)
        · intro d hd2
          simp only [List.mem_append, List.mem_cons] at hd2
          rcases hd2 with (hd2 | hd2 | hd2) | hd2
          · exact hold d (by rw [e1]; simp [hd2])
          · subst hd2
            unfold csched_dom.typed
            unfold acct_stop_dom
            rw [f1, f2, f4]
            unfold U16
            omega
          · exact hold d (by rw [e1]; simp [hd2])
          · exact hold d (by simp [hd2])

/-- What csched_vcpu_remove does to the invariants, when no BUG_ON fires: as
__csched_vcpu_acct_stop_locked for a vCPU on an active list, and nothing for
a vCPU that is on none. -/
theorem vcpu_remove_invariants (prv prv2 : csched_private) (runq runq2 : List csched_vcpu)
    (on_runq : Option Nat) (svc : svc_ref)
    (h : csched_vcpu_remove prv runq on_runq svc = some (prv2, runq2))
    (hm : active_membership prv) (ht : prv.typed) :
    active_membership prv2 ∧ (weight_invariant prv → weight_invariant prv2) ∧ prv2.typed := by
  unfold csched_vcpu_remove at h
  by_cases hl : svc.linked = true
  · rw [if_pos hl] at h
    cases hs : __csched_vcpu_acct_stop_locked prv svc with
    | none =>
      rw [hs] at h
      simp at h
    | some prv1 =>
      rw [hs] at h
      have hp : prv1 = prv2 := by
        cases on_runq <;> simp only [Option.some.injEq, Prod.mk.injEq] at h <;> exact h.1
      subst hp
      exact acct_stop_invariants prv prv1 svc hs hm ht
  · rw [if_neg hl] at h
    cases hs : (prv.sdom_at svc.sdom).bind fun sdom =>
        (sdom.svc_at svc.linked svc.idx).map fun _ => prv with
    | none =>
      rw [hs] at h
      simp at h
    | some prv1 =>
      rw [hs] at h
      have hp : prv1 = prv2 := by
        cases on_runq <;> simp only [Option.some.injEq, Prod.mk.injEq] at h <;> exact h.1
      subst hp
      have hp2 : prv1 = prv := by
        cases h1 : prv.sdom_at svc.sdom with
        | none =>
          rw [h1] at hs
          simp at hs
        | some sdom =>
          rw [h1] at hs
          simp only [Option.some_bind] at hs
          cases h2 : sdom.svc_at svc.linked svc.idx with
          | none =>
            rw [h2] at hs
            simp at hs
          | some v =>
            rw [h2] at hs
            simp only [Option.map_some', Option.some.injEq] at hs
            exact hs.symm
      subst hp2
      exact ⟨hm, fun hw => hw, ht⟩

/-- The fields of the domain record that csched_dom_cntl writes for putinfo
and those it leaves alone. -/
theorem dom_cntl_dom_fields (sdom : csched_dom) (op : xen_domctl_sched_credit) :
    (dom_cntl_dom sdom op).weight = (if op.weight ≠ 0 then op.weight else sdom.weight)
    ∧ (dom_cntl_dom sdom op).cap = (if op.cap ≠ 65535 then op.cap else sdom.cap)
    ∧ (dom_cntl_dom sdom op).active_vcpu_count = sdom.active_vcpu_count
    ∧ (dom_cntl_dom sdom op).active_vcpu = sdom.active_vcpu
    ∧ (dom_cntl_dom sdom op).inactive_vcpu = sdom.inactive_vcpu
    ∧ (dom_cntl_dom sdom op).domain_id = sdom.domain_id := by
  unfold dom_cntl_dom
  split_ifs <;> exact ⟨rfl, rfl, rfl, rfl, rfl, rfl⟩

/-- The 32-bit update of prv->weight by csched_dom_cntl is the exact one when
prv->weight covers the old contribution of the domain and the new total is
below 2^32. -/
theorem dom_cntl_weight_eq (prv : csched_private) (sdom : csched_dom) (w : Nat)
    (hold : sdom.weight * sdom.active_vcpu_count ≤ prv.weight)
    (hfit : prv.weight + w * sdom.active_vcpu_count
      < 4294967296 + sdom.weight * sdom.active_vcpu_count) :
    dom_cntl_weight prv sdom w + sdom.weight * sdom.active_vcpu_count
      = prv.weight + w * sdom.active_vcpu_count := by
  unfold dom_cntl_weight U32 negU32
  generalize sdom.weight * sdom.active_vcpu_count = a at *
  generalize w * sdom.active_vcpu_count = b at *
  omega

/-- What csched_dom_cntl with putinfo does to the invariants: the
active-membership invariant is preserved, and the weight invariant is
preserved when the new total weight fits 32 bits. -/
theorem dom_cntl_invariants (prv prv2 : csched_private) (d : sdom_ref)
    (op op2 : xen_domctl_sched_credit) (rc : Int)
    (h : csched_dom_cntl prv d domctl_cmd.putinfo op = some (rc, prv2, op2)) :
    (active_membership prv → active_membership prv2)
    ∧ (weight_invariant prv →
        (∀ sdom, prv.sdom_at d = some sdom → d.linked = true →
          prv.weight + op.weight * sdom.active_vcpu_count
            < 4294967296 + sdom.weight * sdom.active_vcpu_count) →
        weight_invariant prv2) := by
  unfold csched_dom_cntl at h
  cases hs : prv.sdom_at d with
  | none =>
    rw [hs] at h
    simp at h
  | some sdom =>
    rw [hs] at h
    simp only [] at h
    obtain ⟨g1, _, g3, g4, _, _⟩ := dom_cntl_dom_fields sdom op
    unfold csched_private.sdom_at at hs
    by_cases hd : d.linked = true
    · rw [if_pos hd] at hs
      obtain ⟨pre, post, e1, _, e3, _⟩ := list_get_split _ _ _ hs
      have hput : (prv.put_sdom d (dom_cntl_dom sdom op)).active_sdom
          = pre ++ dom_cntl_dom sdom op :: post
          ∧ (prv.put_sdom d (dom_cntl_dom sdom op)).inactive_sdom = prv.inactive_sdom
          ∧ (prv.put_sdom d (dom_cntl_dom sdom op)).weight = prv.weight := by
        unfold csched_private.put_sdom
        rw [if_pos hd]
        exact ⟨e3 _, rfl, rfl⟩
      have hmem : active_membership prv →
          (∀ x ∈ pre ++ dom_cntl_dom sdom op :: post,
            x.active_vcpu_count = x.active_vcpu.length ∧ x.active_vcpu ≠ []) := by
        intro hm x hx
        rcases List.mem_append.1 hx with hx | hx
        · exact hm.1 x (by rw [e1]; exact List.mem_append_left _ hx)
        · rcases List.mem_cons.1 hx with hx | hx
          · subst hx
            rw [g3, g4]
            exact hm.1 sdom (by rw [e1]; simp)
          · exact hm.1 x (by rw [e1]; simp [hx])
      split_ifs at h with hc
      · simp only [Option.some.injEq, Prod.mk.injEq] at h
        obtain ⟨_, h2, _⟩ := h
        subst h2
        refine ⟨?_, ?_⟩
        · intro hm
          refine ⟨?_, ?_⟩
          · simp only [hput.1]
            exact hmem hm
          · simp only [hput.2.1]
            exact hm.2
        · intro hw hfit
          have hfit2 := hfit sdom rfl hd
          unfold weight_invariant at *
          simp only [hput.1]
          rw [e1] at hw
          simp only [weight_sum_append, weight_sum_cons] at hw ⊢
          rw [g1, if_pos hc.1, g3]
          have := dom_cntl_weight_eq prv sdom op.weight (by rw [hw]; omega) hfit2
          omega
      · simp only [Option.some.injEq, Prod.mk.injEq] at h
        obtain ⟨_, h2, _⟩ := h
        subst h2
        have hw0 : op.weight = 0 := by
          by_contra hne
          exact hc ⟨hne, hd⟩
        refine ⟨?_, ?_⟩
        · intro hm
          refine ⟨?_, ?_⟩
          · rw [hput.1]
            exact hmem hm
          · rw [hput.2.1]
            exact hm.2
        · intro hw _
          unfold weight_invariant at *
          rw [hput.1, hput.2.2]
          rw [e1] at hw
          simp only [weight_sum_append, weight_sum_cons] at hw ⊢
          rw [g1, if_neg (by simp [hw0]), g3]
          exact hw
    · rw [if_neg hd] at hs
      obtain ⟨pre, post, e1, _, e3, _⟩ := list_get_split _ _ _ hs
      have hput : (prv.put_sdom d (dom_cntl_dom sdom op)).active_sdom = prv.active_sdom
          ∧ (prv.put_sdom d (dom_cntl_dom sdom op)).inactive_sdom
            = pre ++ dom_cntl_dom sdom op :: post
          ∧ (prv.put_sdom d (dom_cntl_dom sdom op)).weight = prv.weight := by
        unfold csched_private.put_sdom
        rw [if_neg hd]
        exact ⟨rfl, e3 _, rfl⟩
      rw [if_neg (fun hc => hd hc.2)] at h
      simp only [Option.some.injEq, Prod.mk.injEq] at h
      obtain ⟨_, h2, _⟩ := h
      subst h2
      refine ⟨?_, ?_⟩
      · intro hm
        refine ⟨?_, ?_⟩
        · rw [hput.1]
          exact hm.1
        · rw [hput.2.1]
          intro x hx
          rcases List.mem_append.1 hx with hx | hx
          · exact hm.2 x (by rw [e1]; exact List.mem_append_left _ hx)
          · rcases List.mem_cons.1 hx with hx | hx
            · subst hx
              rw [g3, g4]
              exact hm.2 sdom (by rw [e1]; simp)
            · exact hm.2 x (by rw [e1]; simp [hx])
      · intro hw _
        unfold weight_invariant at *
        rw [hput.1, hput.2.2]
        exact hw

/-- The bookkeeping of the inner loop of csched_acct. When the count of the
domain is the number of vCPUs still on its active list (those kept so far
and those still to visit) and fits 16 bits, the loop leaves the count equal
to the number of vCPUs kept, keeps at least one vCPU if there was one, never
unlinks the domain, and takes the weight of the domain out of prv->weight
once for every vCPU it stops. -/
theorem acct_vcpus_counts (cpt cap ccap cf domid w : Nat) (vs : List csched_vcpu) :
    ∀ (st r : acct_vcpu_state), csched_acct_vcpus cpt cap ccap cf domid w vs st = some r →
      st.active_vcpu_count = st.kept.length + vs.length → st.active_vcpu_count < 65536 →
      st.prv_weight < 4294967296 → st.on_active_sdom = true →
      r.active_vcpu_count = r.kept.length ∧ r.on_active_sdom = true
      ∧ (st.active_vcpu_count ≠ 0 → r.kept ≠ [])
      ∧ r.prv_weight + w * r.stopped.length = st.prv_weight + w * st.stopped.length
      ∧ r.kept.length + r.stopped.length = st.active_vcpu_count + st.stopped.length
      ∧ r.prv_weight < 4294967296 := by
  induction vs with
  | nil =>
    intro st r h hc _ hw ho
    simp only [csched_acct_vcpus, Option.some.injEq] at h
    subst h
    simp only [List.length_nil, Nat.add_zero] at hc
    refine ⟨hc, ho, ?_, rfl, by omega, hw⟩
    intro hne hnil
    rw [hnil] at hc
    exact hne hc
  | cons a vs ih =>
    intro st r h hc ht hw ho
    simp only [List.length_cons] at hc
    rw [csched_acct_vcpus] at h
    by_cases h1 : (csched_acct_vcpu cpt cap ccap cf domid a).excess = true
        ∧ st.active_vcpu_count ≥ 2
    · rw [if_pos h1] at h
      by_cases h2 : st.prv_weight < w
      · rw [if_pos h2] at h
        simp at h
      · have h3 := h1.2
        have hcount : U16 (st.active_vcpu_count + 65535) = st.kept.length + vs.length := by
          unfold U16
          omega
        have hne : ¬ (st.kept.isEmpty = true ∧ vs.isEmpty = true) := by
          intro hc2
          have e1 := List.isEmpty_iff.1 hc2.1
          have e2 := List.isEmpty_iff.1 hc2.2
          rw [e1, e2] at hc
          simp only [List.length_nil] at hc
          omega
        have hpw : U32 (st.prv_weight - w) = st.prv_weight - w := by
          unfold U32
          omega
        rw [if_neg h2, if_neg hne, hpw, hcount] at h
        obtain ⟨i1, i2, i3, i4, i5, i6⟩ := ih _ r h rfl
          (by show st.kept.length + vs.length < 65536; omega)
          (by show st.prv_weight - w < 4294967296; omega) ho
        simp only [List.length_cons] at i3 i4 i5
        refine ⟨i1, i2, fun _ => i3 (by omega), ?_, by omega, i6⟩
        rw [Nat.mul_succ] at i4
        omega
    · rw [if_neg h1] at h
      obtain ⟨i1, i2, i3, i4, i5, i6⟩ := ih _ r h
        (by simp only [List.length_append, List.length_singleton]; omega) ht hw ho
      exact ⟨i1, i2, i3, i4, i5, i6⟩

/-- The bookkeeping of one step of the outer loop of csched_acct. For a domain
whose count is the length of its non-empty active list, the step leaves a
record d2 of the domain, linked on prv->active_sdom at the head or in place,
with the same weight and cap, a count that is the length of its active list,
again not empty, and prv->weight lowered by the weight of the domain for
every vCPU that left the list. -/
theorem acct_sdom_counts (prv : csched_private) (W : Nat) (st st2 : acct_state)
    (d : csched_dom) (h : csched_acct_sdom prv W st d = some st2)
    (hd : d.active_vcpu_count = d.active_vcpu.length ∧ d.active_vcpu ≠ [])
    (hdt : d.active_vcpu_count < 65536) (hpw : st.prv_weight < 4294967296) :
    ∃ d2, d2.weight = d.weight ∧ d2.cap = d.cap
      ∧ d2.active_vcpu_count = d2.active_vcpu.length ∧ d2.active_vcpu ≠ []
      ∧ d2.active_vcpu_count ≤ d.active_vcpu_count
      ∧ st2.prv_weight + d.weight * d.active_vcpu_count
          = st.prv_weight + d.weight * d2.active_vcpu_count
      ∧ st2.prv_weight < 4294967296 ∧ st2.dropped = st.dropped
      ∧ ((st2.head = d2 :: st.head ∧ st2.kept = st.kept)
        ∨ (st2.head = st.head ∧ st2.kept = st.kept ++ [d2])) := by
  unfold csched_acct_sdom at h
  split_ifs at h with h1 h2 h3 h4
  simp only [] at h
  cases hr : csched_acct_vcpus prv.credits_per_tslice d.cap
      (csched_acct_share prv W st d).credit_cap (csched_acct_share prv W st d).credit_fair
      d.domain_id d.weight d.active_vcpu
      { prv_weight := st.prv_weight, active_vcpu_count := d.active_vcpu_count,
        on_active_sdom := true, credit_balance := st.credit_balance, kept := [],
        stopped := [] } with
  | none =>
    rw [hr] at h
    simp at h
  | some r =>
    rw [hr] at h
    simp only [Option.some.injEq] at h
    obtain ⟨c1, c2, c3, c4, c5, c6⟩ := acct_vcpus_counts _ _ _ _ _ _ _ _ _ hr
      (by simp only [List.length_nil, Nat.zero_add]; exact hd.1) hdt hpw rfl
    simp only [List.length_nil, Nat.mul_zero, Nat.add_zero] at c4 c5
    subst h
    refine ⟨{ d with
        active_vcpu := r.kept
        inactive_vcpu := r.stopped ++ d.inactive_vcpu
        active_vcpu_count := r.active_vcpu_count }, rfl, rfl, c1, c3 h2, ?_, ?_, c6, ?_, ?_⟩
    · simp only []
      omega
    · simp only []
      rw [← c5, c1, Nat.mul_add]
      omega
    · simp only [c2, if_true]
    · simp only [c2, true_and]
      cases hmv : (csched_acct_share prv W st d).moved
      · right
        simp
      · left
        simp

/-- The bookkeeping of the outer loop of csched_acct over domains whose count
is the length of their non-empty active list and whose fields fit their
types: no domain is unlinked, every record the loop leaves is again of that
kind, and prv->weight goes down by exactly what the weighted counts of the
domains go down. -/
theorem acct_sdoms_counts (prv : csched_private) (W : Nat) (ds : List csched_dom) :
    ∀ (st st2 : acct_state), csched_acct_sdoms prv W ds st = some st2 →
      (∀ d ∈ ds, (d.active_vcpu_count = d.active_vcpu.length ∧ d.active_vcpu ≠ [])
        ∧ d.typed) →
      st.prv_weight < 4294967296 →
      (∀ e ∈ st.head ++ st.kept,
        (e.active_vcpu_count = e.active_vcpu.length ∧ e.active_vcpu ≠ []) ∧ e.typed) →
      st2.dropped = st.dropped
      ∧ (∀ e ∈ st2.head ++ st2.kept,
          (e.active_vcpu_count = e.active_vcpu.length ∧ e.active_vcpu ≠ []) ∧ e.typed)
      ∧ st2.prv_weight < 4294967296
      ∧ st2.prv_weight + acct_weight_sum (st.head ++ st.kept) + acct_weight_sum ds
          = st.prv_weight + acct_weight_sum (st2.head ++ st2.kept)
      ∧ (st2.head ++ st2.kept).length = (st.head ++ st.kept).length + ds.length := by
  induction ds with
  | nil =>
    intro st st2 h _ hw hst
    simp only [csched_acct_sdoms, Option.some.injEq] at h
    subst h
    exact ⟨rfl, hst, hw, by simp only [weight_sum_nil]; omega, rfl⟩
  | cons d ds ih =>
    intro st st2 h hds hw hst
    rw [csched_acct_sdoms] at h
    cases h1 : csched_acct_sdom prv W st d with
    | none => rw [h1] at h; simp at h
    | some st1 =>
      rw [h1] at h
      obtain ⟨hdo, hdt⟩ := hds d (List.mem_cons_self d ds)
      obtain ⟨d2, a1, a2, a3, a4, a5, a6, a7, a8, a9⟩ :=
        acct_sdom_counts prv W st st1 d h1 hdo hdt.2.2 hw
      have hd2 : (d2.active_vcpu_count = d2.active_vcpu.length ∧ d2.active_vcpu ≠ [])
          ∧ d2.typed := by
        refine ⟨⟨a3, a4⟩, ?_⟩
        unfold csched_dom.typed at *
        rw [a1, a2]
        exact ⟨hdt.1, hdt.2.1, by omega⟩
      have hst1 : ∀ e ∈ st1.head ++ st1.kept,
          (e.active_vcpu_count = e.active_vcpu.length ∧ e.active_vcpu ≠ []) ∧ e.typed := by
        intro e he
        rcases a9 with ⟨b1, b2⟩ | ⟨b1, b2⟩
        · rw [b1, b2] at he
          rcases List.mem_cons.1 he with he | he
          · rw [he]
            exact hd2
          · exact hst e he
        · rw [b1, b2, ← List.append_assoc] at he
          rcases List.mem_append.1 he with he | he
          · exact hst e he
          · rw [List.mem_singleton.1 he]
            exact hd2
      have hsum : acct_weight_sum (st1.head ++ st1.kept)
          = acct_weight_sum (st.head ++ st.kept) + d.weight * d2.active_vcpu_count := by
        rcases a9 with ⟨b1, b2⟩ | ⟨b1, b2⟩
        · rw [b1, b2]
          simp only [List.cons_append, weight_sum_cons, weight_sum_append, a1]
          omega
        · rw [b1, b2]
          simp only [weight_sum_cons, weight_sum_append, weight_sum_nil, a1]
          omega
      have hlen : (st1.head ++ st1.kept).length = (st.head ++ st.kept).length + 1 := by
        rcases a9 with ⟨b1, b2⟩ | ⟨b1, b2⟩
        · rw [b1, b2]
          simp only [List.cons_append, List.length_cons]
        · rw [b1, b2]
          simp only [List.length_append, List.length_cons, List.length_nil]
          omega
      obtain ⟨i1, i2, i3, i4, i5⟩ := ih st1 st2 h
        (fun e he => hds e (List.mem_cons_of_mem d he)) a7 hst1
      refine ⟨by rw [i1, a8], i2, i3, ?_, ?_⟩
      · rw [weight_sum_cons]
        rw [hsum] at i4
        omega
      · rw [i5, hlen]
        simp only [List.length_cons]
        omega

/-- What csched_acct does to the invariants, when no BUG_ON fires: from a
state whose fields fit their types, the active-membership invariant is
preserved, the weight invariant is preserved along with it, the fields keep
fitting their types, and no domain leaves prv->active_sdom. -/
theorem csched_acct_invariants (prv prv2 : csched_private) (h : csched_acct prv = some prv2)
    (hm : active_membership prv) (ht : prv.typed) :
    active_membership prv2 ∧ (weight_invariant prv → weight_invariant prv2) ∧ prv2.typed
    ∧ prv2.inactive_sdom = prv.inactive_sdom
    ∧ prv2.active_sdom.length = prv.active_sdom.length := by
  have hold : ∀ x, x ∈ prv.active_sdom ++ prv.inactive_sdom → x.typed := ht.2
  unfold csched_acct at h
  split_ifs at h with hW
  · simp only [Option.some.injEq] at h
    subst h
    exact ⟨hm, fun hw => hw, ht, rfl, rfl⟩
  · cases hl : csched_acct_sdoms prv prv.weight prv.active_sdom (csched_acct_init prv) with
    | none => rw [hl] at h; simp at h
    | some stf =>
      rw [hl] at h
      simp only [Option.some.injEq] at h
      obtain ⟨i1, i2, i3, i4, i5⟩ := acct_sdoms_counts prv prv.weight prv.active_sdom _ _ hl
        (fun d hd => ⟨hm.1 d hd, hold d (List.mem_append_left _ hd)⟩) ht.1
        (fun e he => by simp [csched_acct_init] at he)
      have hdrop : stf.dropped = [] := i1
      have i4' : stf.prv_weight + acct_weight_sum prv.active_sdom
          = prv.weight + acct_weight_sum (stf.head ++ stf.kept) := by
        have : acct_weight_sum ((csched_acct_init prv).head ++ (csched_acct_init prv).kept)
            = 0 := rfl
        rw [this] at i4
        have e : (csched_acct_init prv).prv_weight = prv.weight := rfl
        rw [e] at i4
        omega
      subst h
      refine ⟨⟨fun d hd => (i2 d hd).1, ?_⟩, ?_, ⟨i3, ?_⟩, ?_, ?_⟩
      · intro d hd
        simp only [hdrop, List.nil_append] at hd
        exact hm.2 d hd
      · intro hw
        unfold weight_invariant at *
        simp only []
        omega
      · intro d hd
        simp only [hdrop, List.nil_append, List.mem_append] at hd
        rcases hd with hd | hd
        · exact (i2 d (List.mem_append.2 hd)).2
        · exact hold d (List.mem_append_right _ hd)
      · simp only [hdrop, List.nil_append]
      · rw [i5]
        simp [csched_acct_init]

/-! ## The weight invariant and the active-membership invariant -/

theorem replicate_active (n : Nat) (v : csched_vcpu) (hn : n ≠ 0) :
    n = (List.replicate n v).length ∧ List.replicate n v ≠ [] := by
  refine ⟨(List.length_replicate n v).symm, ?_⟩
  intro h
  have := congrArg List.length h
  rw [List.length_replicate] at this
  exact hn this

theorem active_full_invariants :
    active_membership active_full ∧ weight_invariant active_full ∧ active_full.typed := by
  refine ⟨⟨?_, ?_⟩, ?_, ?_, ?_⟩
  · intro d hd
    simp only [active_full, List.mem_singleton] at hd
    subst hd
    exact replicate_active 65535 _ (by decide)
  · intro d hd
    simp only [active_full, List.not_mem_nil] at hd
  · decide
  · decide
  · intro d hd
    simp only [active_full, List.append_nil, List.mem_singleton] at hd
    subst hd
    decide

theorem active_full_run :
    __csched_vcpu_acct_start active_full active_full_svc = some active_full_out := rfl

theorem active_heavy_invariants :
    active_membership active_heavy ∧ weight_invariant active_heavy ∧ active_heavy.typed := by
  refine ⟨⟨?_, ?_⟩, ?_, ?_, ?_⟩
  · intro d hd
    simp only [active_heavy, List.mem_cons, List.mem_singleton, List.not_mem_nil,
      or_false] at hd
    rcases hd with hd | hd
    · subst hd
      exact replicate_active 65534 _ (by decide)
    · subst hd
      decide
  · intro d hd
    simp only [active_heavy, List.not_mem_nil] at hd
  · decide
  · decide
  · intro d hd
    simp only [active_heavy, List.append_nil, List.mem_cons, List.mem_singleton,
      List.not_mem_nil, or_false] at hd
    rcases hd with hd | hd
    · subst hd
      decide
    · subst hd
      decide

theorem active_heavy_run :
    __csched_vcpu_acct_start active_heavy
        { sdom := { linked := true, idx := 1 }, linked := false, idx := 0 }
      = some active_heavy_out := rfl

theorem active_reweigh_invariants :
    active_membership active_reweigh ∧ weight_invariant active_reweigh
    ∧ active_reweigh.typed := by
  refine ⟨⟨?_, ?_⟩, ?_, ?_, ?_⟩
  · intro d hd
    simp only [active_reweigh, List.mem_cons, List.mem_singleton, List.not_mem_nil,
      or_false] at hd
    rcases hd with hd | hd
    · subst hd
      exact replicate_active 65534 _ (by decide)
    · subst hd
      decide
  · intro d hd
    simp only [active_reweigh, List.not_mem_nil] at hd
  · decide
  · decide
  · intro d hd
    simp only [active_reweigh, List.append_nil, List.mem_cons, List.mem_singleton,
      List.not_mem_nil, or_false] at hd
    rcases hd with hd | hd
    · subst hd
      decide
    · subst hd
      decide

theorem active_reweigh_run :
    csched_dom_cntl active_reweigh { linked := true, idx := 1 } domctl_cmd.putinfo
        { weight := 65535, cap := 65535 }
      = some (0, active_reweigh_out, { weight := 65535, cap := 65535 }) := rfl

/-- C11, refuted as stated. (a) From active_stale, where prv->weight = 0 is the
sum over the (empty) list of active domains, __csched_vcpu_acct_start links
the domain with its stale count raised to 6 and adds its weight once:
prv->weight = 256 against a sum of 1536. (b) From active_full, where both
invariants hold, the 16-bit count wraps: prv->weight = 65536 against a sum of
0. (c) From active_heavy, where both invariants hold, the 32-bit prv->weight
wraps: 65534 against a sum of 4295032830. (d) From active_reweigh, where
both invariants hold, csched_dom_cntl with putinfo and the new weight 65535
for the second domain wraps prv->weight likewise. -/
theorem weight_invariant_counterexample :
    (weight_invariant active_stale ∧ active_stale.typed
      ∧ ∃ prv2, __csched_vcpu_acct_start active_stale
            { sdom := { linked := false, idx := 0 }, linked := false, idx := 0 } = some prv2
          ∧ prv2.weight = 256 ∧ acct_weight_sum prv2.active_sdom = 1536
          ∧ ¬ weight_invariant prv2)
    ∧ (weight_invariant active_full ∧ active_membership active_full ∧ active_full.typed
      ∧ __csched_vcpu_acct_start active_full active_full_svc = some active_full_out
      ∧ active_full_out.weight = 65536 ∧ acct_weight_sum active_full_out.active_sdom = 0
      ∧ ¬ weight_invariant active_full_out)
    ∧ (weight_invariant active_heavy ∧ active_membership active_heavy ∧ active_heavy.typed
      ∧ __csched_vcpu_acct_start active_heavy
            { sdom := { linked := true, idx := 1 }, linked := false, idx := 0 }
          = some active_heavy_out
      ∧ active_heavy_out.weight = 65534
      ∧ acct_weight_sum active_heavy_out.active_sdom = 4295032830
      ∧ ¬ weight_invariant active_heavy_out)
    ∧ (weight_invariant active_reweigh ∧ active_membership active_reweigh
      ∧ active_reweigh.typed
      ∧ csched_dom_cntl active_reweigh { linked := true, idx := 1 } domctl_cmd.putinfo
            { weight := 65535, cap := 65535 }
          = some (0, active_reweigh_out, { weight := 65535, cap := 65535 })
      ∧ active_reweigh_out.weight = 65534
      ∧ acct_weight_sum active_reweigh_out.active_sdom = 4295032830
      ∧ ¬ weight_invariant active_reweigh_out) := by
  refine ⟨⟨by decide, by decide, _, rfl, by decide, by decide, by decide⟩,
    ⟨active_full_invariants.2.1, active_full_invariants.1, active_full_invariants.2.2,
      active_full_run, by decide, by decide, by decide⟩,
    ⟨active_heavy_invariants.2.1, active_heavy_invariants.1, active_heavy_invariants.2.2,
      active_heavy_run, by decide, by decide, by decide⟩,
    ⟨active_reweigh_invariants.2.1, active_reweigh_invariants.1,
      active_reweigh_invariants.2.2, active_reweigh_run, by decide, by decide, by decide⟩⟩

/-- C11, amended. From a state whose fields fit their types and in which the
active-membership invariant holds along with the weight invariant, the
weight invariant (and the other two with it) holds again after
__csched_vcpu_acct_start, provided the 16-bit count of the domain has room
for the vCPU and prv->weight plus the weight of the domain fits 32 bits;
after __csched_vcpu_acct_stop_locked and after csched_vcpu_remove; after
csched_dom_cntl with putinfo, for every new weight for which the new total
fits 32 bits (a new weight of 0 is not stored); and after csched_acct. Each
function is taken on the runs in which no BUG_ON fires. -/
theorem weight_invariant_amended (prv : csched_private) (ht : prv.typed)
    (hm : active_membership prv) (hw : weight_invariant prv) :
    (∀ svc prv2, __csched_vcpu_acct_start prv svc = some prv2 →
        (∀ sdom, prv.sdom_at svc.sdom = some sdom → svc.linked = false →
          sdom.active_vcpu_count < 65535 ∧ prv.weight + sdom.weight < 4294967296) →
        weight_invariant prv2 ∧ active_membership prv2 ∧ prv2.typed)
    ∧ (∀ svc prv2, __csched_vcpu_acct_stop_locked prv svc = some prv2 →
        weight_invariant prv2 ∧ active_membership prv2 ∧ prv2.typed)
    ∧ (∀ runq on_runq svc prv2 runq2,
        csched_vcpu_remove prv runq on_runq svc = some (prv2, runq2) →
        weight_invariant prv2 ∧ active_membership prv2 ∧ prv2.typed)
    ∧ (∀ d op rc prv2 op2,
        csched_dom_cntl prv d domctl_cmd.putinfo op = some (rc, prv2, op2) →
        (∀ sdom, prv.sdom_at d = some sdom → d.linked = true →
          prv.weight + op.weight * sdom.active_vcpu_count
            < 4294967296 + sdom.weight * sdom.active_vcpu_count) →
        weight_invariant prv2 ∧ active_membership prv2)
    ∧ (∀ prv2, csched_acct prv = some prv2 →
        weight_invariant prv2 ∧ active_membership prv2 ∧ prv2.typed) := by
  refine ⟨?_, ?_, ?_, ?_, ?_⟩
  · intro svc prv2 h hroom
    obtain ⟨a1, a2, a3⟩ := acct_start_invariants prv prv2 svc h hm
      (fun sdom hs hl => (hroom sdom hs hl).1)
    exact ⟨a2 hw (fun sdom hs hl => (hroom sdom hs hl).2), a1, a3 ht⟩
  · intro svc prv2 h
    obtain ⟨a1, a2, a3⟩ := acct_stop_invariants prv prv2 svc h hm ht
    exact ⟨a2 hw, a1, a3⟩
  · intro runq on_runq svc prv2 runq2 h
    obtain ⟨a1, a2, a3⟩ := vcpu_remove_invariants prv prv2 runq runq2 on_runq svc h hm ht
    exact ⟨a2 hw, a1, a3⟩
  · intro d op rc prv2 op2 h hfit
    obtain ⟨a1, a2⟩ := dom_cntl_invariants prv prv2 d op op2 rc h
    exact ⟨a2 hw hfit, a1 hm⟩
  · intro prv2 h
    obtain ⟨a1, a2, a3, _, _⟩ := csched_acct_invariants prv prv2 h hm ht
    exact ⟨a2 hw, a1, a3⟩

/-- Witness for C11 as amended: the state acct_demo, in which the pass stops
one vCPU of the privileged domain. -/
theorem weight_invariant_amended_witness :
    weight_invariant acct_demo_out ∧ active_membership acct_demo_out ∧ acct_demo_out.typed
    ∧ acct_demo_out.weight = 1024 :=
  ⟨((weight_invariant_amended acct_demo (by decide) (by decide) (by decide)).2.2.2.2
      acct_demo_out acct_demo_run).1,
    ((weight_invariant_amended acct_demo (by decide) (by decide) (by decide)).2.2.2.2
      acct_demo_out acct_demo_run).2.1,
    ((weight_invariant_amended acct_demo (by decide) (by decide) (by decide)).2.2.2.2
      acct_demo_out acct_demo_run).2.2, by decide⟩

/-- C12, refuted as stated. In active_full the active-membership invariant
holds, with 65535 vCPUs on the active list of the domain; after
__csched_vcpu_acct_start for one more vCPU the list holds 65536 vCPUs and the
16-bit active_vcpu_count is 0. -/
theorem active_membership_counterexample :
    active_membership active_full ∧ active_full.typed
    ∧ __csched_vcpu_acct_start active_full active_full_svc = some active_full_out
    ∧ (∀ d ∈ active_full_out.active_sdom,
        d.active_vcpu_count = 0 ∧ d.active_vcpu.length = 65536)
    ∧ ¬ active_membership active_full_out := by
  have hd : ∀ d ∈ active_full_out.active_sdom,
      d.active_vcpu_count = 0 ∧ d.active_vcpu.length = 65536 := by
    intro d hd
    simp only [active_full_out, List.mem_singleton] at hd
    subst hd
    refine ⟨rfl, ?_⟩
    show (({ vcpu_id := 65535 } : csched_vcpu) :: List.replicate 65535 {}).length = 65536
    rw [List.length_cons, List.length_replicate]
  refine ⟨active_full_invariants.1, active_full_invariants.2.2, active_full_run, hd, ?_⟩
  intro hm
  have h1 := (hm.1 _ (List.mem_cons_self _ _)).1
  have h2 := hd _ (List.mem_cons_self _ _)
  rw [h2.1, h2.2] at h1
  exact absurd h1 (by decide)

/-- C12, amended. From a state whose fields fit their types and in which the
active-membership invariant holds (for every domain, active_vcpu_count is
the length of its list of active vCPUs, and the domain is on
prv->active_sdom exactly when that list is not empty), the invariant holds
again after __csched_vcpu_acct_start, provided the 16-bit count of the domain
has room for the vCPU (fewer than 65535 active vCPUs); after
__csched_vcpu_acct_stop_locked; after csched_vcpu_remove; and after
csched_acct, which moreover unlinks no domain: the domains off
prv->active_sdom are the same as before, and as many domains are on it as
before, each with a non-empty active list. Each function is taken on the
runs in which no BUG_ON fires. -/
theorem active_membership_amended (prv : csched_private) (ht : prv.typed)
    (hm : active_membership prv) :
    (∀ svc prv2, __csched_vcpu_acct_start prv svc = some prv2 →
        (∀ sdom, prv.sdom_at svc.sdom = some sdom → svc.linked = false →
          sdom.active_vcpu_count < 65535) →
        active_membership prv2 ∧ prv2.typed)
    ∧ (∀ svc prv2, __csched_vcpu_acct_stop_locked prv svc = some prv2 →
        active_membership prv2 ∧ prv2.typed)
    ∧ (∀ runq on_runq svc prv2 runq2,
        csched_vcpu_remove prv runq on_runq svc = some (prv2, runq2) →
        active_membership prv2 ∧ prv2.typed)
    ∧ (∀ prv2, csched_acct prv = some prv2 →
        active_membership prv2 ∧ prv2.typed
        ∧ prv2.inactive_sdom = prv.inactive_sdom
        ∧ prv2.active_sdom.length = prv.active_sdom.length
        ∧ ∀ d ∈ prv2.active_sdom, d.active_vcpu ≠ []) := by
  refine ⟨?_, ?_, ?_, ?_⟩
  · intro svc prv2 h hroom
    obtain ⟨a1, _, a3⟩ := acct_start_invariants prv prv2 svc h hm hroom
    exact ⟨a1, a3 ht⟩
  · intro svc prv2 h
    obtain ⟨a1, _, a3⟩ := acct_stop_invariants prv prv2 svc h hm ht
    exact ⟨a1, a3⟩
  · intro runq on_runq svc prv2 runq2 h
    obtain ⟨a1, _, a3⟩ := vcpu_remove_invariants prv prv2 runq runq2 on_runq svc h hm ht
    exact ⟨a1, a3⟩
  · intro prv2 h
    obtain ⟨a1, _, a3, a4, a5⟩ := csched_acct_invariants prv prv2 h hm ht
    exact ⟨a1, a3, a4, a5, fun d hd => (a1.1 d hd).2⟩

/-- Witness for C12 as amended: the pass from acct_demo stops one of the two
vCPUs of the privileged domain and leaves the other on its active list. -/
theorem active_membership_amended_witness :
    active_membership acct_demo_out ∧ acct_demo_out.typed
    ∧ acct_demo_out.inactive_sdom = acct_demo.inactive_sdom
    ∧ acct_demo_out.active_sdom.length = acct_demo.active_sdom.length
    ∧ (∀ d ∈ acct_demo_out.active_sdom, d.active_vcpu ≠ [])
    ∧ (acct_demo_out.active_sdom.map fun d => (d.domain_id, d.active_vcpu_count))
        = [(0, 1), (3, 3)] :=
  ⟨((active_membership_amended acct_demo (by decide) (by decide)).2.2.2
      acct_demo_out acct_demo_run).1,
    ((active_membership_amended acct_demo (by decide) (by decide)).2.2.2
      acct_demo_out acct_demo_run).2.1,
    ((active_membership_amended acct_demo (by decide) (by decide)).2.2.2
      acct_demo_out acct_demo_run).2.2.1,
    ((active_membership_amended acct_demo (by decide) (by decide)).2.2.2
      acct_demo_out acct_demo_run).2.2.2.1,
    ((active_membership_amended acct_demo (by decide) (by decide)).2.2.2
      acct_demo_out acct_demo_run).2.2.2.2, by decide⟩

/-! ## The domain parameters: what is put is what is got -/

/-- The record stored by put_sdom is the record the pointer names
afterwards. -/
theorem put_sdom_at (prv : csched_private) (d : sdom_ref) (sdom x : csched_dom)
    (h : prv.sdom_at d = some sdom) :
    (prv.put_sdom d x).sdom_at d = some x
    ∧ (prv.put_sdom d x).weight = prv.weight := by
  unfold csched_private.sdom_at at h
  unfold csched_private.put_sdom csched_private.sdom_at
  by_cases hd : d.linked = true
  · rw [if_pos hd] at h
    obtain ⟨pre, post, _, e2, e3, _⟩ := list_get_split _ _ _ h
    rw [if_pos hd, if_pos hd]
    refine ⟨?_, rfl⟩
    show (prv.active_sdom.set d.idx x).get? d.idx = some x
    rw [e3 x, ← e2, List.get?_eq_getElem?, List.getElem?_append_right (le_refl _)]
    simp
  · rw [if_neg hd] at h
    obtain ⟨pre, post, _, e2, e3, _⟩ := list_get_split _ _ _ h
    rw [if_neg hd, if_neg hd]
    refine ⟨?_, rfl⟩
    show (prv.inactive_sdom.set d.idx x).get? d.idx = some x
    rw [e3 x, ← e2, List.get?_eq_getElem?, List.getElem?_append_right (le_refl _)]
    simp

/-- C21. For every domain (a pointer d that names the record sdom), putinfo
returns 0 and leaves a state prv1 in which the domain has the record s1, and
getinfo on prv1 returns 0, changes nothing and reports the weight and the cap
of s1. The weight of s1 is the weight put when that is not 0, and the cap of
s1 is the cap put when that is not 0xFFFF, so putinfo (w, c) with w != 0 and
c != 0xFFFF followed by getinfo returns exactly (w, c). With weight 0 the
weight of the domain and prv->weight stay as they were, with cap 0xFFFF the
cap stays as it was. getinfo on the state before returns 0, changes nothing
and reports the weight and the cap of the domain. -/
theorem csched_dom_cntl_round_trip (prv : csched_private) (d : sdom_ref) (sdom : csched_dom)
    (op reply : xen_domctl_sched_credit) (h : prv.sdom_at d = some sdom) :
    (∃ prv1 s1,
      csched_dom_cntl prv d domctl_cmd.putinfo op = some (0, prv1, op)
      ∧ prv1.sdom_at d = some s1
      ∧ csched_dom_cntl prv1 d domctl_cmd.getinfo reply
          = some (0, prv1, { weight := s1.weight, cap := s1.cap })
      ∧ (op.weight ≠ 0 → s1.weight = op.weight)
      ∧ (op.cap ≠ 65535 → s1.cap = op.cap)
      ∧ (op.weight ≠ 0 → op.cap ≠ 65535 →
          csched_dom_cntl prv1 d domctl_cmd.getinfo reply
            = some (0, prv1, { weight := op.weight, cap := op.cap }))
      ∧ (op.weight = 0 → s1.weight = sdom.weight ∧ prv1.weight = prv.weight)
      ∧ (op.cap = 65535 → s1.cap = sdom.cap))
    ∧ csched_dom_cntl prv d domctl_cmd.getinfo reply
        = some (0, prv, { weight := sdom.weight, cap := sdom.cap }) := by
  have hget : ∀ (p : csched_private) (s : csched_dom), p.sdom_at d = some s →
      csched_dom_cntl p d domctl_cmd.getinfo reply
        = some (0, p, { weight := s.weight, cap := s.cap }) := by
    intro p s hp
    unfold csched_dom_cntl
    rw [hp]
  obtain ⟨g1, g2, _⟩ := dom_cntl_dom_fields sdom op
  obtain ⟨hat, hwt⟩ := put_sdom_at prv d sdom (dom_cntl_dom sdom op) h
  refine ⟨?_, hget prv sdom h⟩
  have hfields : (op.weight ≠ 0 → (dom_cntl_dom sdom op).weight = op.weight)
      ∧ (op.cap ≠ 65535 → (dom_cntl_dom sdom op).cap = op.cap)
      ∧ (op.weight = 0 → (dom_cntl_dom sdom op).weight = sdom.weight)
      ∧ (op.cap = 65535 → (dom_cntl_dom sdom op).cap = sdom.cap) := by
    refine ⟨fun hw => ?_, fun hc => ?_, fun hw => ?_, fun hc => ?_⟩
    · rw [g1, if_pos hw]
    · rw [g2, if_pos hc]
    · rw [g1, if_neg (by simp [hw])]
    · rw [g2, if_neg (by simp [hc])]
  obtain ⟨f1, f2, f3, f4⟩ := hfields
  by_cases hc : op.weight ≠ 0 ∧ d.linked = true
  · have hput : csched_dom_cntl prv d domctl_cmd.putinfo op
        = some (0, { prv.put_sdom d (dom_cntl_dom sdom op) with
            weight := dom_cntl_weight prv sdom op.weight }, op) := by
      unfold csched_dom_cntl
      rw [h]
      simp only []
      rw [if_pos hc]
    have hat2 : ({ prv.put_sdom d (dom_cntl_dom sdom op) with
        weight := dom_cntl_weight prv sdom op.weight } : csched_private).sdom_at d
        = some (dom_cntl_dom sdom op) := hat
    refine ⟨_, dom_cntl_dom sdom op, hput, hat2, hget _ _ hat2, f1, f2, ?_, ?_, f4⟩
    · intro hw hcap
      rw [hget _ _ hat2, f1 hw, f2 hcap]
    · intro hw
      exact absurd hw hc.1
  · have hput : csched_dom_cntl prv d domctl_cmd.putinfo op
        = some (0, prv.put_sdom d (dom_cntl_dom sdom op), op) := by
      unfold csched_dom_cntl
      rw [h]
      simp only []
      rw [if_neg hc]
    refine ⟨_, dom_cntl_dom sdom op, hput, hat, hget _ _ hat, f1, f2, ?_, ?_, f4⟩
    · intro hw hcap
      rw [hget _ _ hat, f1 hw, f2 hcap]
    · intro hw
      exact ⟨f3 hw, hwt⟩

/-- Witness for C21: in acct_demo the first active domain has weight 256 and
cap 0; putinfo (512, 50) returns 0 and a following getinfo returns 0 and
reports (512, 50). -/
theorem csched_dom_cntl_round_trip_witness :
    acct_demo.sdom_at { linked := true, idx := 0 } = some acct_demo_dom0
    ∧ ∃ prv1 s1,
        csched_dom_cntl acct_demo { linked := true, idx := 0 } domctl_cmd.putinfo
            { weight := 512, cap := 50 } = some (0, prv1, { weight := 512, cap := 50 })
        ∧ prv1.sdom_at { linked := true, idx := 0 } = some s1
        ∧ csched_dom_cntl prv1 { linked := true, idx := 0 } domctl_cmd.getinfo {}
            = some (0, prv1, { weight := 512, cap := 50 }) :=
  ⟨by decide,
    (csched_dom_cntl_round_trip acct_demo { linked := true, idx := 0 } acct_demo_dom0
      { weight := 512, cap := 50 } {} (by decide)).1.imp fun _ h1 =>
        h1.imp fun _ h2 => ⟨h2.1, h2.2.1, h2.2.2.2.2.2.1 (by decide) (by decide)⟩⟩

/-! ## The tick period of a domain -/

/-- Controller passes from a reachable state lead to reachable states. -/
theorem controller_run_reachable (xs : List (Nat × Nat)) :
    ∀ s : csched_dom, ctl_reachable s → ctl_reachable (controller_run s xs) := by
  induction xs with
  | nil => exact fun _ h => h
  | cons x xs ih => exact fun s h => ih _ (ctl_reachable.pass s x.1 x.2 h)

/-- The tick period after each kind of pass: the stable branch stores
tslice_us / 3 on 16 bits, the warm-up and the unstable branch leave the field
as it was. -/
theorem pass_tick_period (s : csched_dom) (I M : Nat) :
    (submilli_stable s I M).tick_period_us = U16 ((submilli_stable s I M).tslice_us / 3)
    ∧ (submilli_warmup s I M).tick_period_us = s.tick_period_us
    ∧ (submilli_unstable s I M).tick_period_us = s.tick_period_us := by
  refine ⟨?_, ?_, ?_⟩
  · unfold submilli_stable submilli_tick_period
    simp
  · unfold submilli_warmup submilli_warmup_store
    split_ifs <;> simp
  · unfold submilli_unstable submilli_unstable_store
    split_ifs <;> simp

/-- C27 on the code. After csched_dom_init the tick period is tslice_us / 3,
and so it is in the state dom_slice_300 reached by seven passes (slice 300,
tick period 100). From there (a) an unstable pass on the sample (1000, 0)
cuts the slice to 100 and leaves the tick period at 100, not 33; (b) an
unstable pass on the sample (1000, 10) followed by a warm-up pass on the
sample (100000, 50) cuts the slice to 100 in the warm-up pass and again leaves
the tick period at 100. Only the stable branch recomputes the field. -/
theorem tick_period_stale :
    (∀ d : Nat, (csched_dom_init d).tick_period_us = (csched_dom_init d).tslice_us / 3)
    ∧ ctl_reachable dom_slice_300
    ∧ dom_slice_300.tslice_us = 300 ∧ dom_slice_300.tick_period_us = 100
    ∧ dom_slice_300.event_tracking_window = 0
    ∧ csched_submilli_metric_update dom_slice_300 1000 0 = submilli_unstable dom_slice_300 1000 0
    ∧ (csched_submilli_metric_update dom_slice_300 1000 0).tslice_us = 100
    ∧ (csched_submilli_metric_update dom_slice_300 1000 0).tick_period_us = 100
    ∧ (csched_submilli_metric_update dom_slice_300 1000 10).event_tracking_window = 4
    ∧ (csched_submilli_metric_update dom_slice_300 1000 10).tslice_us = 300
    ∧ csched_submilli_metric_update (csched_submilli_metric_update dom_slice_300 1000 10)
          100000 50
        = submilli_warmup (csched_submilli_metric_update dom_slice_300 1000 10) 100000 50
    ∧ (csched_submilli_metric_update (csched_submilli_metric_update dom_slice_300 1000 10)
          100000 50).tslice_us = 100
    ∧ (csched_submilli_metric_update (csched_submilli_metric_update dom_slice_300 1000 10)
          100000 50).tick_period_us = 100
    ∧ (100 : Nat) / 3 = 33 := by
  refine ⟨fun d => by simp [csched_dom_init, U16], controller_run_reachable _ _ (ctl_reachable.init 1), ?_⟩
  decide

/-! ## The warm-up step -/

/-- The decrease rule on a 32-bit slice value, as the function computes it. -/
theorem decrease_eq_spec (s : csched_dom) (h : s.tslice_us < 4294967296) :
    (csched_decrease_time_slice s).tslice_us = spec_decrease s.tslice_us := by
  rw [decrease_tslice_eq, U32_of_lt _ (by omega)]
  unfold spec_decrease
  split_ifs <;> rfl

/-- The band 0 < rC < 100 reads the same on int and over the naturals. -/
theorem rate_band_cast (r : Nat) :
    (0 < (r : Int) ∧ (r : Int) < 100) ↔ (0 < r ∧ r < 100) := by
  omega

/-- The ring and the stable count after the warm-up branch. -/
theorem warmup_ring (s : csched_dom) (I M : Nat) :
    (submilli_warmup s I M).filter
        = s.filter.set ((5 : Int) - (s.event_tracking_window : Int))
            (spec_sample (avg_spinlock s) I M)
    ∧ (submilli_warmup s I M).event_stable_count = s.event_stable_count := by
  unfold submilli_warmup submilli_warmup_store
  split_ifs <;> exact ⟨rfl, rfl⟩

/-- A write to slot k of the ring, k in 0..4, changes slot k and no other. -/
theorem filter_set_get (f : event_filter) (v : event_sample) (k i : Nat) (hk : k < 5)
    (hi : i < 5) : (f.set (k : Int) v).get i = if i = k then v else f.get i := by
  interval_cases k <;> interval_cases i <;> rfl

/-- C29, as stated, fails on the code: the decrease is decided on the int
miss_rate_curr, not on M*100000/I. (a) In the warm-up state dom_warm_300
(counter 4, slice 300) the sample (I, M) = (100000, 2^32 + 50) has
M*100000/I = 2^32 + 50, not below 100, and the pass decreases the slice to
100: the quotient is stored to an int and reads 50. (b) In the same state
the sample (2 * 10^18, 184467440737096) has M*100000/I = 9, strictly between 0
and 100, and the pass leaves the slice at 300: the product M*100000 wraps in
64 bits and the quotient is 0. -/
theorem warmup_step_counterexample :
    dom_warm_300.event_tracking_window = 4 ∧ dom_warm_300.tslice_us = 300
    ∧ spec_rC 100000 4294967346 = 4294967346
    ∧ (csched_submilli_metric_update dom_warm_300 100000 4294967346).tslice_us = 100
    ∧ spec_rC 2000000000000000000 184467440737096 = 9
    ∧ (csched_submilli_metric_update dom_warm_300 2000000000000000000
        184467440737096).tslice_us = 300
    ∧ spec_decrease 300 = 100 := by
  decide

/-- C29, amended. For every domain state with event_tracking_window = w,
1 <= w <= 5, and a 32-bit slice, and every sample (I, M), a controller pass
writes {A, I, M} (A = spinlock_metric_update / spinlock_count, 0 if the count
is 0; each field truncated to its width) into ring slot 5 - w, leaves the
other four slots, phase and event_stable_count unchanged, sets
event_tracking_window to w - 1, and applies the decrease rule to tslice_us if
and only if 0 < rC < 100, where rC is the int miss_rate_curr of the code;
rC = M*100000/I (0 if I = 0) whenever M*100000 fits 64 bits and the quotient
fits an int. -/
theorem warmup_step_amended (s : csched_dom) (I M : Nat)
    (h1 : 1 ≤ s.event_tracking_window) (h5 : s.event_tracking_window ≤ 5)
    (ht : s.tslice_us < 4294967296) :
    (∀ i, i < 5 →
        (csched_submilli_metric_update s I M).filter.get i
          = if i = 5 - s.event_tracking_window then
              spec_sample
                (if s.spinlock_count = 0 then 0
                  else s.spinlock_metric_update / s.spinlock_count) I M
            else s.filter.get i)
    ∧ (csched_submilli_metric_update s I M).phase = s.phase
    ∧ (csched_submilli_metric_update s I M).event_stable_count = s.event_stable_count
    ∧ (csched_submilli_metric_update s I M).event_tracking_window
        = s.event_tracking_window - 1
    ∧ (csched_submilli_metric_update s I M).tslice_us
        = (if 0 < miss_rate_curr I M ∧ miss_rate_curr I M < 100
            then spec_decrease s.tslice_us else s.tslice_us)
    ∧ (M * 100000 < 18446744073709551616 → spec_rC I M < 2147483648 →
        miss_rate_curr I M = (spec_rC I M : Int)
        ∧ (csched_submilli_metric_update s I M).tslice_us
            = (if 0 < spec_rC I M ∧ spec_rC I M < 100
                then spec_decrease s.tslice_us else s.tslice_us)) := by
  have hw : s.event_tracking_window > 0 := by omega
  rw [pass_warmup s I M hw]
  obtain ⟨f1, f2, f3⟩ := warmup_fields s I M
  obtain ⟨r1, r2⟩ := warmup_ring s I M
  have hA : avg_spinlock s
      = (if s.spinlock_count = 0 then 0 else s.spinlock_metric_update / s.spinlock_count) := by
    unfold avg_spinlock
    by_cases hc : s.spinlock_count = 0
    · simp [hc]
    · rw [if_pos (Nat.pos_of_ne_zero hc), if_neg hc]
  have hts : (submilli_warmup s I M).tslice_us
      = (if 0 < miss_rate_curr I M ∧ miss_rate_curr I M < 100
          then spec_decrease s.tslice_us else s.tslice_us) := by
    rw [f1, decrease_eq_spec s ht]
  refine ⟨?_, f3, r2, ?_, hts, ?_⟩
  · intro i hi
    have hk : ((5 : Int) - (s.event_tracking_window : Int))
        = ((5 - s.event_tracking_window : Nat) : Int) := by omega
    rw [r1, hk, filter_set_get _ _ _ _ (by omega) hi, hA]
  · rw [f2]
    unfold U8
    omega
  · intro hM hC
    have e := miss_rate_curr_eq_spec I M hM hC
    refine ⟨e, ?_⟩
    rw [hts, e, if_congr (rate_band_cast _) rfl rfl]

/-- Witness for the amended C29: in the state dom_warm_300 (counter 4, slice
300) the sample (100000, 50) satisfies the hypotheses; the pass takes one off
the counter and, rC being 50, applies the decrease rule. -/
theorem warmup_step_amended_witness :
    (1 ≤ dom_warm_300.event_tracking_window ∧ dom_warm_300.event_tracking_window ≤ 5
      ∧ dom_warm_300.tslice_us < 4294967296 ∧ spec_rC 100000 50 = 50)
    ∧ (csched_submilli_metric_update dom_warm_300 100000 50).event_tracking_window
        = dom_warm_300.event_tracking_window - 1
    ∧ (csched_submilli_metric_update dom_warm_300 100000 50).tslice_us
        = (if 0 < spec_rC 100000 50 ∧ spec_rC 100000 50 < 100
            then spec_decrease dom_warm_300.tslice_us else dom_warm_300.tslice_us) :=
  ⟨by decide,
    (warmup_step_amended dom_warm_300 100000 50 (by decide) (by decide)
      (by decide)).2.2.2.1,
    ((warmup_step_amended dom_warm_300 100000 50 (by decide) (by decide)
      (by decide)).2.2.2.2.2 (by decide) (by decide)).2⟩

/-! ## The unstable step -/

/-- The bound rC < 100 reads the same on int and over the naturals. -/
theorem rate_low_cast (r : Nat) : (r : Int) < 100 ↔ r < 100 := by
  omega

/-- The ring after the unstable branch. -/
theorem unstable_ring (s : csched_dom) (I M : Nat) :
    (submilli_unstable s I M).filter = spec_seed (avg_spinlock s) I M := by
  unfold submilli_unstable submilli_unstable_store
  split_ifs <;> rfl

/-- Without overflow the stable condition of the code holds exactly when the
three conditions hold over the naturals. -/
theorem stable_cond_iff_spec (rC rW : Nat) (h : rC * 100 < 2147483648) :
    stable_cond (miss_rate_err (rC : Int) (rW : Int)) (rC : Int) (rW : Int)
      ↔ spec_stable (spec_err rC rW) rC rW := by
  rw [miss_rate_err_eq_spec rC rW h]
  unfold stable_cond spec_stable
  omega

/-- C30, as stated, fails on the code. (a) In the steady state dom_ring_wrap
(ring full of (1, 85900), slice 500) the sample (I, M) = (100000, 2^32 + 50)
has rC = 2^32 + 50, rW = 8590000000 and err = 49, so none of the three stable
conditions holds and rC is not below 100; the pass takes the unstable branch
and decreases the slice to 300, because the int miss_rate_curr reads 50.
(b) In the steady state dom_steady 500 3 the sample (2^32, 0) takes the
unstable branch and ring slot 0 receives inst_retired = 0, not 2^32: the
field has 32 bits. -/
theorem unstable_step_counterexample :
    (dom_ring_wrap.event_tracking_window = 0
      ∧ spec_rC 100000 4294967346 = 4294967346
      ∧ spec_rW dom_ring_wrap.filter = 8590000000
      ∧ spec_err (spec_rC 100000 4294967346) (spec_rW dom_ring_wrap.filter) = 49
      ∧ ¬ spec_stable (spec_err (spec_rC 100000 4294967346) (spec_rW dom_ring_wrap.filter))
          (spec_rC 100000 4294967346) (spec_rW dom_ring_wrap.filter)
      ∧ csched_submilli_metric_update dom_ring_wrap 100000 4294967346
          = submilli_unstable dom_ring_wrap 100000 4294967346
      ∧ dom_ring_wrap.tslice_us = 500
      ∧ (csched_submilli_metric_update dom_ring_wrap 100000 4294967346).tslice_us = 300)
    ∧ ((dom_steady 500 3).event_tracking_window = 0
      ∧ ¬ spec_stable (spec_err (spec_rC 4294967296 0) (spec_rW (dom_steady 500 3).filter))
          (spec_rC 4294967296 0) (spec_rW (dom_steady 500 3).filter)
      ∧ csched_submilli_metric_update (dom_steady 500 3) 4294967296 0
          = submilli_unstable (dom_steady 500 3) 4294967296 0
      ∧ (csched_submilli_metric_update (dom_steady 500 3) 4294967296 0).filter.s0.inst_retired
          = 0) := by
  decide

/-- C30, amended. For every domain state with event_tracking_window = 0 and
a 32-bit slice, and every sample (I, M): (1) when the stable condition the
code evaluates (on the ints miss_rate_curr, miss_rate_window and err) fails,
the pass sets event_stable_count to 0, sets ring slot 0 to the current sample
{A, I, M}, each field truncated to its width, and ring slots 1..4 to
all-zero, sets event_tracking_window to 4, leaves phase unchanged, and
applies the decrease rule to tslice_us if and only if miss_rate_curr < 100;
(2) when the ring fields fit their types and the pass does not overflow
(M*100000 fits 64 bits, rC*100 and rW fit an int), the same holds whenever
none of the three stable conditions holds for rC, rW and err over the
naturals, and the decrease rule is applied if and only if rC < 100. -/
theorem unstable_step_amended :
    (∀ (s : csched_dom) (I M : Nat),
      s.event_tracking_window = 0 → s.tslice_us < 4294967296 →
      ¬ stable_cond (pass_err s I M) (miss_rate_curr I M) (miss_rate_window s.filter) →
      (csched_submilli_metric_update s I M).event_stable_count = 0
      ∧ (csched_submilli_metric_update s I M).filter
          = spec_seed
              (if s.spinlock_count = 0 then 0
                else s.spinlock_metric_update / s.spinlock_count) I M
      ∧ (csched_submilli_metric_update s I M).event_tracking_window = 4
      ∧ (csched_submilli_metric_update s I M).phase = s.phase
      ∧ (csched_submilli_metric_update s I M).tslice_us
          = (if miss_rate_curr I M < 100 then spec_decrease s.tslice_us else s.tslice_us))
    ∧ (∀ (s : csched_dom) (I M : Nat),
      s.event_tracking_window = 0 → s.tslice_us < 4294967296 → s.filter.typed →
      M * 100000 < 18446744073709551616 →
      spec_rC I M * 100 < 2147483648 →
      spec_rW s.filter < 2147483648 →
      ¬ spec_stable (spec_err (spec_rC I M) (spec_rW s.filter)) (spec_rC I M)
          (spec_rW s.filter) →
      (csched_submilli_metric_update s I M).event_stable_count = 0
      ∧ (csched_submilli_metric_update s I M).filter
          = spec_seed
              (if s.spinlock_count = 0 then 0
                else s.spinlock_metric_update / s.spinlock_count) I M
      ∧ (csched_submilli_metric_update s I M).event_tracking_window = 4
      ∧ (csched_submilli_metric_update s I M).phase = s.phase
      ∧ (csched_submilli_metric_update s I M).tslice_us
          = (if spec_rC I M < 100 then spec_decrease s.tslice_us else s.tslice_us)) := by
  have main : ∀ (s : csched_dom) (I M : Nat),
      s.event_tracking_window = 0 → s.tslice_us < 4294967296 →
      ¬ stable_cond (pass_err s I M) (miss_rate_curr I M) (miss_rate_window s.filter) →
      (csched_submilli_metric_update s I M).event_stable_count = 0
      ∧ (csched_submilli_metric_update s I M).filter
          = spec_seed
              (if s.spinlock_count = 0 then 0
                else s.spinlock_metric_update / s.spinlock_count) I M
      ∧ (csched_submilli_metric_update s I M).event_tracking_window = 4
      ∧ (csched_submilli_metric_update s I M).phase = s.phase
      ∧ (csched_submilli_metric_update s I M).tslice_us
          = (if miss_rate_curr I M < 100 then spec_decrease s.tslice_us else s.tslice_us) := by
    intro s I M hw ht hns
    rw [pass_unstable s I M hw hns]
    obtain ⟨f1, f2, f3, f4⟩ := unstable_fields s I M
    have hA : avg_spinlock s
        = (if s.spinlock_count = 0 then 0
            else s.spinlock_metric_update / s.spinlock_count) := by
      unfold avg_spinlock
      by_cases hc : s.spinlock_count = 0
      · simp [hc]
      · rw [if_pos (Nat.pos_of_ne_zero hc), if_neg hc]
    refine ⟨f4, ?_, f2, f3, ?_⟩
    · rw [unstable_ring, hA]
    · rw [f1, decrease_eq_spec s ht]
  refine ⟨main, ?_⟩
  intro s I M hw ht hf hM hC hW hns
  have e1 := miss_rate_curr_eq_spec I M hM (by omega)
  have e2 := miss_rate_window_eq_spec s.filter hf hW
  have hns2 : ¬ stable_cond (pass_err s I M) (miss_rate_curr I M)
      (miss_rate_window s.filter) := by
    unfold pass_err
    rw [e1, e2, stable_cond_iff_spec _ _ hC]
    exact hns
  obtain ⟨g1, g2, g3, g4, g5⟩ := main s I M hw ht hns2
  refine ⟨g1, g2, g3, g4, ?_⟩
  rw [g5, e1, if_congr (rate_low_cast _) rfl rfl]

/-- Witness for the amended C30: in the steady state dom_steady 500 3 (ring
full of (10^6, 10^3), rW = 100) the sample (10^6, 10) has rC = 1 and err = 1,
none of the stable conditions holds, and the pass leaves the warm-up counter
at 4 and applies the decrease rule. -/
theorem unstable_step_amended_witness :
    ¬ spec_stable
        (spec_err (spec_rC 1000000 10) (spec_rW (dom_steady 500 3).filter))
        (spec_rC 1000000 10) (spec_rW (dom_steady 500 3).filter)
    ∧ (csched_submilli_metric_update (dom_steady 500 3) 1000000 10).event_tracking_window = 4
    ∧ (csched_submilli_metric_update (dom_steady 500 3) 1000000 10).tslice_us
        = (if spec_rC 1000000 10 < 100 then spec_decrease (dom_steady 500 3).tslice_us
            else (dom_steady 500 3).tslice_us) :=
  ⟨by decide,
    (unstable_step_amended.2 (dom_steady 500 3) 1000000 10 (by decide) (by decide)
      (by unfold event_filter.typed event_sample.typed; decide) (by decide) (by decide)
      (by decide) (by decide)).2.2.1,
    (unstable_step_amended.2 (dom_steady 500 3) 1000000 10 (by decide) (by decide)
      (by unfold event_filter.typed event_sample.typed; decide) (by decide) (by decide)
      (by decide) (by decide)).2.2.2.2⟩

/-! ## CPU masks -/

/-- A scan of the pCPUs 0 .. nr - 1 for the first one with a property either
finds the lowest-numbered such pCPU or, when there is none, returns nr. -/
theorem range_find_spec (nr : Nat) (p : Nat → Bool) :
    (p (((List.range nr).find? p).getD nr) = true
      ∧ ((List.range nr).find? p).getD nr < nr
      ∧ ∀ j, p j = true → ((List.range nr).find? p).getD nr ≤ j)
    ∨ (((List.range nr).find? p).getD nr = nr ∧ ∀ j, j < nr → p j = false) := by
  cases hf : (List.range nr).find? p with
  | none =>
    right
    rw [List.find?_range_eq_none] at hf
    refine ⟨rfl, fun j hj => ?_⟩
    have := hf j hj
    simpa using this
  | some x =>
    left
    rw [List.find?_range_eq_some] at hf
    obtain ⟨h1, h2, h3⟩ := hf
    refine ⟨h1, List.mem_range.1 h2, fun j hj => ?_⟩
    show x ≤ j
    by_contra hlt
    have := h3 j (by omega)
    simp [hj] at this

/-- On a mask with a pCPU below nr_cpu_ids, cpumask_first returns the
lowest-numbered pCPU of the mask. -/
theorem cpumask_first_spec (nr : Nat) (src : Finset Nat) (c : Nat) (hc : c ∈ src)
    (hn : c < nr) :
    cpumask_first nr src ∈ src ∧ cpumask_first nr src < nr
    ∧ ∀ j ∈ src, cpumask_first nr src ≤ j := by
  unfold cpumask_first
  rcases range_find_spec nr (fun c => decide (c ∈ src)) with ⟨h1, h2, h3⟩ | ⟨_, h2⟩
  · refine ⟨by simpa using h1, h2, fun j hj => h3 j (by simpa using hj)⟩
  · have := h2 c hn
    simp [hc] at this

/-- On a mask with a pCPU below nr_cpu_ids, cpumask_cycle returns a pCPU of
the mask. -/
theorem cpumask_cycle_mem (nr n : Nat) (src : Finset Nat) (c : Nat) (hc : c ∈ src)
    (hn : c < nr) :
    cpumask_cycle nr n src ∈ src ∧ cpumask_cycle nr n src < nr := by
  unfold cpumask_cycle
  by_cases h : cpumask_next nr n src = nr
  · rw [if_pos h]
    exact ⟨(cpumask_first_spec nr src c hc hn).1, (cpumask_first_spec nr src c hc hn).2.1⟩
  · rw [if_neg h]
    unfold cpumask_next at h ⊢
    rcases range_find_spec nr (fun c => decide (n < c ∧ c ∈ src)) with ⟨h1, h2, _⟩ | ⟨h1, _⟩
    · simp only [decide_eq_true_eq] at h1
      exact ⟨h1.2, h2⟩
    · exact absurd h1 h

/-! ## Bringing a pCPU in and out -/

/-- The fields set_pdata writes and the one the bookkeeping reads. -/
theorem set_pdata_fields (prv : csched_private) (c n m : Nat) :
    (prv.set_pdata c n m).credit = c ∧ (prv.set_pdata c n m).ncpus = n
    ∧ (prv.set_pdata c n m).master = m
    ∧ (prv.set_pdata c n m).credits_per_tslice = prv.credits_per_tslice :=
  ⟨rfl, rfl, rfl, rfl⟩

/-- What csched_alloc_pdata leaves when a record is allocated and the idle
vCPU is current. -/
theorem alloc_pdata_step (nr : Nat) (st : csched_private × csched_masks) (cpu : Nat) :
    ∃ st1, pdata_step nr st (pdata_op.alloc cpu) = some st1
      ∧ st1.1.credit = U32 (st.1.credit + st.1.credits_per_tslice)
      ∧ st1.1.ncpus = U32 (st.1.ncpus + 1)
      ∧ st1.1.master = (if U32 (st.1.ncpus + 1) = 1 then cpu else st.1.master)
      ∧ st1.1.credits_per_tslice = st.1.credits_per_tslice
      ∧ st1.2.cpus = insert cpu st.2.cpus
      ∧ st1.2.idlers = insert cpu st.2.idlers :=
  ⟨_, rfl, (set_pdata_fields _ _ _ _).1, (set_pdata_fields _ _ _ _).2.1,
    (set_pdata_fields _ _ _ _).2.2.1, (set_pdata_fields _ _ _ _).2.2.2, rfl, rfl⟩

/-- What csched_free_pdata leaves for a pCPU with a record. -/
theorem free_pdata_step (nr : Nat) (st : csched_private × csched_masks) (cpu : Nat) :
    ∃ st1, pdata_step nr st (pdata_op.free cpu) = some st1
      ∧ st1.1.credit = U32 (st.1.credit + negU32 st.1.credits_per_tslice)
      ∧ st1.1.ncpus = U32 (st.1.ncpus + 4294967295)
      ∧ st1.1.master
          = (if st.1.master = cpu ∧ U32 (st.1.ncpus + 4294967295) > 0 then
              cpumask_first nr (st.2.cpus.erase cpu)
            else st.1.master)
      ∧ st1.1.credits_per_tslice = st.1.credits_per_tslice
      ∧ st1.2.cpus = st.2.cpus.erase cpu
      ∧ st1.2.idlers = st.2.idlers.erase cpu :=
  ⟨_, rfl, (set_pdata_fields _ _ _ _).1, (set_pdata_fields _ _ _ _).2.1,
    (set_pdata_fields _ _ _ _).2.2.1, (set_pdata_fields _ _ _ _).2.2.2, rfl, rfl⟩

/-- The number of pCPUs of a mask whose members are all below nr_cpu_ids is
at most nr_cpu_ids. -/
theorem mask_card_le (nr : Nat) (s : Finset Nat) (h : ∀ c ∈ s, c < nr) : s.card ≤ nr := by
  have hsub : s ⊆ Finset.range nr := fun c hc => Finset.mem_range.2 (h c hc)
  simpa using Finset.card_le_card hsub

/-- One admissible call keeps the bookkeeping invariant and
credits_per_tslice. -/
theorem pdata_step_inv (nr : Nat) (st : csched_private × csched_masks) (op : pdata_op)
    (hnr : nr < 4294967296) (hinv : pdata_inv nr st) (hadm : pdata_admissible nr st op) :
    ∃ st1, pdata_step nr st op = some st1 ∧ pdata_inv nr st1
      ∧ st1.1.credits_per_tslice = st.1.credits_per_tslice := by
  obtain ⟨i1, i2, i3, i4⟩ := hinv
  have hle := mask_card_le nr st.2.cpus i4
  cases op with
  | alloc cpu =>
    obtain ⟨hlt, habs⟩ := hadm
    obtain ⟨st1, hs, e1, e2, e3, e4, e5, _⟩ := alloc_pdata_step nr st cpu
    refine ⟨st1, hs, ?_, e4⟩
    have hcard : (insert cpu st.2.cpus).card = st.2.cpus.card + 1 :=
      Finset.card_insert_of_not_mem habs
    have hin : ∀ c ∈ insert cpu st.2.cpus, c < nr := by
      intro c hc
      rcases Finset.mem_insert.1 hc with h | h
      · rw [h]; exact hlt
      · exact i4 c h
    have hle2 := mask_card_le nr (insert cpu st.2.cpus) hin
    have hn : U32 (st.1.ncpus + 1) = st.1.ncpus + 1 := U32_of_lt _ (by omega)
    unfold pdata_inv
    rw [e1, e2, e3, e4, e5, hn]
    refine ⟨by rw [hcard, i1], ?_, ?_, hin⟩
    · rw [i2]
      unfold U32
      rw [Nat.add_mul, Nat.one_mul]
      generalize st.1.ncpus * st.1.credits_per_tslice = a
      omega
    · intro _
      by_cases h1 : st.1.ncpus + 1 = 1
      · rw [if_pos h1]
        exact Finset.mem_insert_self _ _
      · rw [if_neg h1]
        exact Finset.mem_insert_of_mem (i3 (by omega))
  | free cpu =>
    have hmem : cpu ∈ st.2.cpus := hadm
    obtain ⟨st1, hs, e1, e2, e3, e4, e5, _⟩ := free_pdata_step nr st cpu
    refine ⟨st1, hs, ?_, e4⟩
    have hcard : (st.2.cpus.erase cpu).card = st.2.cpus.card - 1 :=
      Finset.card_erase_of_mem hmem
    have hpos : 0 < st.2.cpus.card := Finset.card_pos.2 ⟨cpu, hmem⟩
    have hn : U32 (st.1.ncpus + 4294967295) = st.1.ncpus - 1 := by
      unfold U32
      omega
    have hin : ∀ c ∈ st.2.cpus.erase cpu, c < nr :=
      fun c hc => i4 c (Finset.mem_of_mem_erase hc)
    unfold pdata_inv
    rw [e1, e2, e3, e4, e5, hn]
    refine ⟨by rw [hcard, i1], ?_, ?_, hin⟩
    · rw [i2]
      obtain ⟨k, hk⟩ : ∃ k, st.1.ncpus = k + 1 := ⟨st.1.ncpus - 1, by omega⟩
      rw [hk, Nat.add_sub_cancel, Nat.add_mul, Nat.one_mul]
      unfold U32 negU32
      generalize k * st.1.credits_per_tslice = a
      generalize st.1.credits_per_tslice = b
      omega
    · intro hgt
      by_cases hm : st.1.master = cpu
      · rw [if_pos ⟨hm, hgt⟩]
        have hne : (st.2.cpus.erase cpu).Nonempty := by
          rw [← Finset.card_pos, hcard]
          omega
        obtain ⟨c, hc⟩ := hne
        exact (cpumask_first_spec nr _ c hc (hin c hc)).1
      · rw [if_neg (fun h => hm h.1)]
        exact Finset.mem_erase.2 ⟨hm, i3 (by omega)⟩

/-- A valid sequence of calls runs to its end and keeps the bookkeeping
invariant and credits_per_tslice. -/
theorem pdata_run_inv (nr : Nat) (hnr : nr < 4294967296) (ops : List pdata_op) :
    ∀ st : csched_private × csched_masks, pdata_inv nr st → pdata_valid nr st ops →
      ∃ st1, pdata_run nr st ops = some st1 ∧ pdata_inv nr st1
        ∧ st1.1.credits_per_tslice = st.1.credits_per_tslice := by
  induction ops with
  | nil => exact fun st hinv _ => ⟨st, rfl, hinv, rfl⟩
  | cons op ops ih =>
    intro st hinv hv
    obtain ⟨hadm, hrest⟩ := hv
    obtain ⟨st1, hs, hinv1, hc1⟩ := pdata_step_inv nr st op hnr hinv hadm
    rw [hs] at hrest
    obtain ⟨st2, hr, hinv2, hc2⟩ := ih st1 hinv1 hrest
    refine ⟨st2, ?_, hinv2, by rw [hc2, hc1]⟩
    show (match pdata_step nr st op with
      | none => none
      | some st1 => pdata_run nr st1 ops) = some st2
    rw [hs]
    exact hr

/-- C26. With nr_cpu_ids possible pCPUs (a 32-bit number): (1) over every
sequence of csched_alloc_pdata / csched_free_pdata calls that starts from a
state with no pCPU (ncpus = 0, prv->credit = 0, prv->cpus empty, as
csched_init leaves it) and adds a pCPU only when absent and removes one only
when present, every call returns, ncpus is the number of pCPUs in prv->cpus,
prv->credit is ncpus * credits_per_tslice (the 32-bit product, hence the
exact product when that fits 32 bits), credits_per_tslice is unchanged, and
the master is a member of prv->cpus whenever ncpus > 0; (2) the pCPU that
joins when there is none becomes master, and a pCPU that joins others leaves
the master as it is; (3) when the master leaves and a pCPU remains, the
lowest-numbered remaining pCPU becomes master, and when another pCPU leaves
the master stays. -/
theorem pdata_master_election (nr : Nat) (hnr : nr < 4294967296) :
    (∀ (prv : csched_private) (m : csched_masks) (ops : List pdata_op),
      prv.ncpus = 0 → prv.credit = 0 → m.cpus = ∅ → pdata_valid nr (prv, m) ops →
      ∃ st, pdata_run nr (prv, m) ops = some st
        ∧ st.1.ncpus = st.2.cpus.card
        ∧ st.1.credit = st.1.ncpus * st.1.credits_per_tslice % 4294967296
        ∧ (st.1.ncpus * st.1.credits_per_tslice < 4294967296 →
            st.1.credit = st.1.ncpus * st.1.credits_per_tslice)
        ∧ (0 < st.1.ncpus → st.1.master ∈ st.2.cpus)
        ∧ st.1.credits_per_tslice = prv.credits_per_tslice)
    ∧ (∀ (st : csched_private × csched_masks) (cpu : Nat),
      ∃ st1, pdata_step nr st (pdata_op.alloc cpu) = some st1
        ∧ (st.1.ncpus = 0 → st1.1.master = cpu)
        ∧ (0 < st.1.ncpus → st.1.ncpus < nr → st1.1.master = st.1.master))
    ∧ (∀ (st : csched_private × csched_masks) (cpu : Nat),
      pdata_inv nr st → cpu ∈ st.2.cpus →
      ∃ st1, pdata_step nr st (pdata_op.free cpu) = some st1
        ∧ (st.1.master = cpu → 1 < st.1.ncpus →
            st1.1.master ∈ st1.2.cpus ∧ ∀ c ∈ st1.2.cpus, st1.1.master ≤ c)
        ∧ (st.1.master ≠ cpu → st1.1.master = st.1.master)) := by
  refine ⟨?_, ?_, ?_⟩
  · intro prv m ops h0 hc0 hm0 hv
    have hinv : pdata_inv nr (prv, m) := by
      refine ⟨?_, ?_, ?_, ?_⟩
      · show prv.ncpus = m.cpus.card
        rw [h0, hm0]
        rfl
      · show prv.credit = prv.ncpus * prv.credits_per_tslice % 4294967296
        rw [h0, hc0, Nat.zero_mul]
      · intro hpos
        have hpos2 : 0 < prv.ncpus := hpos
        omega
      · intro c hc
        have hc2 : c ∈ m.cpus := hc
        rw [hm0] at hc2
        exact absurd hc2 (Finset.not_mem_empty c)
    obtain ⟨st, hr, ⟨i1, i2, i3, _⟩, hc⟩ := pdata_run_inv nr hnr ops (prv, m) hinv hv
    refine ⟨st, hr, i1, i2, ?_, i3, hc⟩
    intro hfit
    rw [i2, Nat.mod_eq_of_lt hfit]
  · intro st cpu
    obtain ⟨st1, hs, _, _, e3, _⟩ := alloc_pdata_step nr st cpu
    refine ⟨st1, hs, ?_, ?_⟩
    · intro h0
      rw [e3, h0, if_pos (by decide)]
    · intro hpos hlt
      rw [e3, if_neg]
      unfold U32
      omega
  · intro st cpu hinv hmem
    obtain ⟨i1, _, i3, i4⟩ := hinv
    obtain ⟨st1, hs, _, _, e3, _, e5, _⟩ := free_pdata_step nr st cpu
    have hle := mask_card_le nr st.2.cpus i4
    refine ⟨st1, hs, ?_, ?_⟩
    · intro hm hgt
      have hn : U32 (st.1.ncpus + 4294967295) = st.1.ncpus - 1 := by
        unfold U32
        omega
      rw [e3, e5, if_pos ⟨hm, by rw [hn]; omega⟩]
      have hne : (st.2.cpus.erase cpu).Nonempty := by
        rw [← Finset.card_pos, Finset.card_erase_of_mem hmem]
        omega
      obtain ⟨c, hc⟩ := hne
      have hsp := cpumask_first_spec nr _ c hc (i4 c (Finset.mem_of_mem_erase hc))
      exact ⟨hsp.1, hsp.2.2⟩
    · intro hm
      rw [e3, if_neg (fun h => hm h.1)]

/-- Witness for C26: with four possible pCPUs and 100 credits per slice,
pCPU 2 joins, pCPU 0 joins and pCPU 2 leaves: one pCPU is left, prv->credit
is 100 and the master is pCPU 0. -/
theorem pdata_master_election_witness :
    ∃ st, pdata_run 4 pdata_fresh
        [pdata_op.alloc 2, pdata_op.alloc 0, pdata_op.free 2] = some st
      ∧ st.1.ncpus = st.2.cpus.card
      ∧ st.1.credit = st.1.ncpus * st.1.credits_per_tslice % 4294967296
      ∧ (st.1.ncpus * st.1.credits_per_tslice < 4294967296 →
          st.1.credit = st.1.ncpus * st.1.credits_per_tslice)
      ∧ (0 < st.1.ncpus → st.1.master ∈ st.2.cpus)
      ∧ st.1.credits_per_tslice = pdata_fresh.1.credits_per_tslice :=
  (pdata_master_election 4 (by decide)).1 pdata_fresh.1 pdata_fresh.2
    [pdata_op.alloc 2, pdata_op.alloc 0, pdata_op.free 2] (by decide) (by decide) (by decide)
    (by decide)

/-- The run of the witness, evaluated: pCPU 0 is left as the master, with
prv->credit 100. -/
theorem pdata_demo_run :
    (pdata_run 4 pdata_fresh [pdata_op.alloc 2, pdata_op.alloc 0, pdata_op.free 2]).map
        (fun st => (st.1.ncpus, st.1.credit, st.1.master, decide (st.2.cpus = {0})))
      = some (1, 100, 0, true) := by
  decide

/-! ## The metric pass -/

/-- C28 on the code. A master metric pass over the two domains metric_dom_a
(its own sample over the interval is (1000, 10)) and metric_dom_b (its own
sample is (500, 5)) hands (1000, 10) to the controller of the first and
(1500, 15) to the controller of the second: curr_pmc[] is cleared once, before
the loop over the domains, and keeps the counts of the domains visited
before. With the domains visited in the other order the samples are (500, 5)
for metric_dom_b and (1500, 15) for metric_dom_a. The snapshots of the vCPUs
do equal their current counters afterwards. -/
theorem metric_sample_accumulates :
    spec_dom_sample metric_dom_a = (1000, 10)
    ∧ spec_dom_sample metric_dom_b = (500, 5)
    ∧ (csched_dom_metric_update 0 0 0 0 [metric_dom_a, metric_dom_b]).2.2
        = [(1000, 10), (1500, 15)]
    ∧ (csched_dom_metric_update 0 0 0 0 [metric_dom_b, metric_dom_a]).2.2
        = [(500, 5), (1500, 15)]
    ∧ (csched_dom_metric_update 0 0 0 0 [metric_dom_a]).2.2 = [(1000, 10)]
    ∧ (csched_dom_metric_update 0 0 0 0 [metric_dom_b]).2.2 = [(500, 5)]
    ∧ (∀ d ∈ (csched_dom_metric_update 0 0 0 0 [metric_dom_a, metric_dom_b]).1,
        ∀ vc ∈ d.vcpus, vc.prev_pmc = vc.pmc) := by
  decide

/-! ## The CPU picker -/

/-- A mask that cpumask_empty finds not empty holds a pCPU below
nr_cpu_ids. -/
theorem cpumask_not_empty (nr : Nat) (src : Finset Nat) (h : cpumask_empty nr src = false) :
    ∃ c, c ∈ src ∧ c < nr := by
  unfold cpumask_empty cpumask_first at h
  rcases range_find_spec nr (fun c => decide (c ∈ src)) with ⟨h1, h2, _⟩ | ⟨h1, _⟩
  · exact ⟨_, by simpa using h1, h2⟩
  · simp [h1] at h

/-- The empty mask is empty, and so is every mask without a pCPU below
nr_cpu_ids. -/
theorem cpumask_empty_of (nr : Nat) (src : Finset Nat) (h : ∀ c ∈ src, nr ≤ c) :
    cpumask_empty nr src = true := by
  unfold cpumask_empty cpumask_first
  rcases range_find_spec nr (fun c => decide (c ∈ src)) with ⟨h1, h2, _⟩ | ⟨h1, _⟩
  · have := h _ (by simpa using h1)
    omega
  · simp [h1]

/-- Taking a mask with a common pCPU out of a mask leaves fewer pCPUs. -/
theorem sdiff_card_lt (s t : Finset Nat) (x : Nat) (hs : x ∈ s) (ht : x ∈ t) :
    (s \ t).card < s.card :=
  Finset.card_lt_card (Finset.ssubset_iff_subset_ne.2
    ⟨Finset.sdiff_subset, fun h => (Finset.mem_sdiff.1 (h.symm ▸ hs)).2 ht⟩)

/-- One comparison step of the picker, from a mask cpus of pCPUs below
nr_cpu_ids that are in the local mask idlers, for a candidate nxt of cpus that
belongs to its own masks: the new cpu is the old one or a pCPU of cpus, and
the new mask is a part of cpus that has lost at least one pCPU. -/
theorem pick_step_spec (e : pick_env) (idlers : Finset Nat) (mask : Nat → Finset Nat)
    (factor cpu nxt : Nat) (cpus : Finset Nat) (spc : Option Nat)
    (hlt : ∀ c ∈ cpus, c < e.nr_cpu_ids) (hid : cpus ⊆ idlers) (hn : nxt ∈ cpus)
    (hm : nxt ∈ mask nxt) (hsib : ∀ c, c < e.nr_cpu_ids → c ∈ e.cpu_sibling_mask c) :
    ((pick_step e idlers mask factor cpu nxt cpus spc).1 = cpu
      ∨ (pick_step e idlers mask factor cpu nxt cpus spc).1 ∈ cpus)
    ∧ (pick_step e idlers mask factor cpu nxt cpus spc).2.1 ⊆ cpus
    ∧ (pick_step e idlers mask factor cpu nxt cpus spc).2.1.card < cpus.card := by
  have hnx : nxt ∈ cpus ∩ (idlers ∩ mask nxt) :=
    Finset.mem_inter.2 ⟨hn, Finset.mem_inter.2 ⟨hid hn, hm⟩⟩
  obtain ⟨h1, h1n⟩ := cpumask_cycle_mem e.nr_cpu_ids (e.idle_bias nxt) _ nxt hnx (hlt nxt hn)
  have h1c : cpumask_cycle e.nr_cpu_ids (e.idle_bias nxt) (cpus ∩ (idlers ∩ mask nxt)) ∈ cpus :=
    (Finset.mem_inter.1 h1).1
  unfold pick_step
  by_cases hc : (if e.sched_smt_power_savings then
        (idlers ∩ mask cpu).card > (idlers ∩ mask nxt).card
      else (idlers ∩ mask cpu).card * factor < (idlers ∩ mask nxt).card)
  · rw [if_pos hc]
    exact ⟨Or.inr h1c, Finset.sdiff_subset, sdiff_card_lt _ _ _ h1c (hsib _ h1n)⟩
  · rw [if_neg hc]
    exact ⟨Or.inl rfl, Finset.sdiff_subset,
      sdiff_card_lt _ _ _ hn (Finset.mem_inter.2 ⟨hid hn, hm⟩)⟩

/-- The loop of the picker ends within as many iterations as the mask cpus
has pCPUs, on a topology in which every pCPU belongs to its own sibling and
core masks and, where the ASSERTs are checked, the core masks are symmetric;
it returns the cpu it started with or a pCPU of the mask it started with. -/
theorem pick_loop_spec (e : pick_env) (idlers : Finset Nat)
    (hsib : ∀ c, c < e.nr_cpu_ids → c ∈ e.cpu_sibling_mask c)
    (hcore : ∀ c, c < e.nr_cpu_ids → c ∈ e.cpu_core_mask c)
    (hsym : e.asserts = true → ∀ a, a < e.nr_cpu_ids → ∀ b, b < e.nr_cpu_ids →
      a ∈ e.cpu_core_mask b → b ∈ e.cpu_core_mask a) :
    ∀ (fuel cpu : Nat) (cpus : Finset Nat) (spc : Option Nat),
      cpus.card ≤ fuel → cpu < e.nr_cpu_ids → (∀ c ∈ cpus, c < e.nr_cpu_ids) →
      cpus ⊆ idlers →
      ∃ r, pick_loop e idlers fuel cpu cpus spc = some r ∧ (r.1 = cpu ∨ r.1 ∈ cpus) := by
  intro fuel
  induction fuel with
  | zero =>
    intro cpu cpus spc hcard _ _ _
    have h0 : cpus = ∅ := Finset.card_eq_zero.1 (by omega)
    refine ⟨(cpu, spc), ?_, Or.inl rfl⟩
    unfold pick_loop
    rw [if_pos (cpumask_empty_of _ _ (by rw [h0]; simp))]
  | succ fuel ih =>
    intro cpu cpus spc hcard hcpu hlt hid
    unfold pick_loop
    cases hem : cpumask_empty e.nr_cpu_ids cpus with
    | true => exact ⟨(cpu, spc), by simp, Or.inl rfl⟩
    | false =>
      obtain ⟨c, hc, hcn⟩ := cpumask_not_empty _ _ hem
      obtain ⟨hn, hnn⟩ := cpumask_cycle_mem e.nr_cpu_ids cpu cpus c hc hcn
      simp only [Bool.false_eq_true, if_false]
      have key : ∀ (mask : Nat → Finset Nat) (factor : Nat),
          (∀ c, c < e.nr_cpu_ids → c ∈ mask c) →
          ∃ r, pick_loop e idlers fuel
              (pick_step e idlers mask factor cpu (cpumask_cycle e.nr_cpu_ids cpu cpus)
                cpus spc).1
              (pick_step e idlers mask factor cpu (cpumask_cycle e.nr_cpu_ids cpu cpus)
                cpus spc).2.1
              (pick_step e idlers mask factor cpu (cpumask_cycle e.nr_cpu_ids cpu cpus)
                cpus spc).2.2 = some r
            ∧ (r.1 = cpu ∨ r.1 ∈ cpus) := by
        intro mask factor hmask
        obtain ⟨s1, s2, s3⟩ := pick_step_spec e idlers mask factor cpu
          (cpumask_cycle e.nr_cpu_ids cpu cpus) cpus spc hlt hid hn (hmask _ hnn) hsib
        have hcpu2 : (pick_step e idlers mask factor cpu (cpumask_cycle e.nr_cpu_ids cpu cpus)
            cpus spc).1 < e.nr_cpu_ids := by
          rcases s1 with h | h
          · rw [h]
            exact hcpu
          · exact hlt _ h
        obtain ⟨r, hr, hr2⟩ := ih _ _
          (pick_step e idlers mask factor cpu (cpumask_cycle e.nr_cpu_ids cpu cpus)
            cpus spc).2.2 (by omega) hcpu2 (fun c hc => hlt c (s2 hc))
          (fun c hc => hid (s2 hc))
        refine ⟨r, hr, ?_⟩
        rcases hr2 with h | h
        · rw [h]
          exact s1
        · exact Or.inr (s2 h)
      unfold pick_iter
      by_cases hcm : cpu ∈ e.cpu_core_mask (cpumask_cycle e.nr_cpu_ids cpu cpus)
      · rw [if_pos hcm, if_neg (fun h => h.2 (hsym h.1 _ hcpu _ hnn hcm))]
        exact key e.cpu_sibling_mask 1 hsib
      · rw [if_neg hcm, if_neg (fun h => hcm (hsym h.1 _ hnn _ hcpu h.2))]
        exact key e.cpu_core_mask 2 hcore

/-- C25. For every vCPU whose affinity mask intersects the online mask of
its pool (a mask of pCPUs below nr_cpu_ids), on a topology in which each pCPU
below nr_cpu_ids belongs to its own sibling and core masks, _csched_cpu_pick
returns, and the pCPU it returns is in the affinity mask and online; it is the
current processor of the vCPU whenever that processor is eligible and no other
eligible pCPU is in prv->idlers; and a pCPU returned that is not the initial
candidate is in prv->idlers (and in cpu_online_map). In a build that checks
its ASSERTs the core masks are taken to be symmetric, which is what the two
ASSERTs of the loop state. -/
theorem csched_cpu_pick_eligible (e : pick_env) (vc : csched_vcpu) (commit : Bool)
    (hon : ∀ c ∈ e.online, c < e.nr_cpu_ids)
    (hne : ∃ c, c ∈ e.online ∧ c ∈ vc.cpu_affinity)
    (hsib : ∀ c, c < e.nr_cpu_ids → c ∈ e.cpu_sibling_mask c)
    (hcore : ∀ c, c < e.nr_cpu_ids → c ∈ e.cpu_core_mask c)
    (hsym : e.asserts = true → ∀ a, a < e.nr_cpu_ids → ∀ b, b < e.nr_cpu_ids →
      a ∈ e.cpu_core_mask b → b ∈ e.cpu_core_mask a) :
    ∃ cpu bias, _csched_cpu_pick e vc commit = some (cpu, bias)
      ∧ cpu ∈ e.online ∧ cpu ∈ vc.cpu_affinity
      ∧ (vc.processor ∈ e.online → vc.processor ∈ vc.cpu_affinity →
          (∀ c, c ∈ e.online → c ∈ vc.cpu_affinity → c ∈ e.idlers → c = vc.processor) →
          cpu = vc.processor)
      ∧ (cpu ≠ pick_first e vc → cpu ∈ e.idlers ∧ cpu ∈ e.cpu_online_map) := by
  obtain ⟨c0, hc0, hc0a⟩ := hne
  have helig : ∀ c, c ∈ pick_eligible e vc ↔ c ∈ e.online ∧ c ∈ vc.cpu_affinity := by
    intro c
    unfold pick_eligible
    rw [Finset.mem_inter, List.mem_toFinset]
  have hc0e : c0 ∈ pick_eligible e vc := (helig c0).2 ⟨hc0, hc0a⟩
  have hfirst : pick_first e vc ∈ pick_eligible e vc := by
    unfold pick_first
    by_cases hp : vc.processor ∈ pick_eligible e vc
    · rw [if_pos hp]
      exact hp
    · rw [if_neg hp]
      exact (cpumask_cycle_mem _ _ _ c0 hc0e (hon c0 hc0)).1
  have hnem : cpumask_empty e.nr_cpu_ids (pick_eligible e vc) = false := by
    cases hem : cpumask_empty e.nr_cpu_ids (pick_eligible e vc) with
    | false => rfl
    | true =>
      unfold cpumask_empty at hem
      have hsp := cpumask_first_spec e.nr_cpu_ids _ c0 hc0e (hon c0 hc0)
      simp only [decide_eq_true_eq] at hem
      omega
  have hcand : ∀ c, c ∈ pick_candidates e vc →
      c ∈ pick_eligible e vc ∧ c ≠ pick_first e vc ∧ c ∈ e.cpu_online_map ∧ c ∈ e.idlers := by
    intro c hc
    unfold pick_candidates pick_idlers at hc
    obtain ⟨hne1, hin⟩ := Finset.mem_erase.1 hc
    obtain ⟨h1, h2⟩ := Finset.mem_inter.1 hin
    rcases Finset.mem_insert.1 h2 with h | h
    · exact absurd h hne1
    · exact ⟨h1, hne1, (Finset.mem_inter.1 h).1, (Finset.mem_inter.1 h).2⟩
  have hsub : pick_candidates e vc ⊆ pick_idlers e vc := by
    intro c hc
    unfold pick_candidates at hc
    exact (Finset.mem_inter.1 (Finset.mem_erase.1 hc).2).2
  have hlt : ∀ c ∈ pick_candidates e vc, c < e.nr_cpu_ids :=
    fun c hc => hon c ((helig c).1 (hcand c hc).1).1
  obtain ⟨r, hr, hr2⟩ := pick_loop_spec e (pick_idlers e vc) hsib hcore hsym e.nr_cpu_ids
    (pick_first e vc) (pick_candidates e vc) none (mask_card_le _ _ hlt)
    (hon _ ((helig _).1 hfirst).1) hlt hsub
  have hrun : _csched_cpu_pick e vc commit
      = some (r.1, fun c => if commit = true ∧ r.2 = some c then r.1 else e.idle_bias c) := by
    unfold _csched_cpu_pick
    rw [if_neg (fun h => h.2.elim (fun h1 => by rw [hnem] at h1; cases h1)
      (fun h2 => h2 hfirst)), hr]
  refine ⟨r.1, _, hrun, ?_, ?_, ?_, ?_⟩
  · rcases hr2 with h | h
    · rw [h]
      exact ((helig _).1 hfirst).1
    · exact ((helig _).1 (hcand _ h).1).1
  · rcases hr2 with h | h
    · rw [h]
      exact ((helig _).1 hfirst).2
    · exact ((helig _).1 (hcand _ h).1).2
  · intro hp1 hp2 hno
    have hpe : vc.processor ∈ pick_eligible e vc := (helig _).2 ⟨hp1, hp2⟩
    have hf : pick_first e vc = vc.processor := by
      unfold pick_first
      rw [if_pos hpe]
    rcases hr2 with h | h
    · rw [h, hf]
    · obtain ⟨g1, g2, _, g4⟩ := hcand _ h
      rw [hf] at g2
      exact absurd (hno _ ((helig _).1 g1).1 ((helig _).1 g1).2 g4) g2
  · intro hne2
    rcases hr2 with h | h
    · exact absurd h hne2
    · exact ⟨(hcand _ h).2.2.2, (hcand _ h).2.2.1⟩

/-- Witness for C25: on the four-pCPU machine pick_demo (pCPUs 2 and 3 idle)
the vCPU pick_demo_vcpu, on the busy pCPU 0, satisfies the hypotheses and is
placed on an online pCPU of its affinity mask. -/
theorem csched_cpu_pick_eligible_witness :
    ∃ cpu bias, _csched_cpu_pick pick_demo pick_demo_vcpu true = some (cpu, bias)
      ∧ cpu ∈ pick_demo.online ∧ cpu ∈ pick_demo_vcpu.cpu_affinity
      ∧ (pick_demo_vcpu.processor ∈ pick_demo.online →
          pick_demo_vcpu.processor ∈ pick_demo_vcpu.cpu_affinity →
          (∀ c, c ∈ pick_demo.online → c ∈ pick_demo_vcpu.cpu_affinity →
            c ∈ pick_demo.idlers → c = pick_demo_vcpu.processor) →
          cpu = pick_demo_vcpu.processor)
      ∧ (cpu ≠ pick_first pick_demo pick_demo_vcpu →
          cpu ∈ pick_demo.idlers ∧ cpu ∈ pick_demo.cpu_online_map) :=
  csched_cpu_pick_eligible pick_demo pick_demo_vcpu true (by decide) ⟨0, by decide, by decide⟩
    (by decide) (by decide) (by decide)

/-- The pick of the witness, evaluated: the vCPU moves from the busy pCPU 0
to the idle pCPU 2, and with commit set the idle_bias of pCPU 2 becomes 2. -/
theorem pick_demo_run :
    (_csched_cpu_pick pick_demo pick_demo_vcpu true).map (fun r => (r.1, r.2 2, r.2 3))
      = some (2, 2, 3) := by
  decide

/-! ## The scheduling decision -/

/-- The fields the three setters leave alone. -/
theorem vcpu_setter_fields (v : csched_vcpu) (t : Int) (p : Int) (f : Nat) :
    ((v.set_start_time t).pri = v.pri ∧ (v.set_start_time t).is_idle = v.is_idle
      ∧ (v.set_start_time t).processor = v.processor
      ∧ (v.set_start_time t).flags = v.flags)
    ∧ ((v.set_pri p).pri = p ∧ (v.set_pri p).is_idle = v.is_idle
      ∧ (v.set_pri p).processor = v.processor ∧ (v.set_pri p).flags = v.flags)
    ∧ ((v.set_flags f).pri = v.pri ∧ (v.set_flags f).is_idle = v.is_idle
      ∧ (v.set_flags f).processor = v.processor ∧ (v.set_flags f).flags = f) :=
  ⟨⟨rfl, rfl, rfl, rfl⟩, ⟨rfl, rfl, rfl, rfl⟩, ⟨rfl, rfl, rfl, rfl⟩⟩

/-- The start of the slice leaves the band, the kind and the processor of a
vCPU as they are. -/
theorem sched_start_fields (v : csched_vcpu) (now : Int) :
    (sched_start v now).pri = v.pri ∧ (sched_start v now).is_idle = v.is_idle
    ∧ (sched_start v now).processor = v.processor := by
  unfold sched_start
  split_ifs
  · exact ⟨rfl, rfl, rfl⟩
  · exact ⟨rfl, rfl, rfl⟩

/-- Clearing the YIELD flag leaves the band, the kind and the processor of a
vCPU as they are. -/
theorem clear_yield_fields (v : csched_vcpu) :
    (clear_yield v).pri = v.pri ∧ (clear_yield v).is_idle = v.is_idle
    ∧ (clear_yield v).processor = v.processor := by
  unfold clear_yield
  split_ifs
  · exact ⟨rfl, rfl, rfl⟩
  · exact ⟨rfl, rfl, rfl⟩

/-- The opening of csched_schedule leaves the kind, the processor and the
flags of the current vCPU as they are; a domain vCPU keeps its band and the
idle vCPU gets the band IDLE. -/
theorem sched_account_fields (scurr : csched_vcpu) (now : Int) :
    (sched_account scurr now).is_idle = scurr.is_idle
    ∧ (sched_account scurr now).processor = scurr.processor
    ∧ (sched_account scurr now).flags = scurr.flags
    ∧ (scurr.is_idle = false → (sched_account scurr now).pri = scurr.pri)
    ∧ (scurr.is_idle = true → (sched_account scurr now).pri = CSCHED_PRI_IDLE) := by
  obtain ⟨_, b2, b3, _, b5, _, b7, _, _⟩ := burn_credits_frame scurr now
  unfold sched_account
  by_cases h : scurr.is_idle = true
  · rw [if_pos h]
    refine ⟨rfl, rfl, rfl, fun h2 => ?_, fun _ => rfl⟩
    rw [h] at h2
    cases h2
  · rw [if_neg h]
    refine ⟨?_, ?_, ?_, fun _ => ?_, fun h2 => absurd h2 h⟩
    · exact b7
    · exact b5
    · exact b2
    · exact b3

/-- The value of ret.time: -1 for the idle vCPU, the slice of the domain of
the vCPU in nanoseconds otherwise. The global slice is never returned. -/
theorem sched_out_time_eq (prv : csched_private) (e : sched_env) (v : csched_vcpu) :
    (v.is_idle = true → sched_out_time prv e v = -1)
    ∧ (v.is_idle = false → sched_out_time prv e v = MICROSECS (e.sdom_tslice_us v)) := by
  unfold sched_out_time sched_out_tslice
  refine ⟨fun h => ?_, fun h => ?_⟩
  · rw [if_pos h]
  · rw [if_neg (by rw [h]; simp), if_pos h]

/-- What csched_schedule returns on the rate-limit shortcut. -/
theorem csched_schedule_shortcut (prv : csched_private) (idlers : Finset Nat) (e : sched_env)
    (cpu : Nat) (runq : List csched_vcpu) (scurr : csched_vcpu) (now : Int) (tasklet : Bool)
    (h : sched_ratelimit prv e scurr now tasklet) :
    csched_schedule prv idlers e cpu runq scurr now tasklet
      = some
          { ret := { task := (sched_account scurr now).set_start_time
                       (toInt64 ((sched_account scurr now).start_time + now))
                     time := sched_out_time prv e ((sched_account scurr now).set_start_time
                       (toInt64 ((sched_account scurr now).start_time + now)))
                     migrated := false }
            runq := runq
            idlers := idlers
            blocked := none
            stolen_from := none } := by
  unfold csched_schedule
  rw [if_pos h]

/-- What csched_schedule returns when it does not take the shortcut: the
result is put together by sched_finish from the choice of snext. -/
theorem csched_schedule_full (prv : csched_private) (idlers : Finset Nat) (e : sched_env)
    (cpu : Nat) (runq : List csched_vcpu) (scurr : csched_vcpu) (now : Int) (tasklet : Bool)
    (h : ¬ sched_ratelimit prv e scurr now tasklet) (r : sched_result)
    (hr : csched_schedule prv idlers e cpu runq scurr now tasklet = some r) :
    ∃ qp i c, sched_requeue e cpu runq (sched_account scurr now) = some qp
      ∧ sched_snext_pos qp.1 tasklet = some i
      ∧ sched_choose e idlers cpu now (sched_marks qp.1 qp.2 i tasklet) i = some c
      ∧ r = sched_finish prv idlers e cpu now
          (if qp.2 = none then some (clear_yield (sched_account scurr now)) else none) c := by
  unfold csched_schedule at hr
  rw [if_neg h] at hr
  cases h1 : sched_requeue e cpu runq (sched_account scurr now) with
  | none => rw [h1] at hr; cases hr
  | some qp =>
    rw [h1] at hr
    simp only [] at hr
    cases h2 : sched_snext_pos qp.1 tasklet with
    | none => rw [h2] at hr; cases hr
    | some i =>
      rw [h2] at hr
      simp only [] at hr
      cases h3 : sched_choose e idlers cpu now (sched_marks qp.1 qp.2 i tasklet) i with
      | none => rw [h3] at hr; cases hr
      | some c =>
        rw [h3] at hr
        simp only [Option.some.injEq] at hr
        exact ⟨qp, i, c, rfl, h2, h3, hr.symm⟩

/-- The time csched_schedule returns is the value computed behind the label
out from the vCPU it returns, on the shortcut and off it. -/
theorem csched_schedule_time (prv : csched_private) (idlers : Finset Nat) (e : sched_env)
    (cpu : Nat) (runq : List csched_vcpu) (scurr : csched_vcpu) (now : Int) (tasklet : Bool)
    (r : sched_result)
    (hr : csched_schedule prv idlers e cpu runq scurr now tasklet = some r) :
    r.ret.time = sched_out_time prv e r.ret.task := by
  by_cases h : sched_ratelimit prv e scurr now tasklet
  · rw [csched_schedule_shortcut prv idlers e cpu runq scurr now tasklet h] at hr
    simp only [Option.some.injEq] at hr
    rw [← hr]
  · obtain ⟨qp, i, c, _, _, _, h4⟩ := csched_schedule_full prv idlers e cpu runq scurr now
      tasklet h r hr
    rw [h4]
    rfl

/-- A write to the queued vCPU at position i, read back at position j. -/
theorem runq_modify_get (q : List csched_vcpu) (i j : Nat) (f : csched_vcpu → csched_vcpu) :
    (runq_modify q i f).get? j = if i = j then (q.get? j).map f else q.get? j := by
  unfold runq_modify
  cases hq : q.get? i with
  | none =>
    by_cases hij : i = j
    · rw [if_pos hij, ← hij, hq]
      rfl
    · rw [if_neg hij]
  | some v =>
    have hlt : i < q.length := by
      rw [List.get?_eq_some] at hq
      exact hq.1
    simp only [List.get?_eq_getElem?] at hq ⊢
    rw [List.getElem?_set]
    by_cases hij : i = j
    · rw [if_pos hij, if_pos hij, if_pos hlt, ← hij, hq]
      rfl
    · rw [if_neg hij, if_neg hij]

/-- A write to a queued vCPU keeps the length of the queue, and a property of
all queued vCPUs that the write keeps. -/
theorem runq_modify_all (P : csched_vcpu → Prop) (q : List csched_vcpu) (i : Nat)
    (f : csched_vcpu → csched_vcpu) (hf : ∀ u, P u → P (f u)) :
    (runq_modify q i f).length = q.length
    ∧ ((∀ v ∈ q, P v) → ∀ v ∈ runq_modify q i f, P v) := by
  unfold runq_modify
  cases hq : q.get? i with
  | none => exact ⟨rfl, fun h => h⟩
  | some u =>
    refine ⟨List.length_set _ _ _, fun h v hv => ?_⟩
    rcases List.mem_or_eq_of_mem_set hv with h1 | h1
    · exact h v h1
    · rw [h1]
      exact hf u (h u (List.get?_mem hq))

/-- The queue __runq_insert returns holds the vCPU inserted and the vCPUs
that were queued, and nothing else. -/
theorem runq_insert_mem (head_pri : Int) (runq q : List csched_vcpu) (cpu : Nat)
    (svc : csched_vcpu) (h : __runq_insert head_pri runq cpu svc = some q) :
    q ≠ [] ∧ ∀ v, v ∈ q ↔ v = svc ∨ v ∈ runq := by
  have key : ∀ k, (runq.take k ++ svc :: runq.drop k) ≠ []
      ∧ ∀ v, v ∈ runq.take k ++ svc :: runq.drop k ↔ v = svc ∨ v ∈ runq := by
    intro k
    refine ⟨by simp, fun v => ?_⟩
    have hm : v ∈ runq ↔ v ∈ runq.take k ∨ v ∈ runq.drop k := by
      rw [← List.mem_append, List.take_append_drop]
    rw [List.mem_append, List.mem_cons, hm]
    tauto
  unfold __runq_insert at h
  by_cases h1 : cpu ≠ svc.processor
  · rw [if_pos h1] at h
    cases h
  · rw [if_neg h1] at h
    by_cases h2 : svc.flags &&& CSCHED_FLAG_VCPU_YIELD ≠ 0
        ∧ runq_iter_pri head_pri runq (runq_insert_walk svc.pri runq) > CSCHED_PRI_IDLE
    · rw [if_pos h2] at h
      by_cases h3 : runq_iter_next runq (runq_insert_walk svc.pri runq) = runq.length
      · rw [if_pos h3] at h
        cases h
      · rw [if_neg h3] at h
        simp only [Option.some.injEq] at h
        rw [← h]
        exact key _
    · rw [if_neg h2] at h
      simp only [Option.some.injEq] at h
      rw [← h]
      exact key _

/-- The queue after the current vCPU was put back (or found not runnable) is
not empty and holds the vCPUs that were queued and, if it is runnable, the
current vCPU, and nothing else. -/
theorem sched_requeue_mem (e : sched_env) (cpu : Nat) (runq : List csched_vcpu)
    (sc : csched_vcpu) (qp : List csched_vcpu × Option Nat)
    (h : sched_requeue e cpu runq sc = some qp) :
    qp.1 ≠ [] ∧ (∀ v ∈ qp.1, v = sc ∨ v ∈ runq) ∧ (∀ v ∈ runq, v ∈ qp.1)
    ∧ (e.runnable = true → sc ∈ qp.1) := by
  unfold sched_requeue at h
  by_cases hr : e.runnable = true
  · rw [if_pos hr] at h
    cases hi : __runq_insert e.head_pri runq cpu sc with
    | none => rw [hi] at h; cases h
    | some q =>
      rw [hi] at h
      simp only [Option.map_some', Option.some.injEq] at h
      rw [← h]
      obtain ⟨m1, m2⟩ := runq_insert_mem _ _ _ _ _ hi
      exact ⟨m1, fun v hv => (m2 v).1 hv, fun v hv => (m2 v).2 (Or.inr hv),
        fun _ => (m2 sc).2 (Or.inl rfl)⟩
  · rw [if_neg hr] at h
    by_cases h2 : sc.is_idle = true ∨ runq = []
    · rw [if_pos h2] at h
      cases h
    · rw [if_neg h2] at h
      simp only [Option.some.injEq] at h
      rw [← h]
      exact ⟨fun h3 => h2 (Or.inr h3), fun v hv => Or.inr hv, fun v hv => hv,
        fun h3 => absurd h3 hr⟩

/-- The position runq_idle_pos finds holds an idle vCPU, and it finds one
whenever an idle vCPU is queued. -/
theorem runq_idle_pos_spec (q : List csched_vcpu) :
    (∀ i, runq_idle_pos q = some i → ∃ v, q.get? i = some v ∧ v.is_idle = true)
    ∧ ((∃ v ∈ q, v.is_idle = true) → ∃ i, runq_idle_pos q = some i) := by
  induction q with
  | nil =>
    refine ⟨fun i h => ?_, fun h => ?_⟩
    · cases h
    · obtain ⟨v, hv, _⟩ := h
      cases hv
  | cons a rest ih =>
    unfold runq_idle_pos
    by_cases ha : a.is_idle = true
    · rw [if_pos ha]
      refine ⟨fun i h => ?_, fun _ => ⟨0, rfl⟩⟩
      simp only [Option.some.injEq] at h
      rw [← h]
      exact ⟨a, rfl, ha⟩
    · rw [if_neg ha]
      refine ⟨fun i h => ?_, fun h => ?_⟩
      · cases hp : runq_idle_pos rest with
        | none => rw [hp] at h; cases h
        | some k =>
          rw [hp] at h
          simp only [Option.map_some', Option.some.injEq] at h
          rw [← h]
          exact ih.1 k hp
      · obtain ⟨v, hv, hvi⟩ := h
        rcases List.mem_cons.1 hv with h1 | h1
        · rw [h1] at hvi
          exact absurd hvi ha
        · obtain ⟨k, hk⟩ := ih.2 ⟨v, h1, hvi⟩
          exact ⟨k + 1, by rw [hk]; rfl⟩

/-- The marks of csched_schedule keep the length of the queue; without
tasklet work they keep every property of all queued vCPUs that clearing the
YIELD flag keeps; with tasklet work the vCPU at the position of the idle vCPU
is idle and has the band BOOST. -/
theorem sched_marks_spec (q : List csched_vcpu) (p : Option Nat) (i : Nat) (tasklet : Bool) :
    (sched_marks q p i tasklet).length = q.length
    ∧ (∀ P : csched_vcpu → Prop, (∀ u, P u → P (clear_yield u)) → tasklet = false →
        (∀ v ∈ q, P v) → ∀ v ∈ sched_marks q p i tasklet, P v)
    ∧ (tasklet = true → ∀ v, q.get? i = some v → v.is_idle = true →
        ∃ w, (sched_marks q p i tasklet).get? i = some w ∧ w.is_idle = true
          ∧ w.pri = CSCHED_PRI_TS_BOOST) := by
  have hlen : ∀ (l : List csched_vcpu) (k : Nat) (f : csched_vcpu → csched_vcpu),
      (runq_modify l k f).length = l.length :=
    fun l k f => (runq_modify_all (fun _ => True) l k f (fun _ _ => trivial)).1
  refine ⟨?_, ?_, ?_⟩
  · unfold sched_marks
    cases p with
    | none =>
      simp only []
      split_ifs
      · exact hlen _ _ _
      · rfl
    | some p =>
      simp only []
      rw [hlen]
      split_ifs
      · exact hlen _ _ _
      · rfl
  · intro P hP ht hq
    unfold sched_marks
    cases p with
    | none =>
      simp only []
      rw [if_neg (by rw [ht]; simp)]
      exact hq
    | some p =>
      simp only []
      rw [if_neg (by rw [ht]; simp)]
      exact (runq_modify_all P q p clear_yield hP).2 hq
  · intro ht v hv hvi
    unfold sched_marks
    cases p with
    | none =>
      simp only []
      rw [if_pos ht, runq_modify_get, if_pos rfl, hv]
      exact ⟨_, rfl, hvi, rfl⟩
    | some p =>
      simp only []
      rw [if_pos ht, runq_modify_get, runq_modify_get, if_pos rfl, hv]
      by_cases hpi : p = i
      · rw [if_pos hpi]
        refine ⟨_, rfl, ?_, ?_⟩
        · rw [(clear_yield_fields _).2.1]
          exact hvi
        · rw [(clear_yield_fields _).1]
          rfl
      · rw [if_neg hpi]
        exact ⟨_, rfl, hvi, rfl⟩

/-- A vCPU that csched_runq_steal's walk grabs is not idle, has a band
strictly above the one asked for, and has its processor set to the
requester. -/
theorem runq_steal_walk_grab (now : Int) (delay cpu : Nat) (pri : Int)
    (runq : List csched_vcpu) :
    ∀ s q, runq_steal_walk now delay cpu pri runq = some (some s, q) →
      s.is_idle = false ∧ pri < s.pri ∧ s.processor = cpu := by
  induction runq with
  | nil =>
    intro s q h
    unfold runq_steal_walk at h
    cases h
  | cons a rest ih =>
    intro s q h
    unfold runq_steal_walk at h
    by_cases h1 : a.pri ≤ pri
    · rw [if_pos h1] at h
      cases h
    · rw [if_neg h1] at h
      by_cases h2 : a.is_idle = true
      · rw [if_pos h2] at h
        cases h
      · rw [if_neg h2] at h
        by_cases h3 : __csched_vcpu_is_migrateable now delay a cpu = true
        · rw [if_pos h3] at h
          simp only [Option.some.injEq, Prod.mk.injEq] at h
          rw [← h.1]
          exact ⟨by simpa using h2, by show pri < a.pri; omega, rfl⟩
        · rw [if_neg h3] at h
          cases hw : runq_steal_walk now delay cpu pri rest with
          | none => rw [hw] at h; cases h
          | some res =>
            rw [hw] at h
            obtain ⟨r, q2⟩ := res
            simp only [Option.some.injEq, Prod.mk.injEq] at h
            rw [h.1] at hw
            exact ih s q2 hw

/-- A vCPU that csched_runq_steal returns is not idle, has a band strictly
above the one asked for, and has its processor set to the requester. -/
theorem csched_runq_steal_grab (now : Int) (delay cpu : Nat) (pri : Int)
    (peer_pcpu : Option csched_pcpu) (peer_idle : Bool) (s : csched_vcpu)
    (spc : Option csched_pcpu)
    (h : csched_runq_steal now delay peer_pcpu peer_idle cpu pri = some (some s, spc)) :
    s.is_idle = false ∧ pri < s.pri ∧ s.processor = cpu := by
  unfold csched_runq_steal at h
  cases peer_pcpu with
  | none =>
    simp only [Option.some.injEq, Prod.mk.injEq] at h
    cases h.1
  | some p =>
    simp only [] at h
    by_cases hi : peer_idle = true
    · rw [if_pos hi] at h
      simp only [Option.some.injEq, Prod.mk.injEq] at h
      cases h.1
    · rw [if_neg hi] at h
      cases hw : runq_steal_walk now delay cpu pri p.runq with
      | none => rw [hw] at h; cases h
      | some res =>
        rw [hw] at h
        obtain ⟨r, q2⟩ := res
        simp only [Option.some.injEq, Prod.mk.injEq] at h
        rw [h.1] at hw
        exact runq_steal_walk_grab now delay cpu pri p.runq s q2 hw

/-- The function csched_runq_steal returns (no BUG_ON fires) when every idle
vCPU on the queue of the peer has a band that is not above the one asked
for. -/
theorem csched_runq_steal_total (now : Int) (delay cpu : Nat) (pri : Int)
    (peer_pcpu : Option csched_pcpu) (peer_idle : Bool)
    (h : ∀ spc, peer_pcpu = some spc → ∀ y ∈ spc.runq, pri < y.pri → y.is_idle = false) :
    ∃ res, csched_runq_steal now delay peer_pcpu peer_idle cpu pri = some res := by
  unfold csched_runq_steal
  cases peer_pcpu with
  | none => exact ⟨_, rfl⟩
  | some p =>
    simp only []
    by_cases hi : peer_idle = true
    · rw [if_pos hi]
      exact ⟨_, rfl⟩
    · rw [if_neg hi]
      obtain ⟨res, hres⟩ := runq_steal_walk_total now delay cpu pri p.runq (h p rfl)
      rw [hres]
      exact ⟨_, rfl⟩

/-- The loop of csched_load_balance: a vCPU it returns is not idle, has a
band strictly above that of snext and has its processor set to this pCPU; and
the loop ends within as many iterations as workers has pCPUs when no BUG_ON of
csched_runq_steal fires. -/
theorem load_balance_loop_spec (e : sched_env) (cpu : Nat) (pri : Int) (now : Int) :
    ∀ (fuel peer_cpu : Nat) (workers : Finset Nat),
      (∀ r, load_balance_loop e cpu pri now fuel peer_cpu workers = some (some r) →
        r.2.1.is_idle = false ∧ pri < r.2.1.pri ∧ r.2.1.processor = cpu)
      ∧ (workers.card ≤ fuel → (∀ c ∈ workers, c < e.nr_cpu_ids) →
          (∀ p spc, e.peers p = some spc → ∀ y ∈ spc.runq, pri < y.pri → y.is_idle = false) →
          ∃ res, load_balance_loop e cpu pri now fuel peer_cpu workers = some res) := by
  intro fuel
  induction fuel with
  | zero =>
    intro peer_cpu workers
    unfold load_balance_loop
    refine ⟨fun r h => ?_, fun hcard _ _ => ?_⟩
    · split_ifs at h
      cases h
    · have h0 : workers = ∅ := Finset.card_eq_zero.1 (by omega)
      rw [if_pos (cpumask_empty_of _ _ (by rw [h0]; simp))]
      exact ⟨_, rfl⟩
  | succ fuel ih =>
    intro peer_cpu workers
    unfold load_balance_loop
    cases hem : cpumask_empty e.nr_cpu_ids workers with
    | true =>
      simp only [if_true]
      exact ⟨fun r h => (by cases h), fun _ _ _ => ⟨_, rfl⟩⟩
    | false =>
      simp only [Bool.false_eq_true, if_false]
      obtain ⟨c, hc, hcn⟩ := cpumask_not_empty _ _ hem
      obtain ⟨hn, _⟩ := cpumask_cycle_mem e.nr_cpu_ids peer_cpu workers c hc hcn
      have hcard : workers.card ≤ fuel + 1 →
          (workers.erase (cpumask_cycle e.nr_cpu_ids peer_cpu workers)).card ≤ fuel := by
        intro h
        rw [Finset.card_erase_of_mem hn]
        omega
      have hsub : (∀ c ∈ workers, c < e.nr_cpu_ids) →
          ∀ c ∈ workers.erase (cpumask_cycle e.nr_cpu_ids peer_cpu workers),
            c < e.nr_cpu_ids :=
        fun h c hc => h c (Finset.mem_of_mem_erase hc)
      obtain ⟨ih1, ih2⟩ := ih (cpumask_cycle e.nr_cpu_ids peer_cpu workers)
        (workers.erase (cpumask_cycle e.nr_cpu_ids peer_cpu workers))
      by_cases ht : e.trylock (cpumask_cycle e.nr_cpu_ids peer_cpu workers) = false
      · rw [if_pos ht]
        exact ⟨ih1, fun h1 h2 h3 => ih2 (hcard h1) (hsub h2) h3⟩
      · rw [if_neg ht]
        by_cases ho : cpumask_cycle e.nr_cpu_ids peer_cpu workers ∉ e.online
        · rw [if_pos ho]
          exact ⟨ih1, fun h1 h2 h3 => ih2 (hcard h1) (hsub h2) h3⟩
        · rw [if_neg ho]
          cases hs : csched_runq_steal now e.vcpu_migration_delay
              (e.peers (cpumask_cycle e.nr_cpu_ids peer_cpu workers))
              (e.peer_idle (cpumask_cycle e.nr_cpu_ids peer_cpu workers)) cpu pri with
          | none =>
            simp only []
            refine ⟨fun r h => (by cases h), fun _ _ h3 => ?_⟩
            obtain ⟨res, hres⟩ := csched_runq_steal_total now e.vcpu_migration_delay cpu pri
              (e.peers (cpumask_cycle e.nr_cpu_ids peer_cpu workers))
              (e.peer_idle (cpumask_cycle e.nr_cpu_ids peer_cpu workers))
              (fun spc hspc => h3 _ spc hspc)
            rw [hs] at hres
            cases hres
          | some res =>
            obtain ⟨r1, spc⟩ := res
            cases r1 with
            | none =>
              simp only []
              exact ⟨ih1, fun h1 h2 h3 => ih2 (hcard h1) (hsub h2) h3⟩
            | some speer =>
              simp only []
              refine ⟨fun r h => ?_, fun _ _ _ => ⟨_, rfl⟩⟩
              simp only [Option.some.injEq] at h
              rw [← h]
              exact csched_runq_steal_grab _ _ _ _ _ _ _ _ hs

/-- What sched_choose returns: the vCPU at position i of the queue, taken off
the queue, or a vCPU stolen from a peer, which is not idle, has a band
strictly above that of the local vCPU and has its processor set to this
pCPU. -/
theorem sched_choose_spec (e : sched_env) (idlers : Finset Nat) (cpu : Nat) (now : Int)
    (q : List csched_vcpu) (i : Nat) (c : sched_choice)
    (h : sched_choose e idlers cpu now q i = some c) :
    ∃ snext, q.get? i = some snext
      ∧ ((c.snext = snext ∧ c.migrated = false ∧ c.runq = q.eraseIdx i)
        ∨ (snext.pri ≤ CSCHED_PRI_TS_OVER ∧ c.snext.is_idle = false
            ∧ snext.pri < c.snext.pri ∧ c.snext.processor = cpu ∧ c.migrated = true
            ∧ c.runq = q)) := by
  unfold sched_choose at h
  cases hq : q.get? i with
  | none => rw [hq] at h; cases h
  | some snext =>
    rw [hq] at h
    simp only [] at h
    refine ⟨snext, rfl, ?_⟩
    by_cases hp : snext.pri > CSCHED_PRI_TS_OVER
    · rw [if_pos hp] at h
      simp only [Option.some.injEq] at h
      rw [← h]
      exact Or.inl ⟨rfl, rfl, rfl⟩
    · rw [if_neg hp] at h
      unfold csched_load_balance at h
      by_cases h1 : cpu ≠ snext.processor
      · rw [if_pos h1] at h
        cases h
      · rw [if_neg h1] at h
        by_cases h2 : cpu ∉ e.online
        · rw [if_pos h2] at h
          simp only [Option.some.injEq] at h
          rw [← h]
          exact Or.inl ⟨rfl, rfl, rfl⟩
        · rw [if_neg h2] at h
          cases hl : load_balance_loop e cpu snext.pri now e.nr_cpu_ids cpu
              ((e.online \ idlers).erase cpu) with
          | none => rw [hl] at h; cases h
          | some res =>
            rw [hl] at h
            cases res with
            | none =>
              simp only [Option.some.injEq] at h
              rw [← h]
              exact Or.inl ⟨rfl, rfl, rfl⟩
            | some r =>
              simp only [Option.some.injEq] at h
              rw [← h]
              obtain ⟨g1, g2, g3⟩ :=
                (load_balance_loop_spec e cpu snext.pri now e.nr_cpu_ids cpu _).1 r hl
              exact Or.inr ⟨by omega, g1, g2, g3, rfl, rfl⟩

/-- The choice of snext returns when the queue has a vCPU at position i and,
if that vCPU is OVER or lower, it is on this pCPU, the pCPUs of the pool are
numbered below nr_cpu_ids and no idle vCPU of a higher band is on the queue of
a peer. -/
theorem sched_choose_total (e : sched_env) (idlers : Finset Nat) (cpu : Nat) (now : Int)
    (q : List csched_vcpu) (i : Nat) (snext : csched_vcpu) (hq : q.get? i = some snext)
    (h : snext.pri ≤ CSCHED_PRI_TS_OVER →
      snext.processor = cpu ∧ (∀ c ∈ e.online, c < e.nr_cpu_ids)
      ∧ ∀ p spc, e.peers p = some spc →
          ∀ y ∈ spc.runq, snext.pri < y.pri → y.is_idle = false) :
    ∃ c, sched_choose e idlers cpu now q i = some c := by
  unfold sched_choose
  rw [hq]
  simp only []
  by_cases hp : snext.pri > CSCHED_PRI_TS_OVER
  · rw [if_pos hp]
    exact ⟨_, rfl⟩
  · rw [if_neg hp]
    obtain ⟨h1, h2, h3⟩ := h (by omega)
    unfold csched_load_balance
    rw [if_neg (by rw [h1]; simp)]
    by_cases ho : cpu ∉ e.online
    · rw [if_pos ho]
      exact ⟨_, rfl⟩
    · rw [if_neg ho]
      have hw : ∀ c ∈ (e.online \ idlers).erase cpu, c < e.nr_cpu_ids := by
        intro c hc
        exact h2 c (Finset.mem_sdiff.1 (Finset.mem_of_mem_erase hc)).1
      obtain ⟨res, hres⟩ :=
        (load_balance_loop_spec e cpu snext.pri now e.nr_cpu_ids cpu _).2
          (mask_card_le _ _ hw) hw h3
      rw [hres]
      cases res with
      | none => exact ⟨_, rfl⟩
      | some r => exact ⟨_, rfl⟩

/-- An insertion returns (no BUG_ON fires) when the vCPU is inserted on the
queue of its own processor and either has no YIELD flag or finds a vCPU of
band IDLE or lower at the tail of the queue. -/
theorem runq_insert_total (head_pri : Int) (runq : List csched_vcpu) (svc : csched_vcpu)
    (h : svc.flags &&& CSCHED_FLAG_VCPU_YIELD = 0
      ∨ ∃ pre last, runq = pre ++ [last] ∧ last.pri ≤ CSCHED_PRI_IDLE) :
    ∃ q, __runq_insert head_pri runq svc.processor svc = some q := by
  rcases h with h | ⟨pre, last, hr, hl⟩
  · exact ⟨_, runq_insert_plain head_pri runq svc h⟩
  · unfold __runq_insert
    rw [if_neg (by simp)]
    by_cases hy : svc.flags &&& CSCHED_FLAG_VCPU_YIELD ≠ 0
        ∧ runq_iter_pri head_pri runq (runq_insert_walk svc.pri runq) > CSCHED_PRI_IDLE
    · rw [if_pos hy, if_neg]
      · exact ⟨_, rfl⟩
      · have hw := (runq_insert_walk_split svc.pri runq).1
        have hlen : runq.length = pre.length + 1 := by
          rw [hr]
          simp
        unfold runq_iter_next
        intro heq
        by_cases hlt : runq_insert_walk svc.pri runq < runq.length
        · rw [if_pos hlt] at heq
          have hwl : runq_insert_walk svc.pri runq = pre.length := by omega
          have hget : runq.get? (runq_insert_walk svc.pri runq) = some last := by
            rw [hwl, hr, List.get?_eq_getElem?, List.getElem?_append_right (le_refl _)]
            simp
          have hpri := hy.2
          unfold runq_iter_pri at hpri
          rw [hget] at hpri
          simp only [] at hpri
          omega
        · rw [if_neg hlt] at heq
          omega
    · rw [if_neg hy]
      exact ⟨_, rfl⟩

/-- The record of the current vCPU after the opening of csched_schedule is a
regular vCPU of the pCPU when the current vCPU is on the pCPU and, unless it
is the idle vCPU, has a band above IDLE. -/
theorem sched_account_ok (cpu : Nat) (scurr : csched_vcpu) (now : Int)
    (hp : scurr.processor = cpu) (hb : scurr.is_idle = false → CSCHED_PRI_IDLE < scurr.pri) :
    vcpu_band_ok cpu (sched_account scurr now) := by
  obtain ⟨a1, a2, _, a4, a5⟩ := sched_account_fields scurr now
  unfold vcpu_band_ok
  rw [a1, a2]
  cases hi : scurr.is_idle with
  | true =>
    rw [a5 hi]
    exact ⟨⟨fun _ => rfl, fun _ => rfl⟩, le_refl _, hp⟩
  | false =>
    rw [a4 hi]
    have := hb hi
    refine ⟨⟨fun h => (by cases h), fun h => ?_⟩, by omega, hp⟩
    omega

/-- Clearing the YIELD flag keeps a regular vCPU regular. -/
theorem clear_yield_ok (cpu : Nat) (u : csched_vcpu) (h : vcpu_band_ok cpu u) :
    vcpu_band_ok cpu (clear_yield u) := by
  obtain ⟨c1, c2, c3⟩ := clear_yield_fields u
  unfold vcpu_band_ok at h ⊢
  rw [c1, c2, c3]
  exact h

/-- The state sched_ready describes lets csched_schedule return: no BUG_ON
fires and the loop of the load balancer ends. -/
theorem csched_schedule_returns (prv : csched_private) (idlers : Finset Nat) (e : sched_env)
    (cpu : Nat) (runq : List csched_vcpu) (scurr : csched_vcpu) (now : Int) (tasklet : Bool)
    (h : sched_ready e cpu runq scurr tasklet) :
    ∃ r, csched_schedule prv idlers e cpu runq scurr now tasklet = some r := by
  obtain ⟨w1, w2, w3, w4, w5, w6, w7, w8⟩ := h
  by_cases hrl : sched_ratelimit prv e scurr now tasklet
  · exact ⟨_, csched_schedule_shortcut prv idlers e cpu runq scurr now tasklet hrl⟩
  · obtain ⟨a1, a2, a3, _, _⟩ := sched_account_fields scurr now
    have hsc := sched_account_ok cpu scurr now w2 w3
    have hreq : ∃ qp, sched_requeue e cpu runq (sched_account scurr now) = some qp := by
      unfold sched_requeue
      by_cases hr : e.runnable = true
      · rw [if_pos hr]
        have hy : (sched_account scurr now).flags &&& CSCHED_FLAG_VCPU_YIELD = 0
            ∨ ∃ pre last, runq = pre ++ [last] ∧ last.pri ≤ CSCHED_PRI_IDLE := by
          rcases w6 with h6 | h6
          · left
            rw [a3]
            exact h6
          · exact Or.inr h6.2
        obtain ⟨q, hq⟩ := runq_insert_total e.head_pri runq (sched_account scurr now) hy
        rw [a2, w2] at hq
        rw [hq]
        exact ⟨_, rfl⟩
      · rw [if_neg hr]
        obtain ⟨h51, h52⟩ := w5 (by simpa using hr)
        rw [if_neg]
        · exact ⟨_, rfl⟩
        · rw [a1, h51]
          simp [h52]
    obtain ⟨qp, hqp⟩ := hreq
    obtain ⟨m1, m2, m3, m4⟩ := sched_requeue_mem e cpu runq _ qp hqp
    have hall : ∀ v ∈ qp.1, vcpu_band_ok cpu v := by
      intro v hv
      rcases m2 v hv with h1 | h1
      · rw [h1]
        exact hsc
      · exact w1 v h1
    have hpos : ∃ i, sched_snext_pos qp.1 tasklet = some i := by
      unfold sched_snext_pos
      cases ht : tasklet with
      | false => exact ⟨0, rfl⟩
      | true =>
        simp only [if_true]
        apply (runq_idle_pos_spec qp.1).2
        rcases w7 ht with h7 | ⟨v, hv, hvi⟩
        · exact ⟨_, m4 h7.2, by rw [a1]; exact h7.1⟩
        · exact ⟨v, m3 v hv, hvi⟩
    obtain ⟨i, hi⟩ := hpos
    obtain ⟨k1, k2, k3⟩ := sched_marks_spec qp.1 qp.2 i tasklet
    have hch : ∃ c, sched_choose e idlers cpu now (sched_marks qp.1 qp.2 i tasklet) i
        = some c := by
      cases ht : tasklet with
      | true =>
        rw [ht] at hi k3
        unfold sched_snext_pos at hi
        simp only [if_true] at hi
        obtain ⟨v, hv, hvi⟩ := (runq_idle_pos_spec qp.1).1 i hi
        obtain ⟨w, hw, _, hwp⟩ := k3 rfl v hv hvi
        refine sched_choose_total e idlers cpu now _ i w hw (fun hle => ?_)
        rw [hwp] at hle
        simp at hle
      | false =>
        rw [ht] at hi k1 k2
        unfold sched_snext_pos at hi
        simp only [Bool.false_eq_true, if_false, Option.some.injEq] at hi
        rw [← hi]
        have hlen : 0 < (sched_marks qp.1 qp.2 0 false).length := by
          rw [← hi] at k1
          rw [k1]
          exact List.length_pos.2 m1
        have hget : (sched_marks qp.1 qp.2 0 false).get? 0
            = some ((sched_marks qp.1 qp.2 0 false).get ⟨0, hlen⟩) := List.get?_eq_get hlen
        have hok : vcpu_band_ok cpu ((sched_marks qp.1 qp.2 0 false).get ⟨0, hlen⟩) := by
          rw [← hi] at k2
          exact k2 (vcpu_band_ok cpu) (clear_yield_ok cpu) rfl hall _ (List.get_mem _ _ _)
        refine sched_choose_total e idlers cpu now _ 0 _ hget (fun _ => ?_)
        refine ⟨hok.2.2, w4, fun p spc hp y hy hlt => ?_⟩
        cases hyi : y.is_idle with
        | false => rfl
        | true =>
          have := w8 p spc hp y hy hyi
          have := hok.2.1
          omega
    obtain ⟨c, hc⟩ := hch
    refine ⟨sched_finish prv idlers e cpu now
      (if qp.2 = none then some (clear_yield (sched_account scurr now)) else none) c, ?_⟩
    unfold csched_schedule
    rw [if_neg hrl, hqp]
    simp only []
    rw [hi]
    simp only []
    rw [hc]

/-- The vCPU csched_schedule dispatches off the shortcut. With tasklet work
it is an idle vCPU with the band BOOST. Without tasklet work, in a state whose
queued vCPUs are regular and whose current vCPU is on the pCPU and, unless it
is the idle vCPU, has a band above IDLE, it has the band IDLE exactly when it
is an idle vCPU. -/
theorem csched_schedule_task (prv : csched_private) (idlers : Finset Nat) (e : sched_env)
    (cpu : Nat) (runq : List csched_vcpu) (scurr : csched_vcpu) (now : Int) (tasklet : Bool)
    (h : ¬ sched_ratelimit prv e scurr now tasklet) (r : sched_result)
    (hr : csched_schedule prv idlers e cpu runq scurr now tasklet = some r) :
    (tasklet = true → r.ret.task.is_idle = true ∧ r.ret.task.pri = CSCHED_PRI_TS_BOOST)
    ∧ (tasklet = false → (∀ v ∈ runq, vcpu_band_ok cpu v) → scurr.processor = cpu →
        (scurr.is_idle = false → CSCHED_PRI_IDLE < scurr.pri) →
        (r.ret.task.is_idle = true ↔ r.ret.task.pri = CSCHED_PRI_IDLE)) := by
  obtain ⟨qp, i, c, h1, h2, h3, h4⟩ := csched_schedule_full prv idlers e cpu runq scurr now
    tasklet h r hr
  obtain ⟨s1, s2, _⟩ := sched_start_fields c.snext now
  have htask : r.ret.task = sched_start c.snext now := by
    rw [h4]
    rfl
  rw [htask, s1, s2]
  obtain ⟨snext, hq, hcase⟩ := sched_choose_spec e idlers cpu now _ i c h3
  obtain ⟨m1, m2, _, _⟩ := sched_requeue_mem e cpu runq _ qp h1
  obtain ⟨k1, k2, k3⟩ := sched_marks_spec qp.1 qp.2 i tasklet
  refine ⟨fun ht => ?_, fun ht w1 w2 w3 => ?_⟩
  · rw [ht] at h2
    unfold sched_snext_pos at h2
    simp only [if_true] at h2
    obtain ⟨v, hv, hvi⟩ := (runq_idle_pos_spec qp.1).1 i h2
    obtain ⟨w, hw, hwi, hwp⟩ := k3 ht v hv hvi
    rw [hq] at hw
    simp only [Option.some.injEq] at hw
    rcases hcase with ⟨c1, _, _⟩ | ⟨c1, _⟩
    · rw [c1, hw]
      exact ⟨hwi, hwp⟩
    · rw [hw, hwp] at c1
      simp at c1
  · have hall : ∀ v ∈ qp.1, vcpu_band_ok cpu v := by
      intro v hv
      rcases m2 v hv with h5 | h5
      · rw [h5]
        exact sched_account_ok cpu scurr now w2 w3
      · exact w1 v h5
    have hok : vcpu_band_ok cpu snext :=
      k2 (vcpu_band_ok cpu) (clear_yield_ok cpu) ht hall snext (List.get?_mem hq)
    rcases hcase with ⟨c1, _, _⟩ | ⟨_, c2, c3, _⟩
    · rw [c1]
      exact hok.1
    · rw [c2]
      have := hok.2.1
      refine ⟨fun hf => (by cases hf), fun hp => ?_⟩
      omega

/-- The mask prv->idlers after a call of csched_schedule that does not take
the shortcut: this pCPU is in it exactly when the vCPU dispatched has the band
IDLE, and no other pCPU enters or leaves it. -/
theorem csched_schedule_idlers (prv : csched_private) (idlers : Finset Nat) (e : sched_env)
    (cpu : Nat) (runq : List csched_vcpu) (scurr : csched_vcpu) (now : Int) (tasklet : Bool)
    (h : ¬ sched_ratelimit prv e scurr now tasklet) (r : sched_result)
    (hr : csched_schedule prv idlers e cpu runq scurr now tasklet = some r) :
    (cpu ∈ r.idlers ↔ r.ret.task.pri = CSCHED_PRI_IDLE)
    ∧ ∀ c, c ≠ cpu → (c ∈ r.idlers ↔ c ∈ idlers) := by
  obtain ⟨qp, i, c, _, _, _, h4⟩ := csched_schedule_full prv idlers e cpu runq scurr now
    tasklet h r hr
  obtain ⟨s1, _, _⟩ := sched_start_fields c.snext now
  have htask : r.ret.task = sched_start c.snext now := by
    rw [h4]
    rfl
  have hidl : r.idlers = sched_idlers idlers cpu c.snext := by
    rw [h4]
    rfl
  rw [htask, s1, hidl]
  unfold sched_idlers
  by_cases hp : c.snext.pri = CSCHED_PRI_IDLE
  · rw [if_pos hp]
    refine ⟨⟨fun _ => hp, fun _ => Finset.mem_insert_self _ _⟩, fun c2 hc2 => ?_⟩
    rw [Finset.mem_insert]
    exact ⟨fun h5 => h5.resolve_left hc2, fun h5 => Or.inr h5⟩
  · rw [if_neg hp]
    refine ⟨⟨fun h5 => absurd rfl (Finset.mem_erase.1 h5).1, fun h5 => absurd h5 hp⟩,
      fun c2 hc2 => ?_⟩
    rw [Finset.mem_erase]
    exact ⟨fun h5 => h5.2, fun h5 => ⟨hc2, h5⟩⟩

/-- A 32-bit number of microseconds in nanoseconds. -/
theorem MICROSECS_eq (us : Nat) (h : us < 4294967296) : MICROSECS us = (us : Int) * 1000 := by
  unfold MICROSECS U64 toInt64
  have h1 : us * 1000 % 18446744073709551616 = us * 1000 := Nat.mod_eq_of_lt (by omega)
  rw [h1]
  push_cast
  omega

/-- The example state is one in which csched_schedule returns, with and
without tasklet work. -/
theorem sched_demo_ready (tasklet : Bool) :
    sched_ready sched_demo 0 [sched_idle0] sched_guest tasklet := by
  refine ⟨?_, rfl, fun _ => (by decide), by decide, fun h => (by cases h), Or.inl (by decide),
    fun _ => Or.inr ⟨sched_idle0, List.mem_singleton.2 rfl, rfl⟩, ?_⟩
  · intro v hv
    rw [List.mem_singleton.1 hv]
    exact ⟨⟨fun _ => rfl, fun _ => rfl⟩, le_refl _, rfl⟩
  · intro p spc hp y hy
    have hspc : spc = {} := by
      have h1 : sched_demo.peers p = some {} := rfl
      rw [h1] at hp
      exact (Option.some.inj hp).symm
    rw [hspc] at hy
    cases hy

/-- C22, as stated, fails on the code. On pCPU 0 of the example machine, with
a domain vCPU current, the idle vCPU queued and tasklet work scheduled, the
idle vCPU is dispatched and the time returned is -1, not the global slice of
100 microseconds: ret.time is -1 whenever the vCPU dispatched is idle, with
tasklet work (first case) as well as without (second case, the idle vCPU
current and nothing queued). -/
theorem csched_schedule_time_counterexample :
    (csched_schedule sched_demo_prv {1} sched_demo 0 [sched_idle0] sched_guest 50000 true).map
        (fun r => (r.ret.task.is_idle, r.ret.time)) = some (true, -1)
    ∧ (csched_schedule sched_demo_prv ∅ sched_demo 0 [] sched_idle0 50000 false).map
        (fun r => (r.ret.task.is_idle, r.ret.time)) = some (true, -1)
    ∧ MICROSECS sched_demo_prv.tslice_us = 100000 := by
  decide

/-- C22, amended. For every csched_schedule call that returns, on the
rate-limit shortcut and off it: when a domain vCPU is dispatched the time
returned is the tslice_us of the domain of that vCPU converted to nanoseconds
(tslice_us * 1000 for a 32-bit tslice_us); when the idle vCPU is dispatched
the time returned is -1, whether or not tasklet work is pending; the global
default slice is never returned. The call returns in every state in which no
BUG_ON fires (sched_ready). -/
theorem csched_schedule_time_amended (prv : csched_private) (idlers : Finset Nat)
    (e : sched_env) (cpu : Nat) (runq : List csched_vcpu) (scurr : csched_vcpu) (now : Int)
    (tasklet : Bool) :
    (∀ r, csched_schedule prv idlers e cpu runq scurr now tasklet = some r →
      (r.ret.task.is_idle = false →
        r.ret.time = MICROSECS (e.sdom_tslice_us r.ret.task)
        ∧ (e.sdom_tslice_us r.ret.task < 4294967296 →
            r.ret.time = (e.sdom_tslice_us r.ret.task : Int) * 1000))
      ∧ (r.ret.task.is_idle = true → r.ret.time = -1))
    ∧ (sched_ready e cpu runq scurr tasklet →
        ∃ r, csched_schedule prv idlers e cpu runq scurr now tasklet = some r) := by
  refine ⟨fun r hr => ?_, csched_schedule_returns prv idlers e cpu runq scurr now tasklet⟩
  rw [csched_schedule_time prv idlers e cpu runq scurr now tasklet r hr]
  obtain ⟨t1, t2⟩ := sched_out_time_eq prv e r.ret.task
  refine ⟨fun hi => ⟨t2 hi, fun hlt => ?_⟩, t1⟩
  rw [t2 hi, MICROSECS_eq _ hlt]

/-- Witness for the amended C22: on the example machine, with a domain vCPU
current that has run for 160 microseconds and the idle vCPU queued, the call
returns, a domain vCPU is dispatched and the time returned is the slice of
its domain, 300 microseconds, in nanoseconds. -/
theorem csched_schedule_time_amended_witness :
    ∃ r, csched_schedule sched_demo_prv {1} sched_demo 0 [sched_idle0] sched_guest
        200000 false = some r
      ∧ r.ret.task.is_idle = false
      ∧ r.ret.time = MICROSECS (sched_demo.sdom_tslice_us r.ret.task)
      ∧ r.ret.time = (sched_demo.sdom_tslice_us r.ret.task : Int) * 1000 := by
  obtain ⟨r, hr⟩ := (csched_schedule_time_amended sched_demo_prv {1} sched_demo 0
    [sched_idle0] sched_guest 200000 false).2 (sched_demo_ready false)
  have hi : r.ret.task.is_idle = false := by
    have h : (csched_schedule sched_demo_prv {1} sched_demo 0 [sched_idle0] sched_guest
        200000 false).map (fun r => r.ret.task.is_idle) = some false := by decide
    rw [hr] at h
    exact Option.some.inj h
  obtain ⟨h1, h2⟩ := ((csched_schedule_time_amended sched_demo_prv {1} sched_demo 0
    [sched_idle0] sched_guest 200000 false).1 r hr).1 hi
  exact ⟨r, hr, hi, h1, h2 (show (300 : Nat) < 4294967296 by decide)⟩

/-- The call of the witnesses for C22 and C24, evaluated: the shortcut is not
taken, the domain vCPU 1 is dispatched for 300000 nanoseconds, the slice of
its domain, and pCPU 0 is not in prv->idlers. -/
theorem sched_demo_run :
    (csched_schedule sched_demo_prv {1} sched_demo 0 [sched_idle0] sched_guest 200000 false).map
        (fun r => (r.ret.task.vcpu_id, r.ret.task.is_idle, r.ret.time, r.ret.migrated,
          decide (0 ∈ r.idlers)))
      = some (1, false, 300000, false, false) := by
  decide

/-- C23 on the code. On pCPU 0 of the example machine, with a rate limit of
100 microseconds (equal to the default global slice), no tasklet work, and a
runnable domain vCPU current that has run for 10
microseconds and whose domain has a slice of 300 microseconds,
csched_schedule takes the rate-limit shortcut: it keeps the current vCPU
(vcpu_id 1, 10 credits burnt), reports no migration and leaves the run queue
and prv->idlers untouched; but the time it returns is 300000 nanoseconds, the
slice of the domain of the vCPU, not the rate limit of 100000 nanoseconds:
behind the label out the local tslice is overwritten with the slice of the
domain. -/
theorem csched_schedule_ratelimit_slice :
    sched_ratelimit sched_demo_prv sched_demo sched_guest 50000 false
    ∧ (csched_schedule sched_demo_prv {1} sched_demo 0 [sched_idle0] sched_guest 50000 false).map
        (fun r => (r.ret.task.vcpu_id, r.ret.task.credit, r.ret.migrated, r.ret.time))
      = some (1, 40, false, 300000)
    ∧ (csched_schedule sched_demo_prv {1} sched_demo 0 [sched_idle0] sched_guest 50000 false).map
        (fun r => (r.runq, r.idlers)) = some ([sched_idle0], {1})
    ∧ MICROSECS sched_demo_prv.ratelimit_us = 100000
    ∧ MICROSECS (sched_demo.sdom_tslice_us sched_guest) = 300000 := by
  decide

/-- C24, as stated, fails on the code. On pCPU 0 of the example machine, with
tasklet work scheduled, csched_schedule does not take the shortcut and
dispatches the idle vCPU of the pCPU, and pCPU 0 is not in prv->idlers
afterwards: the idle vCPU is given the band BOOST and the mask follows the
band. This holds with a domain vCPU current (first case) and with the idle
vCPU current and pCPU 0 in prv->idlers before the call (second case), where
the pCPU is taken out of the mask. -/
theorem csched_schedule_idlers_counterexample :
    ¬ sched_ratelimit sched_demo_prv sched_demo sched_guest 50000 true
    ∧ (csched_schedule sched_demo_prv {1} sched_demo 0 [sched_idle0] sched_guest 50000 true).map
        (fun r => (r.ret.task.is_idle, r.ret.task.vcpu_id, r.ret.task.pri,
          decide (0 ∈ r.idlers)))
      = some (true, 0, CSCHED_PRI_TS_BOOST, false)
    ∧ ¬ sched_ratelimit sched_demo_prv sched_demo sched_idle0 50000 true
    ∧ (csched_schedule sched_demo_prv {0} sched_demo 0 [] sched_idle0 50000 true).map
        (fun r => (r.ret.task.is_idle, r.ret.task.vcpu_id, r.ret.task.pri,
          decide (0 ∈ r.idlers)))
      = some (true, 0, CSCHED_PRI_TS_BOOST, false) := by
  decide

/-- C24, amended. After every csched_schedule call that does not take the
rate-limit shortcut and returns, this pCPU is a member of prv->idlers if and
only if the vCPU dispatched has the band IDLE, and no other pCPU's membership
changes. With tasklet work the vCPU dispatched is the idle vCPU with the band
BOOST, and this pCPU is not in prv->idlers. Without tasklet work, in a regular
state (queued vCPUs of this pCPU with the band IDLE exactly when idle, the
current vCPU on this pCPU and above IDLE unless idle), this pCPU is in
prv->idlers if and only if the vCPU dispatched is an idle vCPU. The call
returns in every state in which no BUG_ON fires (sched_ready). -/
theorem csched_schedule_idlers_amended (prv : csched_private) (idlers : Finset Nat)
    (e : sched_env) (cpu : Nat) (runq : List csched_vcpu) (scurr : csched_vcpu) (now : Int)
    (tasklet : Bool) (hn : ¬ sched_ratelimit prv e scurr now tasklet) :
    (∀ r, csched_schedule prv idlers e cpu runq scurr now tasklet = some r →
      (cpu ∈ r.idlers ↔ r.ret.task.pri = CSCHED_PRI_IDLE)
      ∧ (∀ c, c ≠ cpu → (c ∈ r.idlers ↔ c ∈ idlers))
      ∧ (tasklet = true →
          r.ret.task.is_idle = true ∧ r.ret.task.pri = CSCHED_PRI_TS_BOOST
          ∧ cpu ∉ r.idlers)
      ∧ (tasklet = false → (∀ v ∈ runq, vcpu_band_ok cpu v) → scurr.processor = cpu →
          (scurr.is_idle = false → CSCHED_PRI_IDLE < scurr.pri) →
          (cpu ∈ r.idlers ↔ r.ret.task.is_idle = true)))
    ∧ (sched_ready e cpu runq scurr tasklet →
        ∃ r, csched_schedule prv idlers e cpu runq scurr now tasklet = some r) := by
  refine ⟨fun r hr => ?_, csched_schedule_returns prv idlers e cpu runq scurr now tasklet⟩
  obtain ⟨i1, i2⟩ := csched_schedule_idlers prv idlers e cpu runq scurr now tasklet hn r hr
  obtain ⟨t1, t2⟩ := csched_schedule_task prv idlers e cpu runq scurr now tasklet hn r hr
  refine ⟨i1, i2, fun ht => ?_, fun ht w1 w2 w3 => ?_⟩
  · obtain ⟨g1, g2⟩ := t1 ht
    refine ⟨g1, g2, fun hc => ?_⟩
    have := i1.1 hc
    rw [g2] at this
    simp at this
  · rw [i1]
    exact (t2 ht w1 w2 w3).symm

/-- Witness for the amended C24: on the example machine, with a domain vCPU
current that has run for 160 microseconds, the idle vCPU queued and no tasklet
work, the call does not take the shortcut and returns; pCPU 0 is in
prv->idlers afterwards if and only if the vCPU dispatched has the band IDLE,
and if and only if it is an idle vCPU; pCPU 1 stays in the mask. -/
theorem csched_schedule_idlers_amended_witness :
    ¬ sched_ratelimit sched_demo_prv sched_demo sched_guest 200000 false
    ∧ ∃ r, csched_schedule sched_demo_prv {1} sched_demo 0 [sched_idle0] sched_guest
          200000 false = some r
        ∧ (0 ∈ r.idlers ↔ r.ret.task.pri = CSCHED_PRI_IDLE)
        ∧ (0 ∈ r.idlers ↔ r.ret.task.is_idle = true)
        ∧ 1 ∈ r.idlers := by
  refine ⟨by decide, ?_⟩
  obtain ⟨r, hr⟩ := (csched_schedule_idlers_amended sched_demo_prv {1} sched_demo 0
    [sched_idle0] sched_guest 200000 false (by decide)).2 (sched_demo_ready false)
  obtain ⟨h1, h2, _, h4⟩ := (csched_schedule_idlers_amended sched_demo_prv {1} sched_demo 0
    [sched_idle0] sched_guest 200000 false (by decide)).1 r hr
  exact ⟨r, hr, h1, h4 rfl (sched_demo_ready false).1 (sched_demo_ready false).2.1
    (sched_demo_ready false).2.2.1, (h2 1 (by decide)).2 (by decide)⟩

/-! ## The re-sort as a stable partition -/

/-- The two groups the re-sort forms hold the elements of the queue, each
once. -/
theorem runq_partition_perm (q : List csched_vcpu) :
    ((q.filter fun x => decide (CSCHED_PRI_TS_UNDER ≤ x.pri))
      ++ (q.filter fun x => decide (x.pri < CSCHED_PRI_TS_UNDER))).Perm q := by
  have e : (q.filter fun x => decide (x.pri < CSCHED_PRI_TS_UNDER))
      = q.filter (fun x => !decide (CSCHED_PRI_TS_UNDER ≤ x.pri)) := by
    apply List.filter_congr
    intro x _
    simp only [CSCHED_PRI_TS_UNDER]
    by_cases h : (-1 : Int) ≤ x.pri
    · have h2 : ¬ x.pri < -1 := by omega
      simp [h, h2]
    · have h2 : x.pri < -1 := by omega
      simp [h, h2]
  rw [e]
  exact List.filter_append_perm _ q

/-- C31. The re-sort is a stable partition. For a 32-bit global sort epoch:
when it differs from the runq_sort_last of the pCPU, csched_runq_sort leaves
the queue that consists of all elements with band at least UNDER (BOOST or
UNDER) followed by all elements with band below UNDER (OVER, IDLE), each
group in the order it had in the queue (a filter of the queue, hence a
sublist of it); the new queue is a permutation of the old one, so nothing is
added or lost; the epoch is recorded in runq_sort_last, and tick and
idle_bias are untouched. When the epochs are equal the record of the pCPU is
left as it is. -/
theorem csched_runq_sort_stable_partition (prv : csched_private) (spc : csched_pcpu)
    (ht : prv.runq_sort < 4294967296) :
    (prv.runq_sort ≠ spc.runq_sort_last →
      (csched_runq_sort prv spc).runq
          = (spc.runq.filter fun x => decide (CSCHED_PRI_TS_UNDER ≤ x.pri))
            ++ (spc.runq.filter fun x => decide (x.pri < CSCHED_PRI_TS_UNDER))
      ∧ (spc.runq.filter fun x => decide (CSCHED_PRI_TS_UNDER ≤ x.pri)).Sublist spc.runq
      ∧ (spc.runq.filter fun x => decide (x.pri < CSCHED_PRI_TS_UNDER)).Sublist spc.runq
      ∧ (csched_runq_sort prv spc).runq.Perm spc.runq
      ∧ (csched_runq_sort prv spc).runq_sort_last = prv.runq_sort
      ∧ (csched_runq_sort prv spc).tick = spc.tick
      ∧ (csched_runq_sort prv spc).idle_bias = spc.idle_bias)
    ∧ (prv.runq_sort = spc.runq_sort_last → csched_runq_sort prv spc = spc) := by
  have e : toU32 (toInt32 (prv.runq_sort : Int)) = prv.runq_sort := by
    unfold toU32 toInt32
    omega
  refine ⟨fun he => ?_, fun he => ?_⟩
  · have hq := runq_sort_runq prv spc ht he
    refine ⟨hq, List.filter_sublist _, List.filter_sublist _, ?_, ?_, ?_, ?_⟩
    · rw [hq]
      exact runq_partition_perm spc.runq
    · unfold csched_runq_sort
      rw [e, if_neg he]
    · unfold csched_runq_sort
      rw [e, if_neg he]
    · unfold csched_runq_sort
      rw [e, if_neg he]
  · unfold csched_runq_sort
    rw [e, if_pos he]

/-- Witness for C31: the queue [OVER c, UNDER a, IDLE, BOOST d, UNDER b] at
epoch 1, last sorted at epoch 0, becomes [UNDER a, BOOST d, UNDER b, OVER c,
IDLE]. -/
theorem csched_runq_sort_stable_partition_witness :
    (csched_runq_sort { runq_sort := 1 }
        { runq := [runq_over_c, runq_under_a, runq_idle, runq_boost_d, runq_under_b] }).runq
      = [runq_under_a, runq_boost_d, runq_under_b, runq_over_c, runq_idle]
    ∧ (csched_runq_sort { runq_sort := 1 }
        { runq := [runq_over_c, runq_under_a, runq_idle, runq_boost_d, runq_under_b] }
        ).runq_sort_last = 1 := by
  have h := (csched_runq_sort_stable_partition { runq_sort := 1 }
    { runq := [runq_over_c, runq_under_a, runq_idle, runq_boost_d, runq_under_b] }
    (by decide)).1 (by decide)
  refine ⟨?_, h.2.2.2.2.1⟩
  rw [h.1]
  decide

/-! ## Burning credits: the remainder below one credit -/

/-- The record burn_credits leaves for a positive delta whose credits fit
32 bits. -/
theorem burn_credits_eq (svc : csched_vcpu) (now : Int) (h0 : 0 < burn_delta svc now)
    (hfit : spec_burn_credits (burn_delta svc now) < 4294967296) :
    burn_credits svc now
      = { svc with
          credit := toInt32 (svc.credit - spec_burn_credits (burn_delta svc now))
          start_time :=
            toInt64 (svc.start_time + spec_burn_credits (burn_delta svc now) * 1000) } := by
  have ea := burn_amount_eq_spec _ h0 hfit
  have hlt : burn_amount (burn_delta svc now) < 4294967296 := by
    have : (burn_amount (burn_delta svc now) : Int) < 4294967296 := by
      rw [ea]
      exact hfit
    omega
  have eb := burn_advance_eq _ hlt
  have hc : toInt32 (svc.credit - toInt32 (burn_amount (burn_delta svc now)))
      = toInt32 (svc.credit - spec_burn_credits (burn_delta svc now)) := by
    rw [ea]
    unfold toInt32
    omega
  unfold burn_credits
  rw [if_neg (by omega), hc, eb, ea]

/-- For a delta that is not positive burn_credits returns at once. -/
theorem burn_credits_noop (svc : csched_vcpu) (now : Int) (h : burn_delta svc now ≤ 0) :
    burn_credits svc now = svc := by
  unfold burn_credits
  rw [if_pos h]

/-- C32. The remainder below one credit is preserved. For times t1 <= t2
whose distance from start_time is in the range of the credit computation (the
difference t1 - start_time is an s_time_t, and the credits of t2 - start_time
fit 32 bits), burn_credits at t1 followed by burn_credits at t2 leaves the
record that a single burn_credits at t2 leaves: the same credit, the same
start_time, and every other field. After a burn with positive delta the new
start_time is within 500 ns of now: the delta the next burn would compute is
in [-500, 500), and so is now - start_time itself when now + 500 is an
s_time_t. -/
theorem burn_credits_remainder (svc : csched_vcpu) (t1 t2 : Int) (h12 : t1 ≤ t2)
    (hlo : -9223372036854775808 ≤ t1 - svc.start_time)
    (hfit : spec_burn_credits (t2 - svc.start_time) < 4294967296) :
    burn_credits (burn_credits svc t1) t2 = burn_credits svc t2
    ∧ (0 < t2 - svc.start_time →
        -500 ≤ burn_delta (burn_credits svc t2) t2
        ∧ burn_delta (burn_credits svc t2) t2 < 500
        ∧ (-9223372036854775808 ≤ svc.start_time → t2 + 500 < 9223372036854775808 →
            -500 ≤ t2 - (burn_credits svc t2).start_time
            ∧ t2 - (burn_credits svc t2).start_time < 500)) := by
  have hfit2 : t2 - svc.start_time < 4294967296 * 1000 := by
    unfold spec_burn_credits at hfit
    omega
  have hd1 : burn_delta svc t1 = t1 - svc.start_time := by
    unfold burn_delta toInt64
    omega
  have hd2 : burn_delta svc t2 = t2 - svc.start_time := by
    unfold burn_delta toInt64
    omega
  have hfit1 : spec_burn_credits (t1 - svc.start_time) < 4294967296 := by
    unfold spec_burn_credits at hfit ⊢
    omega
  refine ⟨?_, ?_⟩
  · by_cases h1 : t1 - svc.start_time ≤ 0
    · rw [burn_credits_noop svc t1 (by rw [hd1]; exact h1)]
    · have e1 := burn_credits_eq svc t1 (by rw [hd1]; omega) (by rw [hd1]; exact hfit1)
      have e2 := burn_credits_eq svc t2 (by rw [hd2]; omega) (by rw [hd2]; exact hfit)
      rw [hd1] at e1
      rw [hd2] at e2
      have hd3 : burn_delta (burn_credits svc t1) t2
          = t2 - svc.start_time - spec_burn_credits (t1 - svc.start_time) * 1000 := by
        rw [e1]
        unfold burn_delta toInt64 spec_burn_credits
        simp only []
        omega
      by_cases h2 : t2 - svc.start_time - spec_burn_credits (t1 - svc.start_time) * 1000 ≤ 0
      · have e3 : burn_credits (burn_credits svc t1) t2 = burn_credits svc t1 :=
          burn_credits_noop _ t2 (by rw [hd3]; exact h2)
        have hc : spec_burn_credits (t2 - svc.start_time)
            = spec_burn_credits (t1 - svc.start_time) := by
          unfold spec_burn_credits at h2 ⊢
          omega
        rw [e3, e1, e2, hc]
      · have hc : spec_burn_credits
            (t2 - svc.start_time - spec_burn_credits (t1 - svc.start_time) * 1000)
            = spec_burn_credits (t2 - svc.start_time)
              - spec_burn_credits (t1 - svc.start_time) := by
          unfold spec_burn_credits
          omega
        have e3 := burn_credits_eq (burn_credits svc t1) t2 (by rw [hd3]; omega)
          (by
            rw [hd3, hc]
            unfold spec_burn_credits at hfit ⊢
            omega)
        rw [hd3, hc] at e3
        rw [e3, e2, e1]
        simp only [csched_vcpu.mk.injEq, true_and, and_true]
        refine ⟨?_, ?_⟩
        · unfold toInt32
          omega
        · unfold toInt64
          omega
  · intro hpos
    have e2 := burn_credits_eq svc t2 (by rw [hd2]; omega) (by rw [hd2]; exact hfit)
    rw [hd2] at e2
    have hs : (burn_credits svc t2).start_time
        = toInt64 (svc.start_time + spec_burn_credits (t2 - svc.start_time) * 1000) := by
      rw [e2]
    refine ⟨?_, ?_, ?_⟩
    · unfold burn_delta
      rw [hs]
      unfold toInt64 spec_burn_credits
      omega
    · unfold burn_delta
      rw [hs]
      unfold toInt64 spec_burn_credits
      omega
    · intro hs0 ht2
      rw [hs]
      unfold toInt64 spec_burn_credits
      omega

/-- Witness for C32: a vCPU with credit 100 that started at 1000 ns, burnt at
1700 ns (one credit, start_time 2000) and again at 2501500 ns, ends with the
credit and the start_time of a single burn at 2501500 ns. -/
theorem burn_credits_remainder_witness :
    burn_credits (burn_credits { credit := 100, start_time := 1000 } 1700) 2501500
      = burn_credits { credit := 100, start_time := 1000 } 2501500
    ∧ -500 ≤ burn_delta (burn_credits { credit := 100, start_time := 1000 } 2501500) 2501500
    ∧ burn_delta (burn_credits { credit := 100, start_time := 1000 } 2501500) 2501500 < 500 :=
  ⟨(burn_credits_remainder { credit := 100, start_time := 1000 } 1700 2501500 (by decide)
      (by decide) (by decide)).1,
    ((burn_credits_remainder { credit := 100, start_time := 1000 } 1700 2501500 (by decide)
      (by decide) (by decide)).2 (by decide)).1,
    ((burn_credits_remainder { credit := 100, start_time := 1000 } 1700 2501500 (by decide)
      (by decide) (by decide)).2 (by decide)).2.1⟩

/-- The burns of the witness, evaluated: one credit at 1700 ns, and 2501
credits in all at 2501500 ns, with start_time 2502000. -/
theorem burn_demo_run :
    ((burn_credits { credit := 100, start_time := 1000 } 1700).credit,
        (burn_credits { credit := 100, start_time := 1000 } 1700).start_time) = (99, 2000)
    ∧ ((burn_credits (burn_credits { credit := 100, start_time := 1000 } 1700) 2501500).credit,
        (burn_credits (burn_credits { credit := 100, start_time := 1000 } 1700)
          2501500).start_time) = (-2401, 2502000) := by
  decide

/-! ## The lazy reorder of the active domains -/

/-- Where one step of the outer loop of csched_acct leaves the record of the
domain: at the head of the list when the domain is clipped and credit_xtra is
set, in place otherwise, and off the list when the inner loop unlinked it. -/
theorem acct_sdom_place (prv : csched_private) (W : Nat) (st st2 : acct_state)
    (d : csched_dom) (h : csched_acct_sdom prv W st d = some st2) :
    ∃ d2, d2.domain_id = d.domain_id
      ∧ ((st2.dropped = st.dropped ∧ (csched_acct_share prv W st d).moved = true
          ∧ st2.head = d2 :: st.head ∧ st2.kept = st.kept)
        ∨ (st2.dropped = st.dropped ∧ (csched_acct_share prv W st d).moved = false
          ∧ st2.head = st.head ∧ st2.kept = st.kept ++ [d2])
        ∨ (st2.dropped = d2 :: st.dropped ∧ st2.head = st.head ∧ st2.kept = st.kept)) := by
  unfold csched_acct_sdom at h
  split_ifs at h with h1 h2 h3 h4
  simp only [] at h
  cases hr : csched_acct_vcpus prv.credits_per_tslice d.cap
      (csched_acct_share prv W st d).credit_cap (csched_acct_share prv W st d).credit_fair
      d.domain_id d.weight d.active_vcpu
      { prv_weight := st.prv_weight, active_vcpu_count := d.active_vcpu_count,
        on_active_sdom := true, credit_balance := st.credit_balance, kept := [],
        stopped := [] } with
  | none =>
    rw [hr] at h
    simp at h
  | some r =>
    rw [hr] at h
    simp only [Option.some.injEq] at h
    subst h
    refine ⟨{ d with
        active_vcpu := r.kept
        inactive_vcpu := r.stopped ++ d.inactive_vcpu
        active_vcpu_count := r.active_vcpu_count }, rfl, ?_⟩
    cases ho : r.on_active_sdom
    · right
      right
      simp
    · cases hmv : (csched_acct_share prv W st d).moved
      · right
        left
        simp
      · left
        simp

/-- The outer loop of csched_acct adds the domains it moves in front of the
head part of the list and the domains it leaves in place behind the rest;
every record it adds is that of a domain it visits. -/
theorem acct_sdoms_grow (prv : csched_private) (W : Nat) (ds : List csched_dom) :
    ∀ (st st2 : acct_state), csched_acct_sdoms prv W ds st = some st2 →
      ∃ M K, st2.head = M ++ st.head ∧ st2.kept = st.kept ++ K
        ∧ ∀ x ∈ M ++ K, ∃ y ∈ ds, x.domain_id = y.domain_id := by
  induction ds with
  | nil =>
    intro st st2 h
    simp only [csched_acct_sdoms, Option.some.injEq] at h
    subst h
    exact ⟨[], [], rfl, (List.append_nil _).symm, fun x hx => absurd hx (List.not_mem_nil x)⟩
  | cons d ds ih =>
    intro st st2 h
    rw [csched_acct_sdoms] at h
    cases h1 : csched_acct_sdom prv W st d with
    | none => rw [h1] at h; simp at h
    | some st1 =>
      rw [h1] at h
      obtain ⟨M, K, e1, e2, e3⟩ := ih st1 st2 h
      have hrest : ∀ x ∈ M ++ K, ∃ y ∈ d :: ds, x.domain_id = y.domain_id := by
        intro x hx
        obtain ⟨y, hy, hxy⟩ := e3 x hx
        exact ⟨y, List.mem_cons_of_mem d hy, hxy⟩
      obtain ⟨d2, hid, hp⟩ := acct_sdom_place prv W st st1 d h1
      rcases hp with ⟨_, _, p1, p2⟩ | ⟨_, _, p1, p2⟩ | ⟨_, p1, p2⟩
      · refine ⟨M ++ [d2], K, ?_, ?_, ?_⟩
        · rw [e1, p1]
          simp
        · rw [e2, p2]
        · intro x hx
          simp only [List.mem_append, List.mem_singleton] at hx
          rcases hx with (hx | hx) | hx
          · exact hrest x (List.mem_append_left _ hx)
          · exact ⟨d, List.mem_cons_self d ds, by rw [hx, hid]⟩
          · exact hrest x (List.mem_append_right _ hx)
      · refine ⟨M, d2 :: K, ?_, ?_, ?_⟩
        · rw [e1, p1]
        · rw [e2, p2]
          simp
        · intro x hx
          simp only [List.mem_append, List.mem_cons] at hx
          rcases hx with hx | hx | hx
          · exact hrest x (List.mem_append_left _ hx)
          · exact ⟨d, List.mem_cons_self d ds, by rw [hx, hid]⟩
          · exact hrest x (List.mem_append_right _ hx)
      · refine ⟨M, K, ?_, ?_, hrest⟩
        · rw [e1, p1]
        · rw [e2, p2]

/-- The local credit_xtra is set exactly when it was set before or the loop
has met a domain whose credit_fair is below its credit_peak. -/
theorem acct_sdoms_xtra (prv : csched_private) (W : Nat) (ds : List csched_dom) :
    ∀ (st st2 : acct_state), csched_acct_sdoms prv W ds st = some st2 →
      (st2.credit_xtra = true ↔
        st.credit_xtra = true
        ∨ ∃ p1 x p2 s1, ds = p1 ++ x :: p2 ∧ csched_acct_sdoms prv W p1 st = some s1
            ∧ acct_fair_raw W s1.credit_total x < acct_peak_capped prv W x) := by
  induction ds with
  | nil =>
    intro st st2 h
    simp only [csched_acct_sdoms, Option.some.injEq] at h
    subst h
    constructor
    · exact fun hx => Or.inl hx
    · rintro (hx | ⟨p1, x, p2, s1, hsp, _, _⟩)
      · exact hx
      · exact absurd hsp (by simp)
  | cons d ds ih =>
    intro st st2 h
    rw [csched_acct_sdoms] at h
    cases h1 : csched_acct_sdom prv W st d with
    | none => rw [h1] at h; simp at h
    | some st1 =>
      rw [h1] at h
      have hx1 : st1.credit_xtra = (csched_acct_share prv W st d).credit_xtra :=
        (acct_sdom_step prv W st st1 d h1).2.2.1
      have hsh : (csched_acct_share prv W st d).credit_xtra
          = if acct_fair_raw W st.credit_total d < acct_peak_capped prv W d then true
            else st.credit_xtra := rfl
      rw [ih st1 st2 h, hx1, hsh]
      constructor
      · rintro (hx | ⟨p1, x, p2, s1, hsp, hrun, hlt⟩)
        · by_cases hd : acct_fair_raw W st.credit_total d < acct_peak_capped prv W d
          · exact Or.inr ⟨[], d, ds, st, rfl, rfl, hd⟩
          · rw [if_neg hd] at hx
            exact Or.inl hx
        · refine Or.inr ⟨d :: p1, x, p2, s1, by rw [hsp]; rfl, ?_, hlt⟩
          rw [csched_acct_sdoms, h1]
          exact hrun
      · rintro (hx | ⟨p1, x, p2, s1, hsp, hrun, hlt⟩)
        · left
          split_ifs
          · rfl
          · exact hx
        · cases p1 with
          | nil =>
            simp only [List.nil_append, List.cons.injEq] at hsp
            simp only [csched_acct_sdoms, Option.some.injEq] at hrun
            obtain ⟨hdx, _⟩ := hsp
            subst hrun
            subst hdx
            left
            rw [if_pos hlt]
          | cons e p1 =>
            simp only [List.cons_append, List.cons.injEq] at hsp
            obtain ⟨hde, hrest⟩ := hsp
            subst hde
            rw [csched_acct_sdoms, h1] at hrun
            exact Or.inr ⟨p1, x, p2, s1, hrest, hrun, hlt⟩

/-- C33, as stated, fails on the code. In the state acct_even both domains
are clipped (the credit_fair of each, 100, is not below its credit_peak of
100), and the pass leaves them in the order it found them, domain 1 before
domain 2: domain 2, visited last, is not moved to the head of the list, as no
domain of the pass had its credit_fair below its credit_peak. -/
theorem acct_reorder_counterexample :
    (csched_acct acct_even).map (fun p => p.active_sdom.map fun d => d.domain_id)
      = some [1, 2]
    ∧ (∀ d ∈ acct_even.active_sdom,
        ¬ acct_fair_raw acct_even.weight acct_even.credit d
          < acct_peak_capped acct_even acct_even.weight d)
    ∧ (csched_acct_sdoms acct_even acct_even.weight acct_even.active_sdom
        (csched_acct_init acct_even)).map (fun st => (st.credit_total, st.credit_xtra))
      = some (200, false) := by
  decide

/-- C33, amended. In a csched_acct pass that runs to its end (W != 0, a
state that satisfies the active-membership invariant and whose fields fit
their types), for every active domain d, with pre the domains visited before
it and post those visited after it: credit_xtra is set when d is reached
exactly if a domain of pre had its credit_fair below its credit_peak at its
turn. If d is clipped (its credit_fair is not below its credit_peak) and
credit_xtra is set, d is moved to the head of prv->active_sdom: in the final
list its record stands ahead of the records of all domains of pre, and only
domains of post that were moved in their turn are ahead of it. Otherwise (d
is not clipped, or no domain before it had credit to spare) d is left in
place, behind the records of all domains of pre. -/
theorem acct_reorder_amended (prv prv2 : csched_private) (pre : List csched_dom)
    (d : csched_dom) (post : List csched_dom)
    (h : csched_acct prv = some prv2) (hW : prv.weight ≠ 0)
    (hsplit : prv.active_sdom = pre ++ d :: post)
    (hm : active_membership prv) (ht : prv.typed) :
    ∃ sa d2 M K,
      csched_acct_sdoms prv prv.weight pre (csched_acct_init prv) = some sa
      ∧ d2.domain_id = d.domain_id
      ∧ (∀ x ∈ sa.head ++ sa.kept, ∃ y ∈ pre, x.domain_id = y.domain_id)
      ∧ (∀ x ∈ M ++ K, ∃ y ∈ post, x.domain_id = y.domain_id)
      ∧ (sa.credit_xtra = true ↔
          ∃ p1 x p2 s1, pre = p1 ++ x :: p2
            ∧ csched_acct_sdoms prv prv.weight p1 (csched_acct_init prv) = some s1
            ∧ acct_fair_raw prv.weight s1.credit_total x < acct_peak_capped prv prv.weight x)
      ∧ (¬ acct_fair_raw prv.weight sa.credit_total d < acct_peak_capped prv prv.weight d →
          sa.credit_xtra = true →
          prv2.active_sdom = M ++ d2 :: (sa.head ++ sa.kept) ++ K)
      ∧ (acct_fair_raw prv.weight sa.credit_total d < acct_peak_capped prv prv.weight d
            ∨ sa.credit_xtra = false →
          prv2.active_sdom = M ++ (sa.head ++ sa.kept) ++ d2 :: K) := by
  have hold : ∀ x, x ∈ prv.active_sdom ++ prv.inactive_sdom → x.typed := ht.2
  unfold csched_acct at h
  rw [if_neg hW] at h
  cases hl : csched_acct_sdoms prv prv.weight prv.active_sdom (csched_acct_init prv) with
  | none => rw [hl] at h; simp at h
  | some stf =>
    rw [hl] at h
    simp only [Option.some.injEq] at h
    rw [hsplit] at hl
    obtain ⟨sa, sb, e1, e2, e3⟩ := acct_sdoms_split prv prv.weight pre d post _ _ hl
    have hmem : ∀ x ∈ pre, x ∈ prv.active_sdom := by
      intro x hx
      rw [hsplit]
      exact List.mem_append_left _ hx
    have hdmem : d ∈ prv.active_sdom := by
      rw [hsplit]
      simp
    obtain ⟨c1, _, c3, _, _⟩ := acct_sdoms_counts prv prv.weight pre _ _ e1
      (fun x hx => ⟨hm.1 x (hmem x hx), hold x (List.mem_append_left _ (hmem x hx))⟩) ht.1
      (fun e he => by simp [csched_acct_init] at he)
    obtain ⟨_, _, _, _, _, _, _, _, hdrop, _⟩ := acct_sdom_counts prv prv.weight sa sb d e2
      (hm.1 d hdmem) (hold d (List.mem_append_left _ hdmem)).2.2 c3
    obtain ⟨d2, hid, hp⟩ := acct_sdom_place prv prv.weight sa sb d e2
    obtain ⟨Mp, Kp, g1, g2, g3⟩ := acct_sdoms_grow prv prv.weight pre _ _ e1
    obtain ⟨M, K, f1, f2, f3⟩ := acct_sdoms_grow prv prv.weight post _ _ e3
    have hx := acct_sdoms_xtra prv prv.weight pre _ _ e1
    have hinit : (csched_acct_init prv).credit_xtra = false := rfl
    have hmoved : (csched_acct_share prv prv.weight sa d).moved
        = (decide (¬ acct_fair_raw prv.weight sa.credit_total d
            < acct_peak_capped prv prv.weight d) && sa.credit_xtra) := rfl
    have hfin : prv2.active_sdom = stf.head ++ stf.kept := by
      rw [← h]
    refine ⟨sa, d2, M, K, e1, hid, ?_, f3, ?_, ?_, ?_⟩
    · intro x hx2
      apply g3
      rw [g1, g2] at hx2
      simpa [csched_acct_init] using hx2
    · rw [hx, hinit]
      simp
    · intro hcl hxt
      rcases hp with ⟨_, _, p1, p2⟩ | ⟨_, pm, _, _⟩ | ⟨pd, _, _⟩
      · rw [hfin, f1, f2, p1, p2]
        simp
      · rw [hmoved, hxt] at pm
        simp [hcl] at pm
      · rw [hdrop] at pd
        exact absurd pd (by simp)
    · intro hcase
      rcases hp with ⟨_, pm, _, _⟩ | ⟨_, _, p1, p2⟩ | ⟨pd, _, _⟩
      · rw [hmoved] at pm
        rcases hcase with hc | hc
        · simp [hc] at pm
        · rw [hc] at pm
          simp at pm
      · rw [hfin, f1, f2, p1, p2]
        simp
      · rw [hdrop] at pd
        exact absurd pd (by simp)

/-- Witness for the amended C33: in the state acct_uneven domain 1, visited
first, has its credit_fair below its credit_peak, and domain 2, clipped and
visited after it, is moved to the head: the pass leaves the order 2, 1. -/
theorem acct_reorder_amended_witness :
    (∃ sa d2 M K,
      csched_acct_sdoms acct_uneven acct_uneven.weight [acct_uneven_dom1]
          (csched_acct_init acct_uneven) = some sa
      ∧ d2.domain_id = acct_uneven_dom2.domain_id
      ∧ (¬ acct_fair_raw acct_uneven.weight sa.credit_total acct_uneven_dom2
            < acct_peak_capped acct_uneven acct_uneven.weight acct_uneven_dom2 →
          sa.credit_xtra = true →
          ((csched_acct acct_uneven).getD acct_uneven).active_sdom
            = M ++ d2 :: (sa.head ++ sa.kept) ++ K))
    ∧ (csched_acct acct_uneven).map (fun p => p.active_sdom.map fun d => d.domain_id)
        = some [2, 1] := by
  refine ⟨?_, by decide⟩
  obtain ⟨sa, d2, M, K, h1, h2, _, _, _, h6, _⟩ :=
    acct_reorder_amended acct_uneven ((csched_acct acct_uneven).getD acct_uneven)
      [acct_uneven_dom1] acct_uneven_dom2 [] (by decide) (by decide) rfl (by decide)
      (by decide)
  exact ⟨sa, d2, M, K, h1, h2, h6⟩

/-! ## Credit above the upper bound -/

/-- The inner-loop body of csched_acct on a vCPU whose incremented credit is
not negative: the branch of the privileged domain is taken when
credit/100 > credits_per_tslice/100 in domain 0 and leaves the credit as it
is; in any other domain the same test halves the credit; otherwise the credit
is the incremented one. -/
theorem acct_vcpu_excess_rule (cpt cap ccap cf domid : Nat) (v : csched_vcpu)
    (hc : 0 ≤ acct_credit_incr v cf) :
    ((csched_acct_vcpu cpt cap ccap cf domid v).excess = true
        ↔ acct_over cpt (acct_credit_incr v cf) ∧ domid = 0)
    ∧ (csched_acct_vcpu cpt cap ccap cf domid v).svc.credit
        = (if acct_over cpt (acct_credit_incr v cf) ∧ domid ≠ 0
            then acct_credit_incr v cf / 2 else acct_credit_incr v cf) := by
  have hr := toInt32_range (v.credit + (cf : Int))
  unfold acct_over
  unfold csched_acct_vcpu
  unfold acct_credit_incr at *
  rw [if_neg (by omega)]
  unfold acct_vcpu_under
  simp only []
  have e2 : Int.tdiv (toInt32 (v.credit + (cf : Int))) 2
      = toInt32 (v.credit + (cf : Int)) / 2 := Int.tdiv_eq_ediv hc (by omega)
  have e100 : Int.tdiv (toInt32 (v.credit + (cf : Int))) 100
      = toInt32 (v.credit + (cf : Int)) / 100 := Int.tdiv_eq_ediv hc (by omega)
  have hu := toU32_of_nonneg (toInt32 (v.credit + (cf : Int)) / 100) (by omega) (by omega)
  rw [e100, e2]
  have hcmp : toU32 (toInt32 (v.credit + (cf : Int)) / 100) > cpt / 100
      ↔ toInt32 (v.credit + (cf : Int)) / 100 > (cpt : Int) / 100 := by
    omega
  simp only [hcmp]
  by_cases ho : toInt32 (v.credit + (cf : Int)) / 100 > (cpt : Int) / 100
  · by_cases hd : domid = 0
    · have hA : toInt32 (v.credit + (cf : Int)) / 100 > (cpt : Int) / 100 ∧ domid = 0 :=
        ⟨ho, hd⟩
      have hB : ¬ (toInt32 (v.credit + (cf : Int)) / 100 > (cpt : Int) / 100 ∧ domid ≠ 0) :=
        fun h => h.2 hd
      rw [if_pos hA, if_neg hB]
      exact ⟨⟨fun _ => hA, fun _ => rfl⟩, by split_ifs <;> rfl⟩
    · have hA : ¬ (toInt32 (v.credit + (cf : Int)) / 100 > (cpt : Int) / 100 ∧ domid = 0) :=
        fun h => hd h.2
      have hB : toInt32 (v.credit + (cf : Int)) / 100 > (cpt : Int) / 100 ∧ domid ≠ 0 :=
        ⟨ho, hd⟩
      rw [if_neg hA, if_pos hB, if_pos hB]
      exact ⟨⟨fun h => absurd h (by simp), fun h => absurd h.2 hd⟩, by split_ifs <;> rfl⟩
  · have hA : ¬ (toInt32 (v.credit + (cf : Int)) / 100 > (cpt : Int) / 100 ∧ domid = 0) :=
      fun h => ho h.1
    have hB : ¬ (toInt32 (v.credit + (cf : Int)) / 100 > (cpt : Int) / 100 ∧ domid ≠ 0) :=
      fun h => ho h.1
    rw [if_neg hA, if_neg hB, if_neg hB]
    exact ⟨⟨fun h => absurd h (by simp), fun h => absurd h.1 ho⟩, by split_ifs <;> rfl⟩

/-- The inner loop of csched_acct appends the vCPUs it keeps to kept, in list
order, and puts those it stops in front of stopped; each visited vCPU goes to
one of the two. -/
theorem acct_vcpus_grow (cpt cap ccap cf domid w : Nat) (vs : List csched_vcpu) :
    ∀ (st r : acct_vcpu_state), csched_acct_vcpus cpt cap ccap cf domid w vs st = some r →
      ∃ K S, r.kept = st.kept ++ K ∧ r.stopped = S ++ st.stopped
        ∧ K.length + S.length = vs.length := by
  induction vs with
  | nil =>
    intro st r h
    simp only [csched_acct_vcpus, Option.some.injEq] at h
    subst h
    exact ⟨[], [], (List.append_nil _).symm, rfl, rfl⟩
  | cons a vs ih =>
    intro st r h
    rw [csched_acct_vcpus] at h
    by_cases h1 : (csched_acct_vcpu cpt cap ccap cf domid a).excess = true
        ∧ st.active_vcpu_count ≥ 2
    · rw [if_pos h1] at h
      by_cases h2 : st.prv_weight < w
      · rw [if_pos h2] at h
        cases h
      · rw [if_neg h2] at h
        obtain ⟨K, S, e1, e2, e3⟩ := ih _ r h
        refine ⟨K, S ++ [(csched_acct_vcpu cpt cap ccap cf domid a).svc], e1, ?_, ?_⟩
        · rw [e2]
          simp
        · simp only [List.length_append, List.length_cons, List.length_nil]
          omega
    · rw [if_neg h1] at h
      obtain ⟨K, S, e1, e2, e3⟩ := ih _ r h
      refine ⟨(csched_acct_vcpu cpt cap ccap cf domid a).svc :: K, S, ?_, e2, ?_⟩
      · rw [e1]
        simp
      · simp only [List.length_cons]
        omega

/-- The inner loop of csched_acct from two states that differ at most in the
flag on_active_sdom ends in two states that differ at most there. -/
theorem acct_vcpus_flag (cpt cap ccap cf domid w : Nat) (vs : List csched_vcpu) :
    ∀ (st st2 r : acct_vcpu_state),
      csched_acct_vcpus cpt cap ccap cf domid w vs st = some r →
      st2.prv_weight = st.prv_weight → st2.active_vcpu_count = st.active_vcpu_count →
      st2.credit_balance = st.credit_balance → st2.kept = st.kept →
      st2.stopped = st.stopped →
      ∃ r2, csched_acct_vcpus cpt cap ccap cf domid w vs st2 = some r2
        ∧ r2.prv_weight = r.prv_weight ∧ r2.active_vcpu_count = r.active_vcpu_count
        ∧ r2.credit_balance = r.credit_balance ∧ r2.kept = r.kept
        ∧ r2.stopped = r.stopped := by
  induction vs with
  | nil =>
    intro st st2 r h a1 a2 a3 a4 a5
    simp only [csched_acct_vcpus, Option.some.injEq] at h
    subst h
    exact ⟨st2, rfl, a1, a2, a3, a4, a5⟩
  | cons a vs ih =>
    intro st st2 r h a1 a2 a3 a4 a5
    rw [csched_acct_vcpus] at h
    rw [csched_acct_vcpus, a1, a2, a3, a4, a5]
    by_cases h1 : (csched_acct_vcpu cpt cap ccap cf domid a).excess = true
        ∧ st.active_vcpu_count ≥ 2
    · rw [if_pos h1] at h ⊢
      by_cases h2 : st.prv_weight < w
      · rw [if_pos h2] at h
        cases h
      · rw [if_neg h2] at h ⊢
        exact ih _ _ r h rfl rfl rfl rfl rfl
    · rw [if_neg h1] at h ⊢
      exact ih _ _ r h rfl rfl rfl rfl rfl

/-- The inner loop over a list splits at any vCPU of the list: the state in
which it reaches the vCPU is the one the loop over the vCPUs before it
leaves, up to the flag on_active_sdom. -/
theorem acct_vcpus_split (cpt cap ccap cf domid w : Nat) (p : List csched_vcpu)
    (v : csched_vcpu) (q : List csched_vcpu) :
    ∀ (st r : acct_vcpu_state),
      csched_acct_vcpus cpt cap ccap cf domid w (p ++ v :: q) st = some r →
      ∃ s1 s2, csched_acct_vcpus cpt cap ccap cf domid w p st = some s1
        ∧ csched_acct_vcpus cpt cap ccap cf domid w (v :: q) s2 = some r
        ∧ s2.active_vcpu_count = s1.active_vcpu_count ∧ s2.kept = s1.kept
        ∧ s2.stopped = s1.stopped := by
  induction p with
  | nil =>
    intro st r h
    exact ⟨st, st, rfl, h, rfl, rfl, rfl⟩
  | cons a p ih =>
    intro st r h
    simp only [List.cons_append] at h
    rw [csched_acct_vcpus] at h
    rw [csched_acct_vcpus]
    by_cases h1 : (csched_acct_vcpu cpt cap ccap cf domid a).excess = true
        ∧ st.active_vcpu_count ≥ 2
    · rw [if_pos h1] at h ⊢
      by_cases h2 : st.prv_weight < w
      · rw [if_pos h2] at h
        cases h
      · rw [if_neg h2] at h ⊢
        obtain ⟨s1, s2, e1, e2, e3, e4, e5⟩ := ih _ r h
        obtain ⟨t1, f1, _, f3, _, f5, f6⟩ := acct_vcpus_flag cpt cap ccap cf domid w p _
          { prv_weight := U32 (st.prv_weight - w)
            active_vcpu_count := U16 (st.active_vcpu_count + 65535)
            on_active_sdom :=
              if st.kept.isEmpty ∧ p.isEmpty then false else st.on_active_sdom
            credit_balance :=
              toInt32 (st.credit_balance + (csched_acct_vcpu cpt cap ccap cf domid a).credit)
            kept := st.kept
            stopped := (csched_acct_vcpu cpt cap ccap cf domid a).svc :: st.stopped }
          s1 e1 rfl rfl rfl rfl rfl
        exact ⟨t1, s2, f1, e2, by rw [e3, f3], by rw [e4, f5], by rw [e5, f6]⟩
    · rw [if_neg h1] at h ⊢
      exact ih _ r h

/-- Where the inner loop of csched_acct leaves the record of the vCPU it
visits first: unlinked from the active list when the branch of the privileged
domain is taken while the domain counts two active vCPUs or more, on the list
otherwise. -/
theorem acct_vcpus_head (cpt cap ccap cf domid w : Nat) (v : csched_vcpu)
    (q : List csched_vcpu) (s1 r : acct_vcpu_state)
    (h : csched_acct_vcpus cpt cap ccap cf domid w (v :: q) s1 = some r) :
    ∃ K S, K.length + S.length = q.length
      ∧ ((csched_acct_vcpu cpt cap ccap cf domid v).excess = true
            ∧ 2 ≤ s1.active_vcpu_count →
          r.kept = s1.kept ++ K
          ∧ r.stopped = S ++ (csched_acct_vcpu cpt cap ccap cf domid v).svc :: s1.stopped)
      ∧ (¬ ((csched_acct_vcpu cpt cap ccap cf domid v).excess = true
            ∧ 2 ≤ s1.active_vcpu_count) →
          r.kept = s1.kept ++ (csched_acct_vcpu cpt cap ccap cf domid v).svc :: K
          ∧ r.stopped = S ++ s1.stopped) := by
  rw [csched_acct_vcpus] at h
  by_cases h1 : (csched_acct_vcpu cpt cap ccap cf domid v).excess = true
      ∧ s1.active_vcpu_count ≥ 2
  · rw [if_pos h1] at h
    by_cases h2 : s1.prv_weight < w
    · rw [if_pos h2] at h
      cases h
    · rw [if_neg h2] at h
      obtain ⟨K, S, e1, e2, e3⟩ := acct_vcpus_grow cpt cap ccap cf domid w q _ r h
      exact ⟨K, S, e3, fun _ => ⟨e1, e2⟩, fun hn => absurd h1 hn⟩
  · rw [if_neg h1] at h
    obtain ⟨K, S, e1, e2, e3⟩ := acct_vcpus_grow cpt cap ccap cf domid w q _ r h
    refine ⟨K, S, e3, fun hy => absurd hy h1, fun _ => ⟨?_, e2⟩⟩
    rw [e1]
    simp

/-- The record one step of the outer loop of csched_acct leaves for the
domain: the vCPUs the inner loop kept are its active list, and those it
stopped are in front of its unlinked vCPUs. -/
theorem acct_sdom_record (prv : csched_private) (W : Nat) (st st2 : acct_state)
    (d : csched_dom) (h : csched_acct_sdom prv W st d = some st2) :
    ∃ r d2, csched_acct_vcpus prv.credits_per_tslice d.cap
          (csched_acct_share prv W st d).credit_cap (csched_acct_share prv W st d).credit_fair
          d.domain_id d.weight d.active_vcpu (acct_inner_init st d) = some r
      ∧ d2 ∈ st2.visited ∧ d2.domain_id = d.domain_id
      ∧ d2.active_vcpu = r.kept ∧ d2.inactive_vcpu = r.stopped ++ d.inactive_vcpu := by
  unfold csched_acct_sdom at h
  split_ifs at h with h1 h2 h3 h4
  simp only [] at h
  unfold acct_inner_init
  cases hr : csched_acct_vcpus prv.credits_per_tslice d.cap
      (csched_acct_share prv W st d).credit_cap (csched_acct_share prv W st d).credit_fair
      d.domain_id d.weight d.active_vcpu
      { prv_weight := st.prv_weight, active_vcpu_count := d.active_vcpu_count,
        on_active_sdom := true, credit_balance := st.credit_balance, kept := [],
        stopped := [] } with
  | none =>
    rw [hr] at h
    simp at h
  | some r =>
    rw [hr] at h
    simp only [Option.some.injEq] at h
    subst h
    refine ⟨r, { d with
        active_vcpu := r.kept
        inactive_vcpu := r.stopped ++ d.inactive_vcpu
        active_vcpu_count := r.active_vcpu_count }, rfl, ?_, rfl, rfl, rfl⟩
    simp only [acct_state.visited, List.mem_append]
    split_ifs <;> (try simp only [List.mem_append, List.mem_cons, List.mem_singleton]) <;> tauto

/-- C34, as stated, fails on the code. (a) In the state acct_above a vCPU of
domain 1 goes from 50 to 150 credits, above credits_per_tslice = 100, and the
pass leaves it with 150 credits, not 75: the test is
credit/100 > credits_per_tslice/100, and 1 > 1 fails. (b) In the state
acct_dom0_single the only active vCPU of the privileged domain goes from 150
to 250 credits, the test holds, and the pass leaves it on the active list
with 250 credits, not 125: in the branch of the privileged domain the credit
is not halved. -/
theorem acct_excess_counterexample :
    (acct_credits acct_above = [(1, 0, 50)]
      ∧ (csched_acct acct_above).map acct_credits = some [(1, 0, 150)]
      ∧ (csched_acct acct_above).map
          (fun p => p.active_sdom.map fun d => d.active_vcpu.map fun v => v.vcpu_id)
        = some [[0]])
    ∧ (acct_credits acct_dom0_single = [(0, 0, 150)]
      ∧ (csched_acct acct_dom0_single).map acct_credits = some [(0, 0, 250)]
      ∧ (csched_acct acct_dom0_single).map
          (fun p => p.active_sdom.map fun d => d.active_vcpu.map fun v => v.vcpu_id)
        = some [[0]]
      ∧ acct_over acct_dom0_single.credits_per_tslice 250) := by
  decide

/-- C34, amended. In a csched_acct pass that runs to its end with W != 0,
take an active domain d (pre the domains visited before it), a vCPU v of its
active list (p the vCPUs before it, q those behind it), c the credit of v
after the increment, rec the record the pass leaves for v, and count the
active_vcpu_count of the domain when the inner loop reaches v. The final
state holds a record d2 of the domain whose active list is K1 ++ K2 with rec
between the two or without it, K1 and S1 being the records of p that were
kept and stopped, K2 and S2 those of q. For c >= 0: if
c/100 > credits_per_tslice/100 (integer division), the domain is the
privileged one and count >= 2, rec is unlinked from the active list and keeps
the credit c; if the test holds in the privileged domain with count < 2, rec
stays on the list with the credit c, not halved; if the test holds in any
other domain, rec stays on the list with the credit c/2; if the test fails,
rec stays on the list with the credit c. -/
theorem acct_excess_amended (prv prv2 : csched_private) (pre : List csched_dom)
    (d : csched_dom) (post : List csched_dom) (p : List csched_vcpu) (v : csched_vcpu)
    (q : List csched_vcpu)
    (h : csched_acct prv = some prv2) (hW : prv.weight ≠ 0)
    (hsplit : prv.active_sdom = pre ++ d :: post) (hv : d.active_vcpu = p ++ v :: q) :
    ∃ sa s1 d2 K1 S1 K2 S2,
      csched_acct_sdoms prv prv.weight pre (csched_acct_init prv) = some sa
      ∧ csched_acct_vcpus prv.credits_per_tslice d.cap
          (csched_acct_share prv prv.weight sa d).credit_cap
          (csched_acct_share prv prv.weight sa d).credit_fair d.domain_id d.weight p
          (acct_inner_init sa d) = some s1
      ∧ d2 ∈ prv2.active_sdom ++ prv2.inactive_sdom ∧ d2.domain_id = d.domain_id
      ∧ K1.length + S1.length = p.length ∧ K2.length + S2.length = q.length
      ∧ (0 ≤ acct_credit_incr v (csched_acct_share prv prv.weight sa d).credit_fair →
        (acct_over prv.credits_per_tslice
              (acct_credit_incr v (csched_acct_share prv prv.weight sa d).credit_fair)
            ∧ d.domain_id = 0 ∧ 2 ≤ s1.active_vcpu_count →
          d2.active_vcpu = K1 ++ K2
          ∧ d2.inactive_vcpu
              = S2 ++ (csched_acct_vcpu prv.credits_per_tslice d.cap
                  (csched_acct_share prv prv.weight sa d).credit_cap
                  (csched_acct_share prv prv.weight sa d).credit_fair d.domain_id v).svc
                :: S1 ++ d.inactive_vcpu
          ∧ (csched_acct_vcpu prv.credits_per_tslice d.cap
                (csched_acct_share prv prv.weight sa d).credit_cap
                (csched_acct_share prv prv.weight sa d).credit_fair d.domain_id v).svc.credit
              = acct_credit_incr v (csched_acct_share prv prv.weight sa d).credit_fair)
        ∧ (¬ (acct_over prv.credits_per_tslice
                (acct_credit_incr v (csched_acct_share prv prv.weight sa d).credit_fair)
              ∧ d.domain_id = 0 ∧ 2 ≤ s1.active_vcpu_count) →
          d2.active_vcpu
              = K1 ++ (csched_acct_vcpu prv.credits_per_tslice d.cap
                  (csched_acct_share prv prv.weight sa d).credit_cap
                  (csched_acct_share prv prv.weight sa d).credit_fair d.domain_id v).svc
                :: K2
          ∧ d2.inactive_vcpu = S2 ++ S1 ++ d.inactive_vcpu
          ∧ (csched_acct_vcpu prv.credits_per_tslice d.cap
                (csched_acct_share prv prv.weight sa d).credit_cap
                (csched_acct_share prv prv.weight sa d).credit_fair d.domain_id v).svc.credit
              = (if acct_over prv.credits_per_tslice
                    (acct_credit_incr v (csched_acct_share prv prv.weight sa d).credit_fair)
                  ∧ d.domain_id ≠ 0
                then acct_credit_incr v (csched_acct_share prv prv.weight sa d).credit_fair / 2
                else acct_credit_incr v
                  (csched_acct_share prv prv.weight sa d).credit_fair))) := by
  unfold csched_acct at h
  rw [if_neg hW] at h
  cases hl : csched_acct_sdoms prv prv.weight prv.active_sdom (csched_acct_init prv) with
  | none => rw [hl] at h; simp at h
  | some stf =>
    rw [hl] at h
    simp only [Option.some.injEq] at h
    rw [hsplit] at hl
    obtain ⟨sa, sb, e1, e2, e3⟩ := acct_sdoms_split prv prv.weight pre d post _ _ hl
    obtain ⟨r, d2, hr, hd2, hid, hact, hina⟩ := acct_sdom_record prv prv.weight sa sb d e2
    rw [hv] at hr
    obtain ⟨s1, s2, hs1, hrest, hcount, hkq, hsq⟩ := acct_vcpus_split _ _ _ _ _ _ p v q _ r hr
    obtain ⟨K1, S1, k1, k2, k3⟩ := acct_vcpus_grow _ _ _ _ _ _ p _ s1 hs1
    obtain ⟨K2, S2, hlen, hstop, hkeep⟩ := acct_vcpus_head _ _ _ _ _ _ v q s2 r hrest
    rw [hcount] at hstop hkeep
    have hk1 : s2.kept = K1 := by
      rw [hkq, k1]
      rfl
    have hs1' : s2.stopped = S1 := by
      rw [hsq, k2]
      exact List.append_nil _
    have hfinal : d2 ∈ prv2.active_sdom ++ prv2.inactive_sdom := by
      have hvis := acct_sdoms_visited prv prv.weight post sb stf e3 d2 hd2
      subst h
      simp only [acct_state.visited, List.mem_append] at hvis ⊢
      tauto
    refine ⟨sa, s1, d2, K1, S1, K2, S2, e1, hs1, hfinal, hid, k3, hlen, ?_⟩
    intro hc
    obtain ⟨x1, x2⟩ := acct_vcpu_excess_rule prv.credits_per_tslice d.cap
      (csched_acct_share prv prv.weight sa d).credit_cap
      (csched_acct_share prv prv.weight sa d).credit_fair d.domain_id v hc
    refine ⟨?_, ?_⟩
    · rintro ⟨ho, hd0, hcnt⟩
      obtain ⟨a1, a2⟩ := hstop ⟨x1.2 ⟨ho, hd0⟩, hcnt⟩
      refine ⟨?_, ?_, ?_⟩
      · rw [hact, a1, hk1]
      · simp [hina, a2, hs1']
      · rw [x2, if_neg (fun hh => hh.2 hd0)]
    · intro hn
      obtain ⟨a1, a2⟩ := hkeep (fun hh => hn ⟨(x1.1 hh.1).1, (x1.1 hh.1).2, hh.2⟩)
      refine ⟨?_, ?_, x2⟩
      · rw [hact, a1, hk1]
      · simp [hina, a2, hs1']

/-- Witness for the amended C34: in the state acct_demo the first vCPU of the
privileged domain, which counts two active vCPUs, goes from 200 to 280
credits; it is unlinked from the active list and keeps the 280 credits, while
the other vCPU of the domain stays on the list. -/
theorem acct_excess_amended_witness :
    (∃ (d2 : csched_dom) (K1 S1 K2 S2 : List csched_vcpu),
      d2 ∈ acct_demo_out.active_sdom ++ acct_demo_out.inactive_sdom
      ∧ d2.domain_id = 0
      ∧ K1.length + S1.length = 0 ∧ K2.length + S2.length = 1
      ∧ d2.active_vcpu = K1 ++ K2)
    ∧ acct_demo_out.active_sdom.map
        (fun d => (d.domain_id, d.active_vcpu.map fun v => (v.vcpu_id, v.credit),
          d.inactive_vcpu.map fun v => (v.vcpu_id, v.credit)))
      = [(0, [(1, -20)], [(0, 280)]), (3, [(0, 80), (1, 80), (2, 80)], [])] := by
  refine ⟨?_, by decide⟩
  obtain ⟨sa, s1, d2, K1, S1, K2, S2, h1, h2, h3, h4, h5, h6, h7⟩ :=
    acct_excess_amended acct_demo acct_demo_out [] acct_demo_dom0 [acct_demo_dom3] []
      { vcpu_id := 0, credit := 200 } [acct_demo_vcpu] (by decide) (by decide) rfl rfl
  have hsa : sa = csched_acct_init acct_demo := by
    simp only [csched_acct_sdoms, Option.some.injEq] at h1
    exact h1.symm
  have hs1 : s1 = acct_inner_init sa acct_demo_dom0 := by
    simp only [csched_acct_vcpus, Option.some.injEq] at h2
    exact h2.symm
  subst hs1
  subst hsa
  exact ⟨d2, K1, S1, K2, S2, h3, h4, h5, h6, ((h7 (by decide)).1 (by decide)).1⟩

/-! ## The run queue: where the code places a yielding vCPU -/

/-- A queue that ends with a vCPU of band IDLE holds, for a vCPU of a higher
band, a first element of strictly lower band: the walk of __runq_insert stops
inside the queue. -/
theorem runq_walk_stops (pri : Int) (body : List csched_vcpu) (idle : csched_vcpu)
    (hi : idle.pri < pri) :
    ∃ pre l post, body ++ [idle] = pre ++ l :: post
      ∧ pre.length = runq_insert_walk pri (body ++ [idle])
      ∧ (∀ x ∈ pre, pri ≤ x.pri) ∧ l.pri < pri := by
  obtain ⟨h1, h2, h3⟩ := runq_insert_walk_split pri (body ++ [idle])
  have hsplit : body ++ [idle]
      = (body ++ [idle]).take (runq_insert_walk pri (body ++ [idle]))
        ++ (body ++ [idle]).drop (runq_insert_walk pri (body ++ [idle])) :=
    (List.take_append_drop _ _).symm
  cases hd : (body ++ [idle]).drop (runq_insert_walk pri (body ++ [idle])) with
  | nil =>
    rw [hd, List.append_nil] at hsplit
    have hmem : idle ∈ (body ++ [idle]).take (runq_insert_walk pri (body ++ [idle])) := by
      rw [← hsplit]
      simp
    have := h2 idle hmem
    omega
  | cons l post =>
    rw [hd] at hsplit h3
    refine ⟨_, l, post, hsplit, ?_, h2, h3 l rfl⟩
    rw [List.length_take]
    omega

/-- The YIELD flag is clear in flags & ~CSCHED_FLAG_VCPU_YIELD. -/
theorem clear_yield_clear (flags : Nat) : (flags &&& 65533) &&& CSCHED_FLAG_VCPU_YIELD = 0 := by
  rw [Nat.and_assoc]
  have : (65533 : Nat) &&& CSCHED_FLAG_VCPU_YIELD = 0 := by decide
  rw [this, Nat.and_zero]

/-- C35. Yield placement as coded. For a YIELD-flagged vCPU svc of a band
above IDLE, inserted by __runq_insert into a queue that is non-increasing by
band and ends with the idle vCPU (band IDLE): the queue reads pre ++ l :: post
with l the first queued vCPU of strictly lower band (every vCPU of pre has the
band of svc or a higher one, every vCPU of post a strictly lower one). If the
band of l is above IDLE, svc is linked immediately after l, so that l is the
one vCPU of lower band ahead of it; otherwise svc is linked immediately before
l, the position at which the walk stopped, which is where the insertion of
the same vCPU without the YIELD flag links it. -/
theorem runq_insert_yield_coded (head_pri : Int) (body : List csched_vcpu)
    (idle svc : csched_vcpu)
    (hy : svc.flags &&& CSCHED_FLAG_VCPU_YIELD ≠ 0)
    (hs : runq_sorted (body ++ [idle])) (hi : idle.pri = CSCHED_PRI_IDLE)
    (hb : CSCHED_PRI_IDLE < svc.pri) :
    ∃ pre l post, body ++ [idle] = pre ++ l :: post
      ∧ (∀ x ∈ pre, svc.pri ≤ x.pri) ∧ l.pri < svc.pri ∧ (∀ y ∈ post, y.pri < svc.pri)
      ∧ (CSCHED_PRI_IDLE < l.pri →
          __runq_insert head_pri (body ++ [idle]) svc.processor svc
            = some (pre ++ l :: svc :: post))
      ∧ (l.pri ≤ CSCHED_PRI_IDLE →
          __runq_insert head_pri (body ++ [idle]) svc.processor svc
              = some (pre ++ svc :: l :: post)
          ∧ __runq_insert head_pri (body ++ [idle]) svc.processor
                (svc.set_flags (svc.flags &&& 65533))
              = some (pre ++ svc.set_flags (svc.flags &&& 65533) :: l :: post)) := by
  obtain ⟨pre, l, post, hq, hlen, hpre, hl⟩ :=
    runq_walk_stops svc.pri body idle (by rw [hi]; exact hb)
  have hs2 : runq_sorted (pre ++ l :: post) := by
    rw [← hq]
    exact hs
  have hpost : ∀ y ∈ post, y.pri < svc.pri := by
    unfold runq_sorted at hs2
    rw [List.pairwise_append, List.pairwise_cons] at hs2
    intro y hy
    have := hs2.2.1.1 y hy
    omega
  have hlast : CSCHED_PRI_IDLE < l.pri → post ≠ [] := by
    intro hlp hp
    rw [hp] at hq
    have hq2 : body ++ [idle] = pre ++ [l] := hq
    have := List.append_inj_right' hq2 rfl
    have hil : idle = l := by
      simpa using this
    rw [← hil, hi] at hlp
    omega
  have hat := runq_insert_yield_at head_pri pre l post svc hy hpre hl
  refine ⟨pre, l, post, hq, hpre, hl, hpost, ?_, ?_⟩
  · intro hlp
    rw [hq, hat, if_pos hlp, if_neg (hlast hlp)]
  · intro hlp
    refine ⟨?_, ?_⟩
    · rw [hq, hat, if_neg (by omega)]
    · have hp := runq_insert_plain head_pri (pre ++ l :: post)
        (svc.set_flags (svc.flags &&& 65533)) (clear_yield_clear svc.flags)
      have hw : runq_insert_walk (svc.set_flags (svc.flags &&& 65533)).pri (pre ++ l :: post)
          = pre.length := runq_insert_walk_at _ pre l post hpre hl
      rw [hw, List.take_left, List.drop_left] at hp
      rw [hq]
      exact hp

/-- Witness for C35: the yielding UNDER vCPU reinserted into
[UNDER a, UNDER b, idle] is linked right before the idle vCPU, and into
[UNDER a, OVER c, idle] right behind c. -/
theorem runq_insert_yield_coded_witness :
    (∃ pre l post, [runq_under_a, runq_under_b] ++ [runq_idle] = pre ++ l :: post
      ∧ (∀ x ∈ pre, runq_yielder.pri ≤ x.pri) ∧ l.pri < runq_yielder.pri
      ∧ (∀ y ∈ post, y.pri < runq_yielder.pri)
      ∧ (CSCHED_PRI_IDLE < l.pri →
          __runq_insert 0 ([runq_under_a, runq_under_b] ++ [runq_idle]) runq_yielder.processor
              runq_yielder
            = some (pre ++ l :: runq_yielder :: post))
      ∧ (l.pri ≤ CSCHED_PRI_IDLE →
          __runq_insert 0 ([runq_under_a, runq_under_b] ++ [runq_idle]) runq_yielder.processor
              runq_yielder
              = some (pre ++ runq_yielder :: l :: post)
          ∧ __runq_insert 0 ([runq_under_a, runq_under_b] ++ [runq_idle])
                runq_yielder.processor
                (runq_yielder.set_flags (runq_yielder.flags &&& 65533))
              = some (pre ++ runq_yielder.set_flags (runq_yielder.flags &&& 65533)
                  :: l :: post)))
    ∧ __runq_insert 0 [runq_under_a, runq_under_b, runq_idle] 0 runq_yielder
        = some [runq_under_a, runq_under_b, runq_yielder, runq_idle]
    ∧ __runq_insert 0 [runq_under_a, runq_over_c, runq_idle] 0 runq_yielder
        = some [runq_under_a, runq_over_c, runq_yielder, runq_idle] :=
  ⟨runq_insert_yield_coded 0 [runq_under_a, runq_under_b] runq_idle runq_yielder (by decide)
      (by decide) (by decide) (by decide),
    by decide, by decide⟩

/-! ## The spinlock signal does not reach the slice -/

/-- The windowed miss rate reads the inst_retired and cache_misses fields of
the ring only. -/
theorem ring_equiv_window (f g : event_filter) (h : ring_equiv f g) :
    miss_rate_window f = miss_rate_window g := by
  obtain ⟨⟨a0, b0⟩, ⟨a1, b1⟩, ⟨a2, b2⟩, ⟨a3, b3⟩, ⟨a4, b4⟩⟩ := h
  have hi : inst_mean f = inst_mean g := by
    unfold inst_mean event_filter.get
    simp only [a0, a1, a2, a3, a4]
  have hm : cache_miss_mean f = cache_miss_mean g := by
    unfold cache_miss_mean event_filter.get
    simp only [b0, b1, b2, b3, b4]
  unfold miss_rate_window
  rw [hi, hm]

/-- A store to a slot of the ring (index in 0..4) keeps two rings equal up
to spinlock fields, whatever the spinlock values stored. -/
theorem ring_equiv_set (f g : event_filter) (i : Int) (x y : event_sample)
    (hi : 0 ≤ i ∧ i < 5)
    (h : ring_equiv f g) (hxy : sample_equiv x y) : ring_equiv (f.set i x) (g.set i y) := by
  obtain ⟨h0, h1, h2, h3, h4⟩ := h
  unfold event_filter.set
  split_ifs
  · exact ⟨hxy, h1, h2, h3, h4⟩
  · exact ⟨h0, hxy, h2, h3, h4⟩
  · exact ⟨h0, h1, hxy, h3, h4⟩
  · exact ⟨h0, h1, h2, hxy, h4⟩
  · exact ⟨h0, h1, h2, h3, hxy⟩
  · omega

/-- A store of a sample to a slot of the ring (index in 0..4) keeps two
domain records equal up to the spinlock signal. -/
theorem spin_equiv_store (a b : csched_dom) (i : Int) (sa sb I M : Nat)
    (hi : 0 ≤ i ∧ i < 5) (h : spin_equiv a b) :
    spin_equiv (a.store_sample i sa I M) (b.store_sample i sb I M) := by
  obtain ⟨h1, h2, h3, h4, h5, h6, h7, h8, h9, h10, h11, h12, h13, h14⟩ := h
  exact ⟨h1, h2, h3, h4, h5, h6, h7, h8, h9, h10, h11, h12, h13,
    ring_equiv_set _ _ i _ _ hi h14 ⟨rfl, rfl⟩⟩

theorem spin_equiv_window (a b : csched_dom) (v : Nat) (h : spin_equiv a b) :
    spin_equiv (a.set_event_tracking_window v) (b.set_event_tracking_window v) := by
  obtain ⟨h1, h2, h3, h4, h5, h6, h7, h8, h9, _, h11, h12, h13, h14⟩ := h
  exact ⟨h1, h2, h3, h4, h5, h6, h7, h8, h9, rfl, h11, h12, h13, h14⟩

theorem spin_equiv_stable_count (a b : csched_dom) (v : Nat) (h : spin_equiv a b) :
    spin_equiv (a.set_event_stable_count v) (b.set_event_stable_count v) := by
  obtain ⟨h1, h2, h3, h4, h5, h6, h7, h8, h9, h10, _, h12, h13, h14⟩ := h
  exact ⟨h1, h2, h3, h4, h5, h6, h7, h8, h9, h10, rfl, h12, h13, h14⟩

theorem spin_equiv_phase (a b : csched_dom) (v : Nat) (h : spin_equiv a b) :
    spin_equiv (a.set_phase v) (b.set_phase v) := by
  obtain ⟨h1, h2, h3, h4, h5, h6, h7, h8, h9, h10, h11, _, h13, h14⟩ := h
  exact ⟨h1, h2, h3, h4, h5, h6, h7, h8, h9, h10, h11, rfl, h13, h14⟩

theorem spin_equiv_tick (a b : csched_dom) (h : spin_equiv a b) :
    spin_equiv (submilli_tick_period a) (submilli_tick_period b) := by
  obtain ⟨h1, h2, h3, h4, h5, h6, h7, h8, h9, h10, h11, h12, _, h14⟩ := h
  refine ⟨h1, h2, h3, h4, h5, h6, h7, h8, h9, h10, h11, h12, ?_, h14⟩
  show U16 (a.tslice_us / CSCHED_TICKS_PER_TSLICE) = U16 (b.tslice_us / CSCHED_TICKS_PER_TSLICE)
  rw [h8]

theorem spin_equiv_decrease (a b : csched_dom) (h : spin_equiv a b) :
    spin_equiv (csched_decrease_time_slice a) (csched_decrease_time_slice b) := by
  obtain ⟨h1, h2, h3, h4, h5, h6, h7, h8, h9, h10, h11, h12, h13, h14⟩ := h
  refine ⟨h1, h2, h3, h4, h5, h6, h7, ?_, h9, h10, h11, h12, h13, h14⟩
  rw [decrease_tslice_eq, decrease_tslice_eq, h8]

theorem spin_equiv_increase (a b : csched_dom) (h : spin_equiv a b) :
    spin_equiv (csched_increase_time_slice a) (csched_increase_time_slice b) := by
  obtain ⟨h1, h2, h3, h4, h5, h6, h7, h8, h9, h10, h11, h12, h13, h14⟩ := h
  refine ⟨h1, h2, h3, h4, h5, h6, h7, ?_, h9, h10, h11, h12, h13, h14⟩
  rw [increase_tslice_eq, increase_tslice_eq, h8]

theorem spin_equiv_shift (a b : csched_dom) (sa sb I M : Nat) (h : spin_equiv a b) :
    spin_equiv (csched_event_window_shift a sa I M) (csched_event_window_shift b sb I M) := by
  obtain ⟨h1, h2, h3, h4, h5, h6, h7, h8, h9, h10, h11, h12, h13, _, r1, r2, r3, r4⟩ := h
  exact ⟨h1, h2, h3, h4, h5, h6, h7, h8, h9, h10, h11, h12, h13, r1, r2, r3, r4, rfl, rfl⟩

theorem spin_equiv_clear (a b : csched_dom) (h : spin_equiv a b) :
    spin_equiv (csched_event_window_clear a) (csched_event_window_clear b) := by
  obtain ⟨h1, h2, h3, h4, h5, h6, h7, h8, h9, h10, h11, h12, h13, _⟩ := h
  exact ⟨h1, h2, h3, h4, h5, h6, h7, h8, h9, h10, h11, h12, h13,
    ⟨rfl, rfl⟩, ⟨rfl, rfl⟩, ⟨rfl, rfl⟩, ⟨rfl, rfl⟩, ⟨rfl, rfl⟩⟩

/-- One controller pass on the same sample, from records whose warm-up
counter is at most EVENT_TRACKING_WINDOW, keeps two domain records equal up to
the spinlock signal. -/
theorem spin_equiv_pass (a b : csched_dom) (I M : Nat) (h : spin_equiv a b)
    (hw5 : a.event_tracking_window ≤ EVENT_TRACKING_WINDOW) :
    spin_equiv (csched_submilli_metric_update a I M) (csched_submilli_metric_update b I M) := by
  have hw : a.event_tracking_window = b.event_tracking_window := h.2.2.2.2.2.2.2.2.2.1
  have hc : a.event_stable_count = b.event_stable_count := h.2.2.2.2.2.2.2.2.2.2.1
  have hr : miss_rate_window a.filter = miss_rate_window b.filter :=
    ring_equiv_window _ _ h.2.2.2.2.2.2.2.2.2.2.2.2.2
  have he : pass_err a I M = pass_err b I M := by
    unfold pass_err
    rw [hr]
  unfold csched_submilli_metric_update
  rw [← hw, ← he, ← hr]
  by_cases h1 : a.event_tracking_window > 0
  · rw [if_pos h1, if_pos h1]
    have hs : spin_equiv (submilli_warmup_store a I M) (submilli_warmup_store b I M) := by
      unfold submilli_warmup_store
      rw [← hw]
      simp only [EVENT_TRACKING_WINDOW] at hw5 ⊢
      exact spin_equiv_window _ _ _ (spin_equiv_store _ _ _ _ _ _ _ (by omega) h)
    unfold submilli_warmup
    split_ifs
    · exact spin_equiv_decrease _ _ hs
    · exact hs
  · rw [if_neg h1, if_neg h1]
    by_cases h2 : stable_cond (pass_err a I M) (miss_rate_curr I M) (miss_rate_window a.filter)
    · rw [if_pos h2, if_pos h2]
      unfold submilli_stable submilli_stable_slice
      rw [← hr, ← hc]
      apply spin_equiv_tick
      have hs := spin_equiv_shift _ _ (avg_spinlock a) (avg_spinlock b) I M
        (spin_equiv_stable_count a b (U8 (a.event_stable_count + 1)) h)
      split_ifs
      · exact spin_equiv_increase _ _ (spin_equiv_phase _ _ _ hs)
      · exact spin_equiv_decrease _ _ (spin_equiv_phase _ _ _ hs)
    · rw [if_neg h2, if_neg h2]
      have hs : spin_equiv (submilli_unstable_store a I M) (submilli_unstable_store b I M) := by
        unfold submilli_unstable_store
        exact spin_equiv_window _ _ _ (spin_equiv_store _ _ _ _ _ _ _ (by omega)
          (spin_equiv_clear _ _ (spin_equiv_stable_count _ _ _ h)))
      unfold submilli_unstable
      split_ifs
      · exact spin_equiv_decrease _ _ hs
      · exact hs

/-- The passes of the witness, evaluated: both domains go from the slice 300
to 400, and the ring slots take the spinlock averages 0 and 20000. -/
theorem spin_demo_run :
    (csched_submilli_metric_update_checked dom_quiet 1000000 1000).map
        (fun s => (s.tslice_us, s.filter.s4.spinlock)) = some (400, 0)
    ∧ (csched_submilli_metric_update_checked dom_spinning 1000000 1000).map
        (fun s => (s.tslice_us, s.filter.s4.spinlock)) = some (400, 20000) := by
  decide

/-! ## Dispatch: the band of the vCPU chosen -/

/-- A write through a pointer that stores the value that was there leaves the
queue as it is. -/
theorem runq_modify_same (f : csched_vcpu → csched_vcpu) :
    ∀ (q : List csched_vcpu) (i : Nat), (∀ v, q.get? i = some v → f v = v) →
      runq_modify q i f = q := by
  intro q i h
  unfold runq_modify
  cases hq : q.get? i with
  | none => rfl
  | some v =>
    simp only []
    rw [h v hq]
    clear h
    induction q generalizing i with
    | nil => rfl
    | cons a t ih =>
      cases i with
      | zero =>
        simp only [List.get?_cons_zero, Option.some.injEq] at hq
        rw [hq]
        rfl
      | succ j =>
        simp only [List.get?_cons_succ] at hq
        simp only [List.set_cons_succ]
        rw [ih j hq]

/-- Clearing the YIELD flag of a vCPU that does not have it leaves the record
as it is. -/
theorem clear_yield_same (v : csched_vcpu) (h : v.flags &&& CSCHED_FLAG_VCPU_YIELD = 0) :
    clear_yield v = v := by
  unfold clear_yield
  rw [if_neg (by rw [h]; simp)]

/-- Putting back a current vCPU without the YIELD flag keeps a queue that is
non-increasing by band non-increasing by band, and the position recorded is
the position of the current vCPU. -/
theorem sched_requeue_sorted (e : sched_env) (cpu : Nat) (runq : List csched_vcpu)
    (sc : csched_vcpu) (qp : List csched_vcpu × Option Nat) (hs : runq_sorted runq)
    (hy : sc.flags &&& CSCHED_FLAG_VCPU_YIELD = 0)
    (h : sched_requeue e cpu runq sc = some qp) :
    runq_sorted qp.1 ∧ ∀ p, qp.2 = some p → qp.1.get? p = some sc := by
  unfold sched_requeue at h
  by_cases hr : e.runnable = true
  · rw [if_pos hr] at h
    have hpos : runq_insert_pos e.head_pri runq sc = runq_insert_walk sc.pri runq := by
      unfold runq_insert_pos
      rw [if_neg]
      rw [hy]
      simp
    have hins : __runq_insert e.head_pri runq cpu sc = none
        ∨ __runq_insert e.head_pri runq cpu sc
          = some (runq.take (runq_insert_walk sc.pri runq)
              ++ sc :: runq.drop (runq_insert_walk sc.pri runq)) := by
      by_cases hc : cpu = sc.processor
      · rw [hc]
        exact Or.inr (runq_insert_plain e.head_pri runq sc hy)
      · left
        unfold __runq_insert
        rw [if_pos hc]
    rcases hins with hi | hi
    · rw [hi] at h
      cases h
    · rw [hi, hpos] at h
      simp only [Option.map_some', Option.some.injEq] at h
      rw [← h]
      obtain ⟨h1, h2, h3⟩ := runq_insert_walk_split sc.pri runq
      have hs2 : runq_sorted (runq.take (runq_insert_walk sc.pri runq)
          ++ runq.drop (runq_insert_walk sc.pri runq)) := by
        rw [List.take_append_drop]
        exact hs
      unfold runq_sorted at hs2
      rw [List.pairwise_append] at hs2
      obtain ⟨p1, p2, p3⟩ := hs2
      have h4 := runq_sorted_drop_lt sc.pri _ p2 h3
      refine ⟨?_, ?_⟩
      · unfold runq_sorted
        rw [List.pairwise_append, List.pairwise_cons]
        refine ⟨p1, ⟨fun y hy => le_of_lt (h4 y hy), p2⟩, ?_⟩
        intro x hx y hy
        rcases List.mem_cons.1 hy with hh | hh
        · subst hh
          exact h2 x hx
        · exact p3 x hx y hh
      · intro p hp
        simp only [Option.some.injEq] at hp
        rw [← hp]
        have hl : (runq.take (runq_insert_walk sc.pri runq)).length
            = runq_insert_walk sc.pri runq := by
          rw [List.length_take]
          omega
        rw [List.get?_eq_getElem?, List.getElem?_append_right (by omega), hl]
        simp
  · rw [if_neg hr] at h
    by_cases h2 : sc.is_idle = true ∨ runq = []
    · rw [if_pos h2] at h
      cases h
    · rw [if_neg h2] at h
      simp only [Option.some.injEq] at h
      rw [← h]
      exact ⟨hs, fun p hp => by cases hp⟩

/-- Where a vCPU that csched_runq_steal returns comes from: the peer has a
record, the vCPU was queued on the run queue of the peer, it is returned with
its processor set to the requester, and the record of the peer has the queue
without it, the other vCPUs in their order. -/
theorem csched_runq_steal_origin (now : Int) (delay cpu : Nat) (pri : Int)
    (peer_pcpu : Option csched_pcpu) (peer_idle : Bool) (s : csched_vcpu)
    (spc2 : Option csched_pcpu)
    (h : csched_runq_steal now delay peer_pcpu peer_idle cpu pri = some (some s, spc2)) :
    ∃ spc pre x post, peer_pcpu = some spc ∧ peer_idle = false
      ∧ spc.runq = pre ++ x :: post ∧ s = { x with processor := cpu }
      ∧ spc2 = some { spc with runq := pre ++ post } := by
  unfold csched_runq_steal at h
  cases peer_pcpu with
  | none =>
    simp only [Option.some.injEq, Prod.mk.injEq] at h
    cases h.1
  | some p =>
    simp only [] at h
    by_cases hi : peer_idle = true
    · rw [if_pos hi] at h
      simp only [Option.some.injEq, Prod.mk.injEq] at h
      cases h.1
    · rw [if_neg hi] at h
      cases hw : runq_steal_walk now delay cpu pri p.runq with
      | none => rw [hw] at h; cases h
      | some res =>
        rw [hw] at h
        obtain ⟨r, q2⟩ := res
        simp only [Option.some.injEq, Prod.mk.injEq] at h
        obtain ⟨h1, h2⟩ := h
        rcases runq_steal_walk_spec now delay cpu pri p.runq r q2 hw with
          ⟨hn, _⟩ | ⟨pre, x, post, e1, e2, e3, _⟩
        · rw [hn] at h1
          cases h1
        · rw [e2] at h1
          simp only [Option.some.injEq] at h1
          refine ⟨p, pre, x, post, rfl, by simpa using hi, e1, h1.symm, ?_⟩
          rw [← h2, e3]

/-- Where a vCPU that the loop of csched_load_balance returns comes from: a
pCPU of the mask workers, by the call of csched_runq_steal on that pCPU. -/
theorem load_balance_loop_origin (e : sched_env) (cpu : Nat) (pri : Int) (now : Int) :
    ∀ (fuel peer_cpu : Nat) (workers : Finset Nat) (r : Nat × csched_vcpu × Option csched_pcpu),
      load_balance_loop e cpu pri now fuel peer_cpu workers = some (some r) →
        r.1 ∈ workers
        ∧ csched_runq_steal now e.vcpu_migration_delay (e.peers r.1) (e.peer_idle r.1) cpu pri
            = some (some r.2.1, r.2.2) := by
  intro fuel
  induction fuel with
  | zero =>
    intro peer_cpu workers r h
    unfold load_balance_loop at h
    split_ifs at h
    cases h
  | succ fuel ih =>
    intro peer_cpu workers r h
    unfold load_balance_loop at h
    cases hem : cpumask_empty e.nr_cpu_ids workers with
    | true =>
      rw [hem] at h
      simp only [if_true] at h
      cases h
    | false =>
      rw [hem] at h
      simp only [Bool.false_eq_true, if_false] at h
      obtain ⟨c, hc, hcn⟩ := cpumask_not_empty _ _ hem
      obtain ⟨hn, _⟩ := cpumask_cycle_mem e.nr_cpu_ids peer_cpu workers c hc hcn
      have hrec : load_balance_loop e cpu pri now fuel
            (cpumask_cycle e.nr_cpu_ids peer_cpu workers)
            (workers.erase (cpumask_cycle e.nr_cpu_ids peer_cpu workers)) = some (some r) →
          r.1 ∈ workers
          ∧ csched_runq_steal now e.vcpu_migration_delay (e.peers r.1) (e.peer_idle r.1) cpu pri
              = some (some r.2.1, r.2.2) := by
        intro h2
        obtain ⟨g1, g2⟩ := ih _ _ r h2
        exact ⟨Finset.mem_of_mem_erase g1, g2⟩
      by_cases ht : e.trylock (cpumask_cycle e.nr_cpu_ids peer_cpu workers) = false
      · rw [if_pos ht] at h
        exact hrec h
      · rw [if_neg ht] at h
        by_cases ho : cpumask_cycle e.nr_cpu_ids peer_cpu workers ∉ e.online
        · rw [if_pos ho] at h
          exact hrec h
        · rw [if_neg ho] at h
          cases hs : csched_runq_steal now e.vcpu_migration_delay
              (e.peers (cpumask_cycle e.nr_cpu_ids peer_cpu workers))
              (e.peer_idle (cpumask_cycle e.nr_cpu_ids peer_cpu workers)) cpu pri with
          | none =>
            rw [hs] at h
            cases h
          | some res =>
            rw [hs] at h
            obtain ⟨r1, spc⟩ := res
            cases r1 with
            | none =>
              simp only [] at h
              exact hrec h
            | some speer =>
              simp only [Option.some.injEq] at h
              rw [← h]
              exact ⟨hn, hs⟩

/-- Where the vCPU sched_choose returns comes from when it is not the local
one: a peer pCPU of the pool other than this pCPU, not in prv->idlers and
with a current vCPU that is not idle; the vCPU was queued on the run queue of
that peer and the record of the peer that is left has the queue without it.
When the local vCPU is returned no peer is touched. -/
theorem sched_choose_origin (e : sched_env) (idlers : Finset Nat) (cpu : Nat) (now : Int)
    (q : List csched_vcpu) (i : Nat) (c : sched_choice)
    (h : sched_choose e idlers cpu now q i = some c) :
    (c.migrated = false → c.stolen_from = none)
    ∧ (c.migrated = true →
        ∃ peer spc pre x post, peer ≠ cpu ∧ peer ∈ e.online ∧ peer ∉ idlers
          ∧ e.peers peer = some spc ∧ e.peer_idle peer = false
          ∧ spc.runq = pre ++ x :: post ∧ c.snext = { x with processor := cpu }
          ∧ c.stolen_from = some (peer, some { spc with runq := pre ++ post })) := by
  unfold sched_choose at h
  cases hq : q.get? i with
  | none => rw [hq] at h; cases h
  | some snext =>
    rw [hq] at h
    simp only [] at h
    by_cases hp : snext.pri > CSCHED_PRI_TS_OVER
    · rw [if_pos hp] at h
      simp only [Option.some.injEq] at h
      rw [← h]
      exact ⟨fun _ => rfl, fun hm => by cases hm⟩
    · rw [if_neg hp] at h
      unfold csched_load_balance at h
      by_cases h1 : cpu ≠ snext.processor
      · rw [if_pos h1] at h
        cases h
      · rw [if_neg h1] at h
        by_cases h2 : cpu ∉ e.online
        · rw [if_pos h2] at h
          simp only [Option.some.injEq] at h
          rw [← h]
          exact ⟨fun _ => rfl, fun hm => by cases hm⟩
        · rw [if_neg h2] at h
          cases hl : load_balance_loop e cpu snext.pri now e.nr_cpu_ids cpu
              ((e.online \ idlers).erase cpu) with
          | none => rw [hl] at h; cases h
          | some res =>
            rw [hl] at h
            cases res with
            | none =>
              simp only [Option.some.injEq] at h
              rw [← h]
              exact ⟨fun _ => rfl, fun hm => by cases hm⟩
            | some r =>
              simp only [Option.some.injEq] at h
              rw [← h]
              refine ⟨fun hm => (by cases hm), fun _ => ?_⟩
              obtain ⟨g1, g2⟩ :=
                load_balance_loop_origin e cpu snext.pri now e.nr_cpu_ids cpu _ r hl
              obtain ⟨spc, pre, x, post, o1, o2, o3, o4, o5⟩ :=
                csched_runq_steal_origin _ _ _ _ _ _ _ _ g2
              have hm := Finset.mem_erase.1 g1
              have hd := Finset.mem_sdiff.1 hm.2
              exact ⟨r.1, spc, pre, x, post, hm.1, hd.1, hd.2, o1, o2, o3, o4, by
                simp only []
                rw [o5]⟩

/-- C37. Dispatch picks the highest band. For every csched_schedule call
with no tasklet work pending that does not take the rate-limit shortcut, on a
local run queue that is non-increasing by band and with a current vCPU that
does not have the YIELD flag: the queue once the current vCPU was put back
(if it is runnable) reads head :: rest and is non-increasing by band, and
either head is dispatched, the local queue that is left is rest (the vCPU
dispatched is on it no more) and no peer is touched; or a vCPU x taken off the
run queue of a peer pCPU is dispatched with its processor set to this pCPU,
the peer is left with its queue without x, the local queue is left as
head :: rest, and the band of x is strictly higher than that of the local
head. Either way the band of the vCPU dispatched is at least the band of every
vCPU left on the local run queue, the current vCPU among them when it was put
back and is not the one dispatched. The call returns in every state in which
no BUG_ON fires (sched_ready). -/
theorem csched_schedule_highest_band (prv : csched_private) (idlers : Finset Nat)
    (e : sched_env) (cpu : Nat) (runq : List csched_vcpu) (scurr : csched_vcpu) (now : Int)
    (hn : ¬ sched_ratelimit prv e scurr now false) (hs : runq_sorted runq)
    (hy : scurr.flags &&& CSCHED_FLAG_VCPU_YIELD = 0) :
    (∀ r, csched_schedule prv idlers e cpu runq scurr now false = some r →
      (∀ v ∈ r.runq, v.pri ≤ r.ret.task.pri)
      ∧ ∃ head rest p,
          sched_requeue e cpu runq (sched_account scurr now) = some (head :: rest, p)
          ∧ runq_sorted (head :: rest)
          ∧ (∀ v ∈ runq, v ∈ head :: rest)
          ∧ (e.runnable = true → sched_account scurr now ∈ head :: rest)
          ∧ ((r.ret.migrated = false ∧ r.ret.task = sched_start head now ∧ r.runq = rest
                ∧ r.stolen_from = none)
            ∨ (r.ret.migrated = true ∧ r.runq = head :: rest
                ∧ head.pri < r.ret.task.pri
                ∧ ∃ peer spc pre x post, peer ≠ cpu ∧ e.peers peer = some spc
                    ∧ spc.runq = pre ++ x :: post
                    ∧ r.ret.task = sched_start { x with processor := cpu } now
                    ∧ r.stolen_from = some (peer, some { spc with runq := pre ++ post }))))
    ∧ (sched_ready e cpu runq scurr false →
        ∃ r, csched_schedule prv idlers e cpu runq scurr now false = some r) := by
  refine ⟨fun r hr => ?_, csched_schedule_returns prv idlers e cpu runq scurr now false⟩
  obtain ⟨qp, i, c, h1, h2, h3, h4⟩ :=
    csched_schedule_full prv idlers e cpu runq scurr now false hn r hr
  have hy2 : (sched_account scurr now).flags &&& CSCHED_FLAG_VCPU_YIELD = 0 := by
    rw [(sched_account_fields scurr now).2.2.1]
    exact hy
  obtain ⟨s1, s2⟩ := sched_requeue_sorted e cpu runq _ qp hs hy2 h1
  obtain ⟨m1, _, m3, m4⟩ := sched_requeue_mem e cpu runq _ qp h1
  have hi : i = 0 := by
    unfold sched_snext_pos at h2
    simp only [Bool.false_eq_true, if_false, Option.some.injEq] at h2
    exact h2.symm
  subst hi
  have hmarks : sched_marks qp.1 qp.2 0 false = qp.1 := by
    unfold sched_marks
    cases hp : qp.2 with
    | none => simp
    | some p =>
      simp only [Bool.false_eq_true, if_false]
      apply runq_modify_same
      intro v hv
      rw [s2 p hp] at hv
      simp only [Option.some.injEq] at hv
      rw [← hv]
      exact clear_yield_same _ hy2
  rw [hmarks] at h3
  obtain ⟨qq, p⟩ := qp
  simp only [] at h1 h3 s1 m1 m3 m4
  cases qq with
  | nil => exact absurd rfl m1
  | cons head rest =>
    obtain ⟨snext, g1, g2⟩ := sched_choose_spec e idlers cpu now _ 0 c h3
    obtain ⟨o1, o2⟩ := sched_choose_origin e idlers cpu now _ 0 c h3
    simp only [List.get?_cons_zero, Option.some.injEq] at g1
    subst g1
    have hle : ∀ v ∈ rest, v.pri ≤ head.pri := by
      unfold runq_sorted at s1
      rw [List.pairwise_cons] at s1
      exact s1.1
    have hpri : r.ret.task.pri = c.snext.pri := by
      rw [h4]
      exact (sched_start_fields c.snext now).1
    rcases g2 with ⟨a1, a2, a3⟩ | ⟨_, _, b3, _, b5, b6⟩
    · have hrq : r.runq = rest := by
        rw [h4]
        simp only [sched_finish]
        rw [a3]
        rfl
      refine ⟨?_, head, rest, p, h1, s1, m3, m4, Or.inl ⟨?_, ?_, hrq, ?_⟩⟩
      · intro v hv
        rw [hpri, a1]
        rw [hrq] at hv
        exact hle v hv
      · rw [h4]
        exact a2
      · rw [h4]
        simp only [sched_finish]
        rw [a1]
      · rw [h4]
        exact o1 a2
    · have hrq : r.runq = head :: rest := by
        rw [h4]
        exact b6
      obtain ⟨peer, spc, pre, x, post, c1, _, _, c4, _, c6, c7, c8⟩ := o2 b5
      refine ⟨?_, head, rest, p, h1, s1, m3, m4, Or.inr ⟨?_, hrq, ?_, ?_⟩⟩
      · intro v hv
        rw [hpri]
        rw [hrq] at hv
        rcases List.mem_cons.1 hv with hh | hh
        · rw [hh]
          exact le_of_lt b3
        · have := hle v hh
          omega
      · rw [h4]
        exact b5
      · rw [hpri]
        exact b3
      · refine ⟨peer, spc, pre, x, post, c1, c4, c6, ?_, ?_⟩
        · rw [h4]
          simp only [sched_finish]
          rw [c7]
        · rw [h4]
          exact c8

/-- Witness for C37: on the example machine, with a domain vCPU (UNDER, no
YIELD flag) current that has run for 160 microseconds and the idle vCPU
queued, the call does not take the shortcut and returns; the band of the vCPU
dispatched is at least the band of every vCPU left on the queue. -/
theorem csched_schedule_highest_band_witness :
    ¬ sched_ratelimit sched_demo_prv sched_demo sched_guest 200000 false
    ∧ runq_sorted [sched_idle0]
    ∧ sched_guest.flags &&& CSCHED_FLAG_VCPU_YIELD = 0
    ∧ ∃ r, csched_schedule sched_demo_prv {1} sched_demo 0 [sched_idle0] sched_guest
          200000 false = some r
        ∧ ∀ v ∈ r.runq, v.pri ≤ r.ret.task.pri := by
  refine ⟨by decide, by decide, by decide, ?_⟩
  obtain ⟨r, hr⟩ := (csched_schedule_highest_band sched_demo_prv {1} sched_demo 0
    [sched_idle0] sched_guest 200000 (by decide) (by decide) (by decide)).2
    (sched_demo_ready false)
  exact ⟨r, hr, ((csched_schedule_highest_band sched_demo_prv {1} sched_demo 0
    [sched_idle0] sched_guest 200000 (by decide) (by decide) (by decide)).1 r hr).1⟩

/-- The two outcomes of the dispatch, evaluated. On the example machine the
current domain vCPU 1 (UNDER) is put back before the idle vCPU, dispatched
again, and the idle vCPU is left on the queue. On the machine with a busy
peer, the idle vCPU of pCPU 0 is current with an empty queue: the vCPU X
(UNDER) is taken off the queue of pCPU 1, which is left with Y, the idle vCPU
stays on the local queue, and X is dispatched on pCPU 0. -/
theorem sched_dispatch_run :
    (csched_schedule sched_demo_prv {1} sched_demo 0 [sched_idle0] sched_guest 200000 false).map
        (fun r => (r.ret.task.vcpu_id, r.ret.task.pri, r.ret.migrated,
          r.runq.map fun v => (v.vcpu_id, v.pri)))
      = some (1, CSCHED_PRI_TS_UNDER, false, [(0, CSCHED_PRI_IDLE)])
    ∧ (csched_schedule sched_demo_prv ∅ sched_steal_demo 0 [] sched_idle0 1000000000 false).map
        (fun r => (r.ret.task.vcpu_id, r.ret.task.pri, r.ret.task.processor, r.ret.migrated))
      = some (1, CSCHED_PRI_TS_UNDER, 0, true)
    ∧ (csched_schedule sched_demo_prv ∅ sched_steal_demo 0 [] sched_idle0 1000000000 false).map
        (fun r => r.runq.map fun v => (v.vcpu_id, v.pri)) = some [(0, CSCHED_PRI_IDLE)]
    ∧ (csched_schedule sched_demo_prv ∅ sched_steal_demo 0 [] sched_idle0 1000000000 false).map
        (fun r => r.stolen_from) = some (some (1, some { runq := [steal_y] })) := by
  refine ⟨by decide, by decide, by decide, by decide⟩

/-! ## Convergence under a constant sample -/

/-- A run over two lists of samples is the run over the second from the
state the first leaves. -/
theorem controller_run_append (xs ys : List (Nat × Nat)) :
    ∀ s : csched_dom, controller_run s (xs ++ ys) = controller_run (controller_run s xs) ys := by
  induction xs with
  | nil => exact fun _ => rfl
  | cons x xs ih => exact fun s => ih _

/-- A warm-up pass on the sample (I, M) from the slice 100, with the first k
slots of the ring holding the sample: the next slot takes it, the counter goes
down by one, and slice, phase and stable count stay. -/
theorem const_warm_step (s : csched_dom) (I M k : Nat) (hI : I < 4294967296)
    (hM : M < 4294967296) (hk : k < 5) (hw : s.event_tracking_window = 5 - k)
    (ht : s.tslice_us = 100) (hr : ring_holds I M k s.filter) :
    (csched_submilli_metric_update s I M).event_tracking_window = 5 - (k + 1)
    ∧ (csched_submilli_metric_update s I M).tslice_us = 100
    ∧ (csched_submilli_metric_update s I M).phase = s.phase
    ∧ (csched_submilli_metric_update s I M).event_stable_count = s.event_stable_count
    ∧ ring_holds I M (k + 1) (csched_submilli_metric_update s I M).filter := by
  rw [pass_warmup s I M (by omega)]
  obtain ⟨f1, f2, f3⟩ := warmup_fields s I M
  obtain ⟨g1, g2⟩ := warmup_ring s I M
  refine ⟨?_, ?_, f3, g2, ?_⟩
  · rw [f2, hw]
    unfold U8
    omega
  · have hd : (csched_decrease_time_slice s).tslice_us = 100 := by
      rw [decrease_tslice_eq, ht]
      decide
    rw [f1, hd, ht]
    split_ifs <;> rfl
  · have hidx : (5 : Int) - (s.event_tracking_window : Int) = (k : Int) := by
      rw [hw]
      omega
    rw [g1, hidx]
    intro i hi
    have hi5 : i < 5 := by omega
    rw [filter_set_get _ _ k i hk hi5]
    by_cases hik : i = k
    · rw [if_pos hik]
      unfold spec_sample
      exact ⟨Nat.mod_eq_of_lt hI, Nat.mod_eq_of_lt hM⟩
    · rw [if_neg hik]
      exact hr i (by omega)

/-- The first passes on a constant sample: n warm-up passes from a state with
k filled slots, k + n <= 5. -/
theorem const_warm_run (I M : Nat) (hI : I < 4294967296) (hM : M < 4294967296) (n : Nat) :
    ∀ (k : Nat) (s : csched_dom), k + n ≤ 5 → s.event_tracking_window = 5 - k →
      s.tslice_us = 100 → ring_holds I M k s.filter →
      (controller_run s (List.replicate n (I, M))).event_tracking_window = 5 - (k + n)
      ∧ (controller_run s (List.replicate n (I, M))).tslice_us = 100
      ∧ (controller_run s (List.replicate n (I, M))).phase = s.phase
      ∧ (controller_run s (List.replicate n (I, M))).event_stable_count = s.event_stable_count
      ∧ ring_holds I M (k + n) (controller_run s (List.replicate n (I, M))).filter := by
  induction n with
  | zero =>
    intro k s _ hw ht hr
    exact ⟨hw, ht, rfl, rfl, hr⟩
  | succ n ih =>
    intro k s hkn hw ht hr
    obtain ⟨a1, a2, a3, a4, a5⟩ := const_warm_step s I M k hI hM (by omega) hw ht hr
    obtain ⟨b1, b2, b3, b4, b5⟩ := ih (k + 1) _ (by omega) a1 a2 a5
    rw [List.replicate_succ]
    show (controller_run (csched_submilli_metric_update s I M)
        (List.replicate n (I, M))).event_tracking_window = 5 - (k + (n + 1)) ∧ _
    rw [show k + (n + 1) = k + 1 + n by omega]
    exact ⟨b1, b2, b3.trans a3, b4.trans a4, b5⟩

/-- With the ring full of the sample (I, M), the windowed miss rate is the
instantaneous one. -/
theorem const_window_rate (f : event_filter) (I M : Nat) (hI : I < 4294967296)
    (hM : M < 4294967296) (hr : ring_holds I M 5 f) :
    miss_rate_window f = miss_rate_curr I M := by
  obtain ⟨a0, b0⟩ := hr 0 (by decide)
  obtain ⟨a1, b1⟩ := hr 1 (by decide)
  obtain ⟨a2, b2⟩ := hr 2 (by decide)
  obtain ⟨a3, b3⟩ := hr 3 (by decide)
  obtain ⟨a4, b4⟩ := hr 4 (by decide)
  have hi : inst_mean f = I := by
    unfold inst_mean
    rw [a0, a1, a2, a3, a4]
    unfold U64
    simp only [EVENT_TRACKING_WINDOW]
    omega
  have hm : cache_miss_mean f = M := by
    unfold cache_miss_mean
    rw [b0, b1, b2, b3, b4]
    unfold U64
    simp only [EVENT_TRACKING_WINDOW]
    omega
  unfold miss_rate_window miss_rate_curr
  rw [hi, hm]
  by_cases h0 : I = 0
  · rw [if_neg (by omega), if_neg (by simp [h0])]
  · rw [if_pos (by omega), if_pos h0]

/-- A steady-state pass on the sample the ring is full of: the pass is a
stable one with err = 100, the ring stays full of the sample, and slice and
phase follow the side of 100 the miss rate is on. -/
theorem const_steady_step (s : csched_dom) (I M : Nat) (hI : I < 4294967296)
    (hM : M < 4294967296) (hrC : spec_rC I M * 100 < 2147483648)
    (hw : s.event_tracking_window = 0) (hr : ring_holds I M 5 s.filter) :
    (csched_submilli_metric_update s I M).event_tracking_window = 0
    ∧ ring_holds I M 5 (csched_submilli_metric_update s I M).filter
    ∧ (100 ≤ spec_rC I M →
        (csched_submilli_metric_update s I M).tslice_us
            = (csched_increase_time_slice s).tslice_us
        ∧ (csched_submilli_metric_update s I M).phase = SPIN_LOW_PHASE)
    ∧ (spec_rC I M < 100 →
        (csched_submilli_metric_update s I M).tslice_us
            = (csched_decrease_time_slice s).tslice_us
        ∧ (csched_submilli_metric_update s I M).phase = SPIN_HIGH_PHASE) := by
  have hW := const_window_rate s.filter I M hI hM hr
  have hC : miss_rate_curr I M = (spec_rC I M : Int) :=
    miss_rate_curr_eq_spec I M (by omega) (by omega)
  have herr : pass_err s I M = 100 := by
    unfold pass_err
    rw [hW, hC, miss_rate_err_eq_spec _ _ hrC]
    unfold spec_err
    by_cases h0 : spec_rC I M = 0
    · rw [if_pos h0, if_pos h0]
      rfl
    · rw [if_neg h0, Nat.mul_div_cancel_left _ (Nat.pos_of_ne_zero h0)]
      rfl
  have hsp : steady_pass s I M := ⟨hw, by rw [herr]; decide, by rw [herr]; decide⟩
  have hst := steady_pass_stable s I M hsp
  obtain ⟨_, g2, _, _, g5⟩ := stable_fields s I M
  refine ⟨?_, ?_, ?_, ?_⟩
  · rw [hst, g5, hw]
  · rw [hst, g2]
    intro i hi
    have hi5 : i < 5 := by omega
    interval_cases i
    · exact hr 1 (by decide)
    · exact hr 2 (by decide)
    · exact hr 3 (by decide)
    · exact hr 4 (by decide)
    · exact ⟨Nat.mod_eq_of_lt hI, Nat.mod_eq_of_lt hM⟩
  · intro h100
    exact steady_high_step s I M hsp (by rw [hW, hC]; omega)
  · intro h100
    exact steady_low_step s I M hsp (by rw [hW, hC]; omega)

/-- The steady passes on a constant sample: n passes from a steady state
whose ring is full of the sample and whose slice is in [100, 1100]. -/
theorem const_steady_run (I M : Nat) (hI : I < 4294967296) (hM : M < 4294967296)
    (hrC : spec_rC I M * 100 < 2147483648) (n : Nat) :
    ∀ s : csched_dom, s.event_tracking_window = 0 → ring_holds I M 5 s.filter →
      100 ≤ s.tslice_us → s.tslice_us ≤ 1100 →
      (100 ≤ spec_rC I M →
        (controller_run s (List.replicate n (I, M))).tslice_us
            = min 1100 (s.tslice_us + 100 * n)
        ∧ (0 < n → (controller_run s (List.replicate n (I, M))).phase = SPIN_LOW_PHASE))
      ∧ (spec_rC I M < 100 →
        (controller_run s (List.replicate n (I, M))).tslice_us
            = max 100 (s.tslice_us - 200 * n)
        ∧ (0 < n → (controller_run s (List.replicate n (I, M))).phase = SPIN_HIGH_PHASE)) := by
  induction n with
  | zero =>
    intro s _ _ hlo hhi
    refine ⟨fun _ => ⟨?_, fun h => absurd h (by decide)⟩,
      fun _ => ⟨?_, fun h => absurd h (by decide)⟩⟩
    · show s.tslice_us = min 1100 (s.tslice_us + 100 * 0)
      omega
    · show s.tslice_us = max 100 (s.tslice_us - 200 * 0)
      omega
  | succ n ih =>
    intro s hw hr hlo hhi
    obtain ⟨a1, a2, a3, a4⟩ := const_steady_step s I M hI hM hrC hw hr
    have hinc : (csched_increase_time_slice s).tslice_us = min 1100 (s.tslice_us + 100) := by
      rw [increase_tslice_eq]
      unfold U32
      split_ifs <;> omega
    have hdec : (csched_decrease_time_slice s).tslice_us = max 100 (s.tslice_us - 200) := by
      rw [decrease_tslice_eq]
      split_ifs <;> omega
    rw [List.replicate_succ]
    refine ⟨fun h100 => ?_, fun h100 => ?_⟩
    · obtain ⟨t1, p1⟩ := a3 h100
      obtain ⟨b1, b2⟩ := (ih _ a1 a2 (by rw [t1, hinc]; omega) (by rw [t1, hinc]; omega)).1 h100
      refine ⟨?_, fun _ => ?_⟩
      · show (controller_run (csched_submilli_metric_update s I M)
            (List.replicate n (I, M))).tslice_us = _
        rw [b1, t1, hinc]
        omega
      · show (controller_run (csched_submilli_metric_update s I M)
            (List.replicate n (I, M))).phase = _
        rcases Nat.eq_zero_or_pos n with h0 | h0
        · subst h0
          exact p1
        · exact b2 h0
    · obtain ⟨t1, p1⟩ := a4 h100
      obtain ⟨b1, b2⟩ := (ih _ a1 a2 (by rw [t1, hdec]; omega) (by rw [t1, hdec]; omega)).2 h100
      refine ⟨?_, fun _ => ?_⟩
      · show (controller_run (csched_submilli_metric_update s I M)
            (List.replicate n (I, M))).tslice_us = _
        rw [b1, t1, hdec]
        omega
      · show (controller_run (csched_submilli_metric_update s I M)
            (List.replicate n (I, M))).phase = _
        rcases Nat.eq_zero_or_pos n with h0 | h0
        · subst h0
          exact p1
        · exact b2 h0

/-- C38. Convergence under a constant sample. A freshly initialised domain
(tslice_us = 100, event_tracking_window = 5, phase LOW_SPIN) is fed the same
sample (I, M) on every controller pass, with I, M < 2^32 and M*100000/I
(0 if I = 0) small enough for its product with 100 to fit an int. After n <= 5
passes the slice is still 100, the phase LOW_SPIN, the stable count 0 and the
warm-up counter 5 - n: the first five passes only fill the ring. After n >= 5
passes the slice is min(1100, 100 + 100 * (n - 5)) if M*100000/I >= 100 and
100 otherwise. After n >= 15 passes (from the 16th pass on) slice and phase
no longer change: tslice_us = 1100 with phase LOW_SPIN if M*100000/I >= 100,
and tslice_us = 100 with phase HIGH_SPIN otherwise. -/
theorem controller_converges (domain_id I M n : Nat) (hI : I < 4294967296)
    (hM : M < 4294967296) (hrC : spec_rC I M * 100 < 2147483648) :
    (csched_dom_init domain_id).tslice_us = 100
    ∧ (csched_dom_init domain_id).event_tracking_window = 5
    ∧ (csched_dom_init domain_id).phase = SPIN_LOW_PHASE
    ∧ (n ≤ 5 →
        (dom_const domain_id I M n).tslice_us = 100
        ∧ (dom_const domain_id I M n).phase = SPIN_LOW_PHASE
        ∧ (dom_const domain_id I M n).event_stable_count = 0
        ∧ (dom_const domain_id I M n).event_tracking_window = 5 - n)
    ∧ (5 ≤ n →
        (100 ≤ spec_rC I M →
          (dom_const domain_id I M n).tslice_us = min 1100 (100 + 100 * (n - 5)))
        ∧ (spec_rC I M < 100 → (dom_const domain_id I M n).tslice_us = 100))
    ∧ (15 ≤ n →
        (100 ≤ spec_rC I M →
          (dom_const domain_id I M n).tslice_us = 1100
          ∧ (dom_const domain_id I M n).phase = SPIN_LOW_PHASE)
        ∧ (spec_rC I M < 100 →
          (dom_const domain_id I M n).tslice_us = 100
          ∧ (dom_const domain_id I M n).phase = SPIN_HIGH_PHASE)) := by
  have h0 : ring_holds I M 0 (csched_dom_init domain_id).filter :=
    fun i hi => absurd hi (by simp)
  have hwarm : ∀ m, m ≤ 5 →
      (dom_const domain_id I M m).event_tracking_window = 5 - m
      ∧ (dom_const domain_id I M m).tslice_us = 100
      ∧ (dom_const domain_id I M m).phase = SPIN_LOW_PHASE
      ∧ (dom_const domain_id I M m).event_stable_count = 0
      ∧ ring_holds I M m (dom_const domain_id I M m).filter := by
    intro m hm
    have := const_warm_run I M hI hM m 0 (csched_dom_init domain_id) (by omega) rfl rfl h0
    rw [Nat.zero_add] at this
    exact this
  have hsteady : ∀ m, 5 ≤ m →
      (100 ≤ spec_rC I M →
        (dom_const domain_id I M m).tslice_us = min 1100 (100 + 100 * (m - 5))
        ∧ (0 < m - 5 → (dom_const domain_id I M m).phase = SPIN_LOW_PHASE))
      ∧ (spec_rC I M < 100 →
        (dom_const domain_id I M m).tslice_us = max 100 (100 - 200 * (m - 5))
        ∧ (0 < m - 5 → (dom_const domain_id I M m).phase = SPIN_HIGH_PHASE)) := by
    intro m hm
    obtain ⟨w1, w2, _, _, w5⟩ := hwarm 5 (le_refl _)
    have hsplit : dom_const domain_id I M m
        = controller_run (dom_const domain_id I M 5) (List.replicate (m - 5) (I, M)) := by
      unfold dom_const
      rw [← controller_run_append, ← List.replicate_add, Nat.add_sub_cancel' hm]
    have := const_steady_run I M hI hM hrC (m - 5) (dom_const domain_id I M 5) w1 w5
      (by omega) (by omega)
    rw [← hsplit, w2] at this
    exact this
  refine ⟨rfl, rfl, rfl, ?_, ?_, ?_⟩
  · intro hn
    obtain ⟨w1, w2, w3, w4, _⟩ := hwarm n hn
    exact ⟨w2, w3, w4, w1⟩
  · intro hn
    obtain ⟨s1, s2⟩ := hsteady n hn
    refine ⟨fun h => (s1 h).1, fun h => ?_⟩
    rw [(s2 h).1]
    omega
  · intro hn
    obtain ⟨s1, s2⟩ := hsteady n (by omega)
    refine ⟨fun h => ⟨?_, (s1 h).2 (by omega)⟩, fun h => ⟨?_, (s2 h).2 (by omega)⟩⟩
    · rw [(s1 h).1]
      omega
    · rw [(s2 h).1]
      omega

/-- Witness for C38: on the constant sample (10^6, 10^3), with miss rate
100, the slice is 1100 and the phase LOW_SPIN after 15 passes; on the
constant sample (10^6, 10), with miss rate 1, the slice is 100 and the
phase HIGH_SPIN after 15 passes. -/
theorem controller_converges_witness :
    ((dom_const 1 1000000 1000 15).tslice_us = 1100
      ∧ (dom_const 1 1000000 1000 15).phase = SPIN_LOW_PHASE)
    ∧ ((dom_const 1 1000000 10 15).tslice_us = 100
      ∧ (dom_const 1 1000000 10 15).phase = SPIN_HIGH_PHASE) :=
  ⟨((controller_converges 1 1000000 1000 15 (by decide) (by decide)
      (by decide)).2.2.2.2.2 (by decide)).1 (by decide),
    ((controller_converges 1 1000000 10 15 (by decide) (by decide)
      (by decide)).2.2.2.2.2 (by decide)).2 (by decide)⟩

/-- The run of the witness, evaluated pass by pass: the slice after 5, 6, 14,
15 and 16 passes on the constant sample (10^6, 10^3). -/
theorem const_demo_run :
    [(dom_const 1 1000000 1000 5).tslice_us, (dom_const 1 1000000 1000 6).tslice_us,
      (dom_const 1 1000000 1000 14).tslice_us, (dom_const 1 1000000 1000 15).tslice_us,
      (dom_const 1 1000000 1000 16).tslice_us] = [100, 200, 1000, 1100, 1100] := by
  decide

/-! ## The global parameters: what a put leaves alone -/

/-- What csched_init derives from the slice it settles on. -/
theorem csched_init_derived (k : sysctl_consts) (b : boot_params) (prv : csched_private)
    (h : csched_init k b true = some prv) :
    prv.tslice_us = toU32 (init_tslice_us k b)
    ∧ prv.ticks_per_tslice = init_ticks_per_tslice prv.tslice_us
    ∧ prv.tick_period_us = prv.tslice_us / prv.ticks_per_tslice
    ∧ prv.credits_per_tslice = prv.tslice_us
    ∧ prv.credit = 0 := by
  unfold csched_init at h
  rw [if_neg (by simp)] at h
  have h2 := (Option.some.inj h).symm
  have hlt : toU32 (init_tslice_us k b) < 4294967296 := by
    unfold toU32
    omega
  have hc : U32 (CSCHED_CREDIT_PER_US * toU32 (init_tslice_us k b))
      = toU32 (init_tslice_us k b) := by
    rw [U32_of_lt _ (by simp only [CSCHED_CREDIT_PER_US]; omega)]
    simp only [CSCHED_CREDIT_PER_US]
    omega
  rw [h2]
  exact ⟨rfl, rfl, rfl, hc, rfl⟩

/-- Every field of the private data but tslice_us and ratelimit_us is left
alone by csched_sys_cntl, whatever the command and its outcome. -/
theorem csched_sys_cntl_frame (k : sysctl_consts) (prv : csched_private) (cmd : sysctl_cmd)
    (params : xen_sysctl_credit_schedule) :
    (csched_sys_cntl k prv cmd params).2.1.active_sdom = prv.active_sdom
    ∧ (csched_sys_cntl k prv cmd params).2.1.inactive_sdom = prv.inactive_sdom
    ∧ (csched_sys_cntl k prv cmd params).2.1.ncpus = prv.ncpus
    ∧ (csched_sys_cntl k prv cmd params).2.1.master = prv.master
    ∧ (csched_sys_cntl k prv cmd params).2.1.weight = prv.weight
    ∧ (csched_sys_cntl k prv cmd params).2.1.credit = prv.credit
    ∧ (csched_sys_cntl k prv cmd params).2.1.credit_balance = prv.credit_balance
    ∧ (csched_sys_cntl k prv cmd params).2.1.runq_sort = prv.runq_sort
    ∧ (csched_sys_cntl k prv cmd params).2.1.tick_period_us = prv.tick_period_us
    ∧ (csched_sys_cntl k prv cmd params).2.1.ticks_per_tslice = prv.ticks_per_tslice
    ∧ (csched_sys_cntl k prv cmd params).2.1.credits_per_tslice = prv.credits_per_tslice := by
  unfold csched_sys_cntl
  cases cmd with
  | putinfo =>
    simp only []
    split_ifs <;> exact ⟨rfl, rfl, rfl, rfl, rfl, rfl, rfl, rfl, rfl, rfl, rfl⟩
  | getinfo => exact ⟨rfl, rfl, rfl, rfl, rfl, rfl, rfl, rfl, rfl, rfl, rfl⟩
  | other c => exact ⟨rfl, rfl, rfl, rfl, rfl, rfl, rfl, rfl, rfl, rfl, rfl⟩

/-- C39. The frame of adjust_global. A csched_sys_cntl putinfo that is
accepted (32-bit values within the limits, rate limit not above the slice)
stores the two values in prv->tslice_us and prv->ratelimit_us and changes no
other field of the private data: tick_period_us, ticks_per_tslice,
credits_per_tslice and credit (and the lists, ncpus, master, weight,
credit_balance, runq_sort) keep the values they had. On the private data that
csched_init left, these are the values derived from the boot-time slice:
after the put, tick_period_us is still the boot-time tslice_us over
ticks_per_tslice and credits_per_tslice is still the boot-time tslice_us,
whatever slice was put. -/
theorem csched_sys_cntl_put_frame (k : sysctl_consts) (prv : csched_private)
    (params : xen_sysctl_credit_schedule)
    (ht : params.tslice_us < 4294967296) (hr : params.ratelimit_us < 4294967296)
    (hok : ¬ (params.tslice_us < k.TSLICE_UMIN ∨ k.TSLICE_UMAX < params.tslice_us
        ∨ params.ratelimit_us < k.RATELIMIT_MIN ∨ k.RATELIMIT_MAX < params.ratelimit_us
        ∨ params.tslice_us < params.ratelimit_us)) :
    (csched_sys_cntl k prv sysctl_cmd.putinfo params).1 = 0
    ∧ (csched_sys_cntl k prv sysctl_cmd.putinfo params).2.1
        = { prv with tslice_us := params.tslice_us, ratelimit_us := params.ratelimit_us }
    ∧ (csched_sys_cntl k prv sysctl_cmd.putinfo params).2.1.tick_period_us = prv.tick_period_us
    ∧ (csched_sys_cntl k prv sysctl_cmd.putinfo params).2.1.ticks_per_tslice
        = prv.ticks_per_tslice
    ∧ (csched_sys_cntl k prv sysctl_cmd.putinfo params).2.1.credits_per_tslice
        = prv.credits_per_tslice
    ∧ (csched_sys_cntl k prv sysctl_cmd.putinfo params).2.1.credit = prv.credit
    ∧ (∀ b, csched_init k b true = some prv →
        (csched_sys_cntl k prv sysctl_cmd.putinfo params).2.1.tick_period_us
            = toU32 (init_tslice_us k b) / init_ticks_per_tslice (toU32 (init_tslice_us k b))
        ∧ (csched_sys_cntl k prv sysctl_cmd.putinfo params).2.1.credits_per_tslice
            = toU32 (init_tslice_us k b)) := by
  have hm := MICROSECS_lt params.ratelimit_us params.tslice_us hr ht
  have hput : csched_sys_cntl k prv sysctl_cmd.putinfo params
      = (0, { prv with tslice_us := params.tslice_us, ratelimit_us := params.ratelimit_us },
          { tslice_us := params.tslice_us, ratelimit_us := params.ratelimit_us }) := by
    unfold csched_sys_cntl
    simp only []
    rw [if_neg]
    rw [hm]
    omega
  obtain ⟨_, _, _, _, _, f6, _, _, f9, f10, f11⟩ :=
    csched_sys_cntl_frame k prv sysctl_cmd.putinfo params
  refine ⟨?_, ?_, f9, f10, f11, f6, ?_⟩
  · rw [hput]
  · rw [hput]
  · intro b hb
    obtain ⟨d1, d2, d3, d4, _⟩ := csched_init_derived k b prv hb
    rw [f9, f11, d3, d4, d2, d1]
    exact ⟨rfl, rfl⟩

/-- Witness for C39: after csched_init with the default slice of 100
microseconds, a put of a slice of 500 microseconds with a rate limit of 200
is accepted; it leaves tick_period_us = 33 and credits_per_tslice = 100, the
values of the boot-time slice. -/
theorem csched_sys_cntl_put_frame_witness :
    csched_init sysctl_demo boot_demo true
      = some { master := 4294967295, tslice_us := 100, ratelimit_us := 100,
               ticks_per_tslice := 3, tick_period_us := 33, credits_per_tslice := 100 }
    ∧ (csched_sys_cntl sysctl_demo
        { master := 4294967295, tslice_us := 100, ratelimit_us := 100,
          ticks_per_tslice := 3, tick_period_us := 33, credits_per_tslice := 100 }
        sysctl_cmd.putinfo { tslice_us := 500, ratelimit_us := 200 }).2.1
      = { master := 4294967295, tslice_us := 500, ratelimit_us := 200,
          ticks_per_tslice := 3, tick_period_us := 33, credits_per_tslice := 100 } :=
  ⟨by decide,
    (csched_sys_cntl_put_frame sysctl_demo
      { master := 4294967295, tslice_us := 100, ratelimit_us := 100,
        ticks_per_tslice := 3, tick_period_us := 33, credits_per_tslice := 100 }
      { tslice_us := 500, ratelimit_us := 200 } (by decide) (by decide) (by decide)).2.1⟩

/-! ## The CPU picker: termination and the call without commit -/

/-- One iteration of the loop of the picker, from a mask cpus that is not
empty, holds pCPUs below nr_cpu_ids only and is part of the local mask
idlers: no ASSERT fails, the new cpu is the old one or a pCPU of cpus, and the
new mask is a part of cpus with fewer pCPUs. -/
theorem pick_iter_spec (e : pick_env) (idlers : Finset Nat)
    (hsib : ∀ c, c < e.nr_cpu_ids → c ∈ e.cpu_sibling_mask c)
    (hcore : ∀ c, c < e.nr_cpu_ids → c ∈ e.cpu_core_mask c)
    (hsym : e.asserts = true → ∀ a, a < e.nr_cpu_ids → ∀ b, b < e.nr_cpu_ids →
      a ∈ e.cpu_core_mask b → b ∈ e.cpu_core_mask a)
    (cpu : Nat) (cpus : Finset Nat) (spc : Option Nat) (hcpu : cpu < e.nr_cpu_ids)
    (hlt : ∀ c ∈ cpus, c < e.nr_cpu_ids) (hid : cpus ⊆ idlers)
    (hem : cpumask_empty e.nr_cpu_ids cpus = false) :
    ∃ r, pick_iter e idlers cpu (cpumask_cycle e.nr_cpu_ids cpu cpus) cpus spc = some r
      ∧ (r.1 = cpu ∨ r.1 ∈ cpus) ∧ r.2.1 ⊆ cpus ∧ r.2.1.card < cpus.card := by
  obtain ⟨c, hc, hcn⟩ := cpumask_not_empty _ _ hem
  obtain ⟨hn, hnn⟩ := cpumask_cycle_mem e.nr_cpu_ids cpu cpus c hc hcn
  unfold pick_iter
  by_cases hcm : cpu ∈ e.cpu_core_mask (cpumask_cycle e.nr_cpu_ids cpu cpus)
  · rw [if_pos hcm, if_neg (fun h => h.2 (hsym h.1 _ hcpu _ hnn hcm))]
    exact ⟨_, rfl, pick_step_spec e idlers e.cpu_sibling_mask 1 cpu _ cpus spc hlt hid hn
      (hsib _ hnn) hsib⟩
  · rw [if_neg hcm, if_neg (fun h => hcm (hsym h.1 _ hnn _ hcpu h.2))]
    exact ⟨_, rfl, pick_step_spec e idlers e.cpu_core_mask 2 cpu _ cpus spc hlt hid hn
      (hcore _ hnn) hsib⟩

/-- A loop of the picker that has ended within fuel iterations ends with the
same result within any larger number of iterations. -/
theorem pick_loop_fuel (e : pick_env) (idlers : Finset Nat) :
    ∀ (fuel : Nat) (cpu : Nat) (cpus : Finset Nat) (spc : Option Nat) (r : Nat × Option Nat),
      pick_loop e idlers fuel cpu cpus spc = some r →
      ∀ more, pick_loop e idlers (fuel + more) cpu cpus spc = some r := by
  intro fuel
  induction fuel with
  | zero =>
    intro cpu cpus spc r h more
    unfold pick_loop at h
    by_cases hem : cpumask_empty e.nr_cpu_ids cpus = true
    · rw [if_pos hem] at h
      cases more with
      | zero =>
        unfold pick_loop
        rw [if_pos hem, h]
      | succ m =>
        rw [Nat.zero_add]
        unfold pick_loop
        rw [if_pos hem, h]
    · rw [if_neg hem] at h
      cases h
  | succ fuel ih =>
    intro cpu cpus spc r h more
    rw [Nat.add_right_comm]
    unfold pick_loop at h ⊢
    by_cases hem : cpumask_empty e.nr_cpu_ids cpus = true
    · rw [if_pos hem] at h ⊢
      exact h
    · rw [if_neg hem] at h ⊢
      cases hit : pick_iter e idlers cpu (cpumask_cycle e.nr_cpu_ids cpu cpus) cpus spc with
      | none =>
        rw [hit] at h
        cases h
      | some x =>
        rw [hit] at h
        exact ih _ _ _ r h more

/-- C40. The picker terminates and is pure without commit. For every vCPU
with a pCPU in its affinity mask that is online in its pool (a mask of pCPUs
below nr_cpu_ids), on a topology in which each pCPU below nr_cpu_ids belongs
to its own sibling and core masks (and, in a build that checks its ASSERTs,
with symmetric core masks): every iteration of the loop leaves a mask cpus
that is a part of the one it found and has fewer pCPUs; the loop ends within
as many iterations as the mask of candidates has pCPUs, and these are idle
eligible pCPUs; the call with commit = 0 leaves the idle_bias of every pCPU as
it was and returns the pCPU that the call with commit = 1 returns from the
same state. -/
theorem csched_cpu_pick_terminates (e : pick_env) (vc : csched_vcpu)
    (hon : ∀ c ∈ e.online, c < e.nr_cpu_ids)
    (hne : ∃ c, c ∈ e.online ∧ c ∈ vc.cpu_affinity)
    (hsib : ∀ c, c < e.nr_cpu_ids → c ∈ e.cpu_sibling_mask c)
    (hcore : ∀ c, c < e.nr_cpu_ids → c ∈ e.cpu_core_mask c)
    (hsym : e.asserts = true → ∀ a, a < e.nr_cpu_ids → ∀ b, b < e.nr_cpu_ids →
      a ∈ e.cpu_core_mask b → b ∈ e.cpu_core_mask a) :
    (∀ (cpu : Nat) (cpus : Finset Nat) (spc : Option Nat), cpu < e.nr_cpu_ids →
      cpus ⊆ pick_candidates e vc → cpumask_empty e.nr_cpu_ids cpus = false →
      ∃ r, pick_iter e (pick_idlers e vc) cpu (cpumask_cycle e.nr_cpu_ids cpu cpus) cpus spc
            = some r
        ∧ r.2.1 ⊆ cpus ∧ r.2.1.card < cpus.card)
    ∧ (∀ c ∈ pick_candidates e vc,
        c ∈ e.online ∧ c ∈ vc.cpu_affinity ∧ c ∈ e.cpu_online_map ∧ c ∈ e.idlers)
    ∧ (∃ r, pick_loop e (pick_idlers e vc) (pick_candidates e vc).card (pick_first e vc)
            (pick_candidates e vc) none = some r
        ∧ _csched_cpu_pick e vc false = some (r.1, e.idle_bias)
        ∧ ∃ bias, _csched_cpu_pick e vc true = some (r.1, bias)) := by
  obtain ⟨c0, hc0, hc0a⟩ := hne
  have helig : ∀ c, c ∈ pick_eligible e vc ↔ c ∈ e.online ∧ c ∈ vc.cpu_affinity := by
    intro c
    unfold pick_eligible
    rw [Finset.mem_inter, List.mem_toFinset]
  have hc0e : c0 ∈ pick_eligible e vc := (helig c0).2 ⟨hc0, hc0a⟩
  have hfirst : pick_first e vc ∈ pick_eligible e vc := by
    unfold pick_first
    by_cases hp : vc.processor ∈ pick_eligible e vc
    · rw [if_pos hp]
      exact hp
    · rw [if_neg hp]
      exact (cpumask_cycle_mem _ _ _ c0 hc0e (hon c0 hc0)).1
  have hnem : cpumask_empty e.nr_cpu_ids (pick_eligible e vc) = false := by
    cases hem : cpumask_empty e.nr_cpu_ids (pick_eligible e vc) with
    | false => rfl
    | true =>
      unfold cpumask_empty at hem
      have hsp := cpumask_first_spec e.nr_cpu_ids _ c0 hc0e (hon c0 hc0)
      simp only [decide_eq_true_eq] at hem
      omega
  have hcand : ∀ c, c ∈ pick_candidates e vc →
      c ∈ pick_eligible e vc ∧ c ∈ e.cpu_online_map ∧ c ∈ e.idlers := by
    intro c hc
    unfold pick_candidates pick_idlers at hc
    obtain ⟨hne1, hin⟩ := Finset.mem_erase.1 hc
    obtain ⟨h1, h2⟩ := Finset.mem_inter.1 hin
    rcases Finset.mem_insert.1 h2 with h | h
    · exact absurd h hne1
    · exact ⟨h1, (Finset.mem_inter.1 h).1, (Finset.mem_inter.1 h).2⟩
  have hsub : pick_candidates e vc ⊆ pick_idlers e vc := by
    intro c hc
    unfold pick_candidates at hc
    exact (Finset.mem_inter.1 (Finset.mem_erase.1 hc).2).2
  have hlt : ∀ c ∈ pick_candidates e vc, c < e.nr_cpu_ids :=
    fun c hc => hon c ((helig c).1 (hcand c hc).1).1
  refine ⟨?_, ?_, ?_⟩
  · intro cpu cpus spc hcpu hcs hem
    obtain ⟨r, hr, _, h2, h3⟩ := pick_iter_spec e (pick_idlers e vc) hsib hcore hsym cpu cpus
      spc hcpu (fun c hc => hlt c (hcs hc)) (fun c hc => hsub (hcs hc)) hem
    exact ⟨r, hr, h2, h3⟩
  · intro c hc
    obtain ⟨h1, h2, h3⟩ := hcand c hc
    exact ⟨((helig c).1 h1).1, ((helig c).1 h1).2, h2, h3⟩
  · obtain ⟨r, hr, _⟩ := pick_loop_spec e (pick_idlers e vc) hsib hcore hsym
      (pick_candidates e vc).card (pick_first e vc) (pick_candidates e vc) none (le_refl _)
      (hon _ ((helig _).1 hfirst).1) hlt hsub
    have hfull : pick_loop e (pick_idlers e vc) e.nr_cpu_ids (pick_first e vc)
        (pick_candidates e vc) none = some r := by
      have hle := mask_card_le _ _ hlt
      have := pick_loop_fuel e (pick_idlers e vc) _ _ _ _ r hr
        (e.nr_cpu_ids - (pick_candidates e vc).card)
      rw [Nat.add_sub_cancel' hle] at this
      exact this
    have hrun : ∀ commit, _csched_cpu_pick e vc commit
        = some (r.1, fun c => if commit = true ∧ r.2 = some c then r.1 else e.idle_bias c) := by
      intro commit
      unfold _csched_cpu_pick
      rw [if_neg (fun h => h.2.elim (fun h1 => by rw [hnem] at h1; cases h1)
        (fun h2 => h2 hfirst)), hfull]
    refine ⟨r, hr, ?_, _, hrun true⟩
    rw [hrun false]
    have hb : (fun c => if false = true ∧ r.2 = some c then r.1 else e.idle_bias c)
        = e.idle_bias := by
      funext c
      rw [if_neg (fun h => Bool.false_ne_true h.1)]
    rw [hb]

/-- Witness for C40: on the four-pCPU machine pick_demo the loop for the vCPU
pick_demo_vcpu ends within two iterations (pCPUs 2 and 3 are the candidates),
and the call without commit returns the pCPU that the call with commit
returns and leaves every idle_bias alone. -/
theorem csched_cpu_pick_terminates_witness :
    (pick_candidates pick_demo pick_demo_vcpu).card = 2
    ∧ ∃ r, pick_loop pick_demo (pick_idlers pick_demo pick_demo_vcpu)
            (pick_candidates pick_demo pick_demo_vcpu).card
            (pick_first pick_demo pick_demo_vcpu)
            (pick_candidates pick_demo pick_demo_vcpu) none = some r
        ∧ _csched_cpu_pick pick_demo pick_demo_vcpu false = some (r.1, pick_demo.idle_bias)
        ∧ ∃ bias, _csched_cpu_pick pick_demo pick_demo_vcpu true = some (r.1, bias) :=
  ⟨by decide,
    (csched_cpu_pick_terminates pick_demo pick_demo_vcpu (by decide)
      ⟨0, by decide, by decide⟩ (by decide) (by decide) (by decide)).2.2⟩

end SchedCredit
